import Mathlib

/-!
# libmqtt: the MQTT wire codec of `mqtt.h` and the client session of `libmqtt.c`

A shallow embedding of the serializer (`mqtt__serialize`) and of the incremental
parser (`mqtt__parse`, `__process`, the per-type `__parse_*` / `__process_*`
functions) of `src/mqtt.h`, and of the session functions of `src/libmqtt.c`
(`libmqtt__publish`, the packet handlers `__on_*`, the in-flight record list),
followed by theorems about them.

Conventions of the embedding

* C `int` and `enum` values are `Int`; no claim below depends on 32-bit overflow.
  A value stored into a `uint16_t` is reduced `% 65536`, into a `uint8_t` or a
  `char` cell `% 256`.
* Memory holds bytes, numbers `0..255` (`Nat`).  Reading a byte through a plain
  `char *` gives `charVal signedChar byte`: whether plain `char` is signed is
  implementation-defined in C, so the readers and the parser take it as the
  parameter `signedChar` (`true` on the x86 and x86-64 ABIs, `false` on ARM).
* A `char *` is `Option (List Nat)`: `none` is the null pointer, `some l` points
  at the bytes `l`, which run to the end of the region pointed into.  Pointer
  arithmetic `s += k` is `List.drop k`.
* On two's-complement `int`s, `x >> k` is floor division by `2^k`, `x & (2^m - 1)`
  is the non-negative remainder `% 2^m`, and `x << 8` is multiplication by 256.
  `|` on the non-negative flag words is `Nat.lor`.
* `malloc` is taken to succeed.
-/

namespace Mqtt

/-! ## Constants and enumerations (`mqtt.h` lines 32-127) -/

/-- Maximal number of topic/qos entries per subscribe or unsubscribe. -/
abbrev MQTT_MAX_SUB : Nat := 128

abbrev MQTT_PROTO_V3 : Int := 3
abbrev MQTT_PROTO_V4 : Int := 4

abbrev MQTT_QOS_0 : Int := 0
abbrev MQTT_QOS_1 : Int := 1
abbrev MQTT_QOS_2 : Int := 2
abbrev MQTT_QOS_F : Int := 128

/-- The macro `MQTT_IS_QOS(q)`. -/
def MQTT_IS_QOS (q : Int) : Bool := decide (MQTT_QOS_0 ≤ q) && decide (q ≤ MQTT_QOS_2)

abbrev RESERVED : Int := 0
abbrev CONNECT : Int := 1
abbrev CONNACK : Int := 2
abbrev PUBLISH : Int := 3
abbrev PUBACK : Int := 4
abbrev PUBREC : Int := 5
abbrev PUBREL : Int := 6
abbrev PUBCOMP : Int := 7
abbrev SUBSCRIBE : Int := 8
abbrev SUBACK : Int := 9
abbrev UNSUBSCRIBE : Int := 10
abbrev UNSUBACK : Int := 11
abbrev PINGREQ : Int := 12
abbrev PINGRESP : Int := 13
abbrev DISCONNECT : Int := 14

abbrev MQTT_MAX_TYPE : Int := DISCONNECT + 1

/-- The macro `MQTT_IS_TYPE(t)`. -/
def MQTT_IS_TYPE (t : Int) : Bool := decide (CONNECT ≤ t) && decide (t ≤ DISCONNECT)

abbrev CONNACK_ACCEPTED : Int := 0
abbrev CONNACK_REFUSED_NOT_AUTHORIZED : Int := 5

/-- The macro `MQTT_IS_CONNACK(c)`. -/
def MQTT_IS_CONNACK (c : Int) : Bool :=
  decide (CONNACK_ACCEPTED ≤ c) && decide (c ≤ CONNACK_REFUSED_NOT_AUTHORIZED)

/-! ## Data model (`mqtt.h` lines 140-259) -/

/-- The header `struct mqtt_p_header`. -/
structure mqtt_p_header where
  type : Int
  qos : Int
  dup : Int
  retain : Int
deriving DecidableEq

/-- The byte segment `struct mqtt_b`: a pointer `s` and a length `n`. -/
structure mqtt_b where
  s : Option (List Nat)
  n : Int
deriving DecidableEq

/-- The record `struct mqtt_p_connect`. -/
structure mqtt_p_connect where
  client_id : mqtt_b
  proto_ver : Int
  proto_name : mqtt_b
  will_retain : Int
  will_qos : Int
  will_flag : Int
  clean_sess : Int
  keep_alive : Int
  will_topic : mqtt_b
  will_payload : mqtt_b
  username : mqtt_b
  password : mqtt_b
deriving DecidableEq

/-- The record `struct mqtt_p_connack`. -/
structure mqtt_p_connack where
  ack_flags : Int
  return_code : Int
deriving DecidableEq

/-- The record `struct mqtt_p_publish`. -/
structure mqtt_p_publish where
  topic_name : mqtt_b
  packet_id : Int
deriving DecidableEq

/-- The record `struct mqtt_p_subscribe` without its leading `packet_id` (see
`mqtt_packet_v`).  The arrays of `MQTT_MAX_SUB` slots are functions of the index. -/
structure mqtt_p_subscribe where
  topic_name : Nat → mqtt_b
  qos : Nat → Int
  n : Int

/-- The record `struct mqtt_p_suback` without its leading `packet_id`. -/
structure mqtt_p_suback where
  qos : Nat → Int
  n : Int

/-- The record `struct mqtt_p_unsubscribe` without its leading `packet_id`. -/
structure mqtt_p_unsubscribe where
  topic_name : Nat → mqtt_b
  n : Int

/-- The union `v` of `struct mqtt_packet`, as a record of its members.

The members `puback`, `pubrec`, `pubrel`, `pubcomp`, `subscribe`, `suback`,
`unsubscribe` and `unsuback` all start with `uint16_t packet_id`, and the source
writes that cell through one member and reads it through another
(`__parse_pubrec` stores `v.puback.packet_id`, `__parse_suback` stores
`v.subscribe.packet_id`); the cell is the single field `packet_id` here.  The
overlay of members of different layout is not modelled: a member keeps its
value until it is itself written. -/
structure mqtt_packet_v where
  connect : mqtt_p_connect
  connack : mqtt_p_connack
  publish : mqtt_p_publish
  packet_id : Int
  subscribe : mqtt_p_subscribe
  suback : mqtt_p_suback
  unsubscribe : mqtt_p_unsubscribe

/-- The packet `struct mqtt_packet`. -/
structure mqtt_packet where
  h : mqtt_p_header
  v : mqtt_packet_v
  payload : mqtt_b

/-- The enumeration `enum mqtt_parser_state`. -/
inductive mqtt_parser_state where
  | MQTT_ST_FIXED
  | MQTT_ST_LENGTH
  | MQTT_ST_REMAIN
deriving DecidableEq

/-- The callback type `mqtt_cb`: `int (*)(void *ud, struct mqtt_packet *)`.  The user
data behind `ud` is a state of type `σ` that the callback may change. -/
abbrev mqtt_cb (σ : Type) := σ → mqtt_packet → Int × σ

/-- The parser `struct mqtt_parser` (named `mqtt_parser_t` here).  While the parser is in `MQTT_ST_REMAIN`,
`remaining.s` holds the bytes copied into the allocated region so far (its
first `remaining.n - require` bytes).  The table `cb` has `MQTT_MAX_TYPE` entries;
it is a function of the index. -/
structure mqtt_parser_t (σ : Type) where
  auth : Int
  state : mqtt_parser_state
  require : Int
  multiplier : Int
  remaining : mqtt_b
  p : mqtt_packet
  cb : Int → Option (mqtt_cb σ)

/-- An all-zero `struct mqtt_b`. -/
def mqtt_b.zero : mqtt_b := ⟨none, 0⟩

/-- An all-zero `struct mqtt_packet` (the result of `memset(&p, 0, sizeof p)`). -/
def mqtt_packet.zero : mqtt_packet :=
  { h := ⟨0, 0, 0, 0⟩
    v := { connect := ⟨mqtt_b.zero, 0, mqtt_b.zero, 0, 0, 0, 0, 0, mqtt_b.zero, mqtt_b.zero,
                       mqtt_b.zero, mqtt_b.zero⟩
           connack := ⟨0, 0⟩
           publish := ⟨mqtt_b.zero, 0⟩
           packet_id := 0
           subscribe := ⟨fun _ => mqtt_b.zero, fun _ => 0, 0⟩
           suback := ⟨fun _ => 0, 0⟩
           unsubscribe := ⟨fun _ => mqtt_b.zero, 0⟩ }
    payload := mqtt_b.zero }

/-! ## Byte buffer helpers (`mqtt.h` lines 262-342) -/

/-- Value of `*p` for a `char *p` that points at the byte `b`. -/
def charVal (signedChar : Bool) (b : Nat) : Int :=
  if signedChar && decide (128 ≤ b) then (b : Int) - 256 else (b : Int)

/-- The byte at `s + i`.  A read outside the region gives 0: the only such read of
the parser, the QoS byte in `__parse_subscribe`, is followed by the check
`remaining->n < 0`, which rejects the packet. -/
def peek (s : Option (List Nat)) (i : Nat) : Nat := (s.getD []).getD i 0

/-- Pointer arithmetic `s + k`. -/
def advance (s : Option (List Nat)) (k : Nat) : Option (List Nat) := s.map (List.drop k)

/-- The `n` bytes that `memcpy(dst, s, n)` copies. -/
def memBytes (s : Option (List Nat)) (n : Int) : List Nat := (s.getD []).take n.toNat

/-- The bytes a segment denotes: the `n` bytes at `s`. -/
def mqtt_b.bytes (b : mqtt_b) : List Nat := memBytes b.s b.n

/-- A segment that points at the bytes `l` and has their length. -/
def mqtt_b.ofBytes (l : List Nat) : mqtt_b := ⟨some l, l.length⟩

/-- The function `mqtt_b_empty`. -/
def mqtt_b_empty (b : mqtt_b) : Bool := b.s.isNone || decide (b.n = 0)

/-- The function `mqtt_b_free`. -/
def mqtt_b_free (b : mqtt_b) : mqtt_b := if b.s.isSome then ⟨none, 0⟩ else b

/-- The function `mqtt_b_read_utf(b, r)`: returns the new `b` and the new `r`.  The
pointer `r->s` is stored only when the length read is positive; otherwise `r`
keeps the pointer it had. -/
def mqtt_b_read_utf (signedChar : Bool) (b r : mqtt_b) : mqtt_b × mqtt_b :=
  let n : Int := charVal signedChar (peek b.s 0) * 256 + charVal signedChar (peek b.s 1)
  let b1 : mqtt_b := ⟨advance b.s 2, b.n - 2⟩
  if n > 0 then (⟨advance b1.s n.toNat, b1.n - n⟩, ⟨b1.s, n⟩)
  else (b1, ⟨r.s, n⟩)

/-- The function `mqtt_b_read_u8(b)`: returns the new `b` and the value read. -/
def mqtt_b_read_u8 (signedChar : Bool) (b : mqtt_b) : mqtt_b × Int :=
  (⟨advance b.s 1, b.n - 1⟩, charVal signedChar (peek b.s 0))

/-- The function `mqtt_b_read_u16(b)`: returns the new `b` and the value read. -/
def mqtt_b_read_u16 (signedChar : Bool) (b : mqtt_b) : mqtt_b × Int :=
  (⟨advance b.s 2, b.n - 2⟩,
   charVal signedChar (peek b.s 0) * 256 + charVal signedChar (peek b.s 1))

/-- The byte stored by `b->s[b->n++] = x`. -/
def toByte (x : Int) : Nat := (x % 256).toNat

/-- The function `mqtt_b_write_utf(b, r)` on the bytes written so far. -/
def mqtt_b_write_utf (out : List Nat) (r : mqtt_b) : List Nat :=
  let out1 := out ++ [toByte ((r.n / 256) % 256), toByte (r.n % 256)]
  if r.n > 0 then out1 ++ memBytes r.s r.n else out1

/-- The function `mqtt_b_write_u8(b, r)` on the bytes written so far. -/
def mqtt_b_write_u8 (out : List Nat) (r : Int) : List Nat := out ++ [toByte r]

/-- The function `mqtt_b_write_u16(b, r)` on the bytes written so far; `r` is
converted to `uint16_t` at the call. -/
def mqtt_b_write_u16 (out : List Nat) (r : Int) : List Nat :=
  out ++ [toByte ((r % 65536) / 256), toByte ((r % 65536) % 256)]

/-! ## Serializer (`mqtt.h` lines 839-1148) -/

/-- The do-while loop of `__pack_remain_length`, one iteration per unit of
fuel.  `/` and `%` of C truncate towards zero. -/
def __pack_remain_length_loop : Nat → Int → List Nat
  | 0, _ => []
  | fuel + 1, length =>
    let c := Int.tmod length 128
    let length1 := Int.tdiv length 128
    if length1 > 0 then toByte (c + 128) :: __pack_remain_length_loop fuel length1
    else [toByte c]

/-- The function `__pack_remain_length`: the bytes `l[0..n)` it stores.  A 32-bit
`int` is exhausted after at most five divisions by 128.  The array `l` of the
callers has four cells: a fifth byte (for `length ≥ 268435456`) is stored
outside it. -/
def __pack_remain_length (length : Int) : List Nat := __pack_remain_length_loop 5 length

/-- The function `__serialize_connect`. -/
def __serialize_connect (pkt : mqtt_packet) : Int × mqtt_b :=
  let c := pkt.v.connect
  let flags : Nat := 0
  let r_l : Int := 8 + c.proto_name.n
  let r_l := r_l + c.client_id.n
  let r_l := r_l + c.username.n
  let r_l := r_l + c.password.n
  let flags := if c.username.n > 0 then
      (if c.password.n > 0 then (flags ||| (1 <<< 7)) ||| (1 <<< 6) else flags ||| (1 <<< 7))
    else flags
  let r_l := if c.username.n > 0 then (if c.password.n > 0 then r_l + 2 + 2 else r_l + 2) else r_l
  let r_l := if c.will_flag ≠ 0 then r_l + (2 + c.will_topic.n) + (2 + c.will_payload.n) else r_l
  let flags := if c.will_flag ≠ 0 then
      let flags := flags ||| (1 <<< 2)
      let flags := if c.will_retain ≠ 0 then flags ||| (1 <<< 5) else flags
      flags ||| ((c.will_qos % 4).toNat <<< 3)
    else flags
  let flags := if c.clean_sess ≠ 0 then flags ||| (1 <<< 1) else flags
  let l := __pack_remain_length r_l
  let out := mqtt_b_write_u8 [] 0x10
  let out := l.foldl (fun o (x : Nat) => mqtt_b_write_u8 o (x : Int)) out
  let out := mqtt_b_write_utf out c.proto_name
  let out := mqtt_b_write_u8 out c.proto_ver
  let out := mqtt_b_write_u8 out flags
  let out := mqtt_b_write_u16 out c.keep_alive
  let out := mqtt_b_write_utf out c.client_id
  let out := if c.will_flag ≠ 0 then
      mqtt_b_write_utf (mqtt_b_write_utf out c.will_topic) c.will_payload
    else out
  let out := if c.username.n > 0 then
      (if c.password.n > 0 then mqtt_b_write_utf (mqtt_b_write_utf out c.username) c.password
       else mqtt_b_write_utf out c.username)
    else out
  (0, ⟨some out, out.length⟩)

/-- The function `__serialize_connack`. -/
def __serialize_connack (pkt : mqtt_packet) : Int × mqtt_b :=
  let out := mqtt_b_write_u8 [] 0x20
  let out := mqtt_b_write_u8 out 0x02
  let out := mqtt_b_write_u8 out pkt.v.connack.ack_flags
  let out := mqtt_b_write_u8 out pkt.v.connack.return_code
  (0, ⟨some out, out.length⟩)

/-- The function `__serialize_publish`.  The header byte `h` is a `uint8_t`. -/
def __serialize_publish (pkt : mqtt_packet) : Int × mqtt_b :=
  let h : Nat := 0x30
  let h := if pkt.h.dup ≠ 0 then h ||| (1 <<< 3) else h
  let h := h ||| toByte (pkt.h.qos * 2)
  let h := if pkt.h.retain ≠ 0 then h ||| (1 <<< 0) else h
  let r_l : Int := 2 + pkt.v.publish.topic_name.n + pkt.payload.n
  let r_l := if pkt.h.qos > MQTT_QOS_0 then r_l + 2 else r_l
  let l := __pack_remain_length r_l
  let out := mqtt_b_write_u8 [] h
  let out := l.foldl (fun o (x : Nat) => mqtt_b_write_u8 o (x : Int)) out
  let out := mqtt_b_write_utf out pkt.v.publish.topic_name
  let out := if pkt.h.qos > MQTT_QOS_0 then mqtt_b_write_u16 out pkt.v.publish.packet_id else out
  let out := out ++ memBytes pkt.payload.s pkt.payload.n
  (0, ⟨some out, out.length⟩)

/-- The common shape of `__serialize_puback`, `__serialize_pubrec`,
`__serialize_pubrel`, `__serialize_pubcomp` and `__serialize_unsuback`: they differ
in the first byte only and write the `packet_id` cell. -/
def __serialize_id (first : Int) (pkt : mqtt_packet) : Int × mqtt_b :=
  let out := mqtt_b_write_u8 [] first
  let out := mqtt_b_write_u8 out 0x02
  let out := mqtt_b_write_u16 out pkt.v.packet_id
  (0, ⟨some out, out.length⟩)

/-- The function `__serialize_puback`. -/
def __serialize_puback (pkt : mqtt_packet) : Int × mqtt_b := __serialize_id 0x40 pkt

/-- The function `__serialize_pubrec`. -/
def __serialize_pubrec (pkt : mqtt_packet) : Int × mqtt_b := __serialize_id 0x50 pkt

/-- The function `__serialize_pubrel`. -/
def __serialize_pubrel (pkt : mqtt_packet) : Int × mqtt_b := __serialize_id 0x62 pkt

/-- The function `__serialize_pubcomp`. -/
def __serialize_pubcomp (pkt : mqtt_packet) : Int × mqtt_b := __serialize_id 0x70 pkt

/-- The function `__serialize_unsuback`. -/
def __serialize_unsuback (pkt : mqtt_packet) : Int × mqtt_b := __serialize_id 0xb0 pkt

/-- The function `__serialize_subscribe`. -/
def __serialize_subscribe (pkt : mqtt_packet) : Int × mqtt_b :=
  let c := pkt.v.subscribe
  let r_l : Int := (List.range c.n.toNat).foldl (fun r i => r + (2 + (c.topic_name i).n + 1)) 2
  let l := __pack_remain_length r_l
  let out := mqtt_b_write_u8 [] 0x82
  let out := l.foldl (fun o (x : Nat) => mqtt_b_write_u8 o (x : Int)) out
  let out := mqtt_b_write_u16 out pkt.v.packet_id
  let out := (List.range c.n.toNat).foldl
    (fun o i => mqtt_b_write_u8 (mqtt_b_write_utf o (c.topic_name i)) (c.qos i)) out
  (0, ⟨some out, out.length⟩)

/-- The function `__serialize_suback`. -/
def __serialize_suback (pkt : mqtt_packet) : Int × mqtt_b :=
  let c := pkt.v.suback
  let r_l : Int := c.n + 2
  let l := __pack_remain_length r_l
  let out := mqtt_b_write_u8 [] 0x90
  let out := l.foldl (fun o (x : Nat) => mqtt_b_write_u8 o (x : Int)) out
  let out := mqtt_b_write_u16 out pkt.v.packet_id
  let out := (List.range c.n.toNat).foldl (fun o i => mqtt_b_write_u8 o (c.qos i)) out
  (0, ⟨some out, out.length⟩)

/-- The function `__serialize_unsubscribe`. -/
def __serialize_unsubscribe (pkt : mqtt_packet) : Int × mqtt_b :=
  let c := pkt.v.unsubscribe
  let r_l : Int := (List.range c.n.toNat).foldl (fun r i => r + (2 + (c.topic_name i).n)) 2
  let l := __pack_remain_length r_l
  let out := mqtt_b_write_u8 [] 0xa2
  let out := l.foldl (fun o (x : Nat) => mqtt_b_write_u8 o (x : Int)) out
  let out := mqtt_b_write_u16 out pkt.v.packet_id
  let out := (List.range c.n.toNat).foldl (fun o i => mqtt_b_write_utf o (c.topic_name i)) out
  (0, ⟨some out, out.length⟩)

/-- The common shape of `__serialize_pingreq`, `__serialize_pingresp` and
`__serialize_disconnect`. -/
def __serialize_empty (first : Int) : Int × mqtt_b :=
  let out := mqtt_b_write_u8 [] first
  let out := mqtt_b_write_u8 out 0x00
  (0, ⟨some out, out.length⟩)

/-- The function `__serialize_pingreq`. -/
def __serialize_pingreq (_pkt : mqtt_packet) : Int × mqtt_b := __serialize_empty 0xc0

/-- The function `__serialize_pingresp`. -/
def __serialize_pingresp (_pkt : mqtt_packet) : Int × mqtt_b := __serialize_empty 0xd0

/-- The function `__serialize_disconnect`. -/
def __serialize_disconnect (_pkt : mqtt_packet) : Int × mqtt_b := __serialize_empty 0xe0

/-- The function `mqtt__serialize`: the return code and the segment `*b`. -/
def mqtt__serialize (pkt : mqtt_packet) : Int × mqtt_b :=
  if pkt.h.type = CONNECT then __serialize_connect pkt
  else if pkt.h.type = CONNACK then __serialize_connack pkt
  else if pkt.h.type = PUBLISH then __serialize_publish pkt
  else if pkt.h.type = PUBACK then __serialize_puback pkt
  else if pkt.h.type = PUBREC then __serialize_pubrec pkt
  else if pkt.h.type = PUBREL then __serialize_pubrel pkt
  else if pkt.h.type = PUBCOMP then __serialize_pubcomp pkt
  else if pkt.h.type = SUBSCRIBE then __serialize_subscribe pkt
  else if pkt.h.type = SUBACK then __serialize_suback pkt
  else if pkt.h.type = UNSUBSCRIBE then __serialize_unsubscribe pkt
  else if pkt.h.type = UNSUBACK then __serialize_unsuback pkt
  else if pkt.h.type = PINGREQ then __serialize_pingreq pkt
  else if pkt.h.type = PINGRESP then __serialize_pingresp pkt
  else if pkt.h.type = DISCONNECT then __serialize_disconnect pkt
  else (-1, ⟨none, 0⟩)

/-! ## Parser set-up (`mqtt.h` lines 359-370) -/

/-- The function `mqtt__parse_init`: `memset(p, 0, sizeof *p)` and state
`MQTT_ST_FIXED`. -/
def mqtt__parse_init (σ : Type) : mqtt_parser_t σ :=
  { auth := 0
    state := mqtt_parser_state.MQTT_ST_FIXED
    require := 0
    multiplier := 0
    remaining := mqtt_b.zero
    p := mqtt_packet.zero
    cb := fun _ => none }

/-- The function `mqtt__parse_cb`. -/
def mqtt__parse_cb {σ : Type} (p : mqtt_parser_t σ) (t : Int) (cb : Option (mqtt_cb σ)) :
    mqtt_parser_t σ :=
  if MQTT_IS_TYPE t then { p with cb := Function.update p.cb t cb } else p

/-! ## Validation before the callback (`mqtt.h` lines 372-498) -/

/-- The function `__process_connect`. -/
def __process_connect {σ : Type} (p : mqtt_packet) (ud : σ) (cb : mqtt_cb σ) : Int × σ :=
  let c := p.v.connect
  if c.clean_sess = 0 ∧ mqtt_b_empty c.client_id then (-1, ud)
  else if c.will_flag ≠ 0 then
    if mqtt_b_empty c.will_topic ∨ mqtt_b_empty c.will_payload then (-1, ud)
    else if ¬ MQTT_IS_QOS c.will_qos then (-1, ud)
    else cb ud p
  else
    if ¬ mqtt_b_empty c.will_topic ∨ ¬ mqtt_b_empty c.will_payload then (-1, ud)
    else if c.will_qos ≠ 0 ∨ c.will_retain ≠ 0 then (-1, ud)
    else cb ud p

/-- The function `__process_connack`. -/
def __process_connack {σ : Type} (p : mqtt_packet) (ud : σ) (cb : mqtt_cb σ) : Int × σ :=
  if ¬ MQTT_IS_CONNACK p.v.connack.return_code then (-1, ud) else cb ud p

/-- The function `__process_publish`. -/
def __process_publish {σ : Type} (p : mqtt_packet) (ud : σ) (cb : mqtt_cb σ) : Int × σ :=
  if ¬ MQTT_IS_QOS p.h.qos then (-1, ud)
  else if mqtt_b_empty p.v.publish.topic_name then (-1, ud)
  else cb ud p

/-- The functions `__process_puback`, `__process_pubrec`, `__process_pubcomp`,
`__process_suback`, `__process_unsuback`, `__process_pingreq`, `__process_pingresp`
and `__process_disconnect`: each is `return cb(ud, p)`. -/
def __process_plain {σ : Type} (p : mqtt_packet) (ud : σ) (cb : mqtt_cb σ) : Int × σ :=
  cb ud p

/-- The function `__process_pubrel`. -/
def __process_pubrel {σ : Type} (p : mqtt_packet) (ud : σ) (cb : mqtt_cb σ) : Int × σ :=
  if p.h.qos ≠ MQTT_QOS_1 then (-1, ud) else cb ud p

/-- The function `__process_subscribe`. -/
def __process_subscribe {σ : Type} (p : mqtt_packet) (ud : σ) (cb : mqtt_cb σ) : Int × σ :=
  let c := p.v.subscribe
  if p.h.qos ≠ MQTT_QOS_1 then (-1, ud)
  else if (List.range c.n.toNat).any (fun i => mqtt_b_empty (c.topic_name i)) then (-1, ud)
  else cb ud p

/-- The function `__process_unsubscribe`. -/
def __process_unsubscribe {σ : Type} (p : mqtt_packet) (ud : σ) (cb : mqtt_cb σ) : Int × σ :=
  let c := p.v.unsubscribe
  if p.h.qos ≠ MQTT_QOS_1 then (-1, ud)
  else if (List.range c.n.toNat).any (fun i => mqtt_b_empty (c.topic_name i)) then (-1, ud)
  else cb ud p

/-! ## Per-type decoders (`mqtt.h` lines 501-680)

Each returns the return code and the packet as the function leaves it; fields
written before a failing check stay written. -/

/-- Update of the `connect` member. -/
def mqtt_packet.setConnect (pkt : mqtt_packet) (c : mqtt_p_connect) : mqtt_packet :=
  { pkt with v := { pkt.v with connect := c } }

/-- Update of the shared `packet_id` cell; the cell is a `uint16_t`. -/
def mqtt_packet.setPacketId (pkt : mqtt_packet) (id : Int) : mqtt_packet :=
  { pkt with v := { pkt.v with packet_id := id % 65536 } }

/-- The function `__parse_connect`. -/
def __parse_connect (signedChar : Bool) (pkt : mqtt_packet) (remaining : mqtt_b) :
    Int × mqtt_packet :=
  if remaining.n ≤ 2 then (-1, pkt) else
  let r := mqtt_b_read_utf signedChar remaining pkt.v.connect.proto_name
  let remaining := r.1
  let pkt := pkt.setConnect { pkt.v.connect with proto_name := r.2 }
  if remaining.n < 1 then (-1, pkt) else
  let r := mqtt_b_read_u8 signedChar remaining
  let remaining := r.1
  let pkt := pkt.setConnect { pkt.v.connect with proto_ver := r.2 }
  if remaining.n < 1 then (-1, pkt) else
  let r := mqtt_b_read_u8 signedChar remaining
  let remaining := r.1
  let flags := r.2
  let pkt := pkt.setConnect { pkt.v.connect with
    clean_sess := (flags / 2) % 2
    will_flag := (flags / 4) % 2
    will_qos := (flags / 8) % 4
    will_retain := (flags / 32) % 2 }
  if remaining.n < 2 then (-1, pkt) else
  let r := mqtt_b_read_u16 signedChar remaining
  let remaining := r.1
  let pkt := pkt.setConnect { pkt.v.connect with keep_alive := r.2 % 65536 }
  if remaining.n < 2 then (-1, pkt) else
  let r := mqtt_b_read_utf signedChar remaining pkt.v.connect.client_id
  let remaining := r.1
  let pkt := pkt.setConnect { pkt.v.connect with client_id := r.2 }
  let will : Int × mqtt_packet × mqtt_b :=
    if pkt.v.connect.will_flag ≠ 0 then
      if remaining.n ≤ 2 then (-1, pkt, remaining) else
      let r := mqtt_b_read_utf signedChar remaining pkt.v.connect.will_topic
      let remaining := r.1
      let pkt := pkt.setConnect { pkt.v.connect with will_topic := r.2 }
      if remaining.n ≤ 2 then (-1, pkt, remaining) else
      let r := mqtt_b_read_utf signedChar remaining pkt.v.connect.will_payload
      (0, pkt.setConnect { pkt.v.connect with will_payload := r.2 }, r.1)
    else (0, pkt, remaining)
  if will.1 ≠ 0 then (will.1, will.2.1) else
  let pkt := will.2.1
  let remaining := will.2.2
  if (flags / 128) % 2 ≠ 0 then
    if remaining.n ≤ 2 then (-1, pkt) else
    let r := mqtt_b_read_utf signedChar remaining pkt.v.connect.username
    let remaining := r.1
    let pkt := pkt.setConnect { pkt.v.connect with username := r.2 }
    if (flags / 64) % 2 ≠ 0 then
      if remaining.n ≤ 2 then (-1, pkt) else
      let r := mqtt_b_read_utf signedChar remaining pkt.v.connect.password
      (0, pkt.setConnect { pkt.v.connect with password := r.2 })
    else (0, pkt)
  else (0, pkt)

/-- The function `__parse_connack`. -/
def __parse_connack (signedChar : Bool) (pkt : mqtt_packet) (remaining : mqtt_b) :
    Int × mqtt_packet :=
  if remaining.n ≠ 2 then (-1, pkt) else
  let r1 := mqtt_b_read_u8 signedChar remaining
  let r2 := mqtt_b_read_u8 signedChar r1.1
  (0, { pkt with v := { pkt.v with connack := ⟨r1.2, r2.2⟩ } })

/-- The function `__parse_publish`. -/
def __parse_publish (signedChar : Bool) (pkt : mqtt_packet) (remaining : mqtt_b) :
    Int × mqtt_packet :=
  if remaining.n ≤ 2 then (-1, pkt) else
  let r := mqtt_b_read_utf signedChar remaining pkt.v.publish.topic_name
  let remaining := r.1
  let pkt := { pkt with v := { pkt.v with publish := { pkt.v.publish with topic_name := r.2 } } }
  if pkt.h.qos > MQTT_QOS_0 then
    if remaining.n ≤ 2 then (-1, pkt) else
    let r := mqtt_b_read_u16 signedChar remaining
    let pkt := { pkt with
      v := { pkt.v with publish := { pkt.v.publish with packet_id := r.2 % 65536 } } }
    (0, { pkt with payload := r.1 })
  else (0, { pkt with payload := remaining })

/-- The functions `__parse_puback`, `__parse_pubrec`, `__parse_pubrel`,
`__parse_pubcomp` and `__parse_unsuback`: the same body, storing into the shared
`packet_id` cell. -/
def __parse_id (signedChar : Bool) (pkt : mqtt_packet) (remaining : mqtt_b) :
    Int × mqtt_packet :=
  if remaining.n ≠ 2 then (-1, pkt) else
  (0, pkt.setPacketId (mqtt_b_read_u16 signedChar remaining).2)

/-- The while loop of `__parse_subscribe`; the fuel is `MQTT_MAX_SUB - n`. -/
def __parse_subscribe_loop (signedChar : Bool) :
    Nat → mqtt_b → mqtt_p_subscribe → Nat → Int × mqtt_p_subscribe
  | 0, _, c, n => (0, { c with n := n })
  | fuel + 1, remaining, c, n =>
    if remaining.n > 0 then
      if remaining.n ≤ 3 then (-1, { c with n := n }) else
      let r := mqtt_b_read_utf signedChar remaining (c.topic_name n)
      let q := mqtt_b_read_u8 signedChar r.1
      let c := { c with topic_name := Function.update c.topic_name n r.2
                        qos := Function.update c.qos n q.2 }
      if q.1.n < 0 then (-1, { c with n := n })
      else __parse_subscribe_loop signedChar fuel q.1 c (n + 1)
    else (0, { c with n := n })

/-- The function `__parse_subscribe`. -/
def __parse_subscribe (signedChar : Bool) (pkt : mqtt_packet) (remaining : mqtt_b) :
    Int × mqtt_packet :=
  if remaining.n ≤ 2 then (-1, pkt) else
  let r := mqtt_b_read_u16 signedChar remaining
  let pkt := pkt.setPacketId r.2
  let res := __parse_subscribe_loop signedChar MQTT_MAX_SUB r.1 pkt.v.subscribe 0
  (res.1, { pkt with v := { pkt.v with subscribe := res.2 } })

/-- The while loop of `__parse_suback`; the fuel is `MQTT_MAX_SUB - n`. -/
def __parse_suback_loop (signedChar : Bool) :
    Nat → mqtt_b → mqtt_p_suback → Nat → mqtt_p_suback
  | 0, _, c, n => { c with n := n }
  | fuel + 1, remaining, c, n =>
    if remaining.n > 0 then
      let q := mqtt_b_read_u8 signedChar remaining
      __parse_suback_loop signedChar fuel q.1 { c with qos := Function.update c.qos n q.2 } (n + 1)
    else { c with n := n }

/-- The function `__parse_suback`. -/
def __parse_suback (signedChar : Bool) (pkt : mqtt_packet) (remaining : mqtt_b) :
    Int × mqtt_packet :=
  if remaining.n ≤ 2 then (-1, pkt) else
  let r := mqtt_b_read_u16 signedChar remaining
  let pkt := pkt.setPacketId r.2
  (0, { pkt with
    v := { pkt.v with suback := __parse_suback_loop signedChar MQTT_MAX_SUB r.1 pkt.v.suback 0 } })

/-- The while loop of `__parse_unsubscribe`; the fuel is `MQTT_MAX_SUB - n`. -/
def __parse_unsubscribe_loop (signedChar : Bool) :
    Nat → mqtt_b → mqtt_p_unsubscribe → Nat → Int × mqtt_p_unsubscribe
  | 0, _, c, n => (0, { c with n := n })
  | fuel + 1, remaining, c, n =>
    if remaining.n > 0 then
      if remaining.n ≤ 2 then (-1, { c with n := n }) else
      let r := mqtt_b_read_utf signedChar remaining (c.topic_name n)
      let c := { c with topic_name := Function.update c.topic_name n r.2 }
      if r.1.n < 0 then (-1, { c with n := n })
      else __parse_unsubscribe_loop signedChar fuel r.1 c (n + 1)
    else (0, { c with n := n })

/-- The function `__parse_unsubscribe`. -/
def __parse_unsubscribe (signedChar : Bool) (pkt : mqtt_packet) (remaining : mqtt_b) :
    Int × mqtt_packet :=
  if remaining.n ≤ 2 then (-1, pkt) else
  let r := mqtt_b_read_u16 signedChar remaining
  let pkt := pkt.setPacketId r.2
  let res := __parse_unsubscribe_loop signedChar MQTT_MAX_SUB r.1 pkt.v.unsubscribe 0
  (res.1, { pkt with v := { pkt.v with unsubscribe := res.2 } })

/-- The functions `__parse_pingreq`, `__parse_pingresp` and `__parse_disconnect`. -/
def __parse_empty (pkt : mqtt_packet) (remaining : mqtt_b) : Int × mqtt_packet :=
  if remaining.n ≠ 0 then (-1, pkt) else (0, pkt)

/-! ## Dispatcher and incremental parser (`mqtt.h` lines 683-837) -/

/-- One `case` of the switch in `__process`:
`rc = __parse_x(&p->p, &b); if (!rc) rc = __process_x(&p->p, ud, cb);`.
Returns `rc`, the packet and the user data. -/
def parseThenProcess {σ : Type} (r : Int × mqtt_packet)
    (process : mqtt_packet → σ → mqtt_cb σ → Int × σ) (ud : σ) (cb : mqtt_cb σ) :
    Int × mqtt_packet × σ :=
  if r.1 = 0 then ((process r.2 ud cb).1, r.2, (process r.2 ud cb).2) else (r.1, r.2, ud)

/-- The switch of `__process` on the packet type. -/
def processSwitch {σ : Type} (signedChar : Bool) (type : Int) (pkt : mqtt_packet) (b : mqtt_b)
    (ud : σ) (cb : mqtt_cb σ) : Int × mqtt_packet × σ :=
  if type = CONNECT then
    parseThenProcess (__parse_connect signedChar pkt b) __process_connect ud cb
  else if type = CONNACK then
    parseThenProcess (__parse_connack signedChar pkt b) __process_connack ud cb
  else if type = PUBLISH then
    parseThenProcess (__parse_publish signedChar pkt b) __process_publish ud cb
  else if type = PUBACK then
    parseThenProcess (__parse_id signedChar pkt b) __process_plain ud cb
  else if type = PUBREC then
    parseThenProcess (__parse_id signedChar pkt b) __process_plain ud cb
  else if type = PUBREL then
    parseThenProcess (__parse_id signedChar pkt b) __process_pubrel ud cb
  else if type = PUBCOMP then
    parseThenProcess (__parse_id signedChar pkt b) __process_plain ud cb
  else if type = SUBSCRIBE then
    parseThenProcess (__parse_subscribe signedChar pkt b) __process_subscribe ud cb
  else if type = SUBACK then
    parseThenProcess (__parse_suback signedChar pkt b) __process_plain ud cb
  else if type = UNSUBSCRIBE then
    parseThenProcess (__parse_unsubscribe signedChar pkt b) __process_unsubscribe ud cb
  else if type = UNSUBACK then
    parseThenProcess (__parse_id signedChar pkt b) __process_plain ud cb
  else if type = PINGREQ then
    parseThenProcess (__parse_empty pkt b) __process_plain ud cb
  else if type = PINGRESP then
    parseThenProcess (__parse_empty pkt b) __process_plain ud cb
  else if type = DISCONNECT then
    parseThenProcess (__parse_empty pkt b) __process_plain ud cb
  else (-1, pkt, ud)

/-- The function `__process`: the return code, the parser and the user data. -/
def __process {σ : Type} (signedChar : Bool) (p : mqtt_parser_t σ) (ud : σ) :
    Int × mqtt_parser_t σ × σ :=
  let type := p.p.h.type
  if p.auth = 0 ∧ (type ≠ CONNECT ∧ type ≠ CONNACK) then (-1, p, ud) else
  match p.cb type with
  | none => (-1, p, ud)
  | some cb =>
    let res := processSwitch signedChar type p.p p.remaining ud cb
    let p := { p with p := res.2.1 }
    if res.1 ≠ 0 then (res.1, p, res.2.2)
    else if type = CONNECT ∨ type = CONNACK then (0, { p with auth := 1 }, res.2.2)
    else (0, p, res.2.2)

/-- The call `__process(p, ud)` followed by `mqtt_b_free(&p->remaining)`. -/
def processAndFree {σ : Type} (signedChar : Bool) (p : mqtt_parser_t σ) (ud : σ) :
    Int × mqtt_parser_t σ × σ :=
  let r := __process signedChar p ud
  (r.1, { r.2.1 with remaining := mqtt_b_free r.2.1.remaining }, r.2.2)

/-- One iteration of the while loop of `mqtt__parse` (the switch on `p->state`) with
the unread bytes `ch :: rest`: either the function returns (`Sum.inl`, with the
return code) or the loop goes on with the unread bytes given (`Sum.inr`). -/
def mqtt__parse_step {σ : Type} (signedChar : Bool) (p : mqtt_parser_t σ) (ud : σ)
    (ch : Nat) (rest : List Nat) :
    (Int × mqtt_parser_t σ × σ) ⊕ (mqtt_parser_t σ × σ × List Nat) :=
  match p.state with
  | mqtt_parser_state.MQTT_ST_FIXED =>
    let x := charVal signedChar ch
    let p := { p with
      p := { p.p with h := ⟨(x / 16) % 16, (x / 2) % 4, (x / 8) % 2, x % 2⟩ }
      state := mqtt_parser_state.MQTT_ST_LENGTH
      multiplier := 1
      remaining := ⟨none, 0⟩
      require := 0 }
    Sum.inr (p, ud, rest)
  | mqtt_parser_state.MQTT_ST_LENGTH =>
    let x := charVal signedChar ch
    let p := { p with
      remaining := { p.remaining with n := p.remaining.n + (x % 128) * p.multiplier }
      multiplier := p.multiplier * 128 }
    if p.multiplier > 128 * 128 * 128 then Sum.inl (-1, p, ud)
    else if (x / 128) % 2 = 0 then
      let p := { p with require := p.remaining.n }
      if p.require > (0 : Int) then
        let p := { p with
          state := mqtt_parser_state.MQTT_ST_REMAIN
          remaining := { p.remaining with s := some [] } }
        Sum.inr (p, ud, rest)
      else
        let r := processAndFree signedChar { p with state := mqtt_parser_state.MQTT_ST_FIXED } ud
        if r.1 ≠ 0 then Sum.inl r else Sum.inr (r.2.1, r.2.2, rest)
    else Sum.inr (p, ud, rest)
  | mqtt_parser_state.MQTT_ST_REMAIN =>
    let c := ch :: rest
    if p.require ≤ (c.length : Int) then
      let p1 := { p with
        remaining := { p.remaining with s := p.remaining.s.map (· ++ c.take p.require.toNat) }
        state := mqtt_parser_state.MQTT_ST_FIXED }
      let r := processAndFree signedChar p1 ud
      if r.1 ≠ 0 then Sum.inl r else Sum.inr (r.2.1, r.2.2, c.drop p.require.toNat)
    else
      let p1 := { p with
        remaining := { p.remaining with s := p.remaining.s.map (· ++ c) }
        require := p.require - (c.length : Int) }
      Sum.inr (p1, ud, [])

/-- The while loop `while (c < e)` of `mqtt__parse`, one iteration per unit of fuel;
the loop ends with `return 0` when no byte is unread. -/
def mqtt__parse_loop {σ : Type} (signedChar : Bool) :
    Nat → mqtt_parser_t σ → σ → List Nat → Int × mqtt_parser_t σ × σ
  | 0, p, ud, _ => (0, p, ud)
  | _ + 1, p, ud, [] => (0, p, ud)
  | fuel + 1, p, ud, ch :: rest =>
    match mqtt__parse_step signedChar p ud ch rest with
    | Sum.inl r => r
    | Sum.inr next => mqtt__parse_loop signedChar fuel next.1 next.2.1 next.2.2

/-- The function `mqtt__parse` on the bytes of the segment `b`: the return code, the
parser and the user data.  Every iteration but possibly the first consumes a
byte, so `length + 1` units of fuel run the loop to its end. -/
def mqtt__parse_bytes {σ : Type} (signedChar : Bool) (p : mqtt_parser_t σ) (ud : σ)
    (bytes : List Nat) : Int × mqtt_parser_t σ × σ :=
  mqtt__parse_loop signedChar (bytes.length + 1) p ud bytes

/-- The function `mqtt__parse`. -/
def mqtt__parse {σ : Type} (signedChar : Bool) (p : mqtt_parser_t σ) (ud : σ) (b : mqtt_b) :
    Int × mqtt_parser_t σ × σ :=
  mqtt__parse_bytes signedChar p ud b.bytes

/-! ## Observation harness

Concrete callbacks and packets on which the codec is evaluated. -/

/-- What a callback can read of the packet it is handed: the header, the members
of the union up to their entry counts, and the payload bytes. -/
structure Obs where
  h : mqtt_p_header
  connect : mqtt_p_connect
  connack : mqtt_p_connack
  topic : List Nat
  publish_id : Int
  payload : List Nat
  packet_id : Int
  subscribe : List (List Nat × Int)
  suback : List Int
  unsubscribe : List (List Nat)
deriving DecidableEq

/-- The observation of a packet. -/
def observe (p : mqtt_packet) : Obs :=
  { h := p.h
    connect := p.v.connect
    connack := p.v.connack
    topic := p.v.publish.topic_name.bytes
    publish_id := p.v.publish.packet_id
    payload := p.payload.bytes
    packet_id := p.v.packet_id
    subscribe := (List.range p.v.subscribe.n.toNat).map
      (fun i => ((p.v.subscribe.topic_name i).bytes, p.v.subscribe.qos i))
    suback := (List.range p.v.suback.n.toNat).map p.v.suback.qos
    unsubscribe := (List.range p.v.unsubscribe.n.toNat).map
      (fun i => (p.v.unsubscribe.topic_name i).bytes) }

/-- A callback that appends what it sees to the user data and accepts the packet. -/
def recordCb : mqtt_cb (List Obs) := fun ud p => (0, ud ++ [observe p])

/-- A parser after `mqtt__parse_init` with `recordCb` registered through
`mqtt__parse_cb` for every type value 0..15 (the call is a no-op for 0 and 15). -/
def recordParser : mqtt_parser_t (List Obs) :=
  (List.range 16).foldl (fun p t => mqtt__parse_cb p t (some recordCb))
    (mqtt__parse_init (List Obs))

/-- The parser `recordParser` after it has decoded the CONNACK `20 02 00 00`: an
authenticated parser in state `MQTT_ST_FIXED`. -/
def authParser : mqtt_parser_t (List Obs) :=
  (mqtt__parse_bytes true recordParser [] [0x20, 0x02, 0x00, 0x00]).2.1

/-- A PUBLISH packet as `libmqtt__publish` builds it. -/
def mkPublish (dup qos retain : Int) (topic : List Nat) (id : Int) (payload : List Nat) :
    mqtt_packet :=
  { mqtt_packet.zero with
    h := ⟨PUBLISH, qos, dup, retain⟩
    v := { mqtt_packet.zero.v with publish := ⟨mqtt_b.ofBytes topic, id⟩ }
    payload := mqtt_b.ofBytes payload }

/-- A packet of type `t` that carries a packet id only (PUBACK, PUBREC, PUBREL,
PUBCOMP, UNSUBACK). -/
def mkAck (t : Int) (id : Int) : mqtt_packet :=
  { mqtt_packet.zero with
    h := ⟨t, 0, 0, 0⟩
    v := { mqtt_packet.zero.v with packet_id := id } }

/-- A CONNECT packet as `libmqtt__connect` builds it from the options `c`. -/
def mkConnect (c : mqtt_p_connect) : mqtt_packet :=
  { mqtt_packet.zero with
    h := ⟨CONNECT, 0, 0, 0⟩
    v := { mqtt_packet.zero.v with connect := c } }

/-- The connect options of scenario 1: client id "c", clean session, keep-alive 60,
protocol 4 ("MQTT"). -/
def connectC : mqtt_p_connect :=
  { mqtt_packet.zero.v.connect with
    client_id := mqtt_b.ofBytes [0x63]
    proto_ver := MQTT_PROTO_V4
    proto_name := mqtt_b.ofBytes [0x4D, 0x51, 0x54, 0x54]
    clean_sess := 1
    keep_alive := 60 }

/-- A SUBSCRIBE packet with the given (topic, requested QoS) entries. -/
def mkSubscribe (id : Int) (entries : List (List Nat × Int)) : mqtt_packet :=
  { mqtt_packet.zero with
    h := ⟨SUBSCRIBE, 0, 0, 0⟩
    v := { mqtt_packet.zero.v with
      packet_id := id
      subscribe := ⟨fun i => mqtt_b.ofBytes (entries.getD i ([], 0)).1,
                    fun i => (entries.getD i ([], 0)).2, entries.length⟩ } }

/-- A SUBACK packet with the given granted-QoS bytes. -/
def mkSuback (id : Int) (granted : List Int) : mqtt_packet :=
  { mqtt_packet.zero with
    h := ⟨SUBACK, 0, 0, 0⟩
    v := { mqtt_packet.zero.v with
      packet_id := id
      suback := ⟨fun i => granted.getD i 0, granted.length⟩ } }

/-- An UNSUBSCRIBE packet with the given topics. -/
def mkUnsubscribe (id : Int) (topics : List (List Nat)) : mqtt_packet :=
  { mqtt_packet.zero with
    h := ⟨UNSUBSCRIBE, 0, 0, 0⟩
    v := { mqtt_packet.zero.v with
      packet_id := id
      unsubscribe := ⟨fun i => mqtt_b.ofBytes (topics.getD i []), topics.length⟩ } }

/-- First byte of a segment. -/
def firstByte (b : mqtt_b) : Option Nat := b.bytes.head?

/-- The byte list `out` starts with the byte `a`. -/
def StartsWith (a : Nat) (out : List Nat) : Prop := ∃ t, out = a :: t

/-- The MQTT length-prefixed string: two-byte big-endian length, then the bytes. -/
def specUtf (l : List Nat) : List Nat := [l.length / 256, l.length % 256] ++ l

/-- The MQTT variable-length encoding of a remaining length below 268435456: one
to four bytes, seven data bits per byte, least significant group first, high bit
set on every byte but the last. -/
def specRemainingLength (n : Nat) : List Nat :=
  if n < 128 then [n]
  else if n < 16384 then [n % 128 + 128, n / 128]
  else if n < 2097152 then [n % 128 + 128, n / 128 % 128 + 128, n / 16384]
  else [n % 128 + 128, n / 128 % 128 + 128, n / 16384 % 128 + 128, n / 2097152]

/-- A string field in its wire range: 0 to 65535 bytes, all of them behind the
pointer. -/
def WFStr (b : mqtt_b) : Prop := 0 ≤ b.n ∧ b.n ≤ 65535 ∧ (b.bytes.length : Int) = b.n

instance (b : mqtt_b) : Decidable (WFStr b) := by
  unfold WFStr
  infer_instance

/-- The CONNECT flags byte: bit 1 clean-session, bit 2 will-flag, bits 3-4 will QoS
and bit 5 will-retain when the will-flag is set, bit 7 username present, bit 6
password present when a username is present, bit 0 clear. -/
def specConnectFlags (c : mqtt_p_connect) : Nat :=
  (if c.clean_sess ≠ 0 then 2 else 0)
  + (if c.will_flag ≠ 0 then 4 + 8 * c.will_qos.toNat + (if c.will_retain ≠ 0 then 32 else 0)
     else 0)
  + (if c.username.n > 0 then 128 + (if c.password.n > 0 then 64 else 0) else 0)

/-- The bytes of a CONNECT after the remaining-length field: protocol name, version
byte, flags byte, keep-alive big-endian, client id, then will topic and will
payload when the will-flag is set, then username and password when present. -/
def specConnectBody (c : mqtt_p_connect) : List Nat :=
  specUtf c.proto_name.bytes ++ [c.proto_ver.toNat] ++ [specConnectFlags c]
  ++ [c.keep_alive.toNat / 256, c.keep_alive.toNat % 256]
  ++ specUtf c.client_id.bytes
  ++ (if c.will_flag ≠ 0 then specUtf c.will_topic.bytes ++ specUtf c.will_payload.bytes else [])
  ++ (if c.username.n > 0 then
        specUtf c.username.bytes ++ (if c.password.n > 0 then specUtf c.password.bytes else [])
      else [])

/-- The bytes of a CONNECT: 0x10, the remaining length (the number of bytes that
follow it), the body. -/
def specConnect (c : mqtt_p_connect) : List Nat :=
  [0x10] ++ specRemainingLength (specConnectBody c).length ++ specConnectBody c

/-- The fields of a CONNECT are in their wire ranges, the strings that are written
are present, and a password comes with a username. -/
def ConnectWF (c : mqtt_p_connect) : Prop :=
  WFStr c.proto_name ∧ WFStr c.client_id ∧ WFStr c.username ∧ WFStr c.password ∧
  (c.will_flag ≠ 0 → WFStr c.will_topic ∧ WFStr c.will_payload) ∧
  (0 ≤ c.proto_ver ∧ c.proto_ver < 256) ∧ (0 ≤ c.keep_alive ∧ c.keep_alive < 65536) ∧
  (0 ≤ c.will_qos ∧ c.will_qos ≤ 3) ∧
  (c.password.n > 0 → c.username.n > 0)

instance (c : mqtt_p_connect) : Decidable (ConnectWF c) := by
  unfold ConnectWF
  infer_instance

/-- The value of `flags` that `__serialize_connect` computes. -/
def connectFlags (c : mqtt_p_connect) : Nat :=
  let flags : Nat := 0
  let flags := if c.username.n > 0 then
      (if c.password.n > 0 then (flags ||| (1 <<< 7)) ||| (1 <<< 6) else flags ||| (1 <<< 7))
    else flags
  let flags := if c.will_flag ≠ 0 then
      let flags := flags ||| (1 <<< 2)
      let flags := if c.will_retain ≠ 0 then flags ||| (1 <<< 5) else flags
      flags ||| ((c.will_qos % 4).toNat <<< 3)
    else flags
  if c.clean_sess ≠ 0 then flags ||| (1 <<< 1) else flags

/-- The value of `r_l` that `__serialize_connect` computes. -/
def connectRl (c : mqtt_p_connect) : Int :=
  let r_l : Int := 8 + c.proto_name.n
  let r_l := r_l + c.client_id.n
  let r_l := r_l + c.username.n
  let r_l := r_l + c.password.n
  let r_l := if c.username.n > 0 then (if c.password.n > 0 then r_l + 2 + 2 else r_l + 2) else r_l
  if c.will_flag ≠ 0 then r_l + (2 + c.will_topic.n) + (2 + c.will_payload.n) else r_l

/-- The bytes that `__serialize_connect` writes, given its `flags` and `r_l`. -/
def connectOut (c : mqtt_p_connect) (flags : Nat) (r_l : Int) : List Nat :=
  let out := mqtt_b_write_u8 [] 0x10
  let out := (__pack_remain_length r_l).foldl (fun o (x : Nat) => mqtt_b_write_u8 o (x : Int)) out
  let out := mqtt_b_write_utf out c.proto_name
  let out := mqtt_b_write_u8 out c.proto_ver
  let out := mqtt_b_write_u8 out flags
  let out := mqtt_b_write_u16 out c.keep_alive
  let out := mqtt_b_write_utf out c.client_id
  let out := if c.will_flag ≠ 0 then
      mqtt_b_write_utf (mqtt_b_write_utf out c.will_topic) c.will_payload
    else out
  if c.username.n > 0 then
    (if c.password.n > 0 then mqtt_b_write_utf (mqtt_b_write_utf out c.username) c.password
     else mqtt_b_write_utf out c.username)
  else out

/-- Connect options with every optional field: client id "c", will topic "w" with
payload "m", will QoS 2, will retain, username "u", password "p", keep-alive 300. -/
def connectFull : mqtt_p_connect :=
  { connectC with
    will_flag := 1
    will_qos := 2
    will_retain := 1
    will_topic := mqtt_b.ofBytes [0x77]
    will_payload := mqtt_b.ofBytes [0x6D]
    username := mqtt_b.ofBytes [0x75]
    password := mqtt_b.ofBytes [0x70]
    keep_alive := 300 }

/-- A parser state from which every iteration of the loop of `mqtt__parse`
consumes at least one byte: in `MQTT_ST_REMAIN` some byte is still required (the
state is entered with `require > 0` only). -/
def Consuming {σ : Type} (p : mqtt_parser_t σ) : Prop :=
  p.state = mqtt_parser_state.MQTT_ST_REMAIN → 0 < p.require

/-- Successive calls of `mqtt__parse` on the chunks of a byte stream, stopping at
the first call that returns an error. -/
def feedChunks {σ : Type} (signedChar : Bool) (p : mqtt_parser_t σ) (ud : σ) :
    List (List Nat) → Int × mqtt_parser_t σ × σ
  | [] => (0, p, ud)
  | c :: cs =>
    if (mqtt__parse_bytes signedChar p ud c).1 ≠ 0 then mqtt__parse_bytes signedChar p ud c
    else feedChunks signedChar (mqtt__parse_bytes signedChar p ud c).2.1
      (mqtt__parse_bytes signedChar p ud c).2.2 cs

/-- The parser with the field `require` cleared when the state is `MQTT_ST_FIXED`.
In that state the field is dead: the next byte read resets it to 0 before any use
(`mqtt__parse`, case `MQTT_ST_FIXED`). -/
def normRequire {σ : Type} (p : mqtt_parser_t σ) : mqtt_parser_t σ :=
  if p.state = mqtt_parser_state.MQTT_ST_FIXED then { p with require := 0 } else p

/-- The result of a call of `mqtt__parse` with `normRequire` applied to the parser. -/
def normResult {σ : Type} (r : Int × mqtt_parser_t σ × σ) : Int × mqtt_parser_t σ × σ :=
  (r.1, normRequire r.2.1, r.2.2)

/-- The next call of `mqtt__parse`, on the bytes `b`, made when the previous call
returned `r` without an error. -/
def andThen {σ : Type} (signedChar : Bool) (r : Int × mqtt_parser_t σ × σ) (b : List Nat) :
    Int × mqtt_parser_t σ × σ :=
  if r.1 ≠ 0 then r else mqtt__parse_bytes signedChar r.2.1 r.2.2 b

/-- The parser of `MQTT_ST_REMAIN` after its last `memcpy`: the bytes `chunk` are
appended to the region and the state is `MQTT_ST_FIXED`. -/
def remainFill {σ : Type} (p : mqtt_parser_t σ) (chunk : List Nat) : mqtt_parser_t σ :=
  { p with
    remaining := { p.remaining with s := p.remaining.s.map (· ++ chunk) }
    state := mqtt_parser_state.MQTT_ST_FIXED }

/-- The outcome of an iteration that dispatches the packet held by `p` and leaves
the bytes `unread`. -/
def dispatchStep {σ : Type} (signedChar : Bool) (p : mqtt_parser_t σ) (ud : σ)
    (unread : List Nat) : (Int × mqtt_parser_t σ × σ) ⊕ (mqtt_parser_t σ × σ × List Nat) :=
  if (processAndFree signedChar p ud).1 ≠ 0 then Sum.inl (processAndFree signedChar p ud)
  else Sum.inr ((processAndFree signedChar p ud).2.1, (processAndFree signedChar p ud).2.2, unread)

/-- A callback with its invocations logged: the user data is paired with the list
of the calls made so far, each entry the table index of the callback and the
code it returned. -/
def tracedCb {σ : Type} (t : Int) (f : mqtt_cb σ) : mqtt_cb (σ × List (Int × Int)) :=
  fun ud pkt => ((f ud.1 pkt).1, ((f ud.1 pkt).2, ud.2 ++ [(t, (f ud.1 pkt).1)]))

/-- The callback table `cb` with every entry logged. -/
def tracedTable {σ : Type} (cb : Int → Option (mqtt_cb σ)) :
    Int → Option (mqtt_cb (σ × List (Int × Int))) :=
  fun t => (cb t).map (tracedCb t)

/-- The log entry is an invocation of the CONNECT or CONNACK callback that returned 0. -/
def Accepted (e : Int × Int) : Prop := (e.1 = CONNECT ∨ e.1 = CONNACK) ∧ e.2 = 0

/-- The log respects the authentication gate: every invocation of a callback of a
type other than CONNECT and CONNACK comes after an invocation of the CONNECT or
CONNACK callback that returned 0. -/
def GateRespected (log : List (Int × Int)) : Prop :=
  ∀ (pre post : List (Int × Int)) (e : Int × Int), log = pre ++ e :: post →
    e.1 ≠ CONNECT → e.1 ≠ CONNACK → ∃ a ∈ pre, Accepted a

/-- Successive calls of `mqtt__parse` on the chunks given, whatever the calls
return: the final parser and user data. -/
def feedAll {σ : Type} (signedChar : Bool) (p : mqtt_parser_t σ) (ud : σ) :
    List (List Nat) → mqtt_parser_t σ × σ
  | [] => (p, ud)
  | c :: cs =>
    feedAll signedChar (mqtt__parse_bytes signedChar p ud c).2.1
      (mqtt__parse_bytes signedChar p ud c).2.2 cs

/-- A validation function either rejects the packet without calling the callback
or returns what the callback returns. -/
def Validates {σ : Type} (process : mqtt_packet → σ → mqtt_cb σ → Int × σ) : Prop :=
  ∀ p ud cb, ((process p ud cb).1 ≠ 0 ∧ (process p ud cb).2 = ud) ∨ process p ud cb = cb ud p


/-- The invariant behind the authentication gate: the callbacks are the logged
ones, the log respects the gate, and an authenticated parser has an accepted
CONNECT or CONNACK in its log. -/
def GateInv {σ : Type} (cb : Int → Option (mqtt_cb σ))
    (p : mqtt_parser_t (σ × List (Int × Int))) (ud : σ × List (Int × Int)) : Prop :=
  p.cb = tracedTable cb ∧ GateRespected ud.2 ∧ (p.auth ≠ 0 → ∃ a ∈ ud.2, Accepted a)

/-- The parser after `mqtt__parse_init` with a logged callback that accepts every
packet registered for every type. -/
def tracedParser : mqtt_parser_t (Unit × List (Int × Int)) :=
  { mqtt__parse_init (Unit × List (Int × Int)) with
    cb := tracedTable (fun _ => some (fun ud _ => (0, ud))) }

/-- The packet id that `mqtt_b_read_u16` followed by the store into the `uint16_t`
cell yields for the wire bytes of `id`: where plain `char` is signed and the low
byte is 0x80 or above, 256 less (modulo 65536). -/
def decodedId (signedChar : Bool) (id : Int) : Int :=
  if signedChar && decide (128 ≤ id % 256) then (id - 256) % 65536 else id

/-- First byte of the packets that carry a packet id only. -/
def ackFirstByte (t : Int) : Nat :=
  if t = PUBACK then 0x40 else if t = PUBREC then 0x50 else if t = PUBREL then 0x62
  else if t = PUBCOMP then 0x70 else 0xb0

/-- The parser as `mqtt__parse` hands it to `__process` once it has read, from state
`MQTT_ST_FIXED`, the fixed-header byte `first`, the remaining-length field of the
length of `body` and the bytes `body`: the header fields are those of `first`, the
region `remaining` holds `body` (it is not allocated when `body` is empty), and the
state is `MQTT_ST_FIXED` again. -/
def framed {σ : Type} (signedChar : Bool) (p : mqtt_parser_t σ) (first : Nat) (body : List Nat) :
    mqtt_parser_t σ :=
  { p with
    p := { p.p with h := ⟨charVal signedChar first / 16 % 16, charVal signedChar first / 2 % 4,
      charVal signedChar first / 8 % 2, charVal signedChar first % 2⟩ }
    state := mqtt_parser_state.MQTT_ST_FIXED
    multiplier := 128 ^ (specRemainingLength body.length).length
    remaining := ⟨if body = [] then none else some body, (body.length : Int)⟩
    require := (body.length : Int) }

/-- The index at which `__process` reads the callback table (`cb = p->cb[type]`),
when the function reaches that read; it returns before the read when the parser is
not authenticated and the type is neither CONNECT nor CONNACK.  The table has the
`MQTT_MAX_TYPE` entries `0 .. MQTT_MAX_TYPE - 1`. -/
def __process_index {σ : Type} (p : mqtt_parser_t σ) : Option Int :=
  let type := p.p.h.type
  if p.auth = 0 ∧ (type ≠ CONNECT ∧ type ≠ CONNACK) then none else some type

/-- A callback that appends the packet it is handed to the user data and accepts
it. -/
def packetCb : mqtt_cb (List mqtt_packet) := fun ud p => (0, ud ++ [p])

/-- A parser after `mqtt__parse_init` with `packetCb` registered through
`mqtt__parse_cb` for every type value 0..15 (the call is a no-op for 0 and 15). -/
def packetParser : mqtt_parser_t (List mqtt_packet) :=
  (List.range 16).foldl (fun p t => mqtt__parse_cb p t (some packetCb))
    (mqtt__parse_init (List mqtt_packet))

/-- The parser `packetParser` after it has decoded the CONNACK `20 02 00 00`: an
authenticated parser in state `MQTT_ST_FIXED`. -/
def packetAuthParser : mqtt_parser_t (List mqtt_packet) :=
  (mqtt__parse_bytes true packetParser [] [0x20, 0x02, 0x00, 0x00]).2.1

/-- The per-type decoder that `__process` runs on a PUBREL, SUBSCRIBE or UNSUBSCRIBE
(`__parse_pubrel`, `__parse_subscribe`, `__parse_unsubscribe`). -/
def flaggedDecode (signedChar : Bool) (t : Int) (pkt : mqtt_packet) (b : mqtt_b) :
    Int × mqtt_packet :=
  if t = PUBREL then __parse_id signedChar pkt b
  else if t = SUBSCRIBE then __parse_subscribe signedChar pkt b
  else __parse_unsubscribe signedChar pkt b

/-- The checks of `__process` on a PUBREL, SUBSCRIBE or UNSUBSCRIBE other than the
test of the QoS bits pass: the decoder of the type returns 0 on the region, and
none of the topics it decoded is empty (the loop of `__process_subscribe` and
`__process_unsubscribe`).  This is what the code does with the region, and it
depends on the signedness of `char`; the bodies that are well formed by the wire
format are `specPubrelBody`, `specSubscribeBody` and `specUnsubscribeBody`. -/
def DecoderAccepts (signedChar : Bool) (t : Int) (pkt : mqtt_packet) (b : mqtt_b) : Prop :=
  (flaggedDecode signedChar t pkt b).1 = 0 ∧
  (t = SUBSCRIBE →
    (List.range (flaggedDecode signedChar t pkt b).2.v.subscribe.n.toNat).any
      (fun i => mqtt_b_empty ((flaggedDecode signedChar t pkt b).2.v.subscribe.topic_name i))
      = false) ∧
  (t = UNSUBSCRIBE →
    (List.range (flaggedDecode signedChar t pkt b).2.v.unsubscribe.n.toNat).any
      (fun i => mqtt_b_empty ((flaggedDecode signedChar t pkt b).2.v.unsubscribe.topic_name i))
      = false)

/-- The parser `tracedParser` after it has decoded the CONNACK `20 02 00 00`: an
authenticated parser in state `MQTT_ST_FIXED` whose callbacks are logged. -/
def tracedAuthParser : mqtt_parser_t (Unit × List (Int × Int)) :=
  (mqtt__parse_bytes true tracedParser ((), []) [0x20, 0x02, 0x00, 0x00]).2.1

instance (signedChar : Bool) (t : Int) (pkt : mqtt_packet) (b : mqtt_b) :
    Decidable (DecoderAccepts signedChar t pkt b) := by
  unfold DecoderAccepts
  infer_instance

/-- The will fields of a decoded CONNECT break the rules that `__process_connect`
checks: with the will-flag set, the will topic or the will payload is empty or the
will QoS is above 2; with the will-flag clear, the will QoS or the will-retain bit
is non-zero or a will field is not empty. -/
def WillViolation (c : mqtt_p_connect) : Prop :=
  (c.will_flag ≠ 0 ∧
    (mqtt_b_empty c.will_topic = true ∨ mqtt_b_empty c.will_payload = true ∨ 2 < c.will_qos)) ∨
  (c.will_flag = 0 ∧
    (c.will_qos ≠ 0 ∨ c.will_retain ≠ 0 ∨ mqtt_b_empty c.will_topic = false ∨
      mqtt_b_empty c.will_payload = false))

instance (c : mqtt_p_connect) : Decidable (WillViolation c) := by
  unfold WillViolation
  infer_instance

/-- The CONNECT fields that `__parse_connect` leaves in the parser's packet when
`mqtt__parse` dispatches the packet with the fixed-header byte `first` and the
body `body`. -/
def decodedConnect {σ : Type} (signedChar : Bool) (p : mqtt_parser_t σ) (first : Nat)
    (body : List Nat) : mqtt_p_connect :=
  (__parse_connect signedChar (framed signedChar p first body).p
    (framed signedChar p first body).remaining).2.v.connect

/-- The first byte of a PUBLISH: 0x30, bit 3 = DUP, bits 2-1 = QoS, bit 0 = RETAIN. -/
def specPublishHeader (h : mqtt_p_header) : Nat :=
  0x30 + (if h.dup ≠ 0 then 8 else 0) + 2 * h.qos.toNat + (if h.retain ≠ 0 then 1 else 0)

/-- The bytes of a PUBLISH after the remaining-length field, as `__serialize_publish`
writes them: the topic length modulo 65536 in two bytes, big-endian, all the bytes
of the topic, the packet id big-endian when QoS > 0, the payload. -/
def publishBody (pkt : mqtt_packet) : List Nat :=
  [pkt.v.publish.topic_name.bytes.length / 256 % 256,
    pkt.v.publish.topic_name.bytes.length % 256]
  ++ pkt.v.publish.topic_name.bytes
  ++ (if pkt.h.qos > 0 then
        [pkt.v.publish.packet_id.toNat / 256, pkt.v.publish.packet_id.toNat % 256] else [])
  ++ pkt.payload.bytes

/-- The bytes of a PUBLISH: the first byte, the remaining length (the number of
bytes that follow it), the body. -/
def specPublish (pkt : mqtt_packet) : List Nat :=
  [specPublishHeader pkt.h] ++ specRemainingLength (publishBody pkt).length ++ publishBody pkt

/-- A PUBLISH that the serializer can be handed: QoS 0, 1 or 2, a topic and a
payload whose bytes lie behind their pointers, and a 16-bit packet id.  The length
of the topic is not bounded. -/
def PublishWF (pkt : mqtt_packet) : Prop :=
  (pkt.h.qos = 0 ∨ pkt.h.qos = 1 ∨ pkt.h.qos = 2) ∧
  (0 ≤ pkt.v.publish.topic_name.n ∧
    (pkt.v.publish.topic_name.bytes.length : Int) = pkt.v.publish.topic_name.n) ∧
  (0 ≤ pkt.payload.n ∧ (pkt.payload.bytes.length : Int) = pkt.payload.n) ∧
  (0 ≤ pkt.v.publish.packet_id ∧ pkt.v.publish.packet_id < 65536)

instance (pkt : mqtt_packet) : Decidable (PublishWF pkt) := by
  unfold PublishWF
  infer_instance

/-- A topic of 65536 bytes, one more than a two-byte length prefix can express. -/
def longTopic : List Nat := List.replicate 65536 0x61

/-! ## Session layer (`libmqtt.c`)

Conventions of the embedding of `libmqtt.c`

* The records `struct libmqtt_pub` live in a heap, a list of cells indexed by
  address; `malloc` returns the next address (the length of the heap), `free`
  empties the cell.  A pointer to a record is `Option Nat`, `none` for the null
  pointer.  An access through a pointer to an empty or missing cell is undefined
  behaviour in C: the model sets the flag `ub` and leaves the heap as it is.
* `write(2)` is an oracle: the list `results` holds the return values of the coming
  calls (a call past the end of the list writes everything), `wire` logs the
  bytes offered by every call with the value returned.
* A user hook of `struct libmqtt_cb` is a flag (set or null); an invocation is
  logged in `calls` with its arguments.  What a hook does with the handle is not
  part of the functions embedded here.
* The logger `__log` and the fields `log`, `logbuf`, `el`, `host`, `port`, `fd`,
  `id` and `ud` are left out; the parser `p` is kept beside the session, which is
  the user data of its callbacks.
-/

abbrev LIBMQTT_SUCCESS : Int := 0
abbrev LIBMQTT_ERROR_NULL : Int := -1
abbrev LIBMQTT_ERROR_MALLOC : Int := -2
abbrev LIBMQTT_ERROR_QOS : Int := -3
abbrev LIBMQTT_ERROR_VSN : Int := -4
abbrev LIBMQTT_ERROR_CONNECT : Int := -5
abbrev LIBMQTT_ERROR_WRITE : Int := -6
abbrev LIBMQTT_ERROR_MAXSUB : Int := -7

abbrev LIBMQTT_DEF_KEEPALIVE : Int := 30

/-- The enumeration `enum libmqtt_state`. -/
inductive libmqtt_state where
  | LIBMQTT_ST_SEND_PUBLUSH
  | LIBMQTT_ST_SEND_PUBACK
  | LIBMQTT_ST_SEND_PUBREC
  | LIBMQTT_ST_SEND_PUBREL
  | LIBMQTT_ST_SEND_PUBCOMP
  | LIBMQTT_ST_WAIT_PUBACK
  | LIBMQTT_ST_WAIT_PUBREC
  | LIBMQTT_ST_WAIT_PUBREL
  | LIBMQTT_ST_WAIT_PUBCOMP
deriving DecidableEq

/-- The enumeration `enum libmqtt_dir`. -/
inductive libmqtt_dir where
  | LIBMQTT_DIR_IN
  | LIBMQTT_DIR_OUT
deriving DecidableEq

/-- The member `p` of `struct libmqtt_pub`.  `topic` is the C string behind the
pointer (its bytes before the terminating NUL); `payload` is null or points at
the copy of the payload. -/
structure libmqtt_pub_p where
  packet_id : Int
  topic : List Nat
  qos : Int
  retain : Int
  payload : Option (List Nat)
  length : Int
deriving DecidableEq

/-- The record `struct libmqtt_pub`. -/
structure libmqtt_pub where
  p : libmqtt_pub_p
  s : libmqtt_state
  d : libmqtt_dir
  t : Int
  next : Option Nat
deriving DecidableEq

/-- The member `t` of `struct libmqtt`. -/
structure libmqtt_t where
  now : Int
  ping : Int
  send : Int
deriving DecidableEq

/-- The member `pub` of `struct libmqtt`. -/
structure libmqtt_pubs where
  head : Option Nat
  tail : Option Nat
deriving DecidableEq

/-- The hooks `struct libmqtt_cb`: `true` for a hook that is set. -/
structure libmqtt_cb where
  connack : Bool
  suback : Bool
  unsuback : Bool
  puback : Bool
  publish : Bool
deriving DecidableEq

/-- An invocation of a user hook, with the arguments after `mqtt` and `ud`. -/
inductive libmqtt_call where
  | connack (ack_flags return_code : Int)
  | suback (id : Int) (count : Int) (qos : List Int)
  | unsuback (id : Int)
  | puback (id : Int)
  | publish (topic : List Nat) (qos retain : Int) (payload : List Nat) (length : Int)
deriving DecidableEq

/-- The session `struct libmqtt` with the part of the environment its functions
act on: the heap of records, the oracle and the log of `write(2)`, the log of hook
invocations and the undefined-behaviour flag. -/
structure libmqtt where
  c : mqtt_p_connect
  packet_id : Int
  t : libmqtt_t
  pub : libmqtt_pubs
  cb : libmqtt_cb
  heap : List (Option libmqtt_pub)
  results : List Int
  wire : List (List Nat × Int)
  calls : List libmqtt_call
  ub : Bool
deriving DecidableEq

/-- The record behind the pointer `a`, if the cell holds one. -/
def libmqtt.deref (m : libmqtt) (a : Nat) : Option libmqtt_pub := m.heap.getD a none

/-- An assignment through the pointer `a` (`a->field = ...`). -/
def libmqtt.modify (m : libmqtt) (a : Nat) (f : libmqtt_pub → libmqtt_pub) : libmqtt :=
  match m.deref a with
  | some r => { m with heap := m.heap.set a (some (f r)) }
  | none => { m with ub := true }

/-- The call `free(a)` of a record, after the `free` of its topic and payload. -/
def libmqtt.free (m : libmqtt) (a : Nat) : libmqtt :=
  match m.deref a with
  | some _ => { m with heap := m.heap.set a none }
  | none => { m with ub := true }

/-- An invocation of a user hook: logged when the hook is set. -/
def libmqtt.call (m : libmqtt) (hook : Bool) (e : libmqtt_call) : libmqtt :=
  if hook then { m with calls := m.calls ++ [e] } else m

/-- The C string at `s`: the bytes before the first NUL. -/
def cstr (s : List Nat) : List Nat := s.takeWhile (· ≠ 0)

/-- The library function `strndup(s, n)`: the C string at `s`, cut to `n` bytes; a
negative `int` passed for the `size_t n` is a huge bound. -/
def strndup (s : Option (List Nat)) (n : Int) : List Nat :=
  if n < 0 then cstr (s.getD []) else cstr ((s.getD []).take n.toNat)

/-- The function `__write`. -/
def __write (m : libmqtt) (data : List Nat) : Int × libmqtt :=
  let r : Int := m.results.headD (data.length : Int)
  let m := { m with results := m.results.tail, wire := m.wire ++ [(data, r)] }
  if r = -1 then (-1, m) else (0, { m with t := { m.t with send := m.t.now } })

/-- The function `__generate_packet_id`: the id returned and the session. -/
def __generate_packet_id (m : libmqtt) : Int × libmqtt :=
  let id : Int := (m.packet_id + 1) % 65536
  let m := { m with packet_id := id }
  if id = 0 then
    let id : Int := (m.packet_id + 1) % 65536
    (id, { m with packet_id := id })
  else (id, m)

/-- The function `__insert_pub`; `malloc` and `strndup` are taken to succeed, so
the function returns 0. -/
def __insert_pub (m : libmqtt) (p : mqtt_packet) (d : libmqtt_dir) (s : libmqtt_state) :
    Int × libmqtt :=
  let pub : libmqtt_pub :=
    { p := { packet_id := p.v.publish.packet_id
             qos := p.h.qos
             retain := p.h.retain
             topic := strndup p.v.publish.topic_name.s p.v.publish.topic_name.n
             payload := if p.payload.n > 0 then some (memBytes p.payload.s p.payload.n) else none
             length := p.payload.n }
      d := d
      s := s
      t := m.t.now
      next := none }
  let a := m.heap.length
  let m := { m with heap := m.heap ++ [some pub] }
  match m.pub.head with
  | none => (0, { m with pub := ⟨some a, some a⟩ })
  | some _ =>
    match m.pub.tail with
    | none => (0, { m with ub := true, pub := { m.pub with tail := some a } })
    | some tl =>
      let m := m.modify tl (fun r => { r with next := some a })
      (0, { m with pub := { m.pub with tail := some a } })

/-- The value `*pp` of a `struct libmqtt_pub **pp`: `pp` is `none` for
`&mqtt->pub.head` and `some a` for `&a->next`.  Returns the value and the session
(flagged when `a` is not a record). -/
def libmqtt.readLoc (m : libmqtt) (pp : Option Nat) : Option Nat × libmqtt :=
  match pp with
  | none => (m.pub.head, m)
  | some a =>
    match m.deref a with
    | some r => (r.next, m)
    | none => (none, { m with ub := true })

/-- The assignment `*pp = v`. -/
def libmqtt.writeLoc (m : libmqtt) (pp : Option Nat) (v : Option Nat) : libmqtt :=
  match pp with
  | none => { m with pub := { m.pub with head := v } }
  | some a => m.modify a (fun r => { r with next := v })

/-- The value `a->next`, with the session (flagged when `a` is not a record). -/
def libmqtt.nextOf (m : libmqtt) (a : Nat) : Option Nat × libmqtt :=
  match m.deref a with
  | some r => (r.next, m)
  | none => (none, { m with ub := true })

/-- The while loop of `__delete_pub`, one iteration per unit of fuel. -/
def __delete_pub_loop : Nat → libmqtt → Option Nat → Nat → libmqtt
  | 0, m, _, _ => { m with ub := true }
  | fuel + 1, m, pp, pub =>
    let r := m.readLoc pp
    match r.1 with
    | none => r.2
    | some a =>
      if a = pub then
        let n := r.2.nextOf a
        let m := n.2.writeLoc pp n.1
        let m := m.free pub
        __delete_pub_loop fuel m pp pub
      else __delete_pub_loop fuel r.2 (some a) pub

/-- The function `__delete_pub`.  The loop makes at most one iteration per record
ever allocated and one more. -/
def __delete_pub (m : libmqtt) (pub : Nat) : libmqtt :=
  __delete_pub_loop (m.heap.length + 1) m none pub

/-- The function `__update_pub`. -/
def __update_pub (m : libmqtt) (pub : Nat) (s : libmqtt_state) : libmqtt :=
  m.modify pub (fun r => { r with s := s, t := m.t.now })

/-- The while loop of `__find_pub`, one iteration per unit of fuel: the pointer
returned and the session (flagged when the walk leaves the records). -/
def __find_pub_loop : Nat → libmqtt → Option Nat → Int → libmqtt_dir → libmqtt_state →
    Option Nat × libmqtt
  | 0, m, _, _, _, _ => (none, { m with ub := true })
  | _ + 1, m, none, _, _, _ => (none, m)
  | fuel + 1, m, some a, packet_id, d, s =>
    match m.deref a with
    | none => (none, { m with ub := true })
    | some r =>
      if r.p.packet_id = packet_id ∧ r.d = d ∧ r.s = s then (some a, m)
      else __find_pub_loop fuel m r.next packet_id d s

/-- The function `__find_pub`. -/
def __find_pub (m : libmqtt) (packet_id : Int) (d : libmqtt_dir) (s : libmqtt_state) :
    Option Nat × libmqtt :=
  __find_pub_loop (m.heap.length + 1) m m.pub.head packet_id d s

/-- The byte array of the macros `MQTT_PUBACK(id)`, `MQTT_PUBREC(id)`,
`MQTT_PUBREL(id)`, `MQTT_PUBCOMP(id)` and `MQTT_UNSUBACK(id)` with the first byte
given: `{first, 0x02, ((id) & 0xff00) >> 8, (id) & 0x00ff}`. -/
def ackArray (first : Nat) (id : Int) : List Nat :=
  [first, 0x02, toByte (id / 256 % 256), toByte (id % 256)]

/-- The macro `MQTT_PUBACK(id)`. -/
def MQTT_PUBACK (id : Int) : List Nat := ackArray 0x40 id

/-- The macro `MQTT_PUBREC(id)`. -/
def MQTT_PUBREC (id : Int) : List Nat := ackArray 0x50 id

/-- The macro `MQTT_PUBREL(id)`. -/
def MQTT_PUBREL (id : Int) : List Nat := ackArray 0x62 id

/-- The macro `MQTT_PUBCOMP(id)`. -/
def MQTT_PUBCOMP (id : Int) : List Nat := ackArray 0x70 id

/-- The function `__on_connack`. -/
def __on_connack : mqtt_cb libmqtt := fun m p =>
  (0, m.call m.cb.connack (libmqtt_call.connack p.v.connack.ack_flags p.v.connack.return_code))

/-- The function `__on_suback`; the hook is handed the packet id in the cell shared
by the union members, the count and the array of granted QoS values. -/
def __on_suback : mqtt_cb libmqtt := fun m p =>
  (0, m.call m.cb.suback (libmqtt_call.suback p.v.packet_id p.v.suback.n
    ((List.range p.v.suback.n.toNat).map p.v.suback.qos)))

/-- The function `__on_unsuback`. -/
def __on_unsuback : mqtt_cb libmqtt := fun m p =>
  (0, m.call m.cb.unsuback (libmqtt_call.unsuback p.v.packet_id))

/-- The function `__on_publish`.  The array `topic` has `topic_name.n + 1` cells: a
negative length is undefined behaviour. -/
def __on_publish : mqtt_cb libmqtt := fun m p =>
  let puback := MQTT_PUBACK p.v.publish.packet_id
  let pubrec := MQTT_PUBREC p.v.publish.packet_id
  let topic := strndup p.v.publish.topic_name.s p.v.publish.topic_name.n
  let m := if p.v.publish.topic_name.n < 0 then { m with ub := true } else m
  let e := libmqtt_call.publish topic p.h.qos p.h.retain (memBytes p.payload.s p.payload.n)
    p.payload.n
  if p.h.qos = MQTT_QOS_0 then (0, m.call m.cb.publish e)
  else if p.h.qos = MQTT_QOS_1 then
    let m := m.call m.cb.publish e
    let w := __write m puback
    if w.1 ≠ 0 then
      __insert_pub w.2 p libmqtt_dir.LIBMQTT_DIR_IN libmqtt_state.LIBMQTT_ST_SEND_PUBACK
    else (0, w.2)
  else if p.h.qos = MQTT_QOS_2 then
    let w := __write m pubrec
    if w.1 ≠ 0 then
      __insert_pub w.2 p libmqtt_dir.LIBMQTT_DIR_IN libmqtt_state.LIBMQTT_ST_SEND_PUBREC
    else __insert_pub w.2 p libmqtt_dir.LIBMQTT_DIR_IN libmqtt_state.LIBMQTT_ST_WAIT_PUBREL
  else if p.h.qos = MQTT_QOS_F then (-1, m)
  else (0, m)

/-- The function `__on_puback`. -/
def __on_puback : mqtt_cb libmqtt := fun m p =>
  let packet_id := p.v.packet_id
  let f := __find_pub m packet_id libmqtt_dir.LIBMQTT_DIR_OUT libmqtt_state.LIBMQTT_ST_WAIT_PUBACK
  match f.1 with
  | some pub =>
    let m := f.2.call f.2.cb.puback (libmqtt_call.puback packet_id)
    (0, __delete_pub m pub)
  | none => (-1, f.2)

/-- The function `__on_pubrec`. -/
def __on_pubrec : mqtt_cb libmqtt := fun m p =>
  let packet_id := p.v.packet_id
  let f := __find_pub m packet_id libmqtt_dir.LIBMQTT_DIR_OUT libmqtt_state.LIBMQTT_ST_WAIT_PUBREC
  match f.1 with
  | some pub =>
    let w := __write f.2 (MQTT_PUBREL packet_id)
    if w.1 ≠ 0 then (0, __update_pub w.2 pub libmqtt_state.LIBMQTT_ST_SEND_PUBREL)
    else (0, __update_pub w.2 pub libmqtt_state.LIBMQTT_ST_WAIT_PUBCOMP)
  | none => (-1, f.2)

/-- The function `__on_pubrel`. -/
def __on_pubrel : mqtt_cb libmqtt := fun m p =>
  let packet_id := p.v.packet_id
  let f := __find_pub m packet_id libmqtt_dir.LIBMQTT_DIR_IN libmqtt_state.LIBMQTT_ST_WAIT_PUBREL
  match f.1 with
  | some pub =>
    match f.2.deref pub with
    | none => (0, { f.2 with ub := true })
    | some r =>
      let m := f.2.call f.2.cb.publish (libmqtt_call.publish r.p.topic r.p.qos r.p.retain
        (memBytes r.p.payload r.p.length) r.p.length)
      let w := __write m (MQTT_PUBCOMP packet_id)
      if w.1 ≠ 0 then (0, __update_pub w.2 pub libmqtt_state.LIBMQTT_ST_SEND_PUBCOMP)
      else (0, __delete_pub w.2 pub)
  | none => (-1, f.2)

/-- The function `__on_pubcomp`. -/
def __on_pubcomp : mqtt_cb libmqtt := fun m p =>
  let packet_id := p.v.packet_id
  let f := __find_pub m packet_id libmqtt_dir.LIBMQTT_DIR_OUT libmqtt_state.LIBMQTT_ST_WAIT_PUBCOMP
  match f.1 with
  | some pub =>
    let m := f.2.call f.2.cb.puback (libmqtt_call.puback packet_id)
    (0, __delete_pub m pub)
  | none => (-1, f.2)

/-- The function `__on_pingresp`. -/
def __on_pingresp : mqtt_cb libmqtt := fun m _ =>
  (0, { m with t := { m.t with ping := 0 } })

/-- The parser that `libmqtt__create` sets up: `mqtt__parse_init`, then the calls
of `mqtt__parse_cb` in the order of the source. -/
def libmqtt__create_p : mqtt_parser_t libmqtt :=
  let p := mqtt__parse_init libmqtt
  let p := mqtt__parse_cb p CONNACK (some __on_connack)
  let p := mqtt__parse_cb p SUBACK (some __on_suback)
  let p := mqtt__parse_cb p UNSUBACK (some __on_unsuback)
  let p := mqtt__parse_cb p PUBLISH (some __on_publish)
  let p := mqtt__parse_cb p PUBACK (some __on_puback)
  let p := mqtt__parse_cb p PUBREC (some __on_pubrec)
  let p := mqtt__parse_cb p PUBREL (some __on_pubrel)
  let p := mqtt__parse_cb p PUBCOMP (some __on_pubcomp)
  mqtt__parse_cb p PINGRESP (some __on_pingresp)

/-- The function `libmqtt__create` for a client id given (a non-empty C string) and
an event loop and a `malloc` that succeed: the parser and the session.  The
oracle of `write(2)` is part of the environment. -/
def libmqtt__create (client_id : List Nat) (cb : libmqtt_cb) (results : List Int) :
    mqtt_parser_t libmqtt × libmqtt :=
  (libmqtt__create_p,
   { c := { mqtt_packet.zero.v.connect with
            client_id := ⟨some client_id, (cstr client_id).length⟩
            keep_alive := LIBMQTT_DEF_KEEPALIVE
            clean_sess := 1
            proto_ver := MQTT_PROTO_V4 }
     packet_id := 0
     t := ⟨0, 0, 0⟩
     pub := ⟨none, none⟩
     cb := cb
     heap := []
     results := results
     wire := []
     calls := []
     ub := false })

/-- The packet that `libmqtt__publish` builds: `memset(&p, 0, sizeof p)`, then the
header, the packet id (0 when none is drawn), the topic with its `strlen` and the
payload. -/
def publishPacket (topic : List Nat) (qos retain id : Int) (payload : Option (List Nat))
    (length : Int) : mqtt_packet :=
  { mqtt_packet.zero with
    h := ⟨PUBLISH, qos, 0, retain⟩
    v := { mqtt_packet.zero.v with publish := ⟨⟨some topic, (cstr topic).length⟩, id⟩ }
    payload := ⟨payload, length⟩ }

/-- The function `libmqtt__publish` on a handle that is not null: the return code,
the value stored through `id` when that pointer is not null, and the session.
`topic` is the memory at the pointer `topic`, read as a C string. -/
def libmqtt__publish (m : libmqtt) (topic : List Nat) (qos retain : Int)
    (payload : Option (List Nat)) (length : Int) : Int × Option Int × libmqtt :=
  if ¬ MQTT_IS_QOS qos then (LIBMQTT_ERROR_QOS, none, m) else
  let g : Int × libmqtt := if qos > MQTT_QOS_0 then __generate_packet_id m else (0, m)
  let m := g.2
  let p := publishPacket topic qos retain g.1 payload length
  let b := mqtt__serialize p
  if b.1 ≠ 0 then (LIBMQTT_ERROR_MALLOC, none, m) else
  let id : Option Int := if qos > MQTT_QOS_0 then some p.v.publish.packet_id else none
  let w := __write m b.2.bytes
  if w.1 = 0 ∧ qos = MQTT_QOS_0 then (LIBMQTT_SUCCESS, id, w.2) else
  if w.1 ≠ 0 then
    let i := __insert_pub w.2 p libmqtt_dir.LIBMQTT_DIR_OUT libmqtt_state.LIBMQTT_ST_SEND_PUBLUSH
    if i.1 ≠ 0 then (LIBMQTT_ERROR_MALLOC, id, i.2) else (LIBMQTT_SUCCESS, id, i.2)
  else if qos = MQTT_QOS_1 then
    let i := __insert_pub w.2 p libmqtt_dir.LIBMQTT_DIR_OUT libmqtt_state.LIBMQTT_ST_WAIT_PUBACK
    if i.1 ≠ 0 then (LIBMQTT_ERROR_MALLOC, id, i.2) else (LIBMQTT_SUCCESS, id, i.2)
  else if qos = MQTT_QOS_2 then
    let i := __insert_pub w.2 p libmqtt_dir.LIBMQTT_DIR_OUT libmqtt_state.LIBMQTT_ST_WAIT_PUBREC
    if i.1 ≠ 0 then (LIBMQTT_ERROR_MALLOC, id, i.2) else (LIBMQTT_SUCCESS, id, i.2)
  else (LIBMQTT_ERROR_QOS, id, w.2)

/-- The addresses of the records reachable from the pointer `p` through `next`, one
record per unit of fuel. -/
def chainFrom : Nat → List (Option libmqtt_pub) → Option Nat → List Nat
  | 0, _, _ => []
  | _ + 1, _, none => []
  | fuel + 1, heap, some a =>
    match heap.getD a none with
    | none => []
    | some r => a :: chainFrom fuel heap r.next

/-- The addresses of the records of the in-flight table, in the order of the list
that starts at `pub.head`. -/
def libmqtt.addrs (m : libmqtt) : List Nat := chainFrom (m.heap.length + 1) m.heap m.pub.head

/-- The in-flight record table: the records reachable from `pub.head`, in list
order, each without its `next` pointer. -/
def libmqtt.table (m : libmqtt) : List libmqtt_pub :=
  m.addrs.filterMap (fun a => (m.deref a).map (fun r => { r with next := none }))

/-- The pointer `p` starts a null-terminated list of records at the addresses `as`. -/
def IsChain (heap : List (Option libmqtt_pub)) : Option Nat → List Nat → Prop
  | p, [] => p = none
  | p, a :: as =>
    p = some a ∧
    match heap.getD a none with
    | some r => IsChain heap r.next as
    | none => False

/-- The record list of the session is well formed: `pub.head` starts a
null-terminated list of records. -/
def libmqtt.WF (m : libmqtt) : Prop := ∃ as, IsChain m.heap m.pub.head as

/-- The pointer `pub.tail` designates the last record of the list that starts at
`pub.head`, or that list is empty. -/
def libmqtt.TailOk (m : libmqtt) : Prop :=
  m.pub.head = none ∨ m.pub.tail = m.addrs.getLast?

/-- Hooks that are all set. -/
def allHooks : libmqtt_cb := ⟨true, true, true, true, true⟩

/-- A connected client: the parser and the session of `libmqtt__create` for the
client id "c" with all hooks set and every `write` succeeding, after the CONNACK
`20 02 00 00` of the peer has been parsed (the parser is authenticated, the hook
`connack` has been invoked). -/
def connectedClient : mqtt_parser_t libmqtt × libmqtt :=
  ((mqtt__parse_bytes true (libmqtt__create [0x63, 0] allHooks []).1
      (libmqtt__create [0x63, 0] allHooks []).2 [0x20, 0x02, 0x00, 0x00]).2.1,
   (mqtt__parse_bytes true (libmqtt__create [0x63, 0] allHooks []).1
      (libmqtt__create [0x63, 0] allHooks []).2 [0x20, 0x02, 0x00, 0x00]).2.2)

/-- The session of `connectedClient` after two QoS 1 publications (topic "a" with
payload "x", packet id 1, and topic "b" with payload "y", packet id 2) and the
PUBACK `40 02 00 02` of the peer for the second one. -/
def staleTailSession : libmqtt :=
  (mqtt__parse_bytes true connectedClient.1
    (libmqtt__publish (libmqtt__publish connectedClient.2 [0x61, 0] 1 0 (some [0x78]) 1).2.2
      [0x62, 0] 1 0 (some [0x79]) 1).2.2
    [0x40, 0x02, 0x00, 0x02]).2.2

instance IsChain.instDecidable (heap : List (Option libmqtt_pub)) :
    ∀ (as : List Nat) (p : Option Nat), Decidable (IsChain heap p as)
  | [], p => inferInstanceAs (Decidable (p = none))
  | a :: as, p =>
    match hc : heap.getD a none with
    | none => isFalse (fun h => by
        have h2 := h.2
        rw [hc] at h2
        exact h2)
    | some r =>
      have := IsChain.instDecidable heap as r.next
      decidable_of_iff (p = some a ∧ IsChain heap r.next as) (by
        constructor
        · intro h
          refine ⟨h.1, ?_⟩
          rw [hc]
          exact h.2
        · intro h
          have h2 := h.2
          rw [hc] at h2
          exact ⟨h.1, h2⟩)

instance (m : libmqtt) : Decidable m.TailOk := by
  unfold libmqtt.TailOk
  infer_instance

/-- The record that `__insert_pub` fills in for the packet `p`, before it is linked
into the list. -/
def insertedPub (m : libmqtt) (p : mqtt_packet) (d : libmqtt_dir) (s : libmqtt_state) :
    libmqtt_pub :=
  { p := { packet_id := p.v.publish.packet_id
           qos := p.h.qos
           retain := p.h.retain
           topic := strndup p.v.publish.topic_name.s p.v.publish.topic_name.n
           payload := if p.payload.n > 0 then some (memBytes p.payload.s p.payload.n) else none
           length := p.payload.n }
    d := d
    s := s
    t := m.t.now
    next := none }

/-- The record of an outbound publication in the table: packet id, topic, QoS,
retain flag, payload with its length, state and time of the last action. -/
def outPub (id : Int) (topic : List Nat) (qos retain : Int) (payload : List Nat)
    (s : libmqtt_state) (t : Int) : libmqtt_pub :=
  { p := ⟨id, topic, qos, retain, if payload = [] then none else some payload, payload.length⟩
    s := s
    d := libmqtt_dir.LIBMQTT_DIR_OUT
    t := t
    next := none }

/-- The record of an inbound publication in the table. -/
def inPub (id : Int) (topic : List Nat) (qos retain : Int) (payload : List Nat)
    (s : libmqtt_state) (t : Int) : libmqtt_pub :=
  { outPub id topic qos retain payload s t with d := libmqtt_dir.LIBMQTT_DIR_IN }

/-! ## Ticks: the sweep `__check_pub` and the timer callback `__update` -/

/-- The byte array of the macro `MQTT_PINGREQ`. -/
def MQTT_PINGREQ : List Nat := [0xc0, 0x00]

/-- The byte array of the macro `MQTT_DISCONNECT`. -/
def MQTT_DISCONNECT : List Nat := [0xe0, 0x00]

/-- The packet `p` that `__check_pub` builds for the record `pub`:
`memset(&p, 0, sizeof p)`, the header with `dup = 1`, and the packet id, topic (with
its `strlen`) and payload of the record. -/
def checkPacket (pub : libmqtt_pub) : mqtt_packet :=
  { mqtt_packet.zero with
    h := ⟨PUBLISH, pub.p.qos, 1, pub.p.retain⟩
    v := { mqtt_packet.zero.v with
           publish := ⟨⟨some pub.p.topic, (cstr pub.p.topic).length⟩, pub.p.packet_id⟩ }
    payload := ⟨pub.p.payload, pub.p.length⟩ }

/-- The statement `*pp = (*pp)->next;` of `__check_pub`, where `pp` is
`&mqtt->pub.head`. -/
def __check_pub_next (m : libmqtt) : libmqtt :=
  let h := m.readLoc none
  match h.1 with
  | none => { h.2 with ub := true }
  | some hd =>
    let n := h.2.nextOf hd
    n.2.writeLoc none n.1

/-- The statements `*pp = (*pp)->next; free(pub->p.topic); ...; free(pub);` of
`__check_pub`, where `pub` is the record at `a`. -/
def __check_pub_unlink (m : libmqtt) (a : Nat) : libmqtt := (__check_pub_next m).free a

/-- The `switch (pub->s)` of `__check_pub` for the record `pub` at the address `a`:
the session, and whether the local pointer `pub` is still set after the switch (it
is cleared where the record is freed).  `mqtt__serialize` fails only if `malloc`
does. -/
def __check_pub_switch (m : libmqtt) (a : Nat) (pub : libmqtt_pub) : Bool × libmqtt :=
  match pub.s with
  | libmqtt_state.LIBMQTT_ST_SEND_PUBLUSH
  | libmqtt_state.LIBMQTT_ST_WAIT_PUBACK
  | libmqtt_state.LIBMQTT_ST_WAIT_PUBREC =>
    let b := mqtt__serialize (checkPacket pub)
    if b.1 ≠ 0 then (true, m) else
    let w := __write m b.2.bytes
    if w.1 = 0 then
      if pub.p.qos = MQTT_QOS_0 then (false, __check_pub_unlink w.2 a)
      else if pub.p.qos = MQTT_QOS_1 then
        let m := w.2.modify a (fun r => { r with s := libmqtt_state.LIBMQTT_ST_WAIT_PUBACK })
        (true, m.modify a (fun r => { r with t := m.t.now }))
      else
        let m := w.2.modify a (fun r => { r with s := libmqtt_state.LIBMQTT_ST_WAIT_PUBREC })
        (true, m.modify a (fun r => { r with t := m.t.now }))
    else (true, w.2.modify a (fun r => { r with t := w.2.t.now }))
  | libmqtt_state.LIBMQTT_ST_SEND_PUBACK =>
    let w := __write m (MQTT_PUBACK pub.p.packet_id)
    if w.1 = 0 then (false, __check_pub_unlink w.2 a)
    else (true, w.2.modify a (fun r => { r with t := w.2.t.now }))
  | libmqtt_state.LIBMQTT_ST_SEND_PUBREC =>
    let w := __write m (MQTT_PUBREC pub.p.packet_id)
    let m := if w.1 = 0 then
        w.2.modify a (fun r => { r with s := libmqtt_state.LIBMQTT_ST_WAIT_PUBREL })
      else w.2
    (true, m.modify a (fun r => { r with t := m.t.now }))
  | libmqtt_state.LIBMQTT_ST_SEND_PUBREL =>
    let w := __write m (MQTT_PUBREL pub.p.packet_id)
    let m := if w.1 = 0 then
        w.2.modify a (fun r => { r with s := libmqtt_state.LIBMQTT_ST_WAIT_PUBCOMP })
      else w.2
    (true, m.modify a (fun r => { r with t := m.t.now }))
  | libmqtt_state.LIBMQTT_ST_SEND_PUBCOMP =>
    let w := __write m (MQTT_PUBCOMP pub.p.packet_id)
    if w.1 = 0 then (false, __check_pub_unlink w.2 a)
    else (true, w.2.modify a (fun r => { r with t := w.2.t.now }))
  | libmqtt_state.LIBMQTT_ST_WAIT_PUBREL =>
    let w := __write m (MQTT_PUBREC pub.p.packet_id)
    (true, w.2.modify a (fun r => { r with t := w.2.t.now }))
  | libmqtt_state.LIBMQTT_ST_WAIT_PUBCOMP =>
    let w := __write m (MQTT_PUBREL pub.p.packet_id)
    (true, w.2.modify a (fun r => { r with t := w.2.t.now }))

/-- The body of the while loop of `__check_pub` for the record `pub` at the address
`a = *pp`, where `pp` is `&mqtt->pub.head` throughout: the test of the deadline, the
switch, and the final `if (pub) *pp = (*pp)->next;`. -/
def __check_pub_body (m : libmqtt) (a : Nat) (pub : libmqtt_pub) : libmqtt :=
  let r : Bool × libmqtt :=
    if m.t.now - pub.t > m.c.keep_alive then __check_pub_switch m a pub else (true, m)
  if r.1 then __check_pub_next r.2 else r.2

/-- The while loop of `__check_pub`, one iteration per unit of fuel. -/
def __check_pub_loop : Nat → libmqtt → libmqtt
  | 0, m => { m with ub := true }
  | fuel + 1, m =>
    match m.pub.head with
    | none => m
    | some a =>
      match m.deref a with
      | none => { m with ub := true }
      | some pub => __check_pub_loop fuel (__check_pub_body m a pub)

/-- The function `__check_pub`.  Every iteration takes one record off the list, so
the loop makes at most one iteration per record ever allocated and one more. -/
def __check_pub (m : libmqtt) : libmqtt := __check_pub_loop (m.heap.length + 1) m

/-- The timer callback `__update` for the descriptor `fd = mqtt->fd`: the value
returned to the event loop, whether `shutdown(mqtt->fd, SHUT_WR)` was called, and
the session.  The clock `t.now` is an `int` that counts seconds; its overflow after
2^31 - 1 ticks is left out. -/
def __update (m : libmqtt) (fd : Int) : Int × Bool × libmqtt :=
  let m := { m with t := { m.t with now := m.t.now + 1 } }
  if m.t.ping > 0 ∧ m.t.now - m.t.ping > m.c.keep_alive then (0, decide (fd > 0), m)
  else
    let m :=
      if m.t.ping = 0 ∧ m.t.now - m.t.send ≥ m.c.keep_alive then
        let w := __write m MQTT_PINGREQ
        if w.1 = 0 then { w.2 with t := { w.2.t with ping := w.2.t.now } } else w.2
      else m
    (1000, false, __check_pub m)

/-- Modelled from the spec: the event reactor (`lib/ae`, not among the sources at
hand) invokes the tick hook once per second and, once the hook has declared the
link dead, makes no further ticks; `__update` declares the link dead by returning 0
in place of the period 1000.  `afterTicks fd n m` is the outcome of the first `n`
seconds: whether the timer has been stopped, and the session. -/
def afterTicks (fd : Int) : Nat → libmqtt → Bool × libmqtt
  | 0, m => (false, m)
  | n + 1, m =>
    if (afterTicks fd n m).1 then afterTicks fd n m
    else (decide ((__update (afterTicks fd n m).2 fd).1 = 0),
          (__update (afterTicks fd n m).2 fd).2.2)

/-! ## Facade (`libmqtt.c` lines 689-970) -/

/-- The macro `MQTT_IS_VER(v)`. -/
def MQTT_IS_VER (v : Int) : Bool := decide (v = MQTT_PROTO_V3) || decide (v = MQTT_PROTO_V4)

/-- The table `MQTT_PROTOCOL_NAMES`: the C string at the index `v`, `none` for the
null pointers at the indices 0 to 2 and for an index outside the table. -/
def MQTT_PROTOCOL_NAMES (v : Int) : Option (List Nat) :=
  if v = MQTT_PROTO_V3 then some [0x4d, 0x51, 0x49, 0x73, 0x64, 0x70, 0]
  else if v = MQTT_PROTO_V4 then some [0x4d, 0x51, 0x54, 0x54, 0]
  else none

/-- The function `mqtt_b_dup(b, s)`: the segment `*b` afterwards; `strdup` is taken
to succeed. -/
def mqtt_b_dup (b : mqtt_b) (s : Option (List Nat)) : mqtt_b :=
  match s with
  | none => b
  | some l => ⟨some (cstr l), (cstr l).length⟩

/-- Outcome of a facade call made through a handle `struct libmqtt *mqtt`: the value
returned, the value stored through the pointer `id` (where the function stores
one), the object behind the handle afterwards (`none` for a null handle and after
`libmqtt__destroy`), and whether the call went through a null handle, which is
undefined behaviour. -/
structure libmqtt_ret where
  rc : Int
  id : Option Int
  mqtt : Option libmqtt
  ub : Bool
deriving DecidableEq

/-- The function `libmqtt__destroy`; the event loop and the memory it frees are not
part of the model. -/
def libmqtt__destroy (mqtt : Option libmqtt) : libmqtt_ret :=
  match mqtt with
  | none => ⟨LIBMQTT_ERROR_NULL, none, none, false⟩
  | some _ => ⟨LIBMQTT_SUCCESS, none, none, false⟩

/-- The function `libmqtt__keep_alive`; the argument is converted to `uint16_t` at
the call. -/
def libmqtt__keep_alive (mqtt : Option libmqtt) (keep_alive : Int) : libmqtt_ret :=
  match mqtt with
  | none => ⟨LIBMQTT_ERROR_NULL, none, none, false⟩
  | some m =>
    ⟨LIBMQTT_SUCCESS, none, some { m with c := { m.c with keep_alive := keep_alive % 65536 } },
      false⟩

/-- The function `libmqtt__clean_sess`. -/
def libmqtt__clean_sess (mqtt : Option libmqtt) (clean_sess : Int) : libmqtt_ret :=
  match mqtt with
  | none => ⟨LIBMQTT_ERROR_NULL, none, none, false⟩
  | some m => ⟨LIBMQTT_SUCCESS, none, some { m with c := { m.c with clean_sess := clean_sess } },
      false⟩

/-- The function `libmqtt__version`. -/
def libmqtt__version (mqtt : Option libmqtt) (vsn : Int) : libmqtt_ret :=
  match mqtt with
  | none => ⟨LIBMQTT_ERROR_NULL, none, none, false⟩
  | some m =>
    if ¬ MQTT_IS_VER vsn then ⟨LIBMQTT_ERROR_VSN, none, some m, false⟩
    else ⟨LIBMQTT_SUCCESS, none, some { m with c := { m.c with proto_ver := vsn } }, false⟩

/-- The function `libmqtt__auth`; `username` and `password` are the C strings behind
the pointers.  The test after the copy of the password looks at the username, as
in the source. -/
def libmqtt__auth (mqtt : Option libmqtt) (username password : Option (List Nat)) :
    libmqtt_ret :=
  match mqtt with
  | none => ⟨LIBMQTT_ERROR_NULL, none, none, false⟩
  | some m =>
    let m := { m with c := { m.c with username := mqtt_b_free m.c.username,
                                       password := mqtt_b_free m.c.password } }
    let m1 := if username.isSome then
        { m with c := { m.c with username := mqtt_b_dup m.c.username username } }
      else m
    if username.isSome ∧ mqtt_b_empty m1.c.username then
      ⟨LIBMQTT_ERROR_MALLOC, none, some m1, false⟩
    else
      let m2 := if password.isSome then
          { m1 with c := { m1.c with password := mqtt_b_dup m1.c.password password } }
        else m1
      if password.isSome ∧ mqtt_b_empty m2.c.username then
        ⟨LIBMQTT_ERROR_MALLOC, none, some m2, false⟩
      else ⟨LIBMQTT_SUCCESS, none, some m2, false⟩

/-- The function `libmqtt__will`.  It has no test of the handle: both of its paths
start with an assignment through `mqtt`, which for a null handle is undefined
behaviour (the value returned is the one of the `return` the path ends with). -/
def libmqtt__will (mqtt : Option libmqtt) (retain qos : Int) (topic payload : Option (List Nat))
    (payload_len : Int) : libmqtt_ret :=
  match mqtt with
  | none => ⟨LIBMQTT_SUCCESS, none, none, true⟩
  | some m =>
    match topic with
    | none => ⟨LIBMQTT_SUCCESS, none, some { m with c := { m.c with will_flag := 0 } }, false⟩
    | some _ =>
      let c := { m.c with will_flag := 1, will_retain := retain, will_qos := qos }
      let c := { c with will_topic := mqtt_b_free c.will_topic,
                        will_payload := mqtt_b_free c.will_payload }
      let c := { c with will_topic := mqtt_b_dup c.will_topic topic }
      let c := if payload.isSome ∧ payload_len > 0 then
          { c with will_payload := ⟨some (memBytes payload payload_len), payload_len⟩ }
        else c
      ⟨LIBMQTT_SUCCESS, none, some { m with c := c }, false⟩

/-- The function `libmqtt__connect`.  The static function `__connect` opens the
socket and registers the reactor events (`lib/anet`, `lib/ae`); whether it succeeds is
the parameter `connected`.  `strdup(host)` is taken to succeed; `host` and `port`
are stored in fields that are not part of the model.  A protocol version without
a name in `MQTT_PROTOCOL_NAMES` makes `strlen` read through a null pointer. -/
def libmqtt__connect (mqtt : Option libmqtt) (_host : List Nat) (_port : Int)
    (connected : Bool) : libmqtt_ret :=
  match mqtt with
  | none => ⟨LIBMQTT_ERROR_NULL, none, none, false⟩
  | some m =>
    match MQTT_PROTOCOL_NAMES m.c.proto_ver with
    | none => ⟨LIBMQTT_ERROR_MALLOC, none, some { m with ub := true }, false⟩
    | some name =>
      let p : mqtt_packet :=
        { mqtt_packet.zero with
          h := ⟨CONNECT, 0, 0, 0⟩
          v := { mqtt_packet.zero.v with
                 connect := { m.c with proto_name := ⟨some name, (cstr name).length⟩ } } }
      let b := mqtt__serialize p
      if b.1 ≠ 0 then ⟨LIBMQTT_ERROR_MALLOC, none, some m, false⟩
      else if ¬ connected then ⟨LIBMQTT_ERROR_CONNECT, none, some m, false⟩
      else
        let w := __write m b.2.bytes
        if w.1 ≠ 0 then ⟨LIBMQTT_ERROR_WRITE, none, some w.2, false⟩
        else ⟨LIBMQTT_SUCCESS, none, some w.2, false⟩

/-- The packet that `libmqtt__subscribe` builds for `count` topics: the slots below
`count` hold the topics with their `strlen` and the requested QoS values, the
others are zero. -/
def subscribePacket (id count : Int) (topic : Nat → List Nat) (qos : Nat → Int) : mqtt_packet :=
  { mqtt_packet.zero with
    h := ⟨SUBSCRIBE, 0, 0, 0⟩
    v := { mqtt_packet.zero.v with
           packet_id := id
           subscribe :=
             ⟨fun i => if (i : Int) < count then ⟨some (topic i), (cstr (topic i)).length⟩
                       else mqtt_b.zero,
              fun i => if (i : Int) < count then qos i else 0,
              count⟩ } }

/-- The function `libmqtt__subscribe`; `topic i` is the C string behind `topic[i]`.
The value of `id` in the outcome is the one stored through a pointer `id` that is
not null. -/
def libmqtt__subscribe (mqtt : Option libmqtt) (count : Int) (topic : Nat → List Nat)
    (qos : Nat → Int) : libmqtt_ret :=
  match mqtt with
  | none => ⟨LIBMQTT_ERROR_NULL, none, none, false⟩
  | some m =>
    if count > (MQTT_MAX_SUB : Int) then ⟨LIBMQTT_ERROR_MAXSUB, none, some m, false⟩
    else
      let g := __generate_packet_id m
      let b := mqtt__serialize (subscribePacket g.1 count topic qos)
      if b.1 ≠ 0 then ⟨LIBMQTT_ERROR_MALLOC, none, some g.2, false⟩
      else
        let w := __write g.2 b.2.bytes
        if w.1 ≠ 0 then ⟨LIBMQTT_ERROR_WRITE, some g.1, some w.2, false⟩
        else ⟨LIBMQTT_SUCCESS, some g.1, some w.2, false⟩

/-- The packet that `libmqtt__unsubscribe` builds for `count` topics. -/
def unsubscribePacket (id count : Int) (topic : Nat → List Nat) : mqtt_packet :=
  { mqtt_packet.zero with
    h := ⟨UNSUBSCRIBE, 0, 0, 0⟩
    v := { mqtt_packet.zero.v with
           packet_id := id
           unsubscribe :=
             ⟨fun i => if (i : Int) < count then ⟨some (topic i), (cstr (topic i)).length⟩
                       else mqtt_b.zero,
              count⟩ } }

/-- The function `libmqtt__unsubscribe`. -/
def libmqtt__unsubscribe (mqtt : Option libmqtt) (count : Int) (topic : Nat → List Nat) :
    libmqtt_ret :=
  match mqtt with
  | none => ⟨LIBMQTT_ERROR_NULL, none, none, false⟩
  | some m =>
    if count > (MQTT_MAX_SUB : Int) then ⟨LIBMQTT_ERROR_MAXSUB, none, some m, false⟩
    else
      let g := __generate_packet_id m
      let b := mqtt__serialize (unsubscribePacket g.1 count topic)
      if b.1 ≠ 0 then ⟨LIBMQTT_ERROR_MALLOC, none, some g.2, false⟩
      else
        let w := __write g.2 b.2.bytes
        if w.1 ≠ 0 then ⟨LIBMQTT_ERROR_WRITE, some g.1, some w.2, false⟩
        else ⟨LIBMQTT_SUCCESS, some g.1, some w.2, false⟩

/-- The function `libmqtt__publish` called through a handle: the test of the handle
in its first lines, then `libmqtt__publish` above on the session. -/
def libmqtt__publish_handle (mqtt : Option libmqtt) (topic : List Nat) (qos retain : Int)
    (payload : Option (List Nat)) (length : Int) : libmqtt_ret :=
  match mqtt with
  | none => ⟨LIBMQTT_ERROR_NULL, none, none, false⟩
  | some m =>
    ⟨(libmqtt__publish m topic qos retain payload length).1,
     (libmqtt__publish m topic qos retain payload length).2.1,
     some (libmqtt__publish m topic qos retain payload length).2.2, false⟩

/-- The function `libmqtt__disconnect`; the call of `shutdown` acts on the socket,
which is not part of the model. -/
def libmqtt__disconnect (mqtt : Option libmqtt) : libmqtt_ret :=
  match mqtt with
  | none => ⟨LIBMQTT_ERROR_NULL, none, none, false⟩
  | some m =>
    let w := __write m MQTT_DISCONNECT
    if w.1 ≠ 0 then ⟨LIBMQTT_ERROR_WRITE, none, some w.2, false⟩
    else ⟨LIBMQTT_SUCCESS, none, some w.2, false⟩

/-- The function `libmqtt__run`.  The event loop `aeMain` is code of `lib/ae`; what it
does to the session while it runs is the parameter `aeMain`. -/
def libmqtt__run (mqtt : Option libmqtt) (aeMain : libmqtt → libmqtt) : libmqtt_ret :=
  match mqtt with
  | none => ⟨LIBMQTT_ERROR_NULL, none, none, false⟩
  | some m => ⟨LIBMQTT_SUCCESS, none, some (aeMain m), false⟩

/-- The ids returned by `n` successive calls of `__generate_packet_id`. -/
def drawIds : Nat → libmqtt → List Int
  | 0, _ => []
  | n + 1, m => (__generate_packet_id m).1 :: drawIds n (__generate_packet_id m).2

/-- What `__check_pub` leaves alone, as a relation between the session before (`m`)
and after (`m2`): the connect options, the packet-id counter, the hooks and the
log of their invocations, the clock and the time of the outstanding ping, the
number of cells of the heap and the pointer `pub.tail`; the time of the last send
is kept or set to the clock; and the log of the transport grows by packets of at
least four bytes. -/
def SweepFrame (m m2 : libmqtt) : Prop :=
  m2.c = m.c ∧ m2.packet_id = m.packet_id ∧ m2.cb = m.cb ∧ m2.calls = m.calls ∧
  m2.t.now = m.t.now ∧ m2.t.ping = m.t.ping ∧
  (m2.t.send = m.t.send ∨ m2.t.send = m.t.now) ∧
  m2.heap.length = m.heap.length ∧ m2.pub.tail = m.pub.tail ∧
  ∃ l : List (List Nat × Int), m2.wire = m.wire ++ l ∧ ∀ e ∈ l, 4 ≤ e.1.length

/-- The packet that `__check_pub` offers to the transport for a record that is past
its deadline, by the state of the record: the PUBLISH of `checkPacket` for
SEND_PUBLISH, WAIT_PUBACK and WAIT_PUBREC, and for the other states the array of
the macro with the packet id of the record. -/
def sweepBytes (r : libmqtt_pub) : List Nat :=
  match r.s with
  | libmqtt_state.LIBMQTT_ST_SEND_PUBLUSH => (mqtt__serialize (checkPacket r)).2.bytes
  | libmqtt_state.LIBMQTT_ST_WAIT_PUBACK => (mqtt__serialize (checkPacket r)).2.bytes
  | libmqtt_state.LIBMQTT_ST_WAIT_PUBREC => (mqtt__serialize (checkPacket r)).2.bytes
  | libmqtt_state.LIBMQTT_ST_SEND_PUBACK => MQTT_PUBACK r.p.packet_id
  | libmqtt_state.LIBMQTT_ST_SEND_PUBREC => MQTT_PUBREC r.p.packet_id
  | libmqtt_state.LIBMQTT_ST_SEND_PUBREL => MQTT_PUBREL r.p.packet_id
  | libmqtt_state.LIBMQTT_ST_SEND_PUBCOMP => MQTT_PUBCOMP r.p.packet_id
  | libmqtt_state.LIBMQTT_ST_WAIT_PUBREL => MQTT_PUBREC r.p.packet_id
  | libmqtt_state.LIBMQTT_ST_WAIT_PUBCOMP => MQTT_PUBREL r.p.packet_id

/-- The heap cell of a record after its turn in `__check_pub`, past its deadline:
`none` where the record is freed (a QoS 0 publication, a PUBACK or a PUBCOMP that
was written), otherwise the record with its new state and with the clock `now` as
the time of the last action.  `ok` tells whether the write succeeded. -/
def sweepCell (now : Int) (ok : Bool) (r : libmqtt_pub) : Option libmqtt_pub :=
  match r.s with
  | libmqtt_state.LIBMQTT_ST_SEND_PUBLUSH
  | libmqtt_state.LIBMQTT_ST_WAIT_PUBACK
  | libmqtt_state.LIBMQTT_ST_WAIT_PUBREC =>
    if ok then
      if r.p.qos = MQTT_QOS_0 then none
      else if r.p.qos = MQTT_QOS_1 then
        some { r with s := libmqtt_state.LIBMQTT_ST_WAIT_PUBACK, t := now }
      else some { r with s := libmqtt_state.LIBMQTT_ST_WAIT_PUBREC, t := now }
    else some { r with t := now }
  | libmqtt_state.LIBMQTT_ST_SEND_PUBACK => if ok then none else some { r with t := now }
  | libmqtt_state.LIBMQTT_ST_SEND_PUBREC =>
    if ok then some { r with s := libmqtt_state.LIBMQTT_ST_WAIT_PUBREL, t := now }
    else some { r with t := now }
  | libmqtt_state.LIBMQTT_ST_SEND_PUBREL =>
    if ok then some { r with s := libmqtt_state.LIBMQTT_ST_WAIT_PUBCOMP, t := now }
    else some { r with t := now }
  | libmqtt_state.LIBMQTT_ST_SEND_PUBCOMP => if ok then none else some { r with t := now }
  | libmqtt_state.LIBMQTT_ST_WAIT_PUBREL => some { r with t := now }
  | libmqtt_state.LIBMQTT_ST_WAIT_PUBCOMP => some { r with t := now }

/-- The session after the iteration of the loop of `__check_pub` for the record `r`
at the head `a` of the list: the head pointer moves to `r.next`; when the record is
past its deadline one packet is offered to the transport and the cell of the
record becomes `sweepCell`. -/
def sweepStep (m : libmqtt) (a : Nat) (r : libmqtt_pub) : libmqtt :=
  if m.t.now - r.t > m.c.keep_alive then
    { m with
      heap := m.heap.set a
        (sweepCell m.t.now (decide (m.results.headD ((sweepBytes r).length : Int) ≠ -1)) r)
      pub := { m.pub with head := r.next }
      results := m.results.tail
      wire := m.wire ++ [(sweepBytes r, m.results.headD ((sweepBytes r).length : Int))]
      t := { m.t with
             send := if m.results.headD ((sweepBytes r).length : Int) = -1 then m.t.send
                     else m.t.now } }
  else { m with pub := { m.pub with head := r.next } }

/-- A record without its `next` pointer, as the table lists it. -/
def libmqtt_pub.strip (r : libmqtt_pub) : libmqtt_pub := { r with next := none }

/-- Two sessions that differ at most in the cells of the heap and in `pub.head`. -/
def SameButList (m m2 : libmqtt) : Prop :=
  m2.c = m.c ∧ m2.packet_id = m.packet_id ∧ m2.t = m.t ∧ m2.cb = m.cb ∧
  m2.results = m.results ∧ m2.wire = m.wire ∧ m2.calls = m.calls ∧ m2.ub = m.ub ∧
  m2.pub.tail = m.pub.tail ∧ m2.heap.length = m.heap.length

/-- What the loop of `__delete_pub` that starts at the location `pp` has done when
it ends, for a list `pre ++ pub :: post` behind `pp`: the list behind `pp` is
`pre ++ post`, the cell of `pub` is freed, the other cells keep their record up
to the pointer `next`, and the cells outside `pre` and `pp` keep it whole. -/
def Deleted (m R : libmqtt) (pp : Option Nat) (pub : Nat) (pre post : List Nat) : Prop :=
  IsChain R.heap (R.readLoc pp).1 (pre ++ post) ∧
  (∀ b, b ≠ pub →
    (R.heap.getD b none).map libmqtt_pub.strip = (m.heap.getD b none).map libmqtt_pub.strip) ∧
  (∀ b, b ≠ pub → b ∉ pre → pp ≠ some b → R.heap.getD b none = m.heap.getD b none) ∧
  R.heap.getD pub none = none ∧
  (pp ≠ none → R.pub.head = m.pub.head) ∧
  SameButList m R

/-- The records at the addresses `as`, in this order, each without its `next`
pointer. -/
def tableAt (m : libmqtt) (as : List Nat) : List libmqtt_pub :=
  as.filterMap (fun a => (m.heap.getD a none).map libmqtt_pub.strip)

/-- The pair (packet id, direction) of a record. -/
def libmqtt_pub.key (r : libmqtt_pub) : Int × libmqtt_dir := (r.p.packet_id, r.d)

/-- No two records of the in-flight table have the same (packet id, direction)
pair. -/
def libmqtt.UniquePairs (m : libmqtt) : Prop := (m.table.map libmqtt_pub.key).Nodup

instance (m : libmqtt) : Decidable m.UniquePairs := by
  unfold libmqtt.UniquePairs
  infer_instance

/-- The packet ids of the outbound records of a table that have a non-zero packet
id, in the order of the table. -/
def outIds (T : List libmqtt_pub) : List Int :=
  (T.filter (fun r => decide (r.d = libmqtt_dir.LIBMQTT_DIR_OUT ∧ r.p.packet_id ≠ 0))).map
    (fun r => r.p.packet_id)

/-- No two outbound records of the in-flight table that have a non-zero packet id
have the same packet id. -/
def libmqtt.UniqueOut (m : libmqtt) : Prop := (outIds m.table).Nodup

instance (m : libmqtt) : Decidable m.UniqueOut := by
  unfold libmqtt.UniqueOut
  infer_instance

/-- What happens to a client after `libmqtt__create`: a call of `libmqtt__publish`
by the application, bytes read from the socket and handed to `mqtt__parse` by
`__read`, or a run of the timer callback `__update`. -/
inductive libmqtt_event where
  | publish (topic : List Nat) (qos retain : Int) (payload : Option (List Nat)) (length : Int)
  | receive (bytes : List Nat)
  | tick (fd : Int)
deriving DecidableEq

/-- The effect of one event on the parser and the session. -/
def eventStep (signedChar : Bool) (s : mqtt_parser_t libmqtt × libmqtt) :
    libmqtt_event → mqtt_parser_t libmqtt × libmqtt
  | libmqtt_event.publish topic qos retain payload length =>
    (s.1, (libmqtt__publish s.2 topic qos retain payload length).2.2)
  | libmqtt_event.receive bytes =>
    ((mqtt__parse_bytes signedChar s.1 s.2 bytes).2.1,
     (mqtt__parse_bytes signedChar s.1 s.2 bytes).2.2)
  | libmqtt_event.tick fd => (s.1, (__update s.2 fd).2.2)

/-- Modelled from the spec: the application and the event reactor (`lib/ae`, not
part of these sources) drive the client by publish calls, received packets and
ticks in any order; the parser and the session after a sequence of such events. -/
def eventRun (signedChar : Bool) (s : mqtt_parser_t libmqtt × libmqtt)
    (es : List libmqtt_event) : mqtt_parser_t libmqtt × libmqtt :=
  es.foldl (eventStep signedChar) s

/-- The number of publish calls in a sequence of events. -/
def publishCount : List libmqtt_event → Nat
  | [] => 0
  | libmqtt_event.publish _ _ _ _ _ :: es => publishCount es + 1
  | _ :: es => publishCount es

/-- The invariant behind the uniqueness of outbound packet ids, for a session that
has seen `n` publish calls: the record list is well formed; the pointer `pub.tail`
designates its last record when it designates one of its records at all; the
packet-id counter is between 0 and `n`; and the non-zero packet ids of the
outbound records are pairwise different and at most the counter. -/
def PubInv (n : Nat) (m : libmqtt) : Prop :=
  ∃ as, IsChain m.heap m.pub.head as ∧
    (∀ tl, m.pub.tail = some tl → tl ∈ as → as.getLast? = some tl) ∧
    0 ≤ m.packet_id ∧ m.packet_id ≤ (n : Int) ∧
    (outIds m.table).Nodup ∧ ∀ i ∈ outIds m.table, i ≤ m.packet_id

/-- The table `__libmqtt_error_strings` of `libmqtt__strerror`: eight entries, at
the indices 0 to 7. -/
def __libmqtt_error_strings : List String :=
  ["success",
   "null pointer access",
   "memory allocation error",
   "error mqtt qos",
   "error mqtt protocol version",
   "tcp connection error",
   "tcp write error",
   "max topic/qos per subscribe or unsubscribe"]

/-- The function `libmqtt__strerror` for an argument `rc` of type `int`: the string
returned (`none` for the null pointer) and whether the call has undefined
behaviour.  The negation `-rc` overflows for the least `int`; the quotient
`sizeof(__libmqtt_error_strings)/sizeof(char *)` is 8; the read
`__libmqtt_error_strings[-rc]` of an entry that the table does not have is
undefined behaviour. -/
def libmqtt__strerror (rc : Int) : Option String × Bool :=
  if rc = -2147483648 then (none, true)
  else if -rc ≤ 0 ∨ -rc > 8 then (none, false)
  else
    match __libmqtt_error_strings.get? (-rc).toNat with
    | some s => (some s, false)
    | none => (none, true)

/-- The macro `MQTT_PINGRESP`. -/
def MQTT_PINGRESP : List Nat := [0xd0, 0x00]

/-- The macro `MQTT_UNSUBACK(id)`. -/
def MQTT_UNSUBACK (id : Int) : List Nat := ackArray 0xb0 id

/-- A packet of a type that has no variable header and no payload (PINGREQ,
PINGRESP, DISCONNECT). -/
def mkEmpty (t : Int) : mqtt_packet := { mqtt_packet.zero with h := ⟨t, 0, 0, 0⟩ }

/-- The session of a fresh client (client id "c", every write succeeding) after two
calls of `__insert_pub`, for the outbound publications of "x" to "a" with packet id
1 and of "y" to "b" with packet id 2, both in WAIT_PUBACK: the records are at the
addresses 0 and 1. -/
def twoRecords : libmqtt :=
  (__insert_pub
    (__insert_pub (libmqtt__create [0x63, 0] allHooks []).2
      (publishPacket [0x61, 0] 1 0 1 (some [0x78]) 1)
      libmqtt_dir.LIBMQTT_DIR_OUT libmqtt_state.LIBMQTT_ST_WAIT_PUBACK).2
    (publishPacket [0x62, 0] 1 0 2 (some [0x79]) 1)
    libmqtt_dir.LIBMQTT_DIR_OUT libmqtt_state.LIBMQTT_ST_WAIT_PUBACK).2

/-- The while loop of `__check_pub` with a log of the records it examines: the
addresses that `pub = *pp` takes in the successive iterations, whether the loop
ended because `*pp` was null (`false` when the fuel ran out or the walk left the
records), and the session. -/
def __check_pub_visits : Nat → libmqtt → List Nat × Bool × libmqtt
  | 0, m => ([], false, { m with ub := true })
  | fuel + 1, m =>
    match m.pub.head with
    | none => ([], true, m)
    | some a =>
      match m.deref a with
      | none => ([a], false, { m with ub := true })
      | some pub =>
        ((a :: (__check_pub_visits fuel (__check_pub_body m a pub)).1),
         (__check_pub_visits fuel (__check_pub_body m a pub)).2.1,
         (__check_pub_visits fuel (__check_pub_body m a pub)).2.2)

/-- What one run of the sweep offers to the transport, for the records `rs` in
list order, the clock `now`, the keep-alive and the results of the successive
writes: nothing for a record whose last action is at most `keep_alive` before
`now`, and for each other record the one packet of its state, `sweepBytes`, with
the result of its write. -/
def sweepWire (now keep_alive : Int) : List libmqtt_pub → List Int → List (List Nat × Int)
  | [], _ => []
  | r :: rs, results =>
    if now - r.t > keep_alive then
      (sweepBytes r, results.headD ((sweepBytes r).length : Int))
        :: sweepWire now keep_alive rs results.tail
    else sweepWire now keep_alive rs results

/-- The body of a PUBREL on the wire: the two bytes of the packet id, high byte
first. -/
def specPubrelBody (id : Nat) : List Nat := [id / 256, id % 256]

/-- The body of a SUBSCRIBE on the wire: the two bytes of the packet id, then for
each (topic, requested QoS) pair the topic as a length-prefixed string and the
byte of the requested QoS. -/
def specSubscribeBody (id : Nat) (ts : List (List Nat × Nat)) : List Nat :=
  [id / 256, id % 256] ++ (ts.map (fun t => specUtf t.1 ++ [t.2])).flatten

/-- The body of an UNSUBSCRIBE on the wire: the two bytes of the packet id, then
each topic as a length-prefixed string. -/
def specUnsubscribeBody (id : Nat) (ts : List (List Nat)) : List Nat :=
  [id / 256, id % 256] ++ (ts.map specUtf).flatten

/-- The SUBSCRIBE with the QoS bits 01 for the packet id 1 and one pair: a topic of
128 bytes `a` with the requested QoS 1.  Fixed header `82`, remaining length 133
(`85 01`), packet id `00 01`, topic length `00 80`, the topic, QoS byte `01`. -/
def longTopicSubscribe : List Nat :=
  [0x82, 0x85, 0x01, 0x00, 0x01, 0x00, 0x80] ++ List.replicate 128 0x61 ++ [0x01]

/-- What the wire format asks of the topics of a SUBSCRIBE or UNSUBSCRIBE: there is
at least one and there are at most `MQTT_MAX_SUB`, and each has 1 to 65535
bytes. -/
def SpecTopics (ts : List (List Nat)) : Prop :=
  1 ≤ ts.length ∧ ts.length ≤ MQTT_MAX_SUB ∧ ∀ t ∈ ts, 1 ≤ t.length ∧ t.length ≤ 65535

/-- Plain `char` is unsigned, or neither byte of the length prefix of any of the
topics is 0x80 or above: the inputs on which `mqtt_b_read_utf` reads the length
that was written. -/
def LengthsReadBack (signedChar : Bool) (ts : List (List Nat)) : Prop :=
  signedChar = false ∨ ∀ t ∈ ts, t.length / 256 < 128 ∧ t.length % 256 < 128

instance (ts : List (List Nat)) : Decidable (SpecTopics ts) := by
  unfold SpecTopics
  infer_instance

instance (signedChar : Bool) (ts : List (List Nat)) :
    Decidable (LengthsReadBack signedChar ts) := by
  unfold LengthsReadBack
  infer_instance

/-! ## Theorems -/

/-- C1 (code defect). The QoS 1 PUBLISH for topic "a", packet id 1 and the empty
payload serializes to `32 05 00 01 61 00 01`; fed to an authenticated parser these
bytes make `mqtt__parse` return -1 and the PUBLISH callback is not invoked, for
signed and for unsigned `char`.  The same publication with QoS 0 is decoded, and
so is the QoS 1 one with the one-byte payload "x". -/
theorem C1_publish_qos1_empty_payload_rejected :
    mqtt__serialize (mkPublish 0 1 0 [0x61] 1 [])
      = (0, mqtt_b.ofBytes [0x32, 0x05, 0x00, 0x01, 0x61, 0x00, 0x01]) ∧
    (∀ signedChar : Bool,
      (mqtt__parse signedChar authParser [] (mqtt__serialize (mkPublish 0 1 0 [0x61] 1 [])).2).1
        = -1 ∧
      (mqtt__parse signedChar authParser [] (mqtt__serialize (mkPublish 0 1 0 [0x61] 1 [])).2).2.2
        = []) ∧
    (∀ signedChar : Bool,
      (mqtt__parse signedChar authParser [] (mqtt__serialize (mkPublish 0 0 0 [0x61] 0 [])).2).1
        = 0 ∧
      ((mqtt__parse signedChar authParser []
          (mqtt__serialize (mkPublish 0 0 0 [0x61] 0 [])).2).2.2.map
        (fun o => (o.h, o.topic, o.payload))) = [(⟨PUBLISH, 0, 0, 0⟩, [0x61], [])]) ∧
    (∀ signedChar : Bool,
      ((mqtt__parse signedChar authParser []
          (mqtt__serialize (mkPublish 0 1 0 [0x61] 1 [0x78])).2).2.2.map
        (fun o => (o.h, o.topic, o.publish_id, o.payload)))
        = [(⟨PUBLISH, 1, 0, 0⟩, [0x61], 1, [0x78])]) := by
  refine ⟨by decide, ?_, ?_, ?_⟩ <;> intro signedChar <;> cases signedChar <;> decide

/-- C3 (code defect). PUBACK with packet id 128 serializes to `40 02 00 80`; where
plain `char` is signed the parser hands the PUBACK callback the packet id 65408,
not 128 (the low byte is sign-extended by `mqtt_b_read_u16`), and likewise for
PUBREC, PUBREL, PUBCOMP and UNSUBACK; where `char` is unsigned the id is 128. -/
theorem C3_packet_id_low_byte_sign_extended :
    mqtt__serialize (mkAck PUBACK 128) = (0, mqtt_b.ofBytes [0x40, 0x02, 0x00, 0x80]) ∧
    (∀ t ∈ [PUBACK, PUBREC, PUBREL, PUBCOMP, UNSUBACK],
      (mqtt__parse true authParser [] (mqtt__serialize (mkAck t 128)).2).1 = 0 ∧
      (mqtt__parse true authParser [] (mqtt__serialize (mkAck t 128)).2).2.2.map
        (fun o => (o.h.type, o.packet_id)) = [(t, 65408)]) ∧
    (mqtt__parse false authParser [] (mqtt__serialize (mkAck PUBACK 128)).2).2.2.map
        (fun o => (o.h.type, o.packet_id)) = [(PUBACK, 128)] := by
  decide

/-- C4 (code defect). The CONNECT of scenario 1 with keep-alive 128 instead of 60
serializes to `10 0D 00 04 4D 51 54 54 04 02 00 80 00 01 63`; where plain `char` is
signed a freshly initialised parser accepts it and hands the CONNECT callback the
keep-alive 65408; where `char` is unsigned the callback gets 128. -/
theorem C4_connect_keep_alive_sign_extended :
    mqtt__serialize (mkConnect { connectC with keep_alive := 128 })
      = (0, mqtt_b.ofBytes [0x10, 0x0D, 0x00, 0x04, 0x4D, 0x51, 0x54, 0x54, 0x04, 0x02, 0x00,
          0x80, 0x00, 0x01, 0x63]) ∧
    (mqtt__parse true recordParser []
        (mqtt__serialize (mkConnect { connectC with keep_alive := 128 })).2).1 = 0 ∧
    (mqtt__parse true recordParser []
        (mqtt__serialize (mkConnect { connectC with keep_alive := 128 })).2).2.2.map
      (fun o => (o.h.type, o.connect.keep_alive)) = [(CONNECT, 65408)] ∧
    (mqtt__parse false recordParser []
        (mqtt__serialize (mkConnect { connectC with keep_alive := 128 })).2).2.2.map
      (fun o => (o.h.type, o.connect.keep_alive)) = [(CONNECT, 128)] := by
  decide

/-- C5 (code defect). SUBACK with packet id 1 and the single granted-QoS byte 0x80
(failure) serializes to `90 03 00 01 80`; where plain `char` is signed the SUBACK
callback receives the entry -128, which is not `MQTT_QOS_F`; SUBSCRIBE and
UNSUBSCRIBE with packet id 128 and topic "a" reach their callbacks with the packet
id 65408. -/
theorem C5_suback_failure_code_sign_extended :
    mqtt__serialize (mkSuback 1 [MQTT_QOS_F])
      = (0, mqtt_b.ofBytes [0x90, 0x03, 0x00, 0x01, 0x80]) ∧
    (mqtt__parse true authParser [] (mqtt__serialize (mkSuback 1 [MQTT_QOS_F])).2).2.2.map
      (fun o => (o.h.type, o.packet_id, o.suback)) = [(SUBACK, 1, [-128])] ∧
    (mqtt__parse true authParser []
        (mqtt__serialize (mkSubscribe 128 [([0x61], 1)])).2).2.2.map
      (fun o => (o.h.type, o.packet_id, o.subscribe)) = [(SUBSCRIBE, 65408, [([0x61], 1)])] ∧
    (mqtt__parse true authParser []
        (mqtt__serialize (mkUnsubscribe 128 [[0x61]])).2).2.2.map
      (fun o => (o.h.type, o.packet_id, o.unsubscribe)) = [(UNSUBSCRIBE, 65408, [[0x61]])] := by
  decide

/-- C6 (code defect). After the fixed-header byte `C0` the parser dispatches at
once on the remaining length 0 (PINGREQ callback, back in `MQTT_ST_FIXED`); after
the fixed-header byte `30` it takes the remaining lengths 127, 128, 16383, 16384
and 2097151 (it is then in state `MQTT_ST_REMAIN` and requires exactly that many
bytes), but it returns -1 on the fourth length byte of 2097152 (`80 80 80 01`) and
of 268435455 (`FF FF FF 7F`), as it does on the fifth byte needed for 268435456. -/
theorem C6_four_byte_remaining_length_rejected :
    (∀ signedChar : Bool,
      (mqtt__parse_bytes signedChar authParser [] (0xC0 :: __pack_remain_length 0)).1 = 0 ∧
      (mqtt__parse_bytes signedChar authParser [] (0xC0 :: __pack_remain_length 0)).2.1.state
        = mqtt_parser_state.MQTT_ST_FIXED ∧
      (mqtt__parse_bytes signedChar authParser [] (0xC0 :: __pack_remain_length 0)).2.2.map
        (fun o => o.h.type) = [PINGREQ]) ∧
    (∀ R ∈ [127, 128, 16383, 16384, 2097151], ∀ signedChar : Bool,
      (mqtt__parse_bytes signedChar authParser [] (0x30 :: __pack_remain_length R)).1 = 0 ∧
      (mqtt__parse_bytes signedChar authParser [] (0x30 :: __pack_remain_length R)).2.1.state
        = mqtt_parser_state.MQTT_ST_REMAIN ∧
      (mqtt__parse_bytes signedChar authParser [] (0x30 :: __pack_remain_length R)).2.1.require
        = R) ∧
    __pack_remain_length 2097152 = [0x80, 0x80, 0x80, 0x01] ∧
    __pack_remain_length 268435455 = [0xFF, 0xFF, 0xFF, 0x7F] ∧
    (∀ R ∈ [2097152, 268435455, 268435456], ∀ signedChar : Bool,
      (mqtt__parse_bytes signedChar authParser [] (0x30 :: __pack_remain_length R)).1 = -1) := by
  decide

/-- C7 (code defect). For a CONNECT with client id "c", the password "p" and no
username, `mqtt__serialize` returns 15 bytes whose remaining-length field is 14: the
field counts the password, which is not written, so the length returned is not
1 + 1 + 14. -/
theorem C7_connect_password_without_username :
    mqtt__serialize (mkConnect { connectC with password := mqtt_b.ofBytes [0x70] })
      = (0, ⟨some [0x10, 0x0E, 0x00, 0x04, 0x4D, 0x51, 0x54, 0x54, 0x04, 0x02, 0x00, 0x3C, 0x00,
          0x01, 0x63], 15⟩) ∧
    (15 : Int) ≠ 1 + 1 + 14 := by
  decide

theorem toByte_natCast (x : Nat) : toByte (x : Int) = x % 256 := by
  unfold toByte
  omega

theorem sw_first {a : Nat} {out : List Nat} (h : StartsWith a out) :
    firstByte ⟨some out, (out.length : Nat)⟩ = some a := by
  obtain ⟨t, rfl⟩ := h
  simp [firstByte, mqtt_b.bytes, memBytes]

theorem sw_init (r : Nat) (hr : r < 256) : StartsWith r (mqtt_b_write_u8 [] (r : Int)) := by
  refine ⟨[], ?_⟩
  simp [mqtt_b_write_u8, toByte_natCast]
  omega

theorem sw_append {a : Nat} {out : List Nat} (h : StartsWith a out) (l : List Nat) :
    StartsWith a (out ++ l) := by
  obtain ⟨t, rfl⟩ := h
  exact ⟨t ++ l, rfl⟩

theorem sw_u8 {a : Nat} {out : List Nat} (h : StartsWith a out) (r : Int) :
    StartsWith a (mqtt_b_write_u8 out r) := sw_append h _

theorem sw_u16 {a : Nat} {out : List Nat} (h : StartsWith a out) (r : Int) :
    StartsWith a (mqtt_b_write_u16 out r) := sw_append h _

theorem sw_utf {a : Nat} {out : List Nat} (h : StartsWith a out) (r : mqtt_b) :
    StartsWith a (mqtt_b_write_utf out r) := by
  unfold mqtt_b_write_utf
  split
  · exact sw_append (sw_append h _) _
  · exact sw_append h _

theorem sw_ite {a : Nat} {x y : List Nat} (c : Prop) [Decidable c] (hx : StartsWith a x)
    (hy : StartsWith a y) : StartsWith a (if c then x else y) := by
  split <;> assumption

theorem sw_foldl {α : Type} {a : Nat} (f : List Nat → α → List Nat)
    (hf : ∀ out x, StartsWith a out → StartsWith a (f out x)) (xs : List α) {out : List Nat}
    (h : StartsWith a out) : StartsWith a (xs.foldl f out) := by
  induction xs generalizing out with
  | nil => exact h
  | cons x xs ih => exact ih (hf out x h)

theorem sw_pack {a : Nat} (pl : List Nat) {out : List Nat} (h : StartsWith a out) :
    StartsWith a (pl.foldl (fun o (x : Nat) => mqtt_b_write_u8 o (x : Int)) out) :=
  sw_foldl (fun o (x : Nat) => mqtt_b_write_u8 o (x : Int)) (fun _ _ h => sw_u8 h _) pl h

theorem serialize_connect_first (pkt : mqtt_packet) :
    (__serialize_connect pkt).1 = 0 ∧ firstByte (__serialize_connect pkt).2 = some 0x10 := by
  refine ⟨rfl, ?_⟩
  unfold __serialize_connect
  simp only []
  apply sw_first
  repeat first | exact sw_init 0x10 (by decide) | apply sw_utf | apply sw_u8 | apply sw_u16 | apply sw_ite | apply sw_pack

theorem serialize_publish_first (pkt : mqtt_packet)
    (hq : pkt.h.qos = 0 ∨ pkt.h.qos = 1 ∨ pkt.h.qos = 2) :
    (__serialize_publish pkt).1 = 0 ∧
    firstByte (__serialize_publish pkt).2
      = some (0x30 ||| ((if pkt.h.dup ≠ 0 then 1 else 0) <<< 3) ||| (pkt.h.qos.toNat <<< 1)
          ||| (if pkt.h.retain ≠ 0 then 1 else 0)) := by
  refine ⟨rfl, ?_⟩
  have hb : ∀ d r : Nat, d ≤ 1 → r ≤ 1 →
      (0x30 ||| (d <<< 3) ||| (pkt.h.qos.toNat <<< 1) ||| r) < 256 := by
    intro d r hd hr
    interval_cases d <;> interval_cases r <;> rcases hq with h | h | h <;> rw [h] <;> decide
  have hh : (if pkt.h.retain ≠ 0 then
        (if pkt.h.dup ≠ 0 then 0x30 ||| 1 <<< 3 else 0x30) ||| toByte (pkt.h.qos * 2) ||| 1 <<< 0
      else (if pkt.h.dup ≠ 0 then 0x30 ||| 1 <<< 3 else 0x30) ||| toByte (pkt.h.qos * 2))
      = (0x30 ||| ((if pkt.h.dup ≠ 0 then 1 else 0) <<< 3) ||| (pkt.h.qos.toNat <<< 1)
          ||| (if pkt.h.retain ≠ 0 then 1 else 0)) := by
    rcases hq with h | h | h <;> rw [h] <;> by_cases hd : pkt.h.dup = 0 <;>
      by_cases hr : pkt.h.retain = 0 <;> simp [hd, hr, toByte]
  unfold __serialize_publish
  simp only []
  rw [hh]
  apply sw_first
  apply sw_append
  apply sw_ite
  · exact sw_u16 (sw_utf (sw_pack _ (sw_init _ (hb _ _ (by split <;> omega) (by split <;> omega)))) _) _
  · exact sw_utf (sw_pack _ (sw_init _ (hb _ _ (by split <;> omega) (by split <;> omega)))) _

theorem serialize_id_first (a : Nat) (ha : a < 256) (pkt : mqtt_packet) :
    (__serialize_id (a : Int) pkt).1 = 0 ∧ firstByte (__serialize_id (a : Int) pkt).2 = some a := by
  refine ⟨rfl, ?_⟩
  unfold __serialize_id
  simp only []
  exact sw_first (sw_u16 (sw_u8 (sw_init a ha) _) _)

theorem serialize_empty_first (a : Nat) (ha : a < 256) :
    (__serialize_empty (a : Int)).1 = 0 ∧ firstByte (__serialize_empty (a : Int)).2 = some a := by
  refine ⟨rfl, ?_⟩
  unfold __serialize_empty
  simp only []
  exact sw_first (sw_u8 (sw_init a ha) _)

theorem serialize_subscribe_first (pkt : mqtt_packet) :
    (__serialize_subscribe pkt).1 = 0 ∧ firstByte (__serialize_subscribe pkt).2 = some 0x82 := by
  refine ⟨rfl, ?_⟩
  unfold __serialize_subscribe
  simp only []
  apply sw_first
  apply sw_foldl _ (fun _ _ h => sw_u8 (sw_utf h _) _)
  exact sw_u16 (sw_pack _ (sw_init 0x82 (by decide))) _

theorem serialize_suback_first (pkt : mqtt_packet) :
    (__serialize_suback pkt).1 = 0 ∧ firstByte (__serialize_suback pkt).2 = some 0x90 := by
  refine ⟨rfl, ?_⟩
  unfold __serialize_suback
  simp only []
  apply sw_first
  apply sw_foldl _ (fun _ _ h => sw_u8 h _)
  exact sw_u16 (sw_pack _ (sw_init 0x90 (by decide))) _

theorem serialize_unsubscribe_first (pkt : mqtt_packet) :
    (__serialize_unsubscribe pkt).1 = 0 ∧
    firstByte (__serialize_unsubscribe pkt).2 = some 0xA2 := by
  refine ⟨rfl, ?_⟩
  unfold __serialize_unsubscribe
  simp only []
  apply sw_first
  apply sw_foldl _ (fun _ _ h => sw_utf h _)
  exact sw_u16 (sw_pack _ (sw_init 0xA2 (by decide))) _

theorem serialize_connack_first (pkt : mqtt_packet) :
    (__serialize_connack pkt).1 = 0 ∧ firstByte (__serialize_connack pkt).2 = some 0x20 := by
  refine ⟨rfl, ?_⟩
  unfold __serialize_connack
  simp only []
  exact sw_first (sw_u8 (sw_u8 (sw_u8 (sw_init 0x20 (by decide)) _) _) _)

theorem serialize_dispatch (pkt : mqtt_packet) :
    mqtt__serialize pkt =
      if pkt.h.type = 1 then __serialize_connect pkt
      else if pkt.h.type = 2 then __serialize_connack pkt
      else if pkt.h.type = 3 then __serialize_publish pkt
      else if pkt.h.type = 4 then __serialize_puback pkt
      else if pkt.h.type = 5 then __serialize_pubrec pkt
      else if pkt.h.type = 6 then __serialize_pubrel pkt
      else if pkt.h.type = 7 then __serialize_pubcomp pkt
      else if pkt.h.type = 8 then __serialize_subscribe pkt
      else if pkt.h.type = 9 then __serialize_suback pkt
      else if pkt.h.type = 10 then __serialize_unsubscribe pkt
      else if pkt.h.type = 11 then __serialize_unsuback pkt
      else if pkt.h.type = 12 then __serialize_pingreq pkt
      else if pkt.h.type = 13 then __serialize_pingresp pkt
      else if pkt.h.type = 14 then __serialize_disconnect pkt
      else (-1, ⟨none, 0⟩) := rfl

theorem serialize_of_type_1 (pkt : mqtt_packet) (h : pkt.h.type = 1) :
    mqtt__serialize pkt = __serialize_connect pkt := by
  rw [serialize_dispatch, h]
  rfl

theorem serialize_of_type_2 (pkt : mqtt_packet) (h : pkt.h.type = 2) :
    mqtt__serialize pkt = __serialize_connack pkt := by
  rw [serialize_dispatch, h]
  rfl

theorem serialize_of_type_3 (pkt : mqtt_packet) (h : pkt.h.type = 3) :
    mqtt__serialize pkt = __serialize_publish pkt := by
  rw [serialize_dispatch, h]
  rfl

theorem serialize_of_type_4 (pkt : mqtt_packet) (h : pkt.h.type = 4) :
    mqtt__serialize pkt = __serialize_puback pkt := by
  rw [serialize_dispatch, h]
  rfl

theorem serialize_of_type_5 (pkt : mqtt_packet) (h : pkt.h.type = 5) :
    mqtt__serialize pkt = __serialize_pubrec pkt := by
  rw [serialize_dispatch, h]
  rfl

theorem serialize_of_type_6 (pkt : mqtt_packet) (h : pkt.h.type = 6) :
    mqtt__serialize pkt = __serialize_pubrel pkt := by
  rw [serialize_dispatch, h]
  rfl

theorem serialize_of_type_7 (pkt : mqtt_packet) (h : pkt.h.type = 7) :
    mqtt__serialize pkt = __serialize_pubcomp pkt := by
  rw [serialize_dispatch, h]
  rfl

theorem serialize_of_type_8 (pkt : mqtt_packet) (h : pkt.h.type = 8) :
    mqtt__serialize pkt = __serialize_subscribe pkt := by
  rw [serialize_dispatch, h]
  rfl

theorem serialize_of_type_9 (pkt : mqtt_packet) (h : pkt.h.type = 9) :
    mqtt__serialize pkt = __serialize_suback pkt := by
  rw [serialize_dispatch, h]
  rfl

theorem serialize_of_type_10 (pkt : mqtt_packet) (h : pkt.h.type = 10) :
    mqtt__serialize pkt = __serialize_unsubscribe pkt := by
  rw [serialize_dispatch, h]
  rfl

theorem serialize_of_type_11 (pkt : mqtt_packet) (h : pkt.h.type = 11) :
    mqtt__serialize pkt = __serialize_unsuback pkt := by
  rw [serialize_dispatch, h]
  rfl

theorem serialize_of_type_12 (pkt : mqtt_packet) (h : pkt.h.type = 12) :
    mqtt__serialize pkt = __serialize_pingreq pkt := by
  rw [serialize_dispatch, h]
  rfl

theorem serialize_of_type_13 (pkt : mqtt_packet) (h : pkt.h.type = 13) :
    mqtt__serialize pkt = __serialize_pingresp pkt := by
  rw [serialize_dispatch, h]
  rfl

theorem serialize_of_type_14 (pkt : mqtt_packet) (h : pkt.h.type = 14) :
    mqtt__serialize pkt = __serialize_disconnect pkt := by
  rw [serialize_dispatch, h]
  rfl

theorem serialize_of_type_other (pkt : mqtt_packet) (h : pkt.h.type < 1 ∨ 14 < pkt.h.type) :
    mqtt__serialize pkt = (-1, ⟨none, 0⟩) := by
  rw [serialize_dispatch]
  repeat (rw [if_neg (by omega)])

/-- C8. The first byte that `mqtt__serialize` produces is 0x10 for CONNECT, 0x20
CONNACK, 0x40 PUBACK, 0x50 PUBREC, 0x62 PUBREL, 0x70 PUBCOMP, 0x82 SUBSCRIBE, 0x90
SUBACK, 0xA2 UNSUBSCRIBE, 0xB0 UNSUBACK, 0xC0 PINGREQ, 0xD0 PINGRESP, 0xE0
DISCONNECT; for PUBLISH with QoS 0, 1 or 2 it is `0x30 | (DUP<<3) | (QoS<<1) | RETAIN`
with DUP and RETAIN normalised to 0/1; for every type value outside 1..14 the
function fails (return code -1, null segment). -/
theorem C8_fixed_header_byte (pkt : mqtt_packet) :
    (pkt.h.type = CONNECT →
      (mqtt__serialize pkt).1 = 0 ∧ firstByte (mqtt__serialize pkt).2 = some 0x10) ∧
    (pkt.h.type = CONNACK →
      (mqtt__serialize pkt).1 = 0 ∧ firstByte (mqtt__serialize pkt).2 = some 0x20) ∧
    (pkt.h.type = PUBLISH → (pkt.h.qos = 0 ∨ pkt.h.qos = 1 ∨ pkt.h.qos = 2) →
      (mqtt__serialize pkt).1 = 0 ∧
      firstByte (mqtt__serialize pkt).2
        = some (0x30 ||| ((if pkt.h.dup ≠ 0 then 1 else 0) <<< 3) ||| (pkt.h.qos.toNat <<< 1)
            ||| (if pkt.h.retain ≠ 0 then 1 else 0))) ∧
    (pkt.h.type = PUBACK →
      (mqtt__serialize pkt).1 = 0 ∧ firstByte (mqtt__serialize pkt).2 = some 0x40) ∧
    (pkt.h.type = PUBREC →
      (mqtt__serialize pkt).1 = 0 ∧ firstByte (mqtt__serialize pkt).2 = some 0x50) ∧
    (pkt.h.type = PUBREL →
      (mqtt__serialize pkt).1 = 0 ∧ firstByte (mqtt__serialize pkt).2 = some 0x62) ∧
    (pkt.h.type = PUBCOMP →
      (mqtt__serialize pkt).1 = 0 ∧ firstByte (mqtt__serialize pkt).2 = some 0x70) ∧
    (pkt.h.type = SUBSCRIBE →
      (mqtt__serialize pkt).1 = 0 ∧ firstByte (mqtt__serialize pkt).2 = some 0x82) ∧
    (pkt.h.type = SUBACK →
      (mqtt__serialize pkt).1 = 0 ∧ firstByte (mqtt__serialize pkt).2 = some 0x90) ∧
    (pkt.h.type = UNSUBSCRIBE →
      (mqtt__serialize pkt).1 = 0 ∧ firstByte (mqtt__serialize pkt).2 = some 0xA2) ∧
    (pkt.h.type = UNSUBACK →
      (mqtt__serialize pkt).1 = 0 ∧ firstByte (mqtt__serialize pkt).2 = some 0xB0) ∧
    (pkt.h.type = PINGREQ →
      (mqtt__serialize pkt).1 = 0 ∧ firstByte (mqtt__serialize pkt).2 = some 0xC0) ∧
    (pkt.h.type = PINGRESP →
      (mqtt__serialize pkt).1 = 0 ∧ firstByte (mqtt__serialize pkt).2 = some 0xD0) ∧
    (pkt.h.type = DISCONNECT →
      (mqtt__serialize pkt).1 = 0 ∧ firstByte (mqtt__serialize pkt).2 = some 0xE0) ∧
    ((pkt.h.type < CONNECT ∨ DISCONNECT < pkt.h.type) →
      mqtt__serialize pkt = (-1, ⟨none, 0⟩)) := by
  refine ⟨?_, ?_, ?_, ?_, ?_, ?_, ?_, ?_, ?_, ?_, ?_, ?_, ?_, ?_, ?_⟩
  · intro h; rw [serialize_of_type_1 pkt h]; exact serialize_connect_first pkt
  · intro h; rw [serialize_of_type_2 pkt h]; exact serialize_connack_first pkt
  · intro h hq; rw [serialize_of_type_3 pkt h]; exact serialize_publish_first pkt hq
  · intro h; rw [serialize_of_type_4 pkt h]; exact serialize_id_first 0x40 (by decide) pkt
  · intro h; rw [serialize_of_type_5 pkt h]; exact serialize_id_first 0x50 (by decide) pkt
  · intro h; rw [serialize_of_type_6 pkt h]; exact serialize_id_first 0x62 (by decide) pkt
  · intro h; rw [serialize_of_type_7 pkt h]; exact serialize_id_first 0x70 (by decide) pkt
  · intro h; rw [serialize_of_type_8 pkt h]; exact serialize_subscribe_first pkt
  · intro h; rw [serialize_of_type_9 pkt h]; exact serialize_suback_first pkt
  · intro h; rw [serialize_of_type_10 pkt h]; exact serialize_unsubscribe_first pkt
  · intro h; rw [serialize_of_type_11 pkt h]; exact serialize_id_first 0xb0 (by decide) pkt
  · intro h; rw [serialize_of_type_12 pkt h]; exact serialize_empty_first 0xc0 (by decide)
  · intro h; rw [serialize_of_type_13 pkt h]; exact serialize_empty_first 0xd0 (by decide)
  · intro h; rw [serialize_of_type_14 pkt h]; exact serialize_empty_first 0xe0 (by decide)
  · intro h; exact serialize_of_type_other pkt h

/-- C8 (witness). The theorem `C8_fixed_header_byte` at the QoS 2 PUBLISH with DUP
and RETAIN set, topic "a" and packet id 7 (first byte 0x3D), at PUBREL with id 7
(first byte 0x62) and at the type value 15 (failure). -/
theorem C8_fixed_header_byte_witness :
    (mkPublish 1 2 1 [0x61] 7 []).h.type = PUBLISH ∧
    firstByte (mqtt__serialize (mkPublish 1 2 1 [0x61] 7 [])).2 = some 0x3D ∧
    firstByte (mqtt__serialize (mkAck PUBREL 7)).2 = some 0x62 ∧
    mqtt__serialize (mkAck 15 7) = (-1, ⟨none, 0⟩) :=
  ⟨rfl,
   ((C8_fixed_header_byte (mkPublish 1 2 1 [0x61] 7 [])).2.2.1 rfl (Or.inr (Or.inr rfl))).2,
   ((C8_fixed_header_byte (mkAck PUBREL 7)).2.2.2.2.2.1 rfl).2,
   (C8_fixed_header_byte (mkAck 15 7)).2.2.2.2.2.2.2.2.2.2.2.2.2.2 (Or.inr (by decide))⟩

theorem pack_loop_step (fuel : Nat) (r : Int) (h0 : 0 ≤ r) :
    __pack_remain_length_loop (fuel + 1) r
      = if r / 128 > 0 then toByte (r % 128 + 128) :: __pack_remain_length_loop fuel (r / 128)
        else [toByte (r % 128)] := by
  simp only [__pack_remain_length_loop, Int.tdiv_eq_ediv h0 (by decide : (0 : Int) ≤ 128),
    Int.tmod_eq_emod h0 (by decide : (0 : Int) ≤ 128)]

theorem pack_remain_length_eq (r : Int) (h0 : 0 ≤ r) (h1 : r < 268435456) :
    __pack_remain_length r = specRemainingLength r.toNat := by
  unfold __pack_remain_length specRemainingLength
  rw [pack_loop_step 4 r h0]
  by_cases c1 : r < 128
  · rw [if_neg (by omega), if_pos (by omega)]
    simp only [toByte, List.cons.injEq, and_true]
    omega
  rw [if_pos (by omega), if_neg (by omega), pack_loop_step 3 _ (by omega)]
  by_cases c2 : r < 16384
  · rw [if_neg (by omega), if_pos (by omega)]
    simp only [toByte, List.cons.injEq, and_true]
    omega
  rw [if_pos (by omega), if_neg (by omega), pack_loop_step 2 _ (by omega)]
  by_cases c3 : r < 2097152
  · rw [if_neg (by omega), if_pos (by omega)]
    simp only [toByte, List.cons.injEq, and_true]
    omega
  rw [if_pos (by omega), if_neg (by omega), pack_loop_step 1 _ (by omega)]
  rw [if_neg (by omega)]
  simp only [toByte, List.cons.injEq, and_true]
  omega

theorem write_utf_eq (out : List Nat) (r : mqtt_b) (h : WFStr r) :
    mqtt_b_write_utf out r = out ++ specUtf r.bytes := by
  obtain ⟨h0, h1, h2⟩ := h
  unfold mqtt_b_write_utf specUtf
  have e1 : toByte (r.n / 256 % 256) = r.bytes.length / 256 := by
    unfold toByte; omega
  have e2 : toByte (r.n % 256) = r.bytes.length % 256 := by
    unfold toByte; omega
  simp only [e1, e2]
  by_cases hn : r.n > 0
  · simp [hn, mqtt_b.bytes]
  · have : r.bytes = [] := by
      apply List.eq_nil_of_length_eq_zero
      omega
    simp [hn, this]

theorem specUtf_length (l : List Nat) : (specUtf l).length = l.length + 2 := by
  simp [specUtf]

theorem serialize_connect_unfold (pkt : mqtt_packet) :
    __serialize_connect pkt
      = (0, ⟨some (connectOut pkt.v.connect (connectFlags pkt.v.connect) (connectRl pkt.v.connect)),
          ((connectOut pkt.v.connect (connectFlags pkt.v.connect)
            (connectRl pkt.v.connect)).length : Nat)⟩) := rfl

theorem connectFlags_eq (c : mqtt_p_connect) (hq : 0 ≤ c.will_qos ∧ c.will_qos ≤ 3) :
    connectFlags c = specConnectFlags c := by
  unfold connectFlags specConnectFlags
  have hq4 : c.will_qos = 0 ∨ c.will_qos = 1 ∨ c.will_qos = 2 ∨ c.will_qos = 3 := by omega
  by_cases h1 : c.clean_sess = 0 <;> by_cases h2 : c.will_flag = 0 <;>
    by_cases h3 : c.will_retain = 0 <;> by_cases h4 : c.username.n > 0 <;>
    by_cases h5 : c.password.n > 0 <;>
    rcases hq4 with h | h | h | h <;> simp [h1, h2, h3, h4, h5, h]

theorem specConnectFlags_lt (c : mqtt_p_connect) (hq : 0 ≤ c.will_qos ∧ c.will_qos ≤ 3) :
    specConnectFlags c < 256 := by
  unfold specConnectFlags
  have : c.will_qos.toNat ≤ 3 := by omega
  split <;> split <;> split <;> (try split) <;> (try split) <;> omega

theorem connectRl_eq (c : mqtt_p_connect) (h : ConnectWF c) :
    connectRl c = ((specConnectBody c).length : Nat) := by
  obtain ⟨⟨_, _, a1⟩, ⟨_, _, a2⟩, ⟨u0, _, a3⟩, ⟨p0, _, a4⟩, hw, _, _, _, hp⟩ := h
  unfold connectRl specConnectBody
  by_cases h2 : c.will_flag = 0
  · by_cases h4 : c.username.n > 0
    · by_cases h5 : c.password.n > 0
      · simp [h2, h4, h5, specUtf_length]; omega
      · simp [h2, h4, h5, specUtf_length]; omega
    · have h5 : ¬ c.password.n > 0 := fun hh => h4 (hp hh)
      simp [h2, h4, h5, specUtf_length]; omega
  · obtain ⟨⟨_, _, a5⟩, ⟨_, _, a6⟩⟩ := hw h2
    by_cases h4 : c.username.n > 0
    · by_cases h5 : c.password.n > 0
      · simp [h2, h4, h5, specUtf_length]; omega
      · simp [h2, h4, h5, specUtf_length]; omega
    · have h5 : ¬ c.password.n > 0 := fun hh => h4 (hp hh)
      simp [h2, h4, h5, specUtf_length]; omega

theorem foldl_write_u8 (l : List Nat) (out : List Nat) :
    l.foldl (fun o (x : Nat) => mqtt_b_write_u8 o (x : Int)) out
      = out ++ l.map (fun (x : Nat) => toByte (x : Int)) := by
  induction l generalizing out with
  | nil => simp
  | cons a l ih => simp only [List.foldl, ih, List.map]; simp [mqtt_b_write_u8]

theorem specRemainingLength_bytes (n : Nat) (h : n < 268435456) :
    (specRemainingLength n).map (fun (x : Nat) => toByte (x : Int)) = specRemainingLength n := by
  unfold specRemainingLength
  split
  · simp [toByte_natCast]; omega
  split
  · simp [toByte_natCast]; omega
  split
  · simp [toByte_natCast]; omega
  · simp [toByte_natCast]; omega

theorem specConnectBody_length_lt (c : mqtt_p_connect) (h : ConnectWF c) :
    (specConnectBody c).length < 268435456 := by
  have e := connectRl_eq c h
  obtain ⟨⟨_, _, a1⟩, ⟨_, _, a2⟩, ⟨u0, _, a3⟩, ⟨p0, _, a4⟩, hw, _, _, _, hp⟩ := h
  have : connectRl c < 268435456 := by
    unfold connectRl
    by_cases h2 : c.will_flag = 0
    · simp only [h2, ne_eq, not_true_eq_false, if_false]
      split <;> (try split) <;> omega
    · obtain ⟨⟨_, _, a5⟩, ⟨_, _, a6⟩⟩ := hw h2
      simp only [h2, ne_eq, not_false_eq_true, if_true]
      split <;> (try split) <;> omega
  omega

theorem serialize_connect_eq (pkt : mqtt_packet) (h : ConnectWF pkt.v.connect) :
    __serialize_connect pkt = (0, mqtt_b.ofBytes (specConnect pkt.v.connect)) := by
  have hlen := specConnectBody_length_lt pkt.v.connect h
  have hrl := connectRl_eq pkt.v.connect h
  obtain ⟨w1, w2, w3, w4, hw, hv, hk, hq, hp⟩ := h
  have hfl := specConnectFlags_lt pkt.v.connect hq
  rw [serialize_connect_unfold, connectFlags_eq _ hq, hrl]
  have key : connectOut pkt.v.connect (specConnectFlags pkt.v.connect)
      (((specConnectBody pkt.v.connect).length : Nat) : Int) = specConnect pkt.v.connect := by
    unfold connectOut
    simp only []
    simp only [pack_remain_length_eq _ (Int.natCast_nonneg _) (by omega : (((specConnectBody
      pkt.v.connect).length : Nat) : Int) < 268435456), Int.toNat_ofNat, foldl_write_u8,
      specRemainingLength_bytes _ hlen]
    have e1 : toByte pkt.v.connect.proto_ver = pkt.v.connect.proto_ver.toNat := by
      unfold toByte; omega
    have e2 : toByte ((specConnectFlags pkt.v.connect : Nat) : Int)
        = specConnectFlags pkt.v.connect := by
      rw [toByte_natCast]; omega
    have e3 : toByte (pkt.v.connect.keep_alive % 65536 / 256)
        = pkt.v.connect.keep_alive.toNat / 256 := by
      unfold toByte; omega
    have e4 : toByte (pkt.v.connect.keep_alive % 65536 % 256)
        = pkt.v.connect.keep_alive.toNat % 256 := by
      unfold toByte; omega
    have e0 : toByte 16 = 16 := by decide
    unfold specConnect specConnectBody
    by_cases h2 : pkt.v.connect.will_flag = 0
    · by_cases h4 : pkt.v.connect.username.n > 0
      · by_cases h5 : pkt.v.connect.password.n > 0
        · simp [h2, h4, h5, mqtt_b_write_u8, mqtt_b_write_u16, e0, e1, e2, e3, e4, (fun out => write_utf_eq out _ w1), (fun out => write_utf_eq out _ w2),
            (fun out => write_utf_eq out _ w3), (fun out => write_utf_eq out _ w4)]
        · simp [h2, h4, h5, mqtt_b_write_u8, mqtt_b_write_u16, e0, e1, e2, e3, e4, (fun out => write_utf_eq out _ w1), (fun out => write_utf_eq out _ w2),
            (fun out => write_utf_eq out _ w3)]
      · simp [h2, h4, mqtt_b_write_u8, mqtt_b_write_u16, e0, e1, e2, e3, e4, (fun out => write_utf_eq out _ w1), (fun out => write_utf_eq out _ w2)]
    · obtain ⟨w5, w6⟩ := hw h2
      by_cases h4 : pkt.v.connect.username.n > 0
      · by_cases h5 : pkt.v.connect.password.n > 0
        · simp [h2, h4, h5, mqtt_b_write_u8, mqtt_b_write_u16, e0, e1, e2, e3, e4, (fun out => write_utf_eq out _ w1), (fun out => write_utf_eq out _ w2),
            (fun out => write_utf_eq out _ w3), (fun out => write_utf_eq out _ w4), (fun out => write_utf_eq out _ w5), (fun out => write_utf_eq out _ w6)]
        · simp [h2, h4, h5, mqtt_b_write_u8, mqtt_b_write_u16, e0, e1, e2, e3, e4, (fun out => write_utf_eq out _ w1), (fun out => write_utf_eq out _ w2),
            (fun out => write_utf_eq out _ w3), (fun out => write_utf_eq out _ w5), (fun out => write_utf_eq out _ w6)]
      · simp [h2, h4, mqtt_b_write_u8, mqtt_b_write_u16, e0, e1, e2, e3, e4, (fun out => write_utf_eq out _ w1), (fun out => write_utf_eq out _ w2),
          (fun out => write_utf_eq out _ w5), (fun out => write_utf_eq out _ w6)]
  rw [key]
  rfl

/-- C9 (counterexample). With the will-flag clear and the fields will QoS = 1 and
will retain = 1 left over from an earlier `libmqtt__will`, the flags byte (offset 9)
of the CONNECT is 0x02: bits 3-4 are 0, not the will QoS, and bit 5 is 0, not the
will retain. -/
theorem C9_will_bits_gated_counterexample :
    ConnectWF { connectC with will_qos := 1, will_retain := 1 } ∧
    (mqtt__serialize (mkConnect { connectC with will_qos := 1, will_retain := 1 })).2.bytes.getD 9 0
      = 0x02 ∧
    (0x02 / 8 % 4 : Int) ≠ ({ connectC with will_qos := 1, will_retain := 1 } : mqtt_p_connect).will_qos ∧
    (0x02 / 32 % 2 : Int) ≠ ({ connectC with will_qos := 1, will_retain := 1 } : mqtt_p_connect).will_retain := by
  decide

/-- C9 (amended). For a CONNECT whose fields are in their wire ranges and whose
password, if any, comes with a username, `mqtt__serialize` produces 0x10, the
remaining length (the number of bytes that follow it), the protocol name as a
length-prefixed string, the version byte, the flags byte with bit 1 =
clean-session, bit 2 = will-flag, bits 3-4 = will QoS and bit 5 = will-retain when
the will-flag is set (0 when it is clear), bit 7 = username present, bit 6 =
password present when a username is present, bit 0 = 0, then the keep-alive
big-endian, the client id, will topic and will payload when the will-flag is set,
username and password when present; for client id "c", clean-session, keep-alive
60 and protocol 4 the bytes are 10 0D 00 04 4D 51 54 54 04 02 00 3C 00 01 63. -/
theorem C9_connect_wire_layout (pkt : mqtt_packet) (ht : pkt.h.type = CONNECT)
    (hwf : ConnectWF pkt.v.connect) :
    mqtt__serialize pkt = (0, mqtt_b.ofBytes (specConnect pkt.v.connect)) ∧
    mqtt__serialize (mkConnect connectC)
      = (0, mqtt_b.ofBytes [0x10, 0x0D, 0x00, 0x04, 0x4D, 0x51, 0x54, 0x54, 0x04, 0x02, 0x00,
          0x3C, 0x00, 0x01, 0x63]) := by
  refine ⟨?_, by decide⟩
  rw [serialize_of_type_1 pkt ht]
  exact serialize_connect_eq pkt hwf

/-- C9 (witness). The theorem `C9_connect_wire_layout` at a CONNECT with a will,
a username and a password. -/
theorem C9_connect_wire_layout_witness :
    ConnectWF connectFull ∧
    specConnect connectFull
      = [0x10, 0x19, 0x00, 0x04, 0x4D, 0x51, 0x54, 0x54, 0x04, 0xF6, 0x01, 0x2C, 0x00, 0x01, 0x63,
         0x00, 0x01, 0x77, 0x00, 0x01, 0x6D, 0x00, 0x01, 0x75, 0x00, 0x01, 0x70] ∧
    mqtt__serialize (mkConnect connectFull) = (0, mqtt_b.ofBytes (specConnect connectFull)) :=
  ⟨by decide, by decide, (C9_connect_wire_layout (mkConnect connectFull) rfl (by decide)).1⟩

theorem process_state {σ : Type} (sc : Bool) (p : mqtt_parser_t σ) (ud : σ) :
    (__process sc p ud).2.1.state = p.state ∧ (__process sc p ud).2.1.require = p.require ∧
    (__process sc p ud).2.1.multiplier = p.multiplier ∧
    (__process sc p ud).2.1.remaining = p.remaining ∧ (__process sc p ud).2.1.cb = p.cb := by
  unfold __process
  simp only []
  split
  · exact ⟨rfl, rfl, rfl, rfl, rfl⟩
  · split
    · exact ⟨rfl, rfl, rfl, rfl, rfl⟩
    · split
      · exact ⟨rfl, rfl, rfl, rfl, rfl⟩
      · split <;> exact ⟨rfl, rfl, rfl, rfl, rfl⟩

theorem processAndFree_state {σ : Type} (sc : Bool) (p : mqtt_parser_t σ) (ud : σ) :
    (processAndFree sc p ud).2.1.state = p.state ∧
    (processAndFree sc p ud).2.1.require = p.require ∧
    (processAndFree sc p ud).2.1.cb = p.cb := by
  unfold processAndFree
  exact ⟨(process_state sc p ud).1, (process_state sc p ud).2.1, (process_state sc p ud).2.2.2.2⟩

theorem step_shrinks {σ : Type} (sc : Bool) (p : mqtt_parser_t σ) (ud : σ) (ch : Nat)
    (rest : List Nat) (next : mqtt_parser_t σ × σ × List Nat)
    (h : mqtt__parse_step sc p ud ch rest = Sum.inr next) :
    Consuming next.1 ∧ next.2.2.length ≤ rest.length + 1 ∧
    (Consuming p → next.2.2.length ≤ rest.length) := by
  unfold mqtt__parse_step at h
  split at h
  · simp only [Sum.inr.injEq] at h
    subst h
    exact ⟨fun hh => by simp at hh, by simp, fun _ => by simp⟩
  · simp only [] at h
    split at h
    · simp at h
    · split at h
      · split at h
        · simp only [Sum.inr.injEq] at h
          subst h
          refine ⟨fun _ => ?_, by simp, fun _ => by simp⟩
          assumption
        · split at h
          · simp at h
          · simp only [Sum.inr.injEq] at h
            subst h
            refine ⟨fun hh => ?_, by simp, fun _ => by simp⟩
            rw [(processAndFree_state sc _ ud).1] at hh
            simp at hh
      · simp only [Sum.inr.injEq] at h
        subst h
        refine ⟨fun hh => ?_, by simp, fun _ => by simp⟩
        simp_all
  · rename_i hst
    simp only [] at h
    split at h
    · split at h
      · simp at h
      · simp only [Sum.inr.injEq] at h
        subst h
        refine ⟨fun hh => ?_, by simp, fun hc => ?_⟩
        · rw [(processAndFree_state sc _ ud).1] at hh
          simp at hh
        · have := hc hst
          simp only [List.length_drop, List.length_cons]
          omega
    · rename_i hreq
      simp only [Sum.inr.injEq] at h
      subst h
      refine ⟨fun _ => ?_, by simp, fun _ => by simp⟩
      simp only [List.length_cons] at hreq ⊢
      omega

theorem loop_fuel_consuming {σ : Type} (sc : Bool) (f1 : Nat) :
    ∀ (f2 : Nat) (p : mqtt_parser_t σ) (ud : σ) (c : List Nat), Consuming p →
      c.length ≤ f1 → c.length ≤ f2 →
      mqtt__parse_loop sc f1 p ud c = mqtt__parse_loop sc f2 p ud c := by
  induction f1 with
  | zero =>
    intro f2 p ud c _ h1 _
    have : c = [] := List.eq_nil_of_length_eq_zero (by omega)
    subst this
    cases f2 <;> rfl
  | succ f1 ih =>
    intro f2 p ud c hc h1 h2
    cases c with
    | nil => cases f2 <;> rfl
    | cons ch rest =>
      cases f2 with
      | zero => simp at h2
      | succ f2 =>
        simp only [mqtt__parse_loop]
        cases hs : mqtt__parse_step sc p ud ch rest with
        | inl r => rfl
        | inr next =>
          have hh := step_shrinks sc p ud ch rest next hs
          simp only [List.length_cons] at h1 h2
          exact ih f2 next.1 next.2.1 next.2.2 hh.1 (by have := hh.2.2 hc; omega)
            (by have := hh.2.2 hc; omega)

theorem loop_fuel {σ : Type} (sc : Bool) (f1 f2 : Nat) (p : mqtt_parser_t σ) (ud : σ)
    (c : List Nat) (h1 : c.length + 1 ≤ f1) (h2 : c.length + 1 ≤ f2) :
    mqtt__parse_loop sc f1 p ud c = mqtt__parse_loop sc f2 p ud c := by
  cases f1 with
  | zero => omega
  | succ f1 =>
    cases f2 with
    | zero => omega
    | succ f2 =>
      cases c with
      | nil => rfl
      | cons ch rest =>
        simp only [mqtt__parse_loop]
        cases hs : mqtt__parse_step sc p ud ch rest with
        | inl r => rfl
        | inr next =>
          have hh := step_shrinks sc p ud ch rest next hs
          simp only [List.length_cons] at h1 h2
          exact loop_fuel_consuming sc f1 f2 next.1 next.2.1 next.2.2 hh.1 (by omega) (by omega)

theorem parse_nil {σ : Type} (sc : Bool) (p : mqtt_parser_t σ) (ud : σ) :
    mqtt__parse_bytes sc p ud [] = (0, p, ud) := rfl

theorem parse_cons {σ : Type} (sc : Bool) (p : mqtt_parser_t σ) (ud : σ) (ch : Nat)
    (rest : List Nat) :
    mqtt__parse_bytes sc p ud (ch :: rest)
      = match mqtt__parse_step sc p ud ch rest with
        | Sum.inl r => r
        | Sum.inr next => mqtt__parse_bytes sc next.1 next.2.1 next.2.2 := by
  unfold mqtt__parse_bytes
  simp only [List.length_cons, mqtt__parse_loop]
  cases hs : mqtt__parse_step sc p ud ch rest with
  | inl r => rfl
  | inr next =>
    have hh := step_shrinks sc p ud ch rest next hs
    exact loop_fuel_consuming sc _ _ _ _ _ hh.1 (by omega) (by omega)

/-- Fuel adequacy: the loop of `mqtt__parse` has run to its end with the fuel that
`mqtt__parse_bytes` gives it; any larger amount yields the same result. -/
theorem mqtt__parse_fuel_adequate {σ : Type} (sc : Bool) (p : mqtt_parser_t σ) (ud : σ)
    (c : List Nat) (fuel : Nat) (h : c.length + 1 ≤ fuel) :
    mqtt__parse_loop sc fuel p ud c = mqtt__parse_bytes sc p ud c :=
  loop_fuel sc _ _ _ _ _ h (Nat.le_refl _)

theorem step_inl_ne {σ : Type} (sc : Bool) (p : mqtt_parser_t σ) (ud : σ) (ch : Nat)
    (rest : List Nat) (r : Int × mqtt_parser_t σ × σ)
    (h : mqtt__parse_step sc p ud ch rest = Sum.inl r) : r.1 ≠ 0 := by
  unfold mqtt__parse_step at h
  split at h
  · simp at h
  · simp only [] at h
    split at h
    · simp only [Sum.inl.injEq] at h
      subst h
      simp
    · split at h
      · split at h
        · simp at h
        · split at h
          · rename_i hne
            simp only [Sum.inl.injEq] at h
            subst h
            exact hne
          · simp at h
      · simp at h
  · simp only [] at h
    split at h
    · split at h
      · rename_i hne
        simp only [Sum.inl.injEq] at h
        subst h
        exact hne
      · simp at h
    · simp at h

theorem step_append {σ : Type} (sc : Bool) (p : mqtt_parser_t σ) (ud : σ) (ch : Nat)
    (rest b : List Nat)
    (h : p.state = mqtt_parser_state.MQTT_ST_REMAIN → p.require ≤ ((ch :: rest).length : Int)) :
    mqtt__parse_step sc p ud ch (rest ++ b)
      = match mqtt__parse_step sc p ud ch rest with
        | Sum.inl r => Sum.inl r
        | Sum.inr next => Sum.inr (next.1, next.2.1, next.2.2 ++ b) := by
  unfold mqtt__parse_step
  split
  · rfl
  · simp only []
    split
    · rfl
    · split
      · split
        · rfl
        · split <;> rfl
      · rfl
  · rename_i hst
    have hreq := h hst
    simp only []
    have hk : p.require.toNat ≤ (ch :: rest).length := by
      simp only [List.length_cons] at hreq ⊢
      omega
    have e1 : List.take p.require.toNat (ch :: (rest ++ b))
        = List.take p.require.toNat (ch :: rest) := by
      rw [← List.cons_append, List.take_append_of_le_length hk]
    have e2 : List.drop p.require.toNat (ch :: (rest ++ b))
        = List.drop p.require.toNat (ch :: rest) ++ b := by
      rw [← List.cons_append, List.drop_append_of_le_length hk]
    have hreq2 : p.require ≤ ((ch :: (rest ++ b)).length : Int) := by
      simp only [List.length_cons, List.length_append] at hreq ⊢
      omega
    rw [if_pos hreq, if_pos hreq2, e1, e2]
    split <;> rfl
theorem process_require {σ : Type} (sc : Bool) (p : mqtt_parser_t σ) (ud : σ) (x : Int) :
    __process sc { p with require := x } ud
      = ((__process sc p ud).1, { (__process sc p ud).2.1 with require := x },
          (__process sc p ud).2.2) := by
  unfold __process
  simp only []
  split
  · rfl
  · split
    · rfl
    · split
      · rfl
      · split <;> rfl

theorem processAndFree_require {σ : Type} (sc : Bool) (p : mqtt_parser_t σ) (ud : σ) (x : Int) :
    processAndFree sc { p with require := x } ud
      = ((processAndFree sc p ud).1, { (processAndFree sc p ud).2.1 with require := x },
          (processAndFree sc p ud).2.2) := by
  unfold processAndFree
  rw [process_require]

theorem normRequire_state {σ : Type} (p : mqtt_parser_t σ) : (normRequire p).state = p.state := by
  unfold normRequire
  split <;> rfl

theorem step_norm_congr {σ : Type} (sc : Bool) (p q : mqtt_parser_t σ) (ud : σ) (ch : Nat)
    (rest : List Nat) (h : normRequire p = normRequire q) :
    mqtt__parse_step sc p ud ch rest = mqtt__parse_step sc q ud ch rest := by
  have hs : p.state = q.state := by
    rw [← normRequire_state p, ← normRequire_state q, h]
  by_cases hf : p.state = mqtt_parser_state.MQTT_ST_FIXED
  · have hq : q.state = mqtt_parser_state.MQTT_ST_FIXED := hs ▸ hf
    unfold normRequire at h
    rw [if_pos hf, if_pos hq] at h
    cases p
    cases q
    simp only [mqtt_parser_t.mk.injEq] at h
    obtain ⟨h1, h2, _, h4, h5, h6, h7⟩ := h
    simp only at hf hq
    subst h1 h2 h4 h5 h6 h7 hq
    unfold mqtt__parse_step
    rfl
  · have hq : ¬ q.state = mqtt_parser_state.MQTT_ST_FIXED := hs ▸ hf
    unfold normRequire at h
    rw [if_neg hf, if_neg hq] at h
    rw [h]

theorem parse_norm_congr {σ : Type} (sc : Bool) (p q : mqtt_parser_t σ) (ud : σ)
    (c : List Nat) (h : normRequire p = normRequire q) :
    normResult (mqtt__parse_bytes sc p ud c) = normResult (mqtt__parse_bytes sc q ud c) := by
  cases c with
  | nil => simp only [parse_nil, normResult, h]
  | cons ch rest => rw [parse_cons, parse_cons, step_norm_congr sc p q ud ch rest h]

theorem normRequire_idem {σ : Type} (p : mqtt_parser_t σ) :
    normRequire (normRequire p) = normRequire p := by
  unfold normRequire
  split
  · simp
  · rfl

theorem normResult_idem {σ : Type} (r : Int × mqtt_parser_t σ × σ) :
    normResult (normResult r) = normResult r := by
  simp only [normResult, normRequire_idem]
theorem step_remain_short {σ : Type} (sc : Bool) (p : mqtt_parser_t σ) (ud : σ) (ch : Nat)
    (rest : List Nat) (hst : p.state = mqtt_parser_state.MQTT_ST_REMAIN)
    (hreq : ¬ p.require ≤ ((ch :: rest).length : Int)) :
    mqtt__parse_step sc p ud ch rest
      = Sum.inr ({ p with
          remaining := { p.remaining with s := p.remaining.s.map (· ++ (ch :: rest)) }
          require := p.require - ((ch :: rest).length : Int) }, ud, []) := by
  unfold mqtt__parse_step
  split
  · simp_all
  · simp_all
  · simp only []
    rw [if_neg hreq]

theorem step_remain_complete {σ : Type} (sc : Bool) (p : mqtt_parser_t σ) (ud : σ) (ch : Nat)
    (rest : List Nat) (hst : p.state = mqtt_parser_state.MQTT_ST_REMAIN)
    (hreq : p.require ≤ ((ch :: rest).length : Int)) :
    mqtt__parse_step sc p ud ch rest
      = dispatchStep sc (remainFill p ((ch :: rest).take p.require.toNat)) ud
          ((ch :: rest).drop p.require.toNat) := by
  unfold mqtt__parse_step
  split
  · simp_all
  · simp_all
  · simp only []
    rw [if_pos hreq]
    rfl

theorem processAndFree_fixed {σ : Type} (sc : Bool) (p : mqtt_parser_t σ) (ud : σ)
    (h : p.state = mqtt_parser_state.MQTT_ST_FIXED) :
    (processAndFree sc p ud).2.1.state = mqtt_parser_state.MQTT_ST_FIXED := by
  rw [(processAndFree_state sc p ud).1, h]

theorem dispatchStep_require {σ : Type} (sc : Bool) (p : mqtt_parser_t σ) (ud : σ)
    (unread : List Nat) (x : Int) (h : p.state = mqtt_parser_state.MQTT_ST_FIXED) :
    normResult (match dispatchStep sc { p with require := x } ud unread with
        | Sum.inl r => r
        | Sum.inr next => mqtt__parse_bytes sc next.1 next.2.1 next.2.2)
      = normResult (match dispatchStep sc p ud unread with
        | Sum.inl r => r
        | Sum.inr next => mqtt__parse_bytes sc next.1 next.2.1 next.2.2) := by
  unfold dispatchStep
  rw [processAndFree_require]
  have hfix := processAndFree_fixed sc p ud h
  generalize processAndFree sc p ud = R at hfix
  by_cases hr : R.1 = 0
  · simp only [hr, ne_eq, not_true_eq_false, if_false]
    apply parse_norm_congr
    simp only [normRequire, hfix, if_true]
  · simp only [hr, ne_eq, not_false_eq_true, if_true]
    simp only [normResult, normRequire, hfix, if_true]
theorem parse_boundary {σ : Type} (sc : Bool) (p : mqtt_parser_t σ) (ud : σ) (ch : Nat)
    (rest b : List Nat) (hst : p.state = mqtt_parser_state.MQTT_ST_REMAIN)
    (hreq : ¬ p.require ≤ ((ch :: rest).length : Int)) :
    normResult (mqtt__parse_bytes sc p ud ((ch :: rest) ++ b))
      = normResult (andThen sc (mqtt__parse_bytes sc p ud (ch :: rest)) b) := by
  obtain ⟨p1, hp1⟩ : ∃ p1 : mqtt_parser_t σ, p1 = { p with
      remaining := { p.remaining with s := p.remaining.s.map (· ++ (ch :: rest)) }
      require := p.require - ((ch :: rest).length : Int) } := ⟨_, rfl⟩
  have hst1 : p1.state = mqtt_parser_state.MQTT_ST_REMAIN := by rw [hp1]; exact hst
  have hr1 : p1.require = p.require - ((ch :: rest).length : Int) := by rw [hp1]
  have hl : mqtt__parse_bytes sc p ud (ch :: rest) = (0, p1, ud) := by
    rw [parse_cons, step_remain_short sc p ud ch rest hst hreq, hp1]
    rfl
  rw [hl]
  simp only [andThen, ne_eq, not_true_eq_false, if_false]
  cases b with
  | nil => rw [List.append_nil, hl, parse_nil]
  | cons bh brest =>
    rw [List.cons_append, parse_cons, parse_cons]
    by_cases hc : p.require ≤ ((ch :: (rest ++ bh :: brest)).length : Int)
    · have hc2 : p1.require ≤ ((bh :: brest).length : Int) := by
        rw [hr1]
        simp only [List.length_cons, List.length_append] at hc ⊢
        push_cast at hc ⊢
        omega
      rw [step_remain_complete sc p ud ch _ hst hc,
        step_remain_complete sc p1 ud bh brest hst1 hc2]
      have hk : (ch :: rest).length ≤ p.require.toNat := by
        simp only [List.length_cons] at hreq ⊢
        omega
      have e1 : List.take p.require.toNat (ch :: (rest ++ bh :: brest))
          = (ch :: rest) ++ List.take p1.require.toNat (bh :: brest) := by
        rw [← List.cons_append, List.take_append_eq_append_take, List.take_of_length_le hk]
        congr 2
        omega
      have e2 : List.drop p.require.toNat (ch :: (rest ++ bh :: brest))
          = List.drop p1.require.toNat (bh :: brest) := by
        rw [← List.cons_append, List.drop_append_eq_append_drop, List.drop_of_length_le hk,
          List.nil_append]
        congr 1
        omega
      rw [e1, e2]
      have e3 : remainFill p1 ((bh :: brest).take p1.require.toNat)
          = { remainFill p (ch :: rest ++ (bh :: brest).take p1.require.toNat) with
              require := p1.require } := by
        rw [hp1]
        simp only [remainFill, mqtt_parser_t.mk.injEq, mqtt_b.mk.injEq, and_true, true_and]
        cases p.remaining.s <;> simp
      rw [e3]
      exact (dispatchStep_require sc _ ud _ _ rfl).symm
    · have hc2 : ¬ p1.require ≤ ((bh :: brest).length : Int) := by
        rw [hr1]
        simp only [List.length_cons, List.length_append] at hc ⊢
        push_cast at hc ⊢
        omega
      rw [step_remain_short sc p ud ch _ hst hc,
        step_remain_short sc p1 ud bh brest hst1 hc2]
      simp only [parse_nil]
      rw [hp1]
      simp only [normResult, normRequire, hst]
      simp only [List.length_cons, List.length_append, Option.map_map]
      refine Prod.ext rfl (Prod.ext ?_ rfl)
      rw [if_neg (by decide), if_neg (by decide)]
      simp only [mqtt_parser_t.mk.injEq, mqtt_b.mk.injEq, true_and, and_true]
      refine ⟨?_, ?_⟩
      · push_cast
        omega
      · cases p.remaining.s <;> simp
theorem parse_append_consuming {σ : Type} (sc : Bool) (n : Nat) :
    ∀ (a b : List Nat) (p : mqtt_parser_t σ) (ud : σ), a.length ≤ n → Consuming p →
      normResult (mqtt__parse_bytes sc p ud (a ++ b))
        = normResult (andThen sc (mqtt__parse_bytes sc p ud a) b) := by
  induction n with
  | zero =>
    intro a b p ud ha _
    have : a = [] := List.eq_nil_of_length_eq_zero (by omega)
    subst this
    simp only [List.nil_append, parse_nil, andThen, ne_eq, not_true_eq_false, if_false]
  | succ n ih =>
    intro a b p ud ha hc
    cases a with
    | nil => simp only [List.nil_append, parse_nil, andThen, ne_eq, not_true_eq_false, if_false]
    | cons ch rest =>
      by_cases hb : p.state = mqtt_parser_state.MQTT_ST_REMAIN ∧
          ¬ p.require ≤ ((ch :: rest).length : Int)
      · exact parse_boundary sc p ud ch rest b hb.1 hb.2
      · have hb2 : p.state = mqtt_parser_state.MQTT_ST_REMAIN →
            p.require ≤ ((ch :: rest).length : Int) := by
          intro hs
          by_contra hh
          exact hb ⟨hs, hh⟩
        rw [List.cons_append, parse_cons, parse_cons, step_append sc p ud ch rest b hb2]
        cases hs : mqtt__parse_step sc p ud ch rest with
        | inl r =>
          have hne := step_inl_ne sc p ud ch rest r hs
          simp only [andThen, hne, ne_eq, not_false_eq_true, if_true]
        | inr next =>
          have hh := step_shrinks sc p ud ch rest next hs
          simp only [List.length_cons] at ha
          exact ih next.2.2 b next.1 next.2.1 (by have := hh.2.2 hc; omega) hh.1

theorem parse_append {σ : Type} (sc : Bool) (a b : List Nat) (p : mqtt_parser_t σ) (ud : σ) :
    normResult (mqtt__parse_bytes sc p ud (a ++ b))
      = normResult (andThen sc (mqtt__parse_bytes sc p ud a) b) := by
  by_cases hc : Consuming p
  · exact parse_append_consuming sc a.length a b p ud (Nat.le_refl _) hc
  · cases a with
    | nil => simp only [List.nil_append, parse_nil, andThen, ne_eq, not_true_eq_false, if_false]
    | cons ch rest =>
      have hst : p.state = mqtt_parser_state.MQTT_ST_REMAIN := by
        by_contra hh
        exact hc (fun h => absurd h hh)
      have hreq : p.require ≤ 0 := by
        by_contra hh
        exact hc (fun _ => by omega)
      have hb2 : p.state = mqtt_parser_state.MQTT_ST_REMAIN →
          p.require ≤ ((ch :: rest).length : Int) := by
        intro _
        simp only [List.length_cons]
        omega
      rw [List.cons_append, parse_cons, parse_cons, step_append sc p ud ch rest b hb2]
      cases hs : mqtt__parse_step sc p ud ch rest with
      | inl r =>
        have hne := step_inl_ne sc p ud ch rest r hs
        simp only [andThen, hne, ne_eq, not_false_eq_true, if_true]
      | inr next =>
        have hh := step_shrinks sc p ud ch rest next hs
        exact parse_append_consuming sc next.2.2.length next.2.2 b next.1 next.2.1
          (Nat.le_refl _) hh.1

theorem andThen_norm_congr {σ : Type} (sc : Bool) (r1 r2 : Int × mqtt_parser_t σ × σ)
    (b : List Nat) (h : normResult r1 = normResult r2) :
    normResult (andThen sc r1 b) = normResult (andThen sc r2 b) := by
  have h1 : r1.1 = r2.1 := congrArg (fun x => x.1) h
  have h2 : normRequire r1.2.1 = normRequire r2.2.1 := congrArg (fun x => x.2.1) h
  have h3 : r1.2.2 = r2.2.2 := congrArg (fun x => x.2.2) h
  unfold andThen
  by_cases hz : r1.1 = 0
  · rw [if_neg (by simpa using hz), if_neg (by rw [← h1]; simpa using hz), ← h3]
    exact parse_norm_congr sc _ _ _ _ h2
  · rw [if_pos hz, if_pos (by rw [← h1]; exact hz)]
    exact h

theorem feedChunks_cons {σ : Type} (sc : Bool) (p : mqtt_parser_t σ) (ud : σ) (c : List Nat)
    (cs : List (List Nat)) :
    feedChunks sc p ud (c :: cs)
      = if (mqtt__parse_bytes sc p ud c).1 ≠ 0 then mqtt__parse_bytes sc p ud c
        else feedChunks sc (mqtt__parse_bytes sc p ud c).2.1 (mqtt__parse_bytes sc p ud c).2.2 cs :=
  rfl

/-- C2 (amended). Chunking invariance of the incremental parser: for every initial
parser state (with any callbacks and user data), every byte sequence and every way
of cutting it into consecutive chunks, feeding the chunks in order to `mqtt__parse`,
stopping at the first error, gives the same return code, the same user data (hence
the same callback invocations with the same packets) and the same final parser
state as one call on the whole sequence, except for the field `require` when the
final state is `MQTT_ST_FIXED`, where that field is dead. -/
theorem C2_chunking_invariance {σ : Type} (signedChar : Bool) (p : mqtt_parser_t σ) (ud : σ)
    (chunks : List (List Nat)) :
    (feedChunks signedChar p ud chunks).1
      = (mqtt__parse_bytes signedChar p ud chunks.flatten).1 ∧
    (feedChunks signedChar p ud chunks).2.2
      = (mqtt__parse_bytes signedChar p ud chunks.flatten).2.2 ∧
    normRequire (feedChunks signedChar p ud chunks).2.1
      = normRequire (mqtt__parse_bytes signedChar p ud chunks.flatten).2.1 := by
  have key : ∀ (chunks : List (List Nat)) (p : mqtt_parser_t σ) (ud : σ),
      normResult (feedChunks signedChar p ud chunks)
        = normResult (mqtt__parse_bytes signedChar p ud chunks.flatten) := by
    intro chunks
    induction chunks with
    | nil => intro p ud; rfl
    | cons c cs ih =>
      intro p ud
      rw [List.flatten_cons, parse_append, feedChunks_cons]
      unfold andThen
      split
      · rfl
      · rw [ih]
  have h := key chunks p ud
  exact ⟨congrArg (fun x => x.1) h, congrArg (fun x => x.2.2) h, congrArg (fun x => x.2.1) h⟩

/-- C2 (counterexample). The PUBACK `40 02 00 01` fed to an authenticated parser in
one call leaves the parser with `require = 2`; fed as the chunks `40 02 00` and `01`
it leaves the parser with `require = 1`: the final parser states differ (both calls
succeed and invoke the PUBACK callback once with packet id 1). -/
theorem C2_require_depends_on_chunking :
    (mqtt__parse_bytes true authParser [] [0x40, 0x02, 0x00, 0x01]).1 = 0 ∧
    (mqtt__parse_bytes true authParser [] [0x40, 0x02, 0x00, 0x01]).2.1.require = 2 ∧
    (feedChunks true authParser [] [[0x40, 0x02, 0x00], [0x01]]).1 = 0 ∧
    (feedChunks true authParser [] [[0x40, 0x02, 0x00], [0x01]]).2.1.require = 1 ∧
    (feedChunks true authParser [] [[0x40, 0x02, 0x00], [0x01]]).2.2.map
      (fun o => (o.h.type, o.packet_id)) = [(PUBACK, 1)] ∧
    (mqtt__parse_bytes true authParser [] [0x40, 0x02, 0x00, 0x01]).2.2.map
      (fun o => (o.h.type, o.packet_id)) = [(PUBACK, 1)] := by
  decide

theorem parse_induction {σ : Type} (sc : Bool)
    (motive : mqtt_parser_t σ → σ → List Nat → Int × mqtt_parser_t σ × σ → Prop)
    (hnil : ∀ p ud, motive p ud [] (0, p, ud))
    (hinl : ∀ p ud ch rest r, mqtt__parse_step sc p ud ch rest = Sum.inl r →
      motive p ud (ch :: rest) r)
    (hinr : ∀ p ud ch rest next, mqtt__parse_step sc p ud ch rest = Sum.inr next →
      motive next.1 next.2.1 next.2.2 (mqtt__parse_bytes sc next.1 next.2.1 next.2.2) →
      motive p ud (ch :: rest) (mqtt__parse_bytes sc next.1 next.2.1 next.2.2)) :
    ∀ p ud c, motive p ud c (mqtt__parse_bytes sc p ud c) := by
  have cons : ∀ n, ∀ (c : List Nat) (p : mqtt_parser_t σ) (ud : σ), c.length ≤ n → Consuming p →
      motive p ud c (mqtt__parse_bytes sc p ud c) := by
    intro n
    induction n with
    | zero =>
      intro c p ud hc _
      have : c = [] := List.eq_nil_of_length_eq_zero (by omega)
      subst this
      exact hnil p ud
    | succ n ih =>
      intro c p ud hc hp
      cases c with
      | nil => exact hnil p ud
      | cons ch rest =>
        rw [parse_cons]
        cases hs : mqtt__parse_step sc p ud ch rest with
        | inl r => exact hinl p ud ch rest r hs
        | inr next =>
          have hh := step_shrinks sc p ud ch rest next hs
          simp only [List.length_cons] at hc
          exact hinr p ud ch rest next hs
            (ih next.2.2 next.1 next.2.1 (by have := hh.2.2 hp; omega) hh.1)
  intro p ud c
  cases c with
  | nil => exact hnil p ud
  | cons ch rest =>
    rw [parse_cons]
    cases hs : mqtt__parse_step sc p ud ch rest with
    | inl r => exact hinl p ud ch rest r hs
    | inr next =>
      have hh := step_shrinks sc p ud ch rest next hs
      exact hinr p ud ch rest next hs (cons _ next.2.2 next.1 next.2.1 (Nat.le_refl _) hh.1)

theorem step_preserves {σ : Type} (sc : Bool) (I : mqtt_parser_t σ → σ → Prop)
    (h1 : ∀ p q ud, p.auth = q.auth → p.cb = q.cb → I p ud → I q ud)
    (h2 : ∀ p ud, I p ud → I (__process sc p ud).2.1 (__process sc p ud).2.2)
    (p : mqtt_parser_t σ) (ud : σ) (ch : Nat) (rest : List Nat) (hI : I p ud) :
    (∀ r, mqtt__parse_step sc p ud ch rest = Sum.inl r → I r.2.1 r.2.2) ∧
    (∀ next, mqtt__parse_step sc p ud ch rest = Sum.inr next → I next.1 next.2.1) := by
  have hpf : ∀ q, q.auth = p.auth → q.cb = p.cb →
      I (processAndFree sc q ud).2.1 (processAndFree sc q ud).2.2 := by
    intro q ha hc
    exact h1 (__process sc q ud).2.1 (processAndFree sc q ud).2.1 _ rfl rfl
      (h2 q ud (h1 p q ud ha.symm hc.symm hI))
  unfold mqtt__parse_step
  split
  · refine ⟨fun r h => by simp at h, fun next h => ?_⟩
    simp only [Sum.inr.injEq] at h
    subst h
    exact h1 p _ ud rfl rfl hI
  · simp only []
    split
    · refine ⟨fun r h => ?_, fun next h => by simp at h⟩
      simp only [Sum.inl.injEq] at h
      subst h
      exact h1 p _ ud rfl rfl hI
    · split
      · split
        · refine ⟨fun r h => by simp at h, fun next h => ?_⟩
          simp only [Sum.inr.injEq] at h
          subst h
          exact h1 p _ ud rfl rfl hI
        · split
          · refine ⟨fun r h => ?_, fun next h => by simp at h⟩
            simp only [Sum.inl.injEq] at h
            subst h
            exact hpf _ rfl rfl
          · refine ⟨fun r h => by simp at h, fun next h => ?_⟩
            simp only [Sum.inr.injEq] at h
            subst h
            exact hpf _ rfl rfl
      · refine ⟨fun r h => by simp at h, fun next h => ?_⟩
        simp only [Sum.inr.injEq] at h
        subst h
        exact h1 p _ ud rfl rfl hI
  · simp only []
    split
    · split
      · refine ⟨fun r h => ?_, fun next h => by simp at h⟩
        simp only [Sum.inl.injEq] at h
        subst h
        exact hpf _ rfl rfl
      · refine ⟨fun r h => by simp at h, fun next h => ?_⟩
        simp only [Sum.inr.injEq] at h
        subst h
        exact hpf _ rfl rfl
    · refine ⟨fun r h => by simp at h, fun next h => ?_⟩
      simp only [Sum.inr.injEq] at h
      subst h
      exact h1 p _ ud rfl rfl hI

theorem parse_preserves {σ : Type} (sc : Bool) (I : mqtt_parser_t σ → σ → Prop)
    (h1 : ∀ p q ud, p.auth = q.auth → p.cb = q.cb → I p ud → I q ud)
    (h2 : ∀ p ud, I p ud → I (__process sc p ud).2.1 (__process sc p ud).2.2)
    (p : mqtt_parser_t σ) (ud : σ) (c : List Nat) (hI : I p ud) :
    I (mqtt__parse_bytes sc p ud c).2.1 (mqtt__parse_bytes sc p ud c).2.2 := by
  refine parse_induction sc (fun p ud _ r => I p ud → I r.2.1 r.2.2) ?_ ?_ ?_ p ud c hI
  · intro p ud h
    exact h
  · intro p ud ch rest r hs h
    exact (step_preserves sc I h1 h2 p ud ch rest h).1 r hs
  · intro p ud ch rest next hs ih h
    exact ih ((step_preserves sc I h1 h2 p ud ch rest h).2 next hs)
theorem m1_ne_zero : (-1 : Int) ≠ 0 := by decide

theorem validates_connect {σ : Type} : Validates (σ := σ) __process_connect := by
  intro p ud cb
  unfold __process_connect
  simp only []
  split
  · exact Or.inl ⟨m1_ne_zero, rfl⟩
  · split
    · split
      · exact Or.inl ⟨m1_ne_zero, rfl⟩
      · split
        · exact Or.inl ⟨m1_ne_zero, rfl⟩
        · exact Or.inr rfl
    · split
      · exact Or.inl ⟨m1_ne_zero, rfl⟩
      · split
        · exact Or.inl ⟨m1_ne_zero, rfl⟩
        · exact Or.inr rfl

theorem validates_connack {σ : Type} : Validates (σ := σ) __process_connack := by
  intro p ud cb
  unfold __process_connack
  split
  · exact Or.inl ⟨m1_ne_zero, rfl⟩
  · exact Or.inr rfl

theorem validates_publish {σ : Type} : Validates (σ := σ) __process_publish := by
  intro p ud cb
  unfold __process_publish
  split
  · exact Or.inl ⟨m1_ne_zero, rfl⟩
  · split
    · exact Or.inl ⟨m1_ne_zero, rfl⟩
    · exact Or.inr rfl

theorem validates_plain {σ : Type} : Validates (σ := σ) __process_plain :=
  fun _ _ _ => Or.inr rfl

theorem validates_pubrel {σ : Type} : Validates (σ := σ) __process_pubrel := by
  intro p ud cb
  unfold __process_pubrel
  split
  · exact Or.inl ⟨m1_ne_zero, rfl⟩
  · exact Or.inr rfl

theorem validates_subscribe {σ : Type} : Validates (σ := σ) __process_subscribe := by
  intro p ud cb
  unfold __process_subscribe
  simp only []
  split
  · exact Or.inl ⟨m1_ne_zero, rfl⟩
  · split
    · exact Or.inl ⟨m1_ne_zero, rfl⟩
    · exact Or.inr rfl

theorem validates_unsubscribe {σ : Type} : Validates (σ := σ) __process_unsubscribe := by
  intro p ud cb
  unfold __process_unsubscribe
  simp only []
  split
  · exact Or.inl ⟨m1_ne_zero, rfl⟩
  · split
    · exact Or.inl ⟨m1_ne_zero, rfl⟩
    · exact Or.inr rfl

theorem parseThenProcess_cases {σ : Type} (r : Int × mqtt_packet)
    (process : mqtt_packet → σ → mqtt_cb σ → Int × σ) (hv : Validates process) (ud : σ)
    (cb : mqtt_cb σ) :
    ((parseThenProcess r process ud cb).1 ≠ 0 ∧ (parseThenProcess r process ud cb).2.2 = ud) ∨
    (r.1 = 0 ∧ (parseThenProcess r process ud cb).1 = (cb ud r.2).1 ∧
      (parseThenProcess r process ud cb).2.2 = (cb ud r.2).2) := by
  unfold parseThenProcess
  split
  · rename_i h0
    rcases hv r.2 ud cb with h | h
    · exact Or.inl h
    · exact Or.inr ⟨h0, by rw [h], by rw [h]⟩
  · rename_i h0
    exact Or.inl ⟨h0, rfl⟩

theorem processSwitch_cases {σ : Type} (sc : Bool) (type : Int) (pkt : mqtt_packet) (b : mqtt_b)
    (ud : σ) (cb : mqtt_cb σ) :
    ((processSwitch sc type pkt b ud cb).1 ≠ 0 ∧ (processSwitch sc type pkt b ud cb).2.2 = ud) ∨
    (∃ q, (processSwitch sc type pkt b ud cb).1 = (cb ud q).1 ∧
      (processSwitch sc type pkt b ud cb).2.2 = (cb ud q).2) := by
  have gen : ∀ (r : Int × mqtt_packet) (process : mqtt_packet → σ → mqtt_cb σ → Int × σ),
      Validates process →
      ((parseThenProcess r process ud cb).1 ≠ 0 ∧ (parseThenProcess r process ud cb).2.2 = ud) ∨
      (∃ q, (parseThenProcess r process ud cb).1 = (cb ud q).1 ∧
        (parseThenProcess r process ud cb).2.2 = (cb ud q).2) := by
    intro r process hv
    rcases parseThenProcess_cases r process hv ud cb with h | h
    · exact Or.inl h
    · exact Or.inr ⟨r.2, h.2⟩
  unfold processSwitch
  by_cases h1 : type = CONNECT
  · rw [if_pos h1]; exact gen _ _ validates_connect
  rw [if_neg h1]
  by_cases h2 : type = CONNACK
  · rw [if_pos h2]; exact gen _ _ validates_connack
  rw [if_neg h2]
  by_cases h3 : type = PUBLISH
  · rw [if_pos h3]; exact gen _ _ validates_publish
  rw [if_neg h3]
  by_cases h4 : type = PUBACK
  · rw [if_pos h4]; exact gen _ _ validates_plain
  rw [if_neg h4]
  by_cases h5 : type = PUBREC
  · rw [if_pos h5]; exact gen _ _ validates_plain
  rw [if_neg h5]
  by_cases h6 : type = PUBREL
  · rw [if_pos h6]; exact gen _ _ validates_pubrel
  rw [if_neg h6]
  by_cases h7 : type = PUBCOMP
  · rw [if_pos h7]; exact gen _ _ validates_plain
  rw [if_neg h7]
  by_cases h8 : type = SUBSCRIBE
  · rw [if_pos h8]; exact gen _ _ validates_subscribe
  rw [if_neg h8]
  by_cases h9 : type = SUBACK
  · rw [if_pos h9]; exact gen _ _ validates_plain
  rw [if_neg h9]
  by_cases h10 : type = UNSUBSCRIBE
  · rw [if_pos h10]; exact gen _ _ validates_unsubscribe
  rw [if_neg h10]
  by_cases h11 : type = UNSUBACK
  · rw [if_pos h11]; exact gen _ _ validates_plain
  rw [if_neg h11]
  by_cases h12 : type = PINGREQ
  · rw [if_pos h12]; exact gen _ _ validates_plain
  rw [if_neg h12]
  by_cases h13 : type = PINGRESP
  · rw [if_pos h13]; exact gen _ _ validates_plain
  rw [if_neg h13]
  by_cases h14 : type = DISCONNECT
  · rw [if_pos h14]; exact gen _ _ validates_plain
  rw [if_neg h14]
  exact Or.inl ⟨m1_ne_zero, rfl⟩

theorem process_cases {σ : Type} (sc : Bool) (p : mqtt_parser_t σ) (ud : σ) :
    ((__process sc p ud).1 ≠ 0 ∧ (__process sc p ud).2.2 = ud ∧
      (__process sc p ud).2.1.auth = p.auth) ∨
    (∃ f q, p.cb p.p.h.type = some f ∧
      (p.auth ≠ 0 ∨ p.p.h.type = CONNECT ∨ p.p.h.type = CONNACK) ∧
      (__process sc p ud).1 = (f ud q).1 ∧ (__process sc p ud).2.2 = (f ud q).2 ∧
      (__process sc p ud).2.1.auth
        = if (f ud q).1 = 0 ∧ (p.p.h.type = CONNECT ∨ p.p.h.type = CONNACK) then 1 else p.auth) := by
  unfold __process
  simp only []
  split
  · exact Or.inl ⟨m1_ne_zero, rfl, rfl⟩
  · rename_i hgate
    have hg : p.auth ≠ 0 ∨ p.p.h.type = CONNECT ∨ p.p.h.type = CONNACK := by
      by_contra hh
      push_neg at hh
      exact hgate ⟨hh.1, hh.2.1, hh.2.2⟩
    split
    · exact Or.inl ⟨m1_ne_zero, rfl, rfl⟩
    · rename_i f hf
      rcases processSwitch_cases sc p.p.h.type p.p p.remaining ud f with h | ⟨q, hq1, hq2⟩
      · left
        rw [if_pos h.1]
        exact ⟨h.1, h.2, rfl⟩
      · right
        refine ⟨f, q, hf, hg, ?_⟩
        by_cases hz : (processSwitch sc p.p.h.type p.p p.remaining ud f).1 = 0
        · rw [if_neg (by simpa using hz)]
          by_cases ht : p.p.h.type = CONNECT ∨ p.p.h.type = CONNACK
          · rw [if_pos ht]
            refine ⟨by rw [← hq1, hz], hq2, ?_⟩
            rw [if_pos ⟨by rw [← hq1, hz], ht⟩]
          · rw [if_neg ht]
            refine ⟨by rw [← hq1, hz], hq2, ?_⟩
            rw [if_neg (fun hh => ht hh.2)]
        · rw [if_pos hz]
          refine ⟨hq1, hq2, ?_⟩
          rw [if_neg (fun hh => hz (by rw [hq1]; exact hh.1))]
theorem process_gate {σ : Type} (sc : Bool) (p : mqtt_parser_t σ) (ud : σ) (ha : p.auth = 0)
    (h1 : p.p.h.type ≠ CONNECT) (h2 : p.p.h.type ≠ CONNACK) :
    __process sc p ud = (-1, p, ud) := by
  unfold __process
  simp only []
  rw [if_pos ⟨ha, h1, h2⟩]

theorem processAndFree_gate {σ : Type} (sc : Bool) (p : mqtt_parser_t σ) (ud : σ)
    (ha : p.auth = 0) (h1 : p.p.h.type ≠ CONNECT) (h2 : p.p.h.type ≠ CONNACK) :
    (processAndFree sc p ud).1 = -1 ∧ (processAndFree sc p ud).2.1.auth = 0 ∧
    (processAndFree sc p ud).2.2 = ud := by
  unfold processAndFree
  rw [process_gate sc p ud ha h1 h2]
  exact ⟨rfl, ha, rfl⟩

theorem dispatchStep_gate {σ : Type} (sc : Bool) (p : mqtt_parser_t σ) (ud : σ) (unread : List Nat)
    (ha : p.auth = 0) (h1 : p.p.h.type ≠ CONNECT) (h2 : p.p.h.type ≠ CONNACK) :
    dispatchStep sc p ud unread = Sum.inl (processAndFree sc p ud) := by
  unfold dispatchStep
  rw [if_pos (by rw [(processAndFree_gate sc p ud ha h1 h2).1]; exact m1_ne_zero)]

theorem parse_gate_remain {σ : Type} (sc : Bool) (p : mqtt_parser_t σ) (ud : σ) (c : List Nat)
    (ha : p.auth = 0) (h1 : p.p.h.type ≠ CONNECT) (h2 : p.p.h.type ≠ CONNACK)
    (hst : p.state = mqtt_parser_state.MQTT_ST_REMAIN) (hne : c ≠ [])
    (hreq : p.require ≤ (c.length : Int)) :
    (mqtt__parse_bytes sc p ud c).1 = -1 ∧ (mqtt__parse_bytes sc p ud c).2.1.auth = 0 ∧
    (mqtt__parse_bytes sc p ud c).2.2 = ud := by
  cases c with
  | nil => exact absurd rfl hne
  | cons ch rest =>
    rw [parse_cons, step_remain_complete sc p ud ch rest hst hreq,
      dispatchStep_gate sc (remainFill p _) ud _ ha h1 h2]
    exact processAndFree_gate sc (remainFill p _) ud ha h1 h2

theorem step_length_empty {σ : Type} (sc : Bool) (p : mqtt_parser_t σ) (ud : σ) (ch : Nat)
    (rest : List Nat) (hst : p.state = mqtt_parser_state.MQTT_ST_LENGTH)
    (hm : ¬ p.multiplier * 128 > 128 * 128 * 128) (hlast : charVal sc ch / 128 % 2 = 0)
    (hzero : ¬ p.remaining.n + charVal sc ch % 128 * p.multiplier > 0) :
    mqtt__parse_step sc p ud ch rest
      = dispatchStep sc { p with
          remaining := { p.remaining with n := p.remaining.n + charVal sc ch % 128 * p.multiplier }
          multiplier := p.multiplier * 128
          require := p.remaining.n + charVal sc ch % 128 * p.multiplier
          state := mqtt_parser_state.MQTT_ST_FIXED } ud rest := by
  unfold mqtt__parse_step
  split
  · simp_all
  · simp only []
    rw [if_neg hm, if_pos hlast, if_neg hzero]
    rfl
  · simp_all

theorem parse_gate_length {σ : Type} (sc : Bool) (p : mqtt_parser_t σ) (ud : σ) (ch : Nat)
    (rest : List Nat) (ha : p.auth = 0) (h1 : p.p.h.type ≠ CONNECT) (h2 : p.p.h.type ≠ CONNACK)
    (hst : p.state = mqtt_parser_state.MQTT_ST_LENGTH)
    (hm : ¬ p.multiplier * 128 > 128 * 128 * 128) (hlast : charVal sc ch / 128 % 2 = 0)
    (hzero : ¬ p.remaining.n + charVal sc ch % 128 * p.multiplier > 0) :
    (mqtt__parse_bytes sc p ud (ch :: rest)).1 = -1 ∧
    (mqtt__parse_bytes sc p ud (ch :: rest)).2.1.auth = 0 ∧
    (mqtt__parse_bytes sc p ud (ch :: rest)).2.2 = ud := by
  rw [parse_cons, step_length_empty sc p ud ch rest hst hm hlast hzero]
  obtain ⟨q, hq⟩ : ∃ q : mqtt_parser_t σ, q = { p with
      remaining := { p.remaining with n := p.remaining.n + charVal sc ch % 128 * p.multiplier }
      multiplier := p.multiplier * 128
      require := p.remaining.n + charVal sc ch % 128 * p.multiplier
      state := mqtt_parser_state.MQTT_ST_FIXED } := ⟨_, rfl⟩
  rw [← hq]
  have qa : q.auth = 0 := by rw [hq]; exact ha
  have q1 : q.p.h.type ≠ CONNECT := by rw [hq]; exact h1
  have q2 : q.p.h.type ≠ CONNACK := by rw [hq]; exact h2
  rw [dispatchStep_gate sc q ud _ qa q1 q2]
  exact processAndFree_gate sc q ud qa q1 q2

theorem process_fail_auth {σ : Type} (sc : Bool) (p : mqtt_parser_t σ) (ud : σ)
    (h : (__process sc p ud).1 ≠ 0) : (__process sc p ud).2.1.auth = p.auth := by
  rcases process_cases sc p ud with hA | ⟨f, q, _, _, h1, _, h3⟩
  · exact hA.2.2
  · rw [h3, if_neg (fun hh => h (by rw [h1]; exact hh.1))]

theorem process_auth_kept {σ : Type} (sc : Bool) (p : mqtt_parser_t σ) (ud : σ)
    (h : p.auth ≠ 0) : (__process sc p ud).2.1.auth ≠ 0 := by
  rcases process_cases sc p ud with hA | ⟨f, q, _, _, _, _, h3⟩
  · rw [hA.2.2]; exact h
  · rw [h3]
    split
    · decide
    · exact h

theorem parse_auth_kept {σ : Type} (sc : Bool) (p : mqtt_parser_t σ) (ud : σ) (c : List Nat)
    (h : p.auth ≠ 0) : (mqtt__parse_bytes sc p ud c).2.1.auth ≠ 0 :=
  parse_preserves sc (fun p _ => p.auth ≠ 0)
    (fun p q _ ha _ hp => by
      show q.auth ≠ 0
      rw [← ha]
      exact hp)
    (fun p ud hp => process_auth_kept sc p ud hp) p ud c h

theorem gate_append (log : List (Int × Int)) (e : Int × Int) (h : GateRespected log)
    (he : e.1 ≠ CONNECT → e.1 ≠ CONNACK → ∃ a ∈ log, Accepted a) :
    GateRespected (log ++ [e]) := by
  intro pre post x hx hx1 hx2
  rcases List.eq_nil_or_concat post with hp | ⟨post1, l, hp⟩
  · subst hp
    have := List.append_inj' hx (by simp)
    obtain ⟨e1, e2⟩ := this
    simp only [List.cons.injEq, and_true] at e2
    subst e1 e2
    exact he hx1 hx2
  · subst hp
    have hx3 : log ++ [e] = (pre ++ x :: post1) ++ [l] := by
      rw [hx]; simp
    have := List.append_inj' hx3 (by simp)
    exact h pre post1 x this.1 hx1 hx2
theorem gateInv_process {σ : Type} (sc : Bool) (cb : Int → Option (mqtt_cb σ))
    (p : mqtt_parser_t (σ × List (Int × Int))) (ud : σ × List (Int × Int))
    (h : GateInv cb p ud) :
    GateInv cb (__process sc p ud).2.1 (__process sc p ud).2.2 := by
  obtain ⟨hcb, hlog, hauth⟩ := h
  have hcb2 : (__process sc p ud).2.1.cb = tracedTable cb := by
    rw [(process_state sc p ud).2.2.2.2, hcb]
  rcases process_cases sc p ud with hA | ⟨f, q, hf, hg, h1, h2, h3⟩
  · refine ⟨hcb2, ?_, ?_⟩
    · rw [hA.2.1]; exact hlog
    · rw [hA.2.1, hA.2.2]; exact hauth
  · rw [hcb] at hf
    unfold tracedTable at hf
    cases hg0 : cb p.p.h.type with
    | none => rw [hg0] at hf; simp at hf
    | some g =>
      rw [hg0] at hf
      simp only [Option.map_some', Option.some.injEq] at hf
      subst hf
      have hlog2 : (__process sc p ud).2.2.2 = ud.2 ++ [(p.p.h.type, (g ud.1 q).1)] := by
        rw [h2]; rfl
      have hrc : (tracedCb p.p.h.type g ud q).1 = (g ud.1 q).1 := rfl
      refine ⟨hcb2, ?_, ?_⟩
      · rw [hlog2]
        apply gate_append _ _ hlog
        intro e1 e2
        rcases hg with ha | ht | ht
        · exact hauth ha
        · exact absurd ht e1
        · exact absurd ht e2
      · intro hnew
        rw [hlog2]
        rw [h3, hrc] at hnew
        by_cases hacc : (g ud.1 q).1 = 0 ∧ (p.p.h.type = CONNECT ∨ p.p.h.type = CONNACK)
        · exact ⟨(p.p.h.type, (g ud.1 q).1), by simp, ⟨hacc.2, hacc.1⟩⟩
        · rw [if_neg hacc] at hnew
          obtain ⟨a, ha1, ha2⟩ := hauth hnew
          exact ⟨a, List.mem_append_left _ ha1, ha2⟩

theorem gateInv_parse {σ : Type} (sc : Bool) (cb : Int → Option (mqtt_cb σ))
    (p : mqtt_parser_t (σ × List (Int × Int))) (ud : σ × List (Int × Int)) (c : List Nat)
    (h : GateInv cb p ud) :
    GateInv cb (mqtt__parse_bytes sc p ud c).2.1 (mqtt__parse_bytes sc p ud c).2.2 :=
  parse_preserves sc (GateInv cb)
    (fun p q ud ha hc hp => by
      obtain ⟨h1, h2, h3⟩ := hp
      exact ⟨by rw [← hc]; exact h1, h2, by rw [← ha]; exact h3⟩)
    (fun p ud hp => gateInv_process sc cb p ud hp) p ud c h

theorem gateInv_feedAll {σ : Type} (sc : Bool) (cb : Int → Option (mqtt_cb σ))
    (chunks : List (List Nat)) :
    ∀ (p : mqtt_parser_t (σ × List (Int × Int))) (ud : σ × List (Int × Int)),
      GateInv cb p ud →
      GateInv cb (feedAll sc p ud chunks).1 (feedAll sc p ud chunks).2 := by
  induction chunks with
  | nil => intro p ud h; exact h
  | cons c cs ih =>
    intro p ud h
    exact ih _ _ (gateInv_parse sc cb p ud c h)

theorem gateInv_init {σ : Type} (cb : Int → Option (mqtt_cb σ)) (ud : σ) :
    GateInv cb { mqtt__parse_init (σ × List (Int × Int)) with cb := tracedTable cb } (ud, []) := by
  refine ⟨rfl, ?_, ?_⟩
  · intro pre post e he
    simp at he
  · intro h
    exact absurd rfl h

/-- C10. Authentication gate.  (1) On a parser initialised by `mqtt__parse_init`,
with any callbacks registered and any sequence of `mqtt__parse` calls on any
bytes, every invocation of a callback of a type other than CONNECT and CONNACK
comes after an invocation of the CONNECT or CONNACK callback that returned 0.
(2) While the flag is false, a packet of any other type that completes (its last
body byte arrives, or its length field ends with length 0) makes `mqtt__parse`
return -1 with the flag still false and no callback run.  (3) A `__process` that
fails, for whatever reason, leaves the flag as it was.  (4) Once the flag is set,
no call of `mqtt__parse` clears it. -/
theorem C10_authentication_gate {σ : Type} (signedChar : Bool) :
    (∀ (cb : Int → Option (mqtt_cb σ)) (ud : σ) (chunks : List (List Nat)),
      GateRespected (feedAll signedChar
        { mqtt__parse_init (σ × List (Int × Int)) with cb := tracedTable cb }
        (ud, []) chunks).2.2) ∧
    (∀ (p : mqtt_parser_t σ) (ud : σ) (c : List Nat),
      p.auth = 0 → p.p.h.type ≠ CONNECT → p.p.h.type ≠ CONNACK →
      p.state = mqtt_parser_state.MQTT_ST_REMAIN → c ≠ [] → p.require ≤ (c.length : Int) →
      (mqtt__parse_bytes signedChar p ud c).1 = -1 ∧
      (mqtt__parse_bytes signedChar p ud c).2.1.auth = 0 ∧
      (mqtt__parse_bytes signedChar p ud c).2.2 = ud) ∧
    (∀ (p : mqtt_parser_t σ) (ud : σ) (ch : Nat) (rest : List Nat),
      p.auth = 0 → p.p.h.type ≠ CONNECT → p.p.h.type ≠ CONNACK →
      p.state = mqtt_parser_state.MQTT_ST_LENGTH →
      ¬ p.multiplier * 128 > 128 * 128 * 128 → charVal signedChar ch / 128 % 2 = 0 →
      ¬ p.remaining.n + charVal signedChar ch % 128 * p.multiplier > 0 →
      (mqtt__parse_bytes signedChar p ud (ch :: rest)).1 = -1 ∧
      (mqtt__parse_bytes signedChar p ud (ch :: rest)).2.1.auth = 0 ∧
      (mqtt__parse_bytes signedChar p ud (ch :: rest)).2.2 = ud) ∧
    (∀ (p : mqtt_parser_t σ) (ud : σ),
      (__process signedChar p ud).1 ≠ 0 → (__process signedChar p ud).2.1.auth = p.auth) ∧
    (∀ (p : mqtt_parser_t σ) (ud : σ) (c : List Nat),
      p.auth ≠ 0 → (mqtt__parse_bytes signedChar p ud c).2.1.auth ≠ 0) :=
  ⟨fun cb ud chunks => (gateInv_feedAll signedChar cb chunks _ _ (gateInv_init cb ud)).2.1,
   fun p ud c => parse_gate_remain signedChar p ud c,
   fun p ud ch rest => parse_gate_length signedChar p ud ch rest,
   fun p ud => process_fail_auth signedChar p ud,
   fun p ud c => parse_auth_kept signedChar p ud c⟩
/-- C10 (witness). The theorem `C10_authentication_gate` on concrete inputs: the
stream PUBACK, CONNACK, PUBACK cut into three chunks (the first PUBACK is rejected
without a callback, the log is CONNACK accepted, then PUBACK); an unauthenticated
parser that has read `40 02` and receives the two body bytes; one that has read
`C0` and receives the length byte 0; a failing `__process`; an authenticated parser
that is fed a malformed CONNACK. -/
theorem C10_authentication_gate_witness :
    (feedAll true tracedParser ((), [])
        [[0x40, 0x02, 0x00, 0x01], [0x20, 0x02, 0x00, 0x00, 0x40], [0x02, 0x00, 0x01]]).2.2
      = [(CONNACK, 0), (PUBACK, 0)] ∧
    GateRespected (feedAll true tracedParser ((), [])
        [[0x40, 0x02, 0x00, 0x01], [0x20, 0x02, 0x00, 0x00, 0x40], [0x02, 0x00, 0x01]]).2.2 ∧
    ((mqtt__parse_bytes true (mqtt__parse_bytes true recordParser [] [0x40, 0x02]).2.1 []
        [0x00, 0x01]).1 = -1 ∧
      (mqtt__parse_bytes true (mqtt__parse_bytes true recordParser [] [0x40, 0x02]).2.1 []
        [0x00, 0x01]).2.1.auth = 0 ∧
      (mqtt__parse_bytes true (mqtt__parse_bytes true recordParser [] [0x40, 0x02]).2.1 []
        [0x00, 0x01]).2.2 = []) ∧
    ((mqtt__parse_bytes true (mqtt__parse_bytes true recordParser [] [0xC0]).2.1 []
        [0x00]).1 = -1 ∧
      (mqtt__parse_bytes true (mqtt__parse_bytes true recordParser [] [0xC0]).2.1 []
        [0x00]).2.1.auth = 0 ∧
      (mqtt__parse_bytes true (mqtt__parse_bytes true recordParser [] [0xC0]).2.1 []
        [0x00]).2.2 = []) ∧
    (__process true recordParser []).2.1.auth = recordParser.auth ∧
    (mqtt__parse_bytes true authParser [] [0x20, 0x02, 0x00, 0x09]).1 = -1 ∧
    (mqtt__parse_bytes true authParser [] [0x20, 0x02, 0x00, 0x09]).2.1.auth ≠ 0 :=
  ⟨by decide,
   (C10_authentication_gate true).1 (fun _ => some (fun ud _ => (0, ud))) () _,
   (C10_authentication_gate true).2.1 _ [] [0x00, 0x01] (by decide) (by decide) (by decide)
     (by decide) (by decide) (by decide),
   (C10_authentication_gate true).2.2.1 _ [] 0x00 [] (by decide) (by decide) (by decide)
     (by decide) (by decide) (by decide) (by decide),
   (C10_authentication_gate true).2.2.2.1 recordParser [] (by decide),
   by decide,
   (C10_authentication_gate true).2.2.2.2 authParser [] _ (by decide)⟩

theorem step_fixed {σ : Type} (sc : Bool) (p : mqtt_parser_t σ) (ud : σ) (ch : Nat)
    (rest : List Nat) (hst : p.state = mqtt_parser_state.MQTT_ST_FIXED) :
    mqtt__parse_step sc p ud ch rest
      = Sum.inr ({ p with
          p := { p.p with h := ⟨charVal sc ch / 16 % 16, charVal sc ch / 2 % 4,
            charVal sc ch / 8 % 2, charVal sc ch % 2⟩ }
          state := mqtt_parser_state.MQTT_ST_LENGTH
          multiplier := 1
          remaining := ⟨none, 0⟩
          require := 0 }, ud, rest) := by
  unfold mqtt__parse_step
  split
  · rfl
  · simp_all
  · simp_all

theorem step_length_last {σ : Type} (sc : Bool) (p : mqtt_parser_t σ) (ud : σ) (ch : Nat)
    (rest : List Nat) (hst : p.state = mqtt_parser_state.MQTT_ST_LENGTH)
    (hm : ¬ p.multiplier * 128 > 128 * 128 * 128) (hlast : charVal sc ch / 128 % 2 = 0)
    (hpos : p.remaining.n + charVal sc ch % 128 * p.multiplier > 0) :
    mqtt__parse_step sc p ud ch rest
      = Sum.inr ({ p with
          remaining := ⟨some [], p.remaining.n + charVal sc ch % 128 * p.multiplier⟩
          multiplier := p.multiplier * 128
          require := p.remaining.n + charVal sc ch % 128 * p.multiplier
          state := mqtt_parser_state.MQTT_ST_REMAIN }, ud, rest) := by
  unfold mqtt__parse_step
  split
  · simp_all
  · simp only []
    rw [if_neg hm, if_pos hlast, if_pos hpos]
  · simp_all

theorem step_length_more {σ : Type} (sc : Bool) (p : mqtt_parser_t σ) (ud : σ) (ch : Nat)
    (rest : List Nat) (hst : p.state = mqtt_parser_state.MQTT_ST_LENGTH)
    (hm : ¬ p.multiplier * 128 > 128 * 128 * 128) (hmore : ¬ charVal sc ch / 128 % 2 = 0) :
    mqtt__parse_step sc p ud ch rest
      = Sum.inr ({ p with
          remaining := { p.remaining with n := p.remaining.n + charVal sc ch % 128 * p.multiplier }
          multiplier := p.multiplier * 128 }, ud, rest) := by
  unfold mqtt__parse_step
  split
  · simp_all
  · simp only []
    rw [if_neg hm, if_neg hmore]
  · simp_all

theorem step_length_overflow {σ : Type} (sc : Bool) (p : mqtt_parser_t σ) (ud : σ) (ch : Nat)
    (rest : List Nat) (hst : p.state = mqtt_parser_state.MQTT_ST_LENGTH)
    (hm : p.multiplier * 128 > 128 * 128 * 128) :
    mqtt__parse_step sc p ud ch rest
      = Sum.inl (-1, { p with
          remaining := { p.remaining with n := p.remaining.n + charVal sc ch % 128 * p.multiplier }
          multiplier := p.multiplier * 128 }, ud) := by
  unfold mqtt__parse_step
  split
  · simp_all
  · simp only []
    rw [if_pos hm]
  · simp_all

theorem charVal_mod128 (sc : Bool) (b : Nat) :
    charVal sc b % 128 = ((b % 128 : Nat) : Int) := by
  unfold charVal
  split <;> omega

theorem charVal_bit7 (sc : Bool) (b : Nat) (hb : b < 256) :
    charVal sc b / 128 % 2 = ((b / 128 : Nat) : Int) := by
  unfold charVal
  split <;> omega

theorem charVal_small (sc : Bool) (b : Nat) (hb : b < 128) : charVal sc b = (b : Int) := by
  unfold charVal
  split
  · rename_i h
    simp only [Bool.and_eq_true, decide_eq_true_eq] at h
    omega
  · rfl

theorem processSwitch_id {σ : Type} (sc : Bool) (t : Int) (pkt : mqtt_packet) (b : mqtt_b)
    (ud : σ) (cb : mqtt_cb σ) (ht : t = PUBACK ∨ t = PUBREC ∨ t = PUBCOMP ∨ t = UNSUBACK) :
    processSwitch sc t pkt b ud cb
      = parseThenProcess (__parse_id sc pkt b) __process_plain ud cb := by
  rcases ht with h | h | h | h <;> subst h <;> rfl

theorem processSwitch_pubrel {σ : Type} (sc : Bool) (pkt : mqtt_packet) (b : mqtt_b)
    (ud : σ) (cb : mqtt_cb σ) :
    processSwitch sc PUBREL pkt b ud cb
      = parseThenProcess (__parse_id sc pkt b) __process_pubrel ud cb := rfl

theorem parse_id_two (sc : Bool) (pkt : mqtt_packet) (hi lo : Nat) :
    __parse_id sc pkt ⟨some [hi, lo], 2⟩
      = (0, pkt.setPacketId (charVal sc hi * 256 + charVal sc lo)) := rfl

theorem process_ack {σ : Type} (sc : Bool) (q : mqtt_parser_t σ) (ud : σ) (hi lo : Nat)
    (f : mqtt_cb σ) (hauth : q.auth ≠ 0)
    (ht : q.p.h.type = PUBACK ∨ q.p.h.type = PUBREC ∨ q.p.h.type = PUBCOMP ∨
      q.p.h.type = UNSUBACK ∨ (q.p.h.type = PUBREL ∧ q.p.h.qos = MQTT_QOS_1))
    (hcb : q.cb q.p.h.type = some f) (hrem : q.remaining = ⟨some [hi, lo], 2⟩) :
    (__process sc q ud).1
      = (f ud (q.p.setPacketId (charVal sc hi * 256 + charVal sc lo))).1 ∧
    (__process sc q ud).2.2
      = (f ud (q.p.setPacketId (charVal sc hi * 256 + charVal sc lo))).2 := by
  have hgate : ¬ (q.auth = 0 ∧ (q.p.h.type ≠ CONNECT ∧ q.p.h.type ≠ CONNACK)) :=
    fun hh => hauth hh.1
  have hnc : ¬ (q.p.h.type = CONNECT ∨ q.p.h.type = CONNACK) := by
    rcases ht with h | h | h | h | h
    · rw [h]; decide
    · rw [h]; decide
    · rw [h]; decide
    · rw [h]; decide
    · rw [h.1]; decide
  have hsw : processSwitch sc q.p.h.type q.p q.remaining ud f
      = ((f ud (q.p.setPacketId (charVal sc hi * 256 + charVal sc lo))).1,
         q.p.setPacketId (charVal sc hi * 256 + charVal sc lo),
         (f ud (q.p.setPacketId (charVal sc hi * 256 + charVal sc lo))).2) := by
    rw [hrem]
    rcases ht with h | h | h | h | h
    · rw [processSwitch_id sc _ _ _ _ _ (Or.inl h), parse_id_two]; rfl
    · rw [processSwitch_id sc _ _ _ _ _ (Or.inr (Or.inl h)), parse_id_two]; rfl
    · rw [processSwitch_id sc _ _ _ _ _ (Or.inr (Or.inr (Or.inl h))), parse_id_two]; rfl
    · rw [processSwitch_id sc _ _ _ _ _ (Or.inr (Or.inr (Or.inr h))), parse_id_two]; rfl
    · rw [h.1, processSwitch_pubrel, parse_id_two]
      unfold parseThenProcess __process_pubrel
      have hqq : (q.p.setPacketId (charVal sc hi * 256 + charVal sc lo)).h.qos = MQTT_QOS_1 :=
        h.2
      simp only [hqq, ne_eq, not_true_eq_false, if_false, if_true]
  unfold __process
  simp only []
  rw [if_neg hgate, hcb]
  simp only []
  rw [hsw]
  simp only [hnc, if_false]
  split
  · exact ⟨rfl, rfl⟩
  · rename_i hz
    simp only [ne_eq, Decidable.not_not] at hz
    exact ⟨hz.symm, rfl⟩

/-- Decoding of a packet that carries a packet id only (PUBACK, PUBREC, PUBCOMP,
UNSUBACK, and PUBREL with the QoS bits 01), for every authenticated parser in
state `MQTT_ST_FIXED`, every callback and both signednesses of `char`: the callback
of the type is invoked once, on the parser's packet with the header of the first
byte and with the packet id `(hi * 256 + lo) mod 65536`, where `hi` and `lo` are
the two body bytes read as `char`; `mqtt__parse` returns what the callback returns. -/
theorem parse_ack_packet {σ : Type} (sc : Bool) (p : mqtt_parser_t σ) (ud : σ)
    (first hi lo : Nat) (f : mqtt_cb σ)
    (hst : p.state = mqtt_parser_state.MQTT_ST_FIXED) (hauth : p.auth ≠ 0)
    (ht : charVal sc first / 16 % 16 = PUBACK ∨ charVal sc first / 16 % 16 = PUBREC ∨
      charVal sc first / 16 % 16 = PUBCOMP ∨ charVal sc first / 16 % 16 = UNSUBACK ∨
      (charVal sc first / 16 % 16 = PUBREL ∧ charVal sc first / 2 % 4 = MQTT_QOS_1))
    (hcb : p.cb (charVal sc first / 16 % 16) = some f) :
    (mqtt__parse_bytes sc p ud [first, 0x02, hi, lo]).1
      = (f ud (mqtt_packet.setPacketId
          { p.p with h := ⟨charVal sc first / 16 % 16, charVal sc first / 2 % 4,
            charVal sc first / 8 % 2, charVal sc first % 2⟩ }
          (charVal sc hi * 256 + charVal sc lo))).1 ∧
    (mqtt__parse_bytes sc p ud [first, 0x02, hi, lo]).2.2
      = (f ud (mqtt_packet.setPacketId
          { p.p with h := ⟨charVal sc first / 16 % 16, charVal sc first / 2 % 4,
            charVal sc first / 8 % 2, charVal sc first % 2⟩ }
          (charVal sc hi * 256 + charVal sc lo))).2 := by
  obtain ⟨p1, hp1⟩ : ∃ p1 : mqtt_parser_t σ, p1 = { p with
      p := { p.p with h := ⟨charVal sc first / 16 % 16, charVal sc first / 2 % 4,
        charVal sc first / 8 % 2, charVal sc first % 2⟩ }
      state := mqtt_parser_state.MQTT_ST_LENGTH
      multiplier := 1
      remaining := ⟨none, 0⟩
      require := 0 } := ⟨_, rfl⟩
  have c2 : charVal sc 2 = 2 := charVal_small sc 2 (by decide)
  have a1 : p1.state = mqtt_parser_state.MQTT_ST_LENGTH := by rw [hp1]
  have a2 : p1.multiplier = 1 := by rw [hp1]
  have a3 : p1.remaining = ⟨none, 0⟩ := by rw [hp1]
  obtain ⟨p2, hp2⟩ : ∃ p2 : mqtt_parser_t σ, p2 = { p1 with
      remaining := ⟨some [], 2⟩
      multiplier := 128
      require := 2
      state := mqtt_parser_state.MQTT_ST_REMAIN } := ⟨_, rfl⟩
  have b1 : p2.state = mqtt_parser_state.MQTT_ST_REMAIN := by rw [hp2]
  have b2 : p2.require = 2 := by rw [hp2]
  have s1 : mqtt__parse_step sc p ud first [0x02, hi, lo] = Sum.inr (p1, ud, [0x02, hi, lo]) := by
    rw [step_fixed sc p ud first _ hst, hp1]
  have s2 : mqtt__parse_step sc p1 ud 0x02 [hi, lo] = Sum.inr (p2, ud, [hi, lo]) := by
    rw [step_length_last sc p1 ud 0x02 _ a1 (by rw [a2]; decide)
      (by rw [c2]; decide) (by rw [c2, a2, a3]; decide), hp2, c2, a2, a3]
    rfl
  have s3 : mqtt__parse_step sc p2 ud hi [lo]
      = dispatchStep sc (remainFill p2 [hi, lo]) ud [] := by
    rw [step_remain_complete sc p2 ud hi [lo] b1 (by rw [b2]; simp), b2]
    rfl
  rw [parse_cons, s1]
  simp only []
  rw [parse_cons, s2]
  simp only []
  rw [parse_cons, s3]
  obtain ⟨q, hq⟩ : ∃ q : mqtt_parser_t σ, q = remainFill p2 [hi, lo] := ⟨_, rfl⟩
  rw [← hq]
  have qauth : q.auth = p.auth := by rw [hq, hp2, hp1]; rfl
  have qtype : q.p.h.type = charVal sc first / 16 % 16 := by rw [hq, hp2, hp1]; rfl
  have qqos : q.p.h.qos = charVal sc first / 2 % 4 := by rw [hq, hp2, hp1]; rfl
  have qcb : q.cb = p.cb := by rw [hq, hp2, hp1]; rfl
  have qrem : q.remaining = ⟨some [hi, lo], 2⟩ := by rw [hq, hp2]; rfl
  have qp : q.p = { p.p with h := ⟨charVal sc first / 16 % 16, charVal sc first / 2 % 4,
        charVal sc first / 8 % 2, charVal sc first % 2⟩ } := by rw [hq, hp2, hp1]; rfl
  have hproc := process_ack sc q ud hi lo f (by rw [qauth]; exact hauth)
    (by rw [qtype, qqos]; exact ht) (by rw [qcb, qtype]; exact hcb) qrem
  rw [qp] at hproc
  unfold dispatchStep
  have e1 : (processAndFree sc q ud).1 = (__process sc q ud).1 := rfl
  have e2 : (processAndFree sc q ud).2.2 = (__process sc q ud).2.2 := rfl
  by_cases hz : (processAndFree sc q ud).1 = 0
  · rw [if_neg (by simpa using hz)]
    simp only [parse_nil]
    refine ⟨?_, ?_⟩
    · rw [← hproc.1, ← e1, hz]
    · rw [e2]
      exact hproc.2
  · rw [if_pos hz]
    simp only []
    rw [e1, e2]
    exact hproc

theorem serialize_ack_bytes (t id : Int)
    (ht : t = PUBACK ∨ t = PUBREC ∨ t = PUBREL ∨ t = PUBCOMP ∨ t = UNSUBACK)
    (h0 : 0 ≤ id) (h1 : id < 65536) :
    mqtt__serialize (mkAck t id)
      = (0, mqtt_b.ofBytes [ackFirstByte t, 0x02, (id / 256).toNat, (id % 256).toNat]) := by
  have e1 : toByte (id % 65536 / 256) = (id / 256).toNat := by
    unfold toByte; omega
  have e2 : toByte (id % 65536 % 256) = (id % 256).toNat := by
    unfold toByte; omega
  have key : ∀ a : Nat, a < 256 → __serialize_id (a : Int) (mkAck t id)
      = (0, mqtt_b.ofBytes [a, 0x02, (id / 256).toNat, (id % 256).toNat]) := by
    intro a ha
    unfold __serialize_id mqtt_b_write_u16 mqtt_b_write_u8
    have e3 : (mkAck t id).v.packet_id = id := rfl
    rw [e3, e1, e2, toByte_natCast]
    have e4 : a % 256 = a := by omega
    rw [e4]
    rfl
  rcases ht with h | h | h | h | h <;> subst h
  · exact key 0x40 (by decide)
  · exact key 0x50 (by decide)
  · exact key 0x62 (by decide)
  · exact key 0x70 (by decide)
  · exact key 0xb0 (by decide)

theorem read_id_eq (sc : Bool) (id : Int) (h0 : 0 ≤ id) (h1 : id < 65536) :
    (charVal sc (id / 256).toNat * 256 + charVal sc (id % 256).toNat) % 65536
      = decodedId sc id := by
  unfold charVal decodedId
  cases sc
  · simp only [Bool.false_and, Bool.false_eq_true, if_false]
    omega
  · simp only [Bool.true_and, decide_eq_true_eq]
    split <;> split <;> split <;> omega

/-- Round trip of the packets that carry a packet id only, in general: for every
type among PUBACK, PUBREC, PUBREL, PUBCOMP and UNSUBACK, every packet id in
0..65535, every authenticated parser in state `MQTT_ST_FIXED` and every callback
registered for the type, parsing the bytes of `mqtt__serialize` invokes that
callback once, with the packet id `decodedId signedChar id`: the original id where
`char` is unsigned or the low byte is below 0x80, and 256 less (modulo 65536)
where `char` is signed and the low byte is 0x80 or above. -/
theorem ack_round_trip {σ : Type} (signedChar : Bool) (t id : Int) (p : mqtt_parser_t σ) (ud : σ)
    (f : mqtt_cb σ)
    (ht : t = PUBACK ∨ t = PUBREC ∨ t = PUBREL ∨ t = PUBCOMP ∨ t = UNSUBACK)
    (h0 : 0 ≤ id) (h1 : id < 65536)
    (hst : p.state = mqtt_parser_state.MQTT_ST_FIXED) (hauth : p.auth ≠ 0)
    (hcb : p.cb t = some f) :
    ∃ pkt : mqtt_packet, pkt.h.type = t ∧ pkt.v.packet_id = decodedId signedChar id ∧
      (mqtt__parse signedChar p ud (mqtt__serialize (mkAck t id)).2).1 = (f ud pkt).1 ∧
      (mqtt__parse signedChar p ud (mqtt__serialize (mkAck t id)).2).2.2 = (f ud pkt).2 := by
  have hty : charVal signedChar (ackFirstByte t) / 16 % 16 = t := by
    rcases ht with h | h | h | h | h <;> subst h <;> cases signedChar <;> decide
  have hq : t = PUBREL → charVal signedChar (ackFirstByte t) / 2 % 4 = MQTT_QOS_1 := by
    intro h
    subst h
    cases signedChar <;> decide
  have hbytes : (mqtt__serialize (mkAck t id)).2.bytes
      = [ackFirstByte t, 0x02, (id / 256).toNat, (id % 256).toNat] := by
    rw [serialize_ack_bytes t id ht h0 h1]
    rfl
  have hdec := parse_ack_packet signedChar p ud (ackFirstByte t) (id / 256).toNat
    (id % 256).toNat f hst hauth
    (by
      rw [hty]
      rcases ht with h | h | h | h | h
      · exact Or.inl h
      · exact Or.inr (Or.inl h)
      · exact Or.inr (Or.inr (Or.inr (Or.inr ⟨h, hq h⟩)))
      · exact Or.inr (Or.inr (Or.inl h))
      · exact Or.inr (Or.inr (Or.inr (Or.inl h))))
    (by rw [hty]; exact hcb)
  refine ⟨mqtt_packet.setPacketId
      { p.p with h := ⟨charVal signedChar (ackFirstByte t) / 16 % 16,
        charVal signedChar (ackFirstByte t) / 2 % 4,
        charVal signedChar (ackFirstByte t) / 8 % 2, charVal signedChar (ackFirstByte t) % 2⟩ }
      (charVal signedChar (id / 256).toNat * 256 + charVal signedChar (id % 256).toNat),
    hty, read_id_eq signedChar id h0 h1, ?_, ?_⟩
  · unfold mqtt__parse
    rw [hbytes]
    exact hdec.1
  · unfold mqtt__parse
    rw [hbytes]
    exact hdec.2

theorem framed_fields {σ : Type} (sc : Bool) (p : mqtt_parser_t σ) (first : Nat)
    (body : List Nat) :
    (framed sc p first body).auth = p.auth ∧ (framed sc p first body).cb = p.cb ∧
    (framed sc p first body).p.v = p.p.v ∧ (framed sc p first body).p.payload = p.p.payload ∧
    (framed sc p first body).p.h = ⟨charVal sc first / 16 % 16, charVal sc first / 2 % 4,
      charVal sc first / 8 % 2, charVal sc first % 2⟩ ∧
    (framed sc p first body).remaining.n = (body.length : Int) ∧
    (framed sc p first body).state = mqtt_parser_state.MQTT_ST_FIXED :=
  ⟨rfl, rfl, rfl, rfl, rfl, rfl, rfl⟩

theorem framed_remaining {σ : Type} (sc : Bool) (p : mqtt_parser_t σ) (first : Nat)
    (body : List Nat) (h : body ≠ []) :
    (framed sc p first body).remaining = ⟨some body, (body.length : Int)⟩ := by
  unfold framed
  simp [h]

theorem parse_frame_empty {σ : Type} (sc : Bool) (p : mqtt_parser_t σ) (ud : σ) (first : Nat)
    (rest : List Nat) (hst : p.state = mqtt_parser_state.MQTT_ST_FIXED) :
    mqtt__parse_bytes sc p ud (first :: 0 :: rest)
      = match dispatchStep sc (framed sc p first []) ud rest with
        | Sum.inl r => r
        | Sum.inr next => mqtt__parse_bytes sc next.1 next.2.1 next.2.2 := by
  have c0 : charVal sc 0 = 0 := charVal_small sc 0 (by decide)
  obtain ⟨p1, hp1⟩ : ∃ p1 : mqtt_parser_t σ, p1 = { p with
      p := { p.p with h := ⟨charVal sc first / 16 % 16, charVal sc first / 2 % 4,
        charVal sc first / 8 % 2, charVal sc first % 2⟩ }
      state := mqtt_parser_state.MQTT_ST_LENGTH
      multiplier := 1
      remaining := ⟨none, 0⟩
      require := 0 } := ⟨_, rfl⟩
  have a1 : p1.state = mqtt_parser_state.MQTT_ST_LENGTH := by rw [hp1]
  have a2 : p1.multiplier = 1 := by rw [hp1]
  have a3 : p1.remaining = ⟨none, 0⟩ := by rw [hp1]
  rw [parse_cons, step_fixed sc p ud first _ hst, ← hp1]
  simp only []
  rw [parse_cons, step_length_empty sc p1 ud 0 rest a1 (by rw [a2]; decide) (by rw [c0]; decide)
    (by rw [c0, a2, a3]; decide)]
  rw [c0, a2, a3, hp1]
  rfl

theorem parse_remain_body {σ : Type} (sc : Bool) (q : mqtt_parser_t σ) (ud : σ)
    (body rest : List Nat) (hst : q.state = mqtt_parser_state.MQTT_ST_REMAIN)
    (hreq : q.require = (body.length : Int)) (hne : body ≠ []) :
    mqtt__parse_bytes sc q ud (body ++ rest)
      = match dispatchStep sc (remainFill q body) ud rest with
        | Sum.inl r => r
        | Sum.inr next => mqtt__parse_bytes sc next.1 next.2.1 next.2.2 := by
  cases body with
  | nil => exact absurd rfl hne
  | cons b bs =>
    rw [List.cons_append, parse_cons,
      step_remain_complete sc q ud b (bs ++ rest) hst (by rw [hreq]; simp)]
    have e1 : (b :: (bs ++ rest)).take q.require.toNat = b :: bs := by
      rw [hreq]
      simp
    have e2 : (b :: (bs ++ rest)).drop q.require.toNat = rest := by
      rw [hreq]
      simp
    rw [e1, e2]

theorem remainFill_framed {σ : Type} (sc : Bool) (p : mqtt_parser_t σ) (first : Nat)
    (body : List Nat) (hne : body ≠ []) :
    remainFill { p with
        p := { p.p with h := ⟨charVal sc first / 16 % 16, charVal sc first / 2 % 4,
          charVal sc first / 8 % 2, charVal sc first % 2⟩ }
        state := mqtt_parser_state.MQTT_ST_REMAIN
        multiplier := 128 ^ (specRemainingLength body.length).length
        remaining := ⟨some [], (body.length : Int)⟩
        require := (body.length : Int) } body
      = framed sc p first body := by
  unfold remainFill framed
  simp [hne]

theorem parse_frame_one {σ : Type} (sc : Bool) (p : mqtt_parser_t σ) (ud : σ) (first : Nat)
    (body rest : List Nat) (hst : p.state = mqtt_parser_state.MQTT_ST_FIXED)
    (hne : body ≠ []) (hlen : body.length < 128) :
    mqtt__parse_bytes sc p ud (first :: body.length :: (body ++ rest))
      = match dispatchStep sc (framed sc p first body) ud rest with
        | Sum.inl r => r
        | Sum.inr next => mqtt__parse_bytes sc next.1 next.2.1 next.2.2 := by
  have hpos : 0 < body.length := List.length_pos.mpr hne
  have cl : charVal sc body.length = (body.length : Int) := charVal_small sc _ hlen
  obtain ⟨p1, hp1⟩ : ∃ p1 : mqtt_parser_t σ, p1 = { p with
      p := { p.p with h := ⟨charVal sc first / 16 % 16, charVal sc first / 2 % 4,
        charVal sc first / 8 % 2, charVal sc first % 2⟩ }
      state := mqtt_parser_state.MQTT_ST_LENGTH
      multiplier := 1
      remaining := ⟨none, 0⟩
      require := 0 } := ⟨_, rfl⟩
  have a1 : p1.state = mqtt_parser_state.MQTT_ST_LENGTH := by rw [hp1]
  have a2 : p1.multiplier = 1 := by rw [hp1]
  have a3 : p1.remaining = ⟨none, 0⟩ := by rw [hp1]
  have hv : p1.remaining.n + charVal sc body.length % 128 * p1.multiplier = (body.length : Int) := by
    rw [a2, a3, cl]
    show (0 : Int) + (body.length : Int) % 128 * 1 = (body.length : Int)
    omega
  rw [parse_cons, step_fixed sc p ud first _ hst, ← hp1]
  simp only []
  rw [parse_cons, step_length_last sc p1 ud body.length _ a1 (by rw [a2]; decide)
    (by rw [cl]; omega) (by rw [hv]; omega)]
  simp only []
  rw [hv, a2]
  rw [parse_remain_body sc _ ud body rest rfl rfl hne]
  have hk : (specRemainingLength body.length).length = 1 := by
    unfold specRemainingLength
    rw [if_pos hlen]
    rfl
  have := remainFill_framed sc p first body hne
  rw [hk] at this
  rw [← this, hp1]
  rfl

theorem charVal_cont (sc : Bool) (x : Nat) (hx : x < 128) :
    charVal sc (x + 128) % 128 = (x : Int) ∧ ¬ charVal sc (x + 128) / 128 % 2 = 0 := by
  rw [charVal_mod128, charVal_bit7 sc _ (by omega)]
  constructor
  · omega
  · omega

theorem parse_frame_two {σ : Type} (sc : Bool) (p : mqtt_parser_t σ) (ud : σ) (first : Nat)
    (body rest : List Nat) (hst : p.state = mqtt_parser_state.MQTT_ST_FIXED)
    (hlo : 128 ≤ body.length) (hlen : body.length < 16384) :
    mqtt__parse_bytes sc p ud
        (first :: (body.length % 128 + 128) :: (body.length / 128) :: (body ++ rest))
      = match dispatchStep sc (framed sc p first body) ud rest with
        | Sum.inl r => r
        | Sum.inr next => mqtt__parse_bytes sc next.1 next.2.1 next.2.2 := by
  have hne : body ≠ [] := by
    intro h
    rw [h] at hlo
    simp at hlo
  have c1 := charVal_cont sc (body.length % 128) (by omega)
  have c2 : charVal sc (body.length / 128) = ((body.length / 128 : Nat) : Int) :=
    charVal_small sc _ (by omega)
  obtain ⟨p1, hp1⟩ : ∃ p1 : mqtt_parser_t σ, p1 = { p with
      p := { p.p with h := ⟨charVal sc first / 16 % 16, charVal sc first / 2 % 4,
        charVal sc first / 8 % 2, charVal sc first % 2⟩ }
      state := mqtt_parser_state.MQTT_ST_LENGTH
      multiplier := 1
      remaining := ⟨none, 0⟩
      require := 0 } := ⟨_, rfl⟩
  have a1 : p1.state = mqtt_parser_state.MQTT_ST_LENGTH := by rw [hp1]
  have a2 : p1.multiplier = 1 := by rw [hp1]
  have a3 : p1.remaining = ⟨none, 0⟩ := by rw [hp1]
  obtain ⟨p2, hp2⟩ : ∃ p2 : mqtt_parser_t σ, p2 = { p1 with
      remaining := ⟨none, ((body.length % 128 : Nat) : Int)⟩
      multiplier := 128 } := ⟨_, rfl⟩
  have b1 : p2.state = mqtt_parser_state.MQTT_ST_LENGTH := by rw [hp2]; exact a1
  have b2 : p2.multiplier = 128 := by rw [hp2]
  have b3 : p2.remaining = ⟨none, ((body.length % 128 : Nat) : Int)⟩ := by rw [hp2]
  have s2 : mqtt__parse_step sc p1 ud (body.length % 128 + 128)
      ((body.length / 128) :: (body ++ rest))
      = Sum.inr (p2, ud, (body.length / 128) :: (body ++ rest)) := by
    rw [step_length_more sc p1 ud _ _ a1 (by rw [a2]; decide) c1.2, c1.1, a2, a3, hp2]
    simp
  have hv : p2.remaining.n + charVal sc (body.length / 128) % 128 * p2.multiplier
      = (body.length : Int) := by
    rw [b2, b3, c2]
    show ((body.length % 128 : Nat) : Int) + ((body.length / 128 : Nat) : Int) % 128 * 128
      = (body.length : Int)
    omega
  rw [parse_cons, step_fixed sc p ud first _ hst, ← hp1]
  simp only []
  rw [parse_cons, s2]
  simp only []
  rw [parse_cons, step_length_last sc p2 ud (body.length / 128) _ b1 (by rw [b2]; decide)
    (by rw [c2]; omega) (by rw [hv]; omega)]
  simp only []
  rw [hv, b2]
  rw [parse_remain_body sc _ ud body rest rfl rfl hne]
  have hk : (specRemainingLength body.length).length = 2 := by
    unfold specRemainingLength
    rw [if_neg (by omega), if_pos hlen]
    rfl
  have := remainFill_framed sc p first body hne
  rw [hk] at this
  rw [← this, hp2, hp1]
  rfl

theorem parse_frame_three {σ : Type} (sc : Bool) (p : mqtt_parser_t σ) (ud : σ) (first : Nat)
    (body rest : List Nat) (hst : p.state = mqtt_parser_state.MQTT_ST_FIXED)
    (hlo : 16384 ≤ body.length) (hlen : body.length < 2097152) :
    mqtt__parse_bytes sc p ud
        (first :: (body.length % 128 + 128) :: (body.length / 128 % 128 + 128)
          :: (body.length / 16384) :: (body ++ rest))
      = match dispatchStep sc (framed sc p first body) ud rest with
        | Sum.inl r => r
        | Sum.inr next => mqtt__parse_bytes sc next.1 next.2.1 next.2.2 := by
  have hne : body ≠ [] := by
    intro h
    rw [h] at hlo
    simp at hlo
  have c1 := charVal_cont sc (body.length % 128) (by omega)
  have c2 := charVal_cont sc (body.length / 128 % 128) (by omega)
  have c3 : charVal sc (body.length / 16384) = ((body.length / 16384 : Nat) : Int) :=
    charVal_small sc _ (by omega)
  obtain ⟨p1, hp1⟩ : ∃ p1 : mqtt_parser_t σ, p1 = { p with
      p := { p.p with h := ⟨charVal sc first / 16 % 16, charVal sc first / 2 % 4,
        charVal sc first / 8 % 2, charVal sc first % 2⟩ }
      state := mqtt_parser_state.MQTT_ST_LENGTH
      multiplier := 1
      remaining := ⟨none, 0⟩
      require := 0 } := ⟨_, rfl⟩
  have a1 : p1.state = mqtt_parser_state.MQTT_ST_LENGTH := by rw [hp1]
  have a2 : p1.multiplier = 1 := by rw [hp1]
  have a3 : p1.remaining = ⟨none, 0⟩ := by rw [hp1]
  obtain ⟨p2, hp2⟩ : ∃ p2 : mqtt_parser_t σ, p2 = { p1 with
      remaining := ⟨none, ((body.length % 128 : Nat) : Int)⟩
      multiplier := 128 } := ⟨_, rfl⟩
  have b1 : p2.state = mqtt_parser_state.MQTT_ST_LENGTH := by rw [hp2]; exact a1
  have b2 : p2.multiplier = 128 := by rw [hp2]
  have b3 : p2.remaining = ⟨none, ((body.length % 128 : Nat) : Int)⟩ := by rw [hp2]
  obtain ⟨p3, hp3⟩ : ∃ p3 : mqtt_parser_t σ, p3 = { p2 with
      remaining := ⟨none, ((body.length % 16384 : Nat) : Int)⟩
      multiplier := 16384 } := ⟨_, rfl⟩
  have d1 : p3.state = mqtt_parser_state.MQTT_ST_LENGTH := by rw [hp3]; exact b1
  have d2 : p3.multiplier = 16384 := by rw [hp3]
  have d3 : p3.remaining = ⟨none, ((body.length % 16384 : Nat) : Int)⟩ := by rw [hp3]
  have s2 : mqtt__parse_step sc p1 ud (body.length % 128 + 128)
      ((body.length / 128 % 128 + 128) :: (body.length / 16384) :: (body ++ rest))
      = Sum.inr (p2, ud,
          (body.length / 128 % 128 + 128) :: (body.length / 16384) :: (body ++ rest)) := by
    rw [step_length_more sc p1 ud _ _ a1 (by rw [a2]; decide) c1.2, c1.1, a2, a3, hp2]
    simp
  have e3 : ((body.length % 128 : Nat) : Int) + ((body.length / 128 % 128 : Nat) : Int) * 128
      = ((body.length % 16384 : Nat) : Int) := by omega
  have s3 : mqtt__parse_step sc p2 ud (body.length / 128 % 128 + 128)
      ((body.length / 16384) :: (body ++ rest))
      = Sum.inr (p3, ud, (body.length / 16384) :: (body ++ rest)) := by
    rw [step_length_more sc p2 ud _ _ b1 (by rw [b2]; decide) c2.2, c2.1, b2, b3, hp3]
    simp only [e3]
    rfl
  have hv : p3.remaining.n + charVal sc (body.length / 16384) % 128 * p3.multiplier
      = (body.length : Int) := by
    rw [d2, d3, c3]
    show ((body.length % 16384 : Nat) : Int) + ((body.length / 16384 : Nat) : Int) % 128 * 16384
      = (body.length : Int)
    omega
  rw [parse_cons, step_fixed sc p ud first _ hst, ← hp1]
  simp only []
  rw [parse_cons, s2]
  simp only []
  rw [parse_cons, s3]
  simp only []
  rw [parse_cons, step_length_last sc p3 ud (body.length / 16384) _ d1 (by rw [d2]; decide)
    (by rw [c3]; omega) (by rw [hv]; omega)]
  simp only []
  rw [hv, d2]
  rw [parse_remain_body sc _ ud body rest rfl rfl hne]
  have hk : (specRemainingLength body.length).length = 3 := by
    unfold specRemainingLength
    rw [if_neg (by omega), if_neg (by omega), if_pos hlen]
    rfl
  have := remainFill_framed sc p first body hne
  rw [hk] at this
  rw [← this, hp3, hp2, hp1]
  rfl

/-- Framing: from state `MQTT_ST_FIXED`, for both signednesses of `char`, a
fixed-header byte followed by the remaining-length field of a body of fewer than
2097152 bytes and by that body makes `mqtt__parse` dispatch the packet once, on
the parser `framed`, and go on with the bytes that follow. -/
theorem parse_frame {σ : Type} (sc : Bool) (p : mqtt_parser_t σ) (ud : σ) (first : Nat)
    (body rest : List Nat) (hst : p.state = mqtt_parser_state.MQTT_ST_FIXED)
    (hlen : body.length < 2097152) :
    mqtt__parse_bytes sc p ud (first :: (specRemainingLength body.length ++ (body ++ rest)))
      = match dispatchStep sc (framed sc p first body) ud rest with
        | Sum.inl r => r
        | Sum.inr next => mqtt__parse_bytes sc next.1 next.2.1 next.2.2 := by
  by_cases h0 : body = []
  · subst h0
    exact parse_frame_empty sc p ud first rest hst
  by_cases h1 : body.length < 128
  · have : specRemainingLength body.length = [body.length] := by
      unfold specRemainingLength
      rw [if_pos h1]
    rw [this]
    exact parse_frame_one sc p ud first body rest hst h0 h1
  by_cases h2 : body.length < 16384
  · have : specRemainingLength body.length = [body.length % 128 + 128, body.length / 128] := by
      unfold specRemainingLength
      rw [if_neg h1, if_pos h2]
    rw [this]
    exact parse_frame_two sc p ud first body rest hst (by omega) h2
  · have : specRemainingLength body.length
        = [body.length % 128 + 128, body.length / 128 % 128 + 128, body.length / 16384] := by
      unfold specRemainingLength
      rw [if_neg h1, if_neg h2, if_pos hlen]
    rw [this]
    exact parse_frame_three sc p ud first body rest hst (by omega) hlen

/-- Framing of a packet that ends the input: `mqtt__parse` returns what `__process`
followed by `mqtt_b_free` returns on the parser `framed`. -/
theorem parse_frame_last {σ : Type} (sc : Bool) (p : mqtt_parser_t σ) (ud : σ) (first : Nat)
    (body : List Nat) (hst : p.state = mqtt_parser_state.MQTT_ST_FIXED)
    (hlen : body.length < 2097152) :
    mqtt__parse_bytes sc p ud (first :: (specRemainingLength body.length ++ body))
      = processAndFree sc (framed sc p first body) ud := by
  have h := parse_frame sc p ud first body [] hst hlen
  rw [List.append_nil] at h
  rw [h]
  unfold dispatchStep
  by_cases hz : (processAndFree sc (framed sc p first body) ud).1 = 0
  · rw [if_neg (by simpa using hz)]
    simp only [parse_nil]
    rw [← hz]
  · rw [if_pos hz]

/-- C11 (code defect). A string length that asks for more bytes than remain is not
rejected when the string is the last field read.  The QoS 0 PUBLISH `30 03 00 05 61`
(topic length 5, one byte left) is accepted by an authenticated parser: the PUBLISH
callback gets a topic of length 5 behind a pointer to one byte, and a payload of
length -4.  The CONNECT `10 0D 00 04 4D 51 54 54 04 02 00 3C 00 05 63` (client id
of length 5, one byte left) is accepted by a fresh parser, which becomes
authenticated.  The sibling decoders do reject: a SUBSCRIBE and an UNSUBSCRIBE
with the same over-long topic, and a PUBACK cut to one body byte, return -1
without a callback. -/
theorem C11_overlong_last_string_accepted :
    (∀ signedChar : Bool,
      (mqtt__parse_bytes signedChar packetAuthParser [] [0x30, 0x03, 0x00, 0x05, 0x61]).1 = 0 ∧
      (mqtt__parse_bytes signedChar packetAuthParser [] [0x30, 0x03, 0x00, 0x05, 0x61]).2.2.map
        (fun q => (q.h.type, q.v.publish.topic_name, q.payload))
        = [(PUBLISH, ⟨some [0x61], 5⟩, ⟨some [], -4⟩)]) ∧
    (∀ signedChar : Bool,
      (mqtt__parse_bytes signedChar packetParser []
        [0x10, 0x0D, 0x00, 0x04, 0x4D, 0x51, 0x54, 0x54, 0x04, 0x02, 0x00, 0x3C, 0x00, 0x05,
          0x63]).1 = 0 ∧
      (mqtt__parse_bytes signedChar packetParser []
        [0x10, 0x0D, 0x00, 0x04, 0x4D, 0x51, 0x54, 0x54, 0x04, 0x02, 0x00, 0x3C, 0x00, 0x05,
          0x63]).2.1.auth = 1 ∧
      (mqtt__parse_bytes signedChar packetParser []
        [0x10, 0x0D, 0x00, 0x04, 0x4D, 0x51, 0x54, 0x54, 0x04, 0x02, 0x00, 0x3C, 0x00, 0x05,
          0x63]).2.2.map (fun q => (q.h.type, q.v.connect.client_id))
        = [(CONNECT, ⟨some [0x63], 5⟩)]) ∧
    (∀ signedChar : Bool,
      (mqtt__parse_bytes signedChar packetAuthParser []
        [0x82, 0x06, 0x00, 0x01, 0x00, 0x05, 0x61, 0x00]).1 = -1 ∧
      (mqtt__parse_bytes signedChar packetAuthParser []
        [0x82, 0x06, 0x00, 0x01, 0x00, 0x05, 0x61, 0x00]).2.2.length = 0 ∧
      (mqtt__parse_bytes signedChar packetAuthParser []
        [0xA2, 0x05, 0x00, 0x01, 0x00, 0x05, 0x61]).1 = -1 ∧
      (mqtt__parse_bytes signedChar packetAuthParser []
        [0xA2, 0x05, 0x00, 0x01, 0x00, 0x05, 0x61]).2.2.length = 0 ∧
      (mqtt__parse_bytes signedChar packetAuthParser [] [0x40, 0x01, 0x00]).1 = -1 ∧
      (mqtt__parse_bytes signedChar packetAuthParser [] [0x40, 0x01, 0x00]).2.2.length = 0) := by
  refine ⟨?_, ?_, ?_⟩ <;> intro signedChar <;> cases signedChar <;> decide

theorem processSwitch_other {σ : Type} (sc : Bool) (type : Int) (pkt : mqtt_packet) (b : mqtt_b)
    (ud : σ) (cb : mqtt_cb σ) (h : type < 1 ∨ 14 < type) :
    processSwitch sc type pkt b ud cb = (-1, pkt, ud) := by
  unfold processSwitch
  repeat (rw [if_neg (show ¬ type = _ from by
    intro hh
    rw [hh] at h
    revert h
    decide)])

theorem process_unknown {σ : Type} (sc : Bool) (p : mqtt_parser_t σ) (ud : σ)
    (h : p.p.h.type < 1 ∨ 14 < p.p.h.type) :
    __process sc p ud = (-1, p, ud) := by
  unfold __process
  simp only []
  split
  · rfl
  · split
    · rfl
    · rw [processSwitch_other sc _ _ _ _ _ h]
      rfl

/-- Every packet whose type nibble is 0 or 15 is rejected: from state
`MQTT_ST_FIXED`, whatever the callbacks, the authentication flag, the signedness
of `char` and the body (of fewer than 2097152 bytes), `mqtt__parse` returns -1 and
the user data are as before. -/
theorem unknown_type_rejected {σ : Type} (sc : Bool) (p : mqtt_parser_t σ) (ud : σ)
    (first : Nat) (body : List Nat) (hst : p.state = mqtt_parser_state.MQTT_ST_FIXED)
    (hlen : body.length < 2097152)
    (ht : charVal sc first / 16 % 16 = 0 ∨ charVal sc first / 16 % 16 = 15) :
    (mqtt__parse_bytes sc p ud (first :: (specRemainingLength body.length ++ body))).1 = -1 ∧
    (mqtt__parse_bytes sc p ud (first :: (specRemainingLength body.length ++ body))).2.2 = ud := by
  rw [parse_frame_last sc p ud first body hst hlen]
  unfold processAndFree
  rw [process_unknown sc _ ud (by
    show charVal sc first / 16 % 16 < 1 ∨ 14 < charVal sc first / 16 % 16
    omega)]
  exact ⟨rfl, rfl⟩

theorem parse_id_h (sc : Bool) (pkt : mqtt_packet) (b : mqtt_b) :
    (__parse_id sc pkt b).2.h = pkt.h ∧
    ((__parse_id sc pkt b).1 = 0 ∨ (__parse_id sc pkt b).1 = -1) := by
  unfold __parse_id
  split
  · exact ⟨rfl, Or.inr rfl⟩
  · exact ⟨rfl, Or.inl rfl⟩

theorem parse_subscribe_loop_rc (sc : Bool) (fuel : Nat) :
    ∀ (remaining : mqtt_b) (c : mqtt_p_subscribe) (n : Nat),
      (__parse_subscribe_loop sc fuel remaining c n).1 = 0 ∨
      (__parse_subscribe_loop sc fuel remaining c n).1 = -1 := by
  induction fuel with
  | zero => intro remaining c n; exact Or.inl rfl
  | succ k ih =>
    intro remaining c n
    unfold __parse_subscribe_loop
    split
    · split
      · exact Or.inr rfl
      · simp only []
        split
        · exact Or.inr rfl
        · exact ih _ _ _
    · exact Or.inl rfl

theorem parse_unsubscribe_loop_rc (sc : Bool) (fuel : Nat) :
    ∀ (remaining : mqtt_b) (c : mqtt_p_unsubscribe) (n : Nat),
      (__parse_unsubscribe_loop sc fuel remaining c n).1 = 0 ∨
      (__parse_unsubscribe_loop sc fuel remaining c n).1 = -1 := by
  induction fuel with
  | zero => intro remaining c n; exact Or.inl rfl
  | succ k ih =>
    intro remaining c n
    unfold __parse_unsubscribe_loop
    split
    · split
      · exact Or.inr rfl
      · simp only []
        split
        · exact Or.inr rfl
        · exact ih _ _ _
    · exact Or.inl rfl

theorem parse_subscribe_h (sc : Bool) (pkt : mqtt_packet) (b : mqtt_b) :
    (__parse_subscribe sc pkt b).2.h = pkt.h ∧
    ((__parse_subscribe sc pkt b).1 = 0 ∨ (__parse_subscribe sc pkt b).1 = -1) := by
  unfold __parse_subscribe
  split
  · exact ⟨rfl, Or.inr rfl⟩
  · exact ⟨rfl, parse_subscribe_loop_rc sc _ _ _ _⟩

theorem parse_unsubscribe_h (sc : Bool) (pkt : mqtt_packet) (b : mqtt_b) :
    (__parse_unsubscribe sc pkt b).2.h = pkt.h ∧
    ((__parse_unsubscribe sc pkt b).1 = 0 ∨ (__parse_unsubscribe sc pkt b).1 = -1) := by
  unfold __parse_unsubscribe
  split
  · exact ⟨rfl, Or.inr rfl⟩
  · exact ⟨rfl, parse_unsubscribe_loop_rc sc _ _ _ _⟩

theorem flaggedDecode_h (sc : Bool) (t : Int) (pkt : mqtt_packet) (b : mqtt_b) :
    (flaggedDecode sc t pkt b).2.h = pkt.h ∧
    ((flaggedDecode sc t pkt b).1 = 0 ∨ (flaggedDecode sc t pkt b).1 = -1) := by
  unfold flaggedDecode
  split
  · exact parse_id_h sc pkt b
  · split
    · exact parse_subscribe_h sc pkt b
    · exact parse_unsubscribe_h sc pkt b

theorem processSwitch_flagged_reject {σ : Type} (sc : Bool) (t : Int) (pkt : mqtt_packet)
    (b : mqtt_b) (ud : σ) (cb : mqtt_cb σ)
    (ht : t = PUBREL ∨ t = SUBSCRIBE ∨ t = UNSUBSCRIBE) (hq : pkt.h.qos ≠ MQTT_QOS_1) :
    (processSwitch sc t pkt b ud cb).1 = -1 ∧ (processSwitch sc t pkt b ud cb).2.2 = ud := by
  rcases ht with h | h | h
  · subst h
    have hh := parse_id_h sc pkt b
    show (parseThenProcess (__parse_id sc pkt b) __process_pubrel ud cb).1 = -1 ∧
      (parseThenProcess (__parse_id sc pkt b) __process_pubrel ud cb).2.2 = ud
    unfold parseThenProcess __process_pubrel
    split
    · rw [if_pos (by rw [hh.1]; exact hq)]
      exact ⟨rfl, rfl⟩
    · rename_i h0
      exact ⟨hh.2.resolve_left h0, rfl⟩
  · subst h
    have hh := parse_subscribe_h sc pkt b
    show (parseThenProcess (__parse_subscribe sc pkt b) __process_subscribe ud cb).1 = -1 ∧
      (parseThenProcess (__parse_subscribe sc pkt b) __process_subscribe ud cb).2.2 = ud
    unfold parseThenProcess __process_subscribe
    split
    · simp only []
      rw [if_pos (by rw [hh.1]; exact hq)]
      exact ⟨rfl, rfl⟩
    · rename_i h0
      exact ⟨hh.2.resolve_left h0, rfl⟩
  · subst h
    have hh := parse_unsubscribe_h sc pkt b
    show (parseThenProcess (__parse_unsubscribe sc pkt b) __process_unsubscribe ud cb).1 = -1 ∧
      (parseThenProcess (__parse_unsubscribe sc pkt b) __process_unsubscribe ud cb).2.2 = ud
    unfold parseThenProcess __process_unsubscribe
    split
    · simp only []
      rw [if_pos (by rw [hh.1]; exact hq)]
      exact ⟨rfl, rfl⟩
    · rename_i h0
      exact ⟨hh.2.resolve_left h0, rfl⟩

theorem processSwitch_flagged_accept {σ : Type} (sc : Bool) (t : Int) (pkt : mqtt_packet)
    (b : mqtt_b) (ud : σ) (cb : mqtt_cb σ)
    (ht : t = PUBREL ∨ t = SUBSCRIBE ∨ t = UNSUBSCRIBE) (hq : pkt.h.qos = MQTT_QOS_1)
    (hw : DecoderAccepts sc t pkt b) :
    processSwitch sc t pkt b ud cb
      = ((cb ud (flaggedDecode sc t pkt b).2).1, (flaggedDecode sc t pkt b).2,
          (cb ud (flaggedDecode sc t pkt b).2).2) := by
  obtain ⟨h0, hs, hu⟩ := hw
  have hh := (flaggedDecode_h sc t pkt b).1
  rcases ht with h | h | h
  · subst h
    show parseThenProcess (__parse_id sc pkt b) __process_pubrel ud cb = _
    have e : flaggedDecode sc PUBREL pkt b = __parse_id sc pkt b := rfl
    rw [e] at h0 hh ⊢
    unfold parseThenProcess __process_pubrel
    rw [if_pos h0, if_neg (by rw [hh]; simpa using hq)]
  · subst h
    show parseThenProcess (__parse_subscribe sc pkt b) __process_subscribe ud cb = _
    have e : flaggedDecode sc SUBSCRIBE pkt b = __parse_subscribe sc pkt b := rfl
    have hs := hs rfl
    rw [e] at h0 hh hs ⊢
    unfold parseThenProcess __process_subscribe
    simp only []
    rw [if_pos h0, if_neg (by rw [hh]; simpa using hq), if_neg (by rw [hs]; simp)]
  · subst h
    show parseThenProcess (__parse_unsubscribe sc pkt b) __process_unsubscribe ud cb = _
    have e : flaggedDecode sc UNSUBSCRIBE pkt b = __parse_unsubscribe sc pkt b := rfl
    have hu := hu rfl
    rw [e] at h0 hh hu ⊢
    unfold parseThenProcess __process_unsubscribe
    simp only []
    rw [if_pos h0, if_neg (by rw [hh]; simpa using hq), if_neg (by rw [hu]; simp)]

theorem process_flagged_reject {σ : Type} (sc : Bool) (p : mqtt_parser_t σ) (ud : σ)
    (ht : p.p.h.type = PUBREL ∨ p.p.h.type = SUBSCRIBE ∨ p.p.h.type = UNSUBSCRIBE)
    (hq : p.p.h.qos ≠ MQTT_QOS_1) :
    (__process sc p ud).1 = -1 ∧ (__process sc p ud).2.2 = ud := by
  unfold __process
  simp only []
  split
  · exact ⟨rfl, rfl⟩
  · split
    · exact ⟨rfl, rfl⟩
    · rename_i f hf
      have h := processSwitch_flagged_reject sc p.p.h.type p.p p.remaining ud f ht hq
      rw [if_pos (by rw [h.1]; decide)]
      exact h

theorem process_flagged_accept {σ : Type} (sc : Bool) (p : mqtt_parser_t σ) (ud : σ)
    (f : mqtt_cb σ) (hauth : p.auth ≠ 0)
    (ht : p.p.h.type = PUBREL ∨ p.p.h.type = SUBSCRIBE ∨ p.p.h.type = UNSUBSCRIBE)
    (hcb : p.cb p.p.h.type = some f) (hq : p.p.h.qos = MQTT_QOS_1)
    (hw : DecoderAccepts sc p.p.h.type p.p p.remaining) :
    (__process sc p ud).1 = (f ud (flaggedDecode sc p.p.h.type p.p p.remaining).2).1 ∧
    (__process sc p ud).2.2 = (f ud (flaggedDecode sc p.p.h.type p.p p.remaining).2).2 := by
  have hnc : ¬ (p.p.h.type = CONNECT ∨ p.p.h.type = CONNACK) := by
    rcases ht with h | h | h <;> rw [h] <;> decide
  unfold __process
  simp only []
  rw [if_neg (fun hh => hauth hh.1), hcb]
  simp only []
  rw [processSwitch_flagged_accept sc _ _ _ _ _ ht hq hw]
  simp only [hnc, if_false]
  split
  · exact ⟨rfl, rfl⟩
  · rename_i hz
    simp only [ne_eq, Decidable.not_not] at hz
    exact ⟨hz.symm, rfl⟩

/-- PUBREL, SUBSCRIBE and UNSUBSCRIBE on the wire, for any callback `f` registered
for the type on an authenticated parser in state `MQTT_ST_FIXED`: with QoS bits
other than 01 the packet is rejected (-1, user data untouched); with the QoS bits
01 and a body that passes the other checks, `mqtt__parse` returns what `f` returns
on the decoded packet. -/
theorem flagged_packet {σ : Type} (sc : Bool) (p : mqtt_parser_t σ) (ud : σ)
    (first : Nat) (body : List Nat) (f : mqtt_cb σ)
    (hst : p.state = mqtt_parser_state.MQTT_ST_FIXED) (hauth : p.auth ≠ 0)
    (hlen : body.length < 2097152)
    (ht : charVal sc first / 16 % 16 = PUBREL ∨ charVal sc first / 16 % 16 = SUBSCRIBE ∨
      charVal sc first / 16 % 16 = UNSUBSCRIBE)
    (hcb : p.cb (charVal sc first / 16 % 16) = some f) :
    (charVal sc first / 2 % 4 ≠ MQTT_QOS_1 →
      (mqtt__parse_bytes sc p ud (first :: (specRemainingLength body.length ++ body))).1 = -1 ∧
      (mqtt__parse_bytes sc p ud (first :: (specRemainingLength body.length ++ body))).2.2
        = ud) ∧
    (charVal sc first / 2 % 4 = MQTT_QOS_1 →
      DecoderAccepts sc (charVal sc first / 16 % 16) (framed sc p first body).p
        (framed sc p first body).remaining →
      (mqtt__parse_bytes sc p ud (first :: (specRemainingLength body.length ++ body))).1
        = (f ud (flaggedDecode sc (charVal sc first / 16 % 16) (framed sc p first body).p
            (framed sc p first body).remaining).2).1 ∧
      (mqtt__parse_bytes sc p ud (first :: (specRemainingLength body.length ++ body))).2.2
        = (f ud (flaggedDecode sc (charVal sc first / 16 % 16) (framed sc p first body).p
            (framed sc p first body).remaining).2).2) := by
  rw [parse_frame_last sc p ud first body hst hlen]
  constructor
  · intro hq
    exact process_flagged_reject sc (framed sc p first body) ud ht hq
  · intro hq hw
    exact process_flagged_accept sc (framed sc p first body) ud f hauth ht hcb hq hw

/-- PUBREL, SUBSCRIBE and UNSUBSCRIBE received by an authenticated parser in state
`MQTT_ST_FIXED` whose callbacks are logged, for both signednesses of `char` and
every body on which the decoder of the type returns 0 and yields no empty topic
(`DecoderAccepts`): the callback registered for the type is invoked (the log grows
by exactly one entry, for that callback) if and only if the QoS bits of the fixed
header equal 1, and with any other value of the bits `mqtt__parse` returns -1 and
the user data, log included, are untouched. -/
theorem flagged_qos_bits_of_accepted {σ : Type} (signedChar : Bool) (cb : Int → Option (mqtt_cb σ))
    (p : mqtt_parser_t (σ × List (Int × Int))) (ud : σ × List (Int × Int))
    (first : Nat) (body : List Nat) (f : mqtt_cb σ)
    (hst : p.state = mqtt_parser_state.MQTT_ST_FIXED) (hauth : p.auth ≠ 0)
    (hlen : body.length < 2097152)
    (ht : charVal signedChar first / 16 % 16 = PUBREL ∨
      charVal signedChar first / 16 % 16 = SUBSCRIBE ∨
      charVal signedChar first / 16 % 16 = UNSUBSCRIBE)
    (htab : p.cb = tracedTable cb) (hcb : cb (charVal signedChar first / 16 % 16) = some f)
    (hw : DecoderAccepts signedChar (charVal signedChar first / 16 % 16)
      (framed signedChar p first body).p (framed signedChar p first body).remaining) :
    ((mqtt__parse_bytes signedChar p ud
        (first :: (specRemainingLength body.length ++ body))).2.2.2
      = ud.2 ++ [(charVal signedChar first / 16 % 16,
          (f ud.1 (flaggedDecode signedChar (charVal signedChar first / 16 % 16)
            (framed signedChar p first body).p (framed signedChar p first body).remaining).2).1)]
      ↔ charVal signedChar first / 2 % 4 = MQTT_QOS_1) ∧
    (charVal signedChar first / 2 % 4 ≠ MQTT_QOS_1 →
      (mqtt__parse_bytes signedChar p ud
        (first :: (specRemainingLength body.length ++ body))).1 = -1 ∧
      (mqtt__parse_bytes signedChar p ud
        (first :: (specRemainingLength body.length ++ body))).2.2 = ud) := by
  have hcb2 : p.cb (charVal signedChar first / 16 % 16)
      = some (tracedCb (charVal signedChar first / 16 % 16) f) := by
    rw [htab]
    unfold tracedTable
    rw [hcb]
    rfl
  have h := flagged_packet signedChar p ud first body _ hst hauth hlen ht hcb2
  refine ⟨⟨?_, ?_⟩, h.1⟩
  · intro hlog
    by_contra hq
    rw [(h.1 hq).2] at hlog
    have := congrArg List.length hlog
    simp at this
  · intro hq
    rw [(h.2 hq hw).2]
    rfl

/-- The theorem `flagged_qos_bits_of_accepted` at the SUBSCRIBE for topic "a" with
packet id 1: with the first byte `82` the SUBSCRIBE callback is invoked once, with
`80` the packet is rejected. -/
theorem flagged_qos_bits_short_topic :
    (mqtt__parse_bytes true tracedAuthParser ((), [])
        [0x82, 0x06, 0x00, 0x01, 0x00, 0x01, 0x61, 0x01]).2.2.2 = [(SUBSCRIBE, 0)] ∧
    ((mqtt__parse_bytes true tracedAuthParser ((), [])
        [0x80, 0x06, 0x00, 0x01, 0x00, 0x01, 0x61, 0x01]).1 = -1 ∧
      (mqtt__parse_bytes true tracedAuthParser ((), [])
        [0x80, 0x06, 0x00, 0x01, 0x00, 0x01, 0x61, 0x01]).2.2 = ((), [])) :=
  ⟨(flagged_qos_bits_of_accepted true (fun _ => some (fun ud _ => (0, ud))) tracedAuthParser ((), [])
      0x82 [0x00, 0x01, 0x00, 0x01, 0x61, 0x01] (fun ud _ => (0, ud)) (by decide) (by decide)
      (by decide) (by decide) rfl rfl (by decide)).1.2 (by decide),
   (flagged_qos_bits_of_accepted true (fun _ => some (fun ud _ => (0, ud))) tracedAuthParser ((), [])
      0x80 [0x00, 0x01, 0x00, 0x01, 0x61, 0x01] (fun ud _ => (0, ud)) (by decide) (by decide)
      (by decide) (by decide) rfl rfl (by decide)).2 (by decide)⟩

/-- C12 (code defect). On an authenticated parser the packet `F0 00` (type nibble
15, remaining length 0) is dispatched on the parser `framed`; `mqtt__parse` returns
-1 and no callback runs, but `__process` reads the callback table at index 15,
which is not below `MQTT_MAX_TYPE`, the number of entries of the table.  For the
type nibble 0 the index is 0, and on a parser that is not authenticated the
function returns before the read. -/
theorem C12_callback_lookup_out_of_bounds :
    (∀ signedChar : Bool,
      mqtt__parse_bytes signedChar authParser [] [0xF0, 0x00]
        = processAndFree signedChar (framed signedChar authParser 0xF0 []) [] ∧
      (mqtt__parse_bytes signedChar authParser [] [0xF0, 0x00]).1 = -1 ∧
      (mqtt__parse_bytes signedChar authParser [] [0xF0, 0x00]).2.2 = [] ∧
      __process_index (framed signedChar authParser 0xF0 []) = some 15) ∧
    ¬ (15 : Int) < MQTT_MAX_TYPE ∧
    (∀ signedChar : Bool,
      (mqtt__parse_bytes signedChar authParser [] [0x00, 0x00]).1 = -1 ∧
      (mqtt__parse_bytes signedChar authParser [] [0x00, 0x00]).2.2 = [] ∧
      __process_index (framed signedChar authParser 0x00 []) = some 0 ∧
      (mqtt__parse_bytes signedChar recordParser [] [0xF0, 0x00]).1 = -1 ∧
      (mqtt__parse_bytes signedChar recordParser [] [0xF0, 0x00]).2.2 = [] ∧
      __process_index (framed signedChar recordParser 0xF0 []) = none) := by
  refine ⟨?_, by decide, ?_⟩
  · intro signedChar
    refine ⟨parse_frame_last signedChar authParser [] 0xF0 [] (by decide) (by decide), ?_⟩
    cases signedChar <;> decide
  · intro signedChar
    cases signedChar <;> decide

theorem process_connect_violation {σ : Type} (q : mqtt_packet) (ud : σ) (f : mqtt_cb σ)
    (hv : WillViolation q.v.connect) :
    __process_connect q ud f = (-1, ud) := by
  unfold __process_connect
  simp only []
  split
  · rfl
  · rcases hv with ⟨hf, h⟩ | ⟨hf, h⟩
    · rw [if_pos hf]
      rcases h with h | h | h
      · rw [if_pos (Or.inl h)]
      · rw [if_pos (Or.inr h)]
      · split
        · rfl
        · rw [if_pos]
          unfold MQTT_IS_QOS
          simp
          intro _
          exact h
    · rw [if_neg (by simpa using hf)]
      rcases h with h | h | h | h
      · split
        · rfl
        · rw [if_pos (Or.inl h)]
      · split
        · rfl
        · rw [if_pos (Or.inr h)]
      · rw [if_pos (Or.inl (by rw [h]; simp))]
      · rw [if_pos (Or.inr (by rw [h]; simp))]

theorem process_connect_rejected {σ : Type} (sc : Bool) (p : mqtt_parser_t σ) (ud : σ)
    (ht : p.p.h.type = CONNECT)
    (hv : WillViolation (__parse_connect sc p.p p.remaining).2.v.connect) :
    (__process sc p ud).1 ≠ 0 ∧ (__process sc p ud).2.2 = ud ∧
    (__process sc p ud).2.1.auth = p.auth := by
  unfold __process
  simp only []
  split
  · exact ⟨m1_ne_zero, rfl, rfl⟩
  · split
    · exact ⟨m1_ne_zero, rfl, rfl⟩
    · rename_i f hf
      have hsw : (processSwitch sc p.p.h.type p.p p.remaining ud f).1 ≠ 0 ∧
          (processSwitch sc p.p.h.type p.p p.remaining ud f).2.2 = ud := by
        rw [ht]
        show (parseThenProcess (__parse_connect sc p.p p.remaining) __process_connect ud f).1 ≠ 0 ∧
          (parseThenProcess (__parse_connect sc p.p p.remaining) __process_connect ud f).2.2 = ud
        unfold parseThenProcess
        split
        · rw [process_connect_violation _ ud f hv]
          exact ⟨m1_ne_zero, rfl⟩
        · rename_i h0
          exact ⟨h0, rfl⟩
      rw [if_pos hsw.1]
      exact ⟨hsw.1, hsw.2, rfl⟩

/-- CONNECT will fields on a fresh parser, evaluated: the CONNECT of `connectFull`
(will topic "w", will payload "m", will QoS 2) is accepted with these will fields;
the same with will QoS 3 (flags `FE`) is rejected; and a CONNECT with the will-flag
clear is accepted also when bytes shaped like a will topic and a will payload
follow the client id: with the will-flag clear the decoder reads no will field,
so the decoded will fields stay empty. -/
theorem connect_will_examples :
    (∀ signedChar : Bool,
      (mqtt__parse signedChar recordParser [] (mqtt__serialize (mkConnect connectFull)).2).2.2.map
        (fun o => (o.connect.will_flag, o.connect.will_qos, o.connect.will_retain,
          o.connect.will_topic.bytes, o.connect.will_payload.bytes))
        = [(1, 2, 1, [0x77], [0x6D])]) ∧
    (∀ signedChar : Bool,
      (mqtt__parse_bytes signedChar recordParser []
        [0x10, 0x19, 0x00, 0x04, 0x4D, 0x51, 0x54, 0x54, 0x04, 0xFE, 0x01, 0x2C, 0x00, 0x01, 0x63,
         0x00, 0x01, 0x77, 0x00, 0x01, 0x6D, 0x00, 0x01, 0x75, 0x00, 0x01, 0x70]).1 = -1) ∧
    (∀ signedChar : Bool,
      (mqtt__parse_bytes signedChar recordParser []
        [0x10, 0x13, 0x00, 0x04, 0x4D, 0x51, 0x54, 0x54, 0x04, 0x02, 0x00, 0x3C, 0x00, 0x01, 0x63,
         0x00, 0x01, 0x77, 0x00, 0x01, 0x6D]).2.2.map
        (fun o => (o.connect.will_flag, mqtt_b_empty o.connect.will_topic,
          mqtt_b_empty o.connect.will_payload)) = [(0, true, true)]) := by
  refine ⟨?_, ?_, ?_⟩ <;> intro signedChar <;> cases signedChar <;> decide

theorem write_utf_any (out : List Nat) (r : mqtt_b) (h0 : 0 ≤ r.n)
    (h2 : (r.bytes.length : Int) = r.n) :
    mqtt_b_write_utf out r
      = out ++ ([r.bytes.length / 256 % 256, r.bytes.length % 256] ++ r.bytes) := by
  unfold mqtt_b_write_utf
  have e1 : toByte (r.n / 256 % 256) = r.bytes.length / 256 % 256 := by
    unfold toByte; omega
  have e2 : toByte (r.n % 256) = r.bytes.length % 256 := by
    unfold toByte; omega
  simp only [e1, e2]
  by_cases hn : r.n > 0
  · simp [hn, mqtt_b.bytes]
  · have : r.bytes = [] := by
      apply List.eq_nil_of_length_eq_zero
      omega
    simp [hn, this]

theorem publish_header_eq (h : mqtt_p_header) (hq : h.qos = 0 ∨ h.qos = 1 ∨ h.qos = 2) :
    (if h.retain ≠ 0 then
        (if h.dup ≠ 0 then 0x30 ||| 1 <<< 3 else 0x30) ||| toByte (h.qos * 2) ||| 1 <<< 0
      else (if h.dup ≠ 0 then 0x30 ||| 1 <<< 3 else 0x30) ||| toByte (h.qos * 2))
      = specPublishHeader h := by
  unfold specPublishHeader
  rcases hq with hh | hh | hh <;> rw [hh] <;> by_cases hd : h.dup = 0 <;>
    by_cases hr : h.retain = 0 <;> simp [hd, hr, toByte]

theorem specPublishHeader_lt (h : mqtt_p_header) (hq : h.qos = 0 ∨ h.qos = 1 ∨ h.qos = 2) :
    specPublishHeader h < 256 := by
  unfold specPublishHeader
  rcases hq with hh | hh | hh <;> rw [hh] <;> split <;> split <;> simp

/-- Wire layout of PUBLISH: for every well-formed PUBLISH whose body has fewer than
268435456 bytes, `__serialize_publish` returns 0 and the bytes `specPublish`; the
two-byte prefix of the topic holds its length modulo 65536, whatever the length. -/
theorem serialize_publish_eq (pkt : mqtt_packet) (h : PublishWF pkt)
    (hlen : (publishBody pkt).length < 268435456) :
    __serialize_publish pkt = (0, mqtt_b.ofBytes (specPublish pkt)) := by
  obtain ⟨hq, ⟨t0, t1⟩, ⟨p0, p1⟩, ⟨i0, i1⟩⟩ := h
  have hbody : (publishBody pkt).length
      = 2 + pkt.v.publish.topic_name.bytes.length + (if pkt.h.qos > 0 then 2 else 0)
        + pkt.payload.bytes.length := by
    unfold publishBody
    split <;> simp <;> omega
  have hrl : (if pkt.h.qos > MQTT_QOS_0 then
        (2 : Int) + pkt.v.publish.topic_name.n + pkt.payload.n + 2
      else 2 + pkt.v.publish.topic_name.n + pkt.payload.n)
      = (((publishBody pkt).length : Nat) : Int) := by
    rw [hbody]
    split <;> push_cast <;> omega
  have e3 : toByte (pkt.v.publish.packet_id % 65536 / 256)
      = pkt.v.publish.packet_id.toNat / 256 := by
    unfold toByte; omega
  have e4 : toByte (pkt.v.publish.packet_id % 65536 % 256)
      = pkt.v.publish.packet_id.toNat % 256 := by
    unfold toByte; omega
  have e0 : toByte ((specPublishHeader pkt.h : Nat) : Int) = specPublishHeader pkt.h := by
    rw [toByte_natCast]
    exact Nat.mod_eq_of_lt (specPublishHeader_lt pkt.h hq)
  unfold __serialize_publish
  simp only []
  rw [publish_header_eq pkt.h hq, hrl,
    pack_remain_length_eq _ (Int.natCast_nonneg _) (by omega), Int.toNat_ofNat, foldl_write_u8,
    specRemainingLength_bytes _ hlen, write_utf_any _ _ t0 t1]
  have key : (if pkt.h.qos > MQTT_QOS_0 then
        mqtt_b_write_u16 (mqtt_b_write_u8 [] ((specPublishHeader pkt.h : Nat) : Int)
            ++ specRemainingLength (publishBody pkt).length
            ++ ([pkt.v.publish.topic_name.bytes.length / 256 % 256,
                  pkt.v.publish.topic_name.bytes.length % 256]
                ++ pkt.v.publish.topic_name.bytes)) pkt.v.publish.packet_id
      else mqtt_b_write_u8 [] ((specPublishHeader pkt.h : Nat) : Int)
            ++ specRemainingLength (publishBody pkt).length
            ++ ([pkt.v.publish.topic_name.bytes.length / 256 % 256,
                  pkt.v.publish.topic_name.bytes.length % 256]
                ++ pkt.v.publish.topic_name.bytes))
        ++ memBytes pkt.payload.s pkt.payload.n
      = specPublish pkt := by
    unfold specPublish
    conv_rhs => rw [publishBody]
    by_cases hq0 : pkt.h.qos > 0
    · have hq1 : pkt.h.qos > MQTT_QOS_0 := hq0
      simp [hq0, hq1, mqtt_b_write_u8, mqtt_b_write_u16, e0, e3, e4, mqtt_b.bytes]
      rw [hbody]
      simp only [hq0, if_true, mqtt_b.bytes]
      congr 1
      omega
    · have hq1 : ¬ pkt.h.qos > MQTT_QOS_0 := hq0
      simp [hq0, hq1, mqtt_b_write_u8, e0, mqtt_b.bytes]
      rw [hbody]
      simp only [hq0, if_false, mqtt_b.bytes]
      congr 1
      omega
  rw [key]
  rfl


theorem ofBytes_bytes (l : List Nat) : (mqtt_b.ofBytes l).bytes = l := by
  simp [mqtt_b.ofBytes, mqtt_b.bytes, memBytes]

theorem longTopic_length : longTopic.length = 65536 := List.length_replicate _ _

/-- C15 (counterexample). A QoS 0 PUBLISH whose topic has 65536 bytes, one more than
a two-byte length prefix can express, is not rejected: `mqtt__serialize` returns 0
and a buffer, `30 82 80 04 00 00` followed by the topic: the length prefix written
is 0. -/
theorem C15_long_topic_not_rejected :
    (mkPublish 0 0 0 longTopic 0 []).v.publish.topic_name.n = 65536 ∧
    (mqtt__serialize (mkPublish 0 0 0 longTopic 0 [])).1 = 0 ∧
    (mqtt__serialize (mkPublish 0 0 0 longTopic 0 [])).2.s
      = some ([0x30, 0x82, 0x80, 0x04, 0x00, 0x00] ++ longTopic) := by
  have hn : (mkPublish 0 0 0 longTopic 0 []).v.publish.topic_name.n = 65536 := by
    show ((longTopic.length : Nat) : Int) = 65536
    rw [longTopic_length]
    rfl
  have hb : (mkPublish 0 0 0 longTopic 0 []).v.publish.topic_name.bytes = longTopic :=
    ofBytes_bytes longTopic
  have hp : (mkPublish 0 0 0 longTopic 0 []).payload.bytes = [] := rfl
  have hbody : publishBody (mkPublish 0 0 0 longTopic 0 []) = [0, 0] ++ longTopic := by
    have hq : ¬ (mkPublish 0 0 0 longTopic 0 []).h.qos > 0 := by decide
    unfold publishBody
    rw [hb, hp, longTopic_length, if_neg hq, List.append_nil, List.append_nil]
  have hlen : (publishBody (mkPublish 0 0 0 longTopic 0 [])).length = 65538 := by
    rw [hbody, List.length_append, longTopic_length]
    rfl
  have hwf : PublishWF (mkPublish 0 0 0 longTopic 0 []) := by
    refine ⟨Or.inl rfl, ⟨?_, ?_⟩, ⟨?_, ?_⟩, ⟨?_, ?_⟩⟩
    · rw [hn]; decide
    · rw [hb, hn, longTopic_length]; rfl
    · decide
    · decide
    · decide
    · decide
  have hs := serialize_publish_eq _ hwf (by rw [hlen]; decide)
  have h3 : specRemainingLength 65538 = [0x82, 0x80, 0x04] := by decide
  have hspec : specPublish (mkPublish 0 0 0 longTopic 0 [])
      = [0x30, 0x82, 0x80, 0x04, 0x00, 0x00] ++ longTopic := by
    unfold specPublish
    rw [hlen, h3, hbody]
    rfl
  have e : mqtt__serialize (mkPublish 0 0 0 longTopic 0 [])
      = (0, mqtt_b.ofBytes ([0x30, 0x82, 0x80, 0x04, 0x00, 0x00] ++ longTopic)) := by
    rw [serialize_of_type_3 _ rfl, hs, hspec]
  refine ⟨hn, by rw [e], by rw [e]; rfl⟩

/-- C15 (amended). `mqtt__serialize` returns -1 and a null segment for every packet
whose type is none of the 14 kinds, and it makes no check on the length of a
string: for every PUBLISH with QoS 0, 1 or 2 whose body (the bytes after the
remaining-length field) has at most 268435455 bytes, whatever the length of the
topic, it returns 0 and the buffer made of the first byte, the remaining length,
the topic length modulo 65536 in two bytes, all the bytes of the topic, the packet
id when QoS > 0, and the payload. -/
theorem C15_serialize_no_range_check (pkt : mqtt_packet) :
    ((pkt.h.type < 1 ∨ 14 < pkt.h.type) → mqtt__serialize pkt = (-1, ⟨none, 0⟩)) ∧
    (pkt.h.type = PUBLISH → PublishWF pkt → (publishBody pkt).length ≤ 268435455 →
      mqtt__serialize pkt = (0, mqtt_b.ofBytes (specPublish pkt))) := by
  refine ⟨serialize_of_type_other pkt, ?_⟩
  intro ht hwf hlen
  rw [serialize_of_type_3 pkt ht]
  exact serialize_publish_eq pkt hwf (by omega)

/-- C15 (witness). The theorem `C15_serialize_no_range_check` at a packet of type
15 and at the QoS 1 PUBLISH of scenario 3, `32 06 00 01 61 00 01 78`. -/
theorem C15_serialize_no_range_check_witness :
    mqtt__serialize (mkAck 15 1) = (-1, ⟨none, 0⟩) ∧
    specPublish (mkPublish 0 1 0 [0x61] 1 [0x78])
      = [0x32, 0x06, 0x00, 0x01, 0x61, 0x00, 0x01, 0x78] ∧
    mqtt__serialize (mkPublish 0 1 0 [0x61] 1 [0x78])
      = (0, mqtt_b.ofBytes (specPublish (mkPublish 0 1 0 [0x61] 1 [0x78]))) :=
  ⟨(C15_serialize_no_range_check (mkAck 15 1)).1 (by decide), by decide,
   (C15_serialize_no_range_check (mkPublish 0 1 0 [0x61] 1 [0x78])).2 rfl (by decide)
     (by decide)⟩

theorem cell_some_lt {heap : List (Option libmqtt_pub)} {a : Nat} {r : libmqtt_pub}
    (h : heap.getD a none = some r) : a < heap.length := by
  by_contra hh
  rw [List.getD_eq_default _ _ (by omega)] at h
  exact Option.noConfusion h

theorem cell_append_lt (heap l : List (Option libmqtt_pub)) (a : Nat) (h : a < heap.length) :
    (heap ++ l).getD a none = heap.getD a none := by
  simp [List.getD_eq_getElem?_getD, List.getElem?_append_left h]

theorem cell_append_eq (heap : List (Option libmqtt_pub)) (x : Option libmqtt_pub) :
    (heap ++ [x]).getD heap.length none = x := by
  simp [List.getD_eq_getElem?_getD]

theorem cell_set_eq (heap : List (Option libmqtt_pub)) (a : Nat) (x : Option libmqtt_pub)
    (h : a < heap.length) : (heap.set a x).getD a none = x := by
  simp [List.getD_eq_getElem?_getD, h]

theorem cell_set_ne (heap : List (Option libmqtt_pub)) (a b : Nat) (x : Option libmqtt_pub)
    (h : a ≠ b) : (heap.set a x).getD b none = heap.getD b none := by
  simp [List.getD_eq_getElem?_getD, List.getElem?_set_ne h]

theorem isChain_congr {heap heap2 : List (Option libmqtt_pub)} :
    ∀ (as : List Nat) (p : Option Nat),
      (∀ a ∈ as, heap2.getD a none = heap.getD a none) →
      IsChain heap p as → IsChain heap2 p as := by
  intro as
  induction as with
  | nil => intro p _ h; exact h
  | cons a as ih =>
    intro p hsame h
    obtain ⟨hp, hrest⟩ := h
    refine ⟨hp, ?_⟩
    rw [hsame a (List.mem_cons_self _ _)]
    cases hc : heap.getD a none with
    | none => rw [hc] at hrest; exact hrest
    | some r =>
      rw [hc] at hrest
      exact ih r.next (fun b hb => hsame b (List.mem_cons_of_mem _ hb)) hrest

theorem isChain_unique {heap : List (Option libmqtt_pub)} :
    ∀ (as bs : List Nat) (p : Option Nat), IsChain heap p as → IsChain heap p bs → as = bs := by
  intro as
  induction as with
  | nil =>
    intro bs p h1 h2
    cases bs with
    | nil => rfl
    | cons b bs =>
      have e1 : p = none := h1
      rw [e1] at h2
      exact Option.noConfusion h2.1
  | cons a as ih =>
    intro bs p h1 h2
    cases bs with
    | nil =>
      have e2 : p = none := h2
      rw [e2] at h1
      exact Option.noConfusion h1.1
    | cons b bs =>
      obtain ⟨hp1, hr1⟩ := h1
      obtain ⟨hp2, hr2⟩ := h2
      have hab : a = b := by
        rw [hp1] at hp2
        exact Option.some.inj hp2
      subst hab
      cases hc : heap.getD a none with
      | none => rw [hc] at hr1; exact absurd hr1 id
      | some r =>
        rw [hc] at hr1 hr2
        rw [ih bs r.next hr1 hr2]

theorem isChain_suffix {heap : List (Option libmqtt_pub)} :
    ∀ (as : List Nat) (p : Option Nat) (a : Nat), IsChain heap p as → a ∈ as →
      ∃ bs, IsChain heap (some a) bs ∧ bs.length ≤ as.length := by
  intro as
  induction as with
  | nil => intro p a _ hm; exact absurd hm (List.not_mem_nil _)
  | cons b as ih =>
    intro p a h hm
    by_cases hab : a = b
    · subst hab
      exact ⟨a :: as, ⟨rfl, h.2⟩, Nat.le_refl _⟩
    · have hm2 : a ∈ as := by
        rcases List.mem_cons.mp hm with h1 | h1
        · exact absurd h1 hab
        · exact h1
      obtain ⟨_, hr⟩ := h
      cases hc : heap.getD b none with
      | none => rw [hc] at hr; exact absurd hr id
      | some r =>
        rw [hc] at hr
        obtain ⟨bs, hb1, hb2⟩ := ih r.next a hr hm2
        exact ⟨bs, hb1, by simp; omega⟩

theorem isChain_nodup {heap : List (Option libmqtt_pub)} :
    ∀ (as : List Nat) (p : Option Nat), IsChain heap p as → as.Nodup := by
  intro as
  induction as with
  | nil => intro _ _; exact List.nodup_nil
  | cons a as ih =>
    intro p h
    obtain ⟨hp, hr⟩ := h
    cases hc : heap.getD a none with
    | none => rw [hc] at hr; exact absurd hr id
    | some r =>
      have hr2 : IsChain heap r.next as := by rw [hc] at hr; exact hr
      refine List.nodup_cons.mpr ⟨?_, ih r.next hr2⟩
      intro hm
      obtain ⟨bs, hb1, hb2⟩ := isChain_suffix as r.next a hr2 hm
      have hfull : IsChain heap (some a) (a :: as) := ⟨rfl, by rw [hc]; exact hr2⟩
      have := isChain_unique bs (a :: as) (some a) hb1 hfull
      rw [this] at hb2
      simp at hb2

theorem isChain_lt {heap : List (Option libmqtt_pub)} :
    ∀ (as : List Nat) (p : Option Nat), IsChain heap p as → ∀ a ∈ as, a < heap.length := by
  intro as
  induction as with
  | nil => intro _ _ a hm; exact absurd hm (List.not_mem_nil _)
  | cons b as ih =>
    intro p h a hm
    obtain ⟨_, hr⟩ := h
    cases hc : heap.getD b none with
    | none => rw [hc] at hr; exact absurd hr id
    | some r =>
      rw [hc] at hr
      rcases List.mem_cons.mp hm with h1 | h1
      · rw [h1]; exact cell_some_lt hc
      · exact ih r.next hr a h1

theorem isChain_length_le {heap : List (Option libmqtt_pub)} (as : List Nat) (p : Option Nat)
    (h : IsChain heap p as) : as.length ≤ heap.length := by
  have hn := isChain_nodup as p h
  have hl := isChain_lt as p h
  have hsub : as.toFinset ⊆ Finset.range heap.length := by
    intro a ha
    rw [List.mem_toFinset] at ha
    exact Finset.mem_range.mpr (hl a ha)
  have := Finset.card_le_card hsub
  rw [List.toFinset_card_of_nodup hn, Finset.card_range] at this
  exact this

theorem chainFrom_of_isChain {heap : List (Option libmqtt_pub)} :
    ∀ (as : List Nat) (p : Option Nat) (fuel : Nat), IsChain heap p as → as.length < fuel →
      chainFrom fuel heap p = as := by
  intro as
  induction as with
  | nil =>
    intro p fuel h hf
    have e : p = none := h
    subst e
    cases fuel with
    | zero => rfl
    | succ k => rfl
  | cons a as ih =>
    intro p fuel h hf
    obtain ⟨hp, hr⟩ := h
    subst hp
    cases fuel with
    | zero => simp at hf
    | succ k =>
      cases hc : heap.getD a none with
      | none => rw [hc] at hr; exact absurd hr id
      | some r =>
        rw [hc] at hr
        simp only [chainFrom, hc]
        rw [ih r.next k hr (by simp at hf; omega)]

/-- On a well-formed session the addresses of the table are those of the list that
starts at `pub.head`: the fuel of `addrs` is enough. -/
theorem addrs_of_isChain (m : libmqtt) (as : List Nat) (h : IsChain m.heap m.pub.head as) :
    m.addrs = as :=
  chainFrom_of_isChain as _ _ h (by have := isChain_length_le as _ h; omega)

theorem isChain_nil_of_none {heap : List (Option libmqtt_pub)} (as : List Nat)
    (h : IsChain heap none as) : as = [] := by
  cases as with
  | nil => rfl
  | cons a as => exact Option.noConfusion h.1

theorem isChain_snoc {heap : List (Option libmqtt_pub)} (pub : libmqtt_pub)
    (hpub : pub.next = none) (tl : Nat) (rt : libmqtt_pub) (htl : heap.getD tl none = some rt) :
    ∀ (as : List Nat) (p : Option Nat), IsChain heap p as → as.getLast? = some tl →
      IsChain ((heap ++ [some pub]).set tl (some { rt with next := some heap.length })) p
        (as ++ [heap.length]) := by
  have htlt : tl < heap.length := cell_some_lt htl
  have hnew : ((heap ++ [some pub]).set tl (some { rt with next := some heap.length })).getD
      heap.length none = some pub := by
    rw [cell_set_ne _ _ _ _ (by omega), cell_append_eq]
  intro as
  induction as with
  | nil => intro p _ hl; simp at hl
  | cons a as ih =>
    intro p h hl
    have hnd := isChain_nodup _ _ h
    obtain ⟨hp, hr⟩ := h
    cases hc : heap.getD a none with
    | none => rw [hc] at hr; exact absurd hr id
    | some r =>
      rw [hc] at hr
      cases as with
      | nil =>
        have hat : a = tl := by simpa using hl
        subst hat
        have hrt : r = rt := by
          rw [hc] at htl
          exact Option.some.inj htl
        subst hrt
        have hrn : r.next = none := hr
        refine ⟨hp, ?_⟩
        rw [cell_set_eq _ _ _ (by simp; omega)]
        refine ⟨rfl, ?_⟩
        rw [hnew]
        exact hpub
      | cons b rest =>
        have hl2 : (b :: rest).getLast? = some tl := by
          rw [List.getLast?_cons_cons] at hl
          exact hl
        have hmem : tl ∈ b :: rest := List.mem_of_getLast?_eq_some hl2
        have hne : tl ≠ a := by
          intro e
          rw [e] at hmem
          exact (List.nodup_cons.mp hnd).1 hmem
        refine ⟨hp, ?_⟩
        rw [cell_set_ne _ _ _ _ hne, cell_append_lt _ _ _ (cell_some_lt hc), hc]
        exact ih r.next hr hl2

theorem table_eq_of_cells (m m2 : libmqtt) (as : List Nat)
    (h : ∀ a ∈ as, (m2.deref a).map (fun r => { r with next := none })
      = (m.deref a).map (fun r => { r with next := none })) :
    as.filterMap (fun a => (m2.deref a).map (fun r => { r with next := none }))
      = as.filterMap (fun a => (m.deref a).map (fun r => { r with next := none })) := by
  induction as with
  | nil => rfl
  | cons a as ih =>
    simp only [List.filterMap_cons]
    rw [h a (List.mem_cons_self _ _), ih (fun b hb => h b (List.mem_cons_of_mem _ hb))]

/-- The function `__insert_pub` on a well-formed list whose tail pointer designates
its last record: it returns 0, the new record is linked after the last one (the
list is well formed again, with the tail pointer on the new record), the table
gains exactly the new record at its end, and nothing else of the session
changes. -/
theorem insert_pub_appends (m : libmqtt) (p : mqtt_packet) (d : libmqtt_dir) (s : libmqtt_state)
    (as : List Nat) (hc : IsChain m.heap m.pub.head as) (ht : m.TailOk) :
    (__insert_pub m p d s).1 = 0 ∧
    IsChain (__insert_pub m p d s).2.heap (__insert_pub m p d s).2.pub.head
      (as ++ [m.heap.length]) ∧
    (__insert_pub m p d s).2.pub.tail = some m.heap.length ∧
    (__insert_pub m p d s).2.table = m.table ++ [insertedPub m p d s] ∧
    (__insert_pub m p d s).2.ub = m.ub ∧
    (__insert_pub m p d s).2.wire = m.wire ∧
    (__insert_pub m p d s).2.calls = m.calls ∧
    (__insert_pub m p d s).2.results = m.results ∧
    (__insert_pub m p d s).2.packet_id = m.packet_id ∧
    (__insert_pub m p d s).2.t = m.t ∧
    (__insert_pub m p d s).2.c = m.c ∧
    (__insert_pub m p d s).2.cb = m.cb := by
  have haddr := addrs_of_isChain m as hc
  have htab : ∀ m2 : libmqtt, IsChain m2.heap m2.pub.head (as ++ [m.heap.length]) →
      (∀ a ∈ as, (m2.deref a).map (fun r => { r with next := none })
        = (m.deref a).map (fun r => { r with next := none })) →
      m2.deref m.heap.length = some (insertedPub m p d s) →
      m2.table = m.table ++ [insertedPub m p d s] := by
    intro m2 h2 hsame hnew
    unfold libmqtt.table
    rw [addrs_of_isChain m2 _ h2, haddr, List.filterMap_append, table_eq_of_cells m m2 as hsame]
    simp [hnew, insertedPub]
  cases hh : m.pub.head with
  | none =>
    rw [hh] at hc
    have has : as = [] := isChain_nil_of_none as hc
    subst has
    have e : __insert_pub m p d s
        = (0, { m with heap := m.heap ++ [some (insertedPub m p d s)]
                       pub := ⟨some m.heap.length, some m.heap.length⟩ }) := by
      unfold __insert_pub
      simp only [hh]
      rfl
    rw [e]
    have hch : IsChain (m.heap ++ [some (insertedPub m p d s)]) (some m.heap.length)
        ([] ++ [m.heap.length]) := by
      refine ⟨rfl, ?_⟩
      rw [cell_append_eq]
      rfl
    refine ⟨rfl, hch, rfl, ?_, rfl, rfl, rfl, rfl, rfl, rfl, rfl, rfl⟩
    exact htab _ hch (fun a ha => absurd ha (List.not_mem_nil _)) (cell_append_eq _ _)
  | some a0 =>
    have hto : m.pub.tail = as.getLast? := by
      rcases ht with h | h
      · rw [hh] at h
        exact Option.noConfusion h
      · rw [h, haddr]
    have hne : as ≠ [] := by
      intro e
      rw [e, hh] at hc
      exact Option.noConfusion hc
    obtain ⟨tl, htl⟩ : ∃ tl, as.getLast? = some tl := by
      cases hl : as.getLast? with
      | none => exact absurd (List.getLast?_eq_none_iff.mp hl) hne
      | some tl => exact ⟨tl, rfl⟩
    have hmem : tl ∈ as := List.mem_of_getLast?_eq_some htl
    have hlt := isChain_lt as _ hc tl hmem
    obtain ⟨rt, hrt⟩ : ∃ rt, m.heap.getD tl none = some rt := by
      obtain ⟨bs, hb, _⟩ := isChain_suffix as _ tl hc hmem
      cases bs with
      | nil => exact Option.noConfusion hb
      | cons b bs =>
        have hbt : tl = b := Option.some.inj hb.1
        subst hbt
        cases hcell : m.heap.getD tl none with
        | none =>
          have := hb.2
          rw [hcell] at this
          exact absurd this id
        | some rt => exact ⟨rt, rfl⟩
    have e : __insert_pub m p d s
        = (0, { m with heap := (m.heap ++ [some (insertedPub m p d s)]).set tl
                          (some { rt with next := some m.heap.length })
                       pub := ⟨some a0, some m.heap.length⟩ }) := by
      unfold __insert_pub
      simp only [hh, hto, htl]
      unfold libmqtt.modify libmqtt.deref
      simp only []
      rw [cell_append_lt _ _ _ hlt, hrt]
      simp only [hh, insertedPub]
    rw [e]
    have hch := isChain_snoc (insertedPub m p d s) rfl tl rt hrt as _ hc htl
    have hch2 : IsChain ((m.heap ++ [some (insertedPub m p d s)]).set tl
        (some { rt with next := some m.heap.length })) (some a0) (as ++ [m.heap.length]) := by
      rw [← hh]
      exact hch
    refine ⟨rfl, ?_, rfl, ?_, rfl, rfl, rfl, rfl, rfl, rfl, rfl, rfl⟩
    · exact hch2
    · apply htab
      · exact hch2
      · intro a ha
        unfold libmqtt.deref
        simp only []
        by_cases hat : a = tl
        · subst hat
          rw [cell_set_eq _ _ _ (by simp; omega), hrt]
          rfl
        · rw [cell_set_ne _ _ _ _ (Ne.symm hat),
            cell_append_lt _ _ _ (isChain_lt as _ hc a ha)]
      · unfold libmqtt.deref
        simp only []
        rw [cell_set_ne _ _ _ _ (by omega), cell_append_eq]

/-- C16 (code defect). In a connected session the first QoS 1 publication of "x" to
"a" draws the id 1, writes `32 06 00 01 61 00 01 78` and leaves the table with the
one record for it, in state WAIT_PUBACK.  After a second publication (id 2) and
the PUBACK of the peer for id 2, the table holds the record of id 1 but the tail
pointer still holds the address of the record of id 2, which `__delete_pub` has
freed.  The next QoS 1 publication draws the id 3 and writes its PUBLISH, but
`__insert_pub` assigns through the stale tail pointer (undefined behaviour) and
the record of id 3 is not in the table: the table is as before. -/
theorem C16_publish_after_delete_not_appended :
    (libmqtt__publish connectedClient.2 [0x61, 0] 1 0 (some [0x78]) 1).1 = 0 ∧
    (libmqtt__publish connectedClient.2 [0x61, 0] 1 0 (some [0x78]) 1).2.1 = some 1 ∧
    (libmqtt__publish connectedClient.2 [0x61, 0] 1 0 (some [0x78]) 1).2.2.wire
      = [([0x32, 0x06, 0x00, 0x01, 0x61, 0x00, 0x01, 0x78], 8)] ∧
    (libmqtt__publish connectedClient.2 [0x61, 0] 1 0 (some [0x78]) 1).2.2.table
      = [outPub 1 [0x61] 1 0 [0x78] libmqtt_state.LIBMQTT_ST_WAIT_PUBACK 0] ∧
    staleTailSession.ub = false ∧
    staleTailSession.table = [outPub 1 [0x61] 1 0 [0x78] libmqtt_state.LIBMQTT_ST_WAIT_PUBACK 0] ∧
    staleTailSession.pub = ⟨some 0, some 1⟩ ∧
    staleTailSession.deref 1 = none ∧
    (libmqtt__publish staleTailSession [0x63, 0] 1 0 (some [0x7A]) 1).1 = 0 ∧
    (libmqtt__publish staleTailSession [0x63, 0] 1 0 (some [0x7A]) 1).2.1 = some 3 ∧
    (libmqtt__publish staleTailSession [0x63, 0] 1 0 (some [0x7A]) 1).2.2.wire.getLast?
      = some ([0x32, 0x06, 0x00, 0x01, 0x63, 0x00, 0x03, 0x7A], 8) ∧
    (libmqtt__publish staleTailSession [0x63, 0] 1 0 (some [0x7A]) 1).2.2.ub = true ∧
    (libmqtt__publish staleTailSession [0x63, 0] 1 0 (some [0x7A]) 1).2.2.table
      = [outPub 1 [0x61] 1 0 [0x78] libmqtt_state.LIBMQTT_ST_WAIT_PUBACK 0] := by
  decide

/-- C17 (counterexample). In a connected session whose table is empty, a QoS 0
publication of "hi" to "t" whose `write` fails (returns -1) leaves a record in the
table: the publication with packet id 0, in state SEND_PUBLISH. -/
theorem C17_qos0_write_failure_queues_record :
    ({ connectedClient.2 with results := [-1] } : libmqtt).table = [] ∧
    (libmqtt__publish { connectedClient.2 with results := [-1] } [0x74, 0] 0 0
      (some [0x68, 0x69]) 2).1 = 0 ∧
    (libmqtt__publish { connectedClient.2 with results := [-1] } [0x74, 0] 0 0
      (some [0x68, 0x69]) 2).2.2.wire = [([0x30, 0x05, 0x00, 0x01, 0x74, 0x68, 0x69], -1)] ∧
    (libmqtt__publish { connectedClient.2 with results := [-1] } [0x74, 0] 0 0
      (some [0x68, 0x69]) 2).2.2.table
      = [outPub 0 [0x74] 0 0 [0x68, 0x69] libmqtt_state.LIBMQTT_ST_SEND_PUBLUSH 0] := by
  decide

/-- C18 (code defect). A connected session that has drawn 127 packet ids publishes
"x" to "a" with QoS 1: the id is 128 and the PUBLISH is `32 06 00 01 61 00 80 78`.
Where plain `char` is signed, the PUBACK of the peer for that id, `40 02 00 80`,
makes `mqtt__parse` return -1: the hook `puback` is not invoked and the record
stays in the table (`__on_puback` is handed the id 65408).  Where `char` is
unsigned the hook is invoked once with 128 and the record is removed, as it is
for the id 1 with either signedness. -/
theorem C18_puback_id_128_not_matched :
    (libmqtt__publish { connectedClient.2 with packet_id := 127 } [0x61, 0] 1 0
      (some [0x78]) 1).2.1 = some 128 ∧
    (libmqtt__publish { connectedClient.2 with packet_id := 127 } [0x61, 0] 1 0
      (some [0x78]) 1).2.2.table
      = [outPub 128 [0x61] 1 0 [0x78] libmqtt_state.LIBMQTT_ST_WAIT_PUBACK 0] ∧
    (mqtt__parse_bytes true connectedClient.1
      (libmqtt__publish { connectedClient.2 with packet_id := 127 } [0x61, 0] 1 0
        (some [0x78]) 1).2.2 [0x40, 0x02, 0x00, 0x80]).1 = -1 ∧
    (mqtt__parse_bytes true connectedClient.1
      (libmqtt__publish { connectedClient.2 with packet_id := 127 } [0x61, 0] 1 0
        (some [0x78]) 1).2.2 [0x40, 0x02, 0x00, 0x80]).2.2.calls
      = [libmqtt_call.connack 0 0] ∧
    (mqtt__parse_bytes true connectedClient.1
      (libmqtt__publish { connectedClient.2 with packet_id := 127 } [0x61, 0] 1 0
        (some [0x78]) 1).2.2 [0x40, 0x02, 0x00, 0x80]).2.2.table
      = [outPub 128 [0x61] 1 0 [0x78] libmqtt_state.LIBMQTT_ST_WAIT_PUBACK 0] ∧
    (mqtt__parse_bytes false connectedClient.1
      (libmqtt__publish { connectedClient.2 with packet_id := 127 } [0x61, 0] 1 0
        (some [0x78]) 1).2.2 [0x40, 0x02, 0x00, 0x80]).1 = 0 ∧
    (mqtt__parse_bytes false connectedClient.1
      (libmqtt__publish { connectedClient.2 with packet_id := 127 } [0x61, 0] 1 0
        (some [0x78]) 1).2.2 [0x40, 0x02, 0x00, 0x80]).2.2.calls
      = [libmqtt_call.connack 0 0, libmqtt_call.puback 128] ∧
    (mqtt__parse_bytes false connectedClient.1
      (libmqtt__publish { connectedClient.2 with packet_id := 127 } [0x61, 0] 1 0
        (some [0x78]) 1).2.2 [0x40, 0x02, 0x00, 0x80]).2.2.table = [] ∧
    (∀ signedChar : Bool,
      (mqtt__parse_bytes signedChar connectedClient.1
        (libmqtt__publish connectedClient.2 [0x61, 0] 1 0 (some [0x78]) 1).2.2
        [0x40, 0x02, 0x00, 0x01]).1 = 0 ∧
      (mqtt__parse_bytes signedChar connectedClient.1
        (libmqtt__publish connectedClient.2 [0x61, 0] 1 0 (some [0x78]) 1).2.2
        [0x40, 0x02, 0x00, 0x01]).2.2.calls
        = [libmqtt_call.connack 0 0, libmqtt_call.puback 1] ∧
      (mqtt__parse_bytes signedChar connectedClient.1
        (libmqtt__publish connectedClient.2 [0x61, 0] 1 0 (some [0x78]) 1).2.2
        [0x40, 0x02, 0x00, 0x01]).2.2.table = []) := by
  decide

/-- C19 (code defect). In a connected session the QoS 2 handshake for the id 1
goes as claimed: the publication writes `34 06 00 01 61 00 01 78`, the PUBREC
`50 02 00 01` makes the client write PUBREL `62 02 00 01` (record in WAIT_PUBCOMP,
the hook `puback` not yet invoked), and the PUBCOMP `70 02 00 01` invokes the hook
once and removes the record; if the write of the PUBREL fails the record is in
SEND_PUBREL.  For the id 128 (a session that has drawn 127 ids) and signed `char`,
the PUBREC `50 02 00 80` makes `mqtt__parse` return -1: no PUBREL is written and
the record stays in WAIT_PUBREC. -/
theorem C19_qos2_handshake_id_128_fails :
    (libmqtt__publish connectedClient.2 [0x61, 0] 2 0 (some [0x78]) 1).2.2.wire
      = [([0x34, 0x06, 0x00, 0x01, 0x61, 0x00, 0x01, 0x78], 8)] ∧
    (libmqtt__publish connectedClient.2 [0x61, 0] 2 0 (some [0x78]) 1).2.2.table
      = [outPub 1 [0x61] 2 0 [0x78] libmqtt_state.LIBMQTT_ST_WAIT_PUBREC 0] ∧
    (∀ signedChar : Bool,
      (mqtt__parse_bytes signedChar connectedClient.1
        (libmqtt__publish connectedClient.2 [0x61, 0] 2 0 (some [0x78]) 1).2.2
        [0x50, 0x02, 0x00, 0x01]).1 = 0 ∧
      (mqtt__parse_bytes signedChar connectedClient.1
        (libmqtt__publish connectedClient.2 [0x61, 0] 2 0 (some [0x78]) 1).2.2
        [0x50, 0x02, 0x00, 0x01]).2.2.wire
        = [([0x34, 0x06, 0x00, 0x01, 0x61, 0x00, 0x01, 0x78], 8),
           ([0x62, 0x02, 0x00, 0x01], 4)] ∧
      (mqtt__parse_bytes signedChar connectedClient.1
        (libmqtt__publish connectedClient.2 [0x61, 0] 2 0 (some [0x78]) 1).2.2
        [0x50, 0x02, 0x00, 0x01]).2.2.table
        = [outPub 1 [0x61] 2 0 [0x78] libmqtt_state.LIBMQTT_ST_WAIT_PUBCOMP 0] ∧
      (mqtt__parse_bytes signedChar connectedClient.1
        (libmqtt__publish connectedClient.2 [0x61, 0] 2 0 (some [0x78]) 1).2.2
        [0x50, 0x02, 0x00, 0x01]).2.2.calls = [libmqtt_call.connack 0 0] ∧
      (mqtt__parse_bytes signedChar connectedClient.1
        (mqtt__parse_bytes signedChar connectedClient.1
          (libmqtt__publish connectedClient.2 [0x61, 0] 2 0 (some [0x78]) 1).2.2
          [0x50, 0x02, 0x00, 0x01]).2.2 [0x70, 0x02, 0x00, 0x01]).1 = 0 ∧
      (mqtt__parse_bytes signedChar connectedClient.1
        (mqtt__parse_bytes signedChar connectedClient.1
          (libmqtt__publish connectedClient.2 [0x61, 0] 2 0 (some [0x78]) 1).2.2
          [0x50, 0x02, 0x00, 0x01]).2.2 [0x70, 0x02, 0x00, 0x01]).2.2.calls
        = [libmqtt_call.connack 0 0, libmqtt_call.puback 1] ∧
      (mqtt__parse_bytes signedChar connectedClient.1
        (mqtt__parse_bytes signedChar connectedClient.1
          (libmqtt__publish connectedClient.2 [0x61, 0] 2 0 (some [0x78]) 1).2.2
          [0x50, 0x02, 0x00, 0x01]).2.2 [0x70, 0x02, 0x00, 0x01]).2.2.table = [] ∧
      (mqtt__parse_bytes signedChar connectedClient.1
        (mqtt__parse_bytes signedChar connectedClient.1
          (libmqtt__publish connectedClient.2 [0x61, 0] 2 0 (some [0x78]) 1).2.2
          [0x50, 0x02, 0x00, 0x01]).2.2 [0x70, 0x02, 0x00, 0x01]).2.2.wire.length = 2 ∧
      (mqtt__parse_bytes signedChar connectedClient.1
        (libmqtt__publish { connectedClient.2 with results := [8, -1] } [0x61, 0] 2 0
          (some [0x78]) 1).2.2 [0x50, 0x02, 0x00, 0x01]).2.2.table
        = [outPub 1 [0x61] 2 0 [0x78] libmqtt_state.LIBMQTT_ST_SEND_PUBREL 0]) ∧
    (libmqtt__publish { connectedClient.2 with packet_id := 127 } [0x61, 0] 2 0
      (some [0x78]) 1).2.1 = some 128 ∧
    (mqtt__parse_bytes true connectedClient.1
      (libmqtt__publish { connectedClient.2 with packet_id := 127 } [0x61, 0] 2 0
        (some [0x78]) 1).2.2 [0x50, 0x02, 0x00, 0x80]).1 = -1 ∧
    (mqtt__parse_bytes true connectedClient.1
      (libmqtt__publish { connectedClient.2 with packet_id := 127 } [0x61, 0] 2 0
        (some [0x78]) 1).2.2 [0x50, 0x02, 0x00, 0x80]).2.2.wire
      = [([0x34, 0x06, 0x00, 0x01, 0x61, 0x00, 0x80, 0x78], 8)] ∧
    (mqtt__parse_bytes true connectedClient.1
      (libmqtt__publish { connectedClient.2 with packet_id := 127 } [0x61, 0] 2 0
        (some [0x78]) 1).2.2 [0x50, 0x02, 0x00, 0x80]).2.2.table
      = [outPub 128 [0x61] 2 0 [0x78] libmqtt_state.LIBMQTT_ST_WAIT_PUBREC 0] := by
  refine ⟨by decide, by decide, ?_, by decide, by decide, by decide, by decide⟩
  intro signedChar
  cases signedChar <;> decide

/-- C20 (code defect). The QoS 2 PUBLISH `3C 05 00 01 61 00 07` (topic "a", id 7,
empty payload) fed to a connected client makes `mqtt__parse` return -1: nothing is
written and no record is created (`__parse_publish` rejects it before
`__on_publish` runs).  The same publication with the payload "x",
`3C 06 00 01 61 00 07 78`, is accepted: the client writes PUBREC `50 02 00 07`,
does not invoke the hook `publish` and appends the inbound record in WAIT_PUBREL
(SEND_PUBREC when the write fails). -/
theorem C20_inbound_qos2_empty_payload_rejected :
    (∀ signedChar : Bool,
      (mqtt__parse_bytes signedChar connectedClient.1 connectedClient.2
        [0x3C, 0x05, 0x00, 0x01, 0x61, 0x00, 0x07]).1 = -1 ∧
      (mqtt__parse_bytes signedChar connectedClient.1 connectedClient.2
        [0x3C, 0x05, 0x00, 0x01, 0x61, 0x00, 0x07]).2.2.wire = [] ∧
      (mqtt__parse_bytes signedChar connectedClient.1 connectedClient.2
        [0x3C, 0x05, 0x00, 0x01, 0x61, 0x00, 0x07]).2.2.table = []) ∧
    (∀ signedChar : Bool,
      (mqtt__parse_bytes signedChar connectedClient.1 connectedClient.2
        [0x3C, 0x06, 0x00, 0x01, 0x61, 0x00, 0x07, 0x78]).1 = 0 ∧
      (mqtt__parse_bytes signedChar connectedClient.1 connectedClient.2
        [0x3C, 0x06, 0x00, 0x01, 0x61, 0x00, 0x07, 0x78]).2.2.wire
        = [([0x50, 0x02, 0x00, 0x07], 4)] ∧
      (mqtt__parse_bytes signedChar connectedClient.1 connectedClient.2
        [0x3C, 0x06, 0x00, 0x01, 0x61, 0x00, 0x07, 0x78]).2.2.calls
        = [libmqtt_call.connack 0 0] ∧
      (mqtt__parse_bytes signedChar connectedClient.1 connectedClient.2
        [0x3C, 0x06, 0x00, 0x01, 0x61, 0x00, 0x07, 0x78]).2.2.table
        = [inPub 7 [0x61] 2 0 [0x78] libmqtt_state.LIBMQTT_ST_WAIT_PUBREL 0] ∧
      (mqtt__parse_bytes signedChar connectedClient.1
        { connectedClient.2 with results := [-1] }
        [0x3C, 0x06, 0x00, 0x01, 0x61, 0x00, 0x07, 0x78]).2.2.table
        = [inPub 7 [0x61] 2 0 [0x78] libmqtt_state.LIBMQTT_ST_SEND_PUBREC 0]) := by
  refine ⟨?_, ?_⟩ <;> intro signedChar <;> cases signedChar <;> decide

theorem write_fields (m : libmqtt) (data : List Nat) :
    (__write m data).1 = (if m.results.headD (data.length : Int) = -1 then -1 else 0) ∧
    (__write m data).2.wire = m.wire ++ [(data, m.results.headD (data.length : Int))] ∧
    (__write m data).2.results = m.results.tail ∧
    (__write m data).2.heap = m.heap ∧ (__write m data).2.pub = m.pub ∧
    (__write m data).2.packet_id = m.packet_id ∧ (__write m data).2.calls = m.calls ∧
    (__write m data).2.ub = m.ub ∧ (__write m data).2.c = m.c ∧ (__write m data).2.cb = m.cb ∧
    (__write m data).2.t.now = m.t.now ∧ (__write m data).2.t.ping = m.t.ping ∧
    (__write m data).2.t.send
      = (if m.results.headD (data.length : Int) = -1 then m.t.send else m.t.now) := by
  unfold __write
  simp only []
  split <;> exact ⟨rfl, rfl, rfl, rfl, rfl, rfl, rfl, rfl, rfl, rfl, rfl, rfl, rfl⟩

theorem table_congr (m m2 : libmqtt) (h1 : m2.heap = m.heap) (h2 : m2.pub = m.pub) :
    m2.table = m.table := by
  unfold libmqtt.table libmqtt.addrs libmqtt.deref
  rw [h1, h2]

theorem tailOk_congr (m m2 : libmqtt) (h1 : m2.heap = m.heap) (h2 : m2.pub = m.pub)
    (h : m.TailOk) : m2.TailOk := by
  unfold libmqtt.TailOk libmqtt.addrs at *
  rw [h1, h2]
  exact h

theorem insertedPub_congr (m m2 : libmqtt) (p : mqtt_packet) (d : libmqtt_dir)
    (s : libmqtt_state) (h : m2.t.now = m.t.now) :
    insertedPub m2 p d s = insertedPub m p d s := by
  unfold insertedPub
  rw [h]

theorem serialize_publish_rc (p : mqtt_packet) (h : p.h.type = PUBLISH) :
    (mqtt__serialize p).1 = 0 := by
  rw [serialize_of_type_3 p h]
  rfl

theorem insert_pub_rc (m : libmqtt) (p : mqtt_packet) (d : libmqtt_dir) (s : libmqtt_state) :
    (__insert_pub m p d s).1 = 0 := by
  unfold __insert_pub
  simp only []
  split
  · rfl
  · split <;> rfl

/-- The function `libmqtt__publish` with QoS 0, in general: the bytes of
`mqtt__serialize` are offered to `write` once; when the call succeeds nothing but
the logs of the transport and the time of the last send changes; when it fails
`__insert_pub` is called for the publication, with the state SEND_PUBLISH. -/
theorem publish_qos0_eq (m : libmqtt) (topic : List Nat) (retain : Int)
    (payload : Option (List Nat)) (length : Int) :
    libmqtt__publish m topic 0 retain payload length
      = if (__write m (mqtt__serialize
            (publishPacket topic 0 retain 0 payload length)).2.bytes).1 = 0 then
          (0, none, (__write m (mqtt__serialize
            (publishPacket topic 0 retain 0 payload length)).2.bytes).2)
        else
          (0, none, (__insert_pub (__write m (mqtt__serialize
              (publishPacket topic 0 retain 0 payload length)).2.bytes).2
            (publishPacket topic 0 retain 0 payload length) libmqtt_dir.LIBMQTT_DIR_OUT
            libmqtt_state.LIBMQTT_ST_SEND_PUBLUSH).2) := by
  have hrc := serialize_publish_rc (publishPacket topic 0 retain 0 payload length) rfl
  unfold libmqtt__publish
  have h1 : ¬ ¬ MQTT_IS_QOS 0 = true := by decide
  have h2 : ¬ (0 : Int) > MQTT_QOS_0 := by decide
  simp only [h1, h2, if_false, hrc, ne_eq, not_true_eq_false]
  by_cases hw : (__write m (mqtt__serialize
      (publishPacket topic 0 retain 0 payload length)).2.bytes).1 = 0
  · simp [hw]
  · simp only [hw, false_and, if_false, not_false_eq_true, if_true, insert_pub_rc]
    rfl

/-- C17 (amended). `libmqtt__publish` with QoS 0, for every session state, topic,
retain flag and payload: it returns 0, offers the bytes of `mqtt__serialize` to
the transport once, and leaves the packet-id counter and the undefined-behaviour
flag as they are.  When the write succeeds the heap and the list pointers, hence
the in-flight table, are unchanged.  When the write fails the publication is
queued: on a well-formed list whose tail pointer designates its last record, the
table gains exactly one record at its end, the outbound publication with packet
id 0 in state SEND_PUBLISH.  For topic "t" and payload "hi" the bytes offered are
30 05 00 01 74 68 69. -/
theorem C17_qos0_publish (m : libmqtt) (topic : List Nat) (retain : Int)
    (payload : Option (List Nat)) (length : Int) :
    (libmqtt__publish m topic 0 retain payload length).1 = 0 ∧
    (libmqtt__publish m topic 0 retain payload length).2.2.wire
      = m.wire ++ [((mqtt__serialize (publishPacket topic 0 retain 0 payload length)).2.bytes,
          m.results.headD
            ((mqtt__serialize (publishPacket topic 0 retain 0 payload length)).2.bytes.length
              : Int))] ∧
    (libmqtt__publish m topic 0 retain payload length).2.2.packet_id = m.packet_id ∧
    (m.results.headD
        ((mqtt__serialize (publishPacket topic 0 retain 0 payload length)).2.bytes.length : Int)
        ≠ -1 →
      (libmqtt__publish m topic 0 retain payload length).2.2.heap = m.heap ∧
      (libmqtt__publish m topic 0 retain payload length).2.2.pub = m.pub ∧
      (libmqtt__publish m topic 0 retain payload length).2.2.table = m.table ∧
      (libmqtt__publish m topic 0 retain payload length).2.2.ub = m.ub) ∧
    (m.results.headD
        ((mqtt__serialize (publishPacket topic 0 retain 0 payload length)).2.bytes.length : Int)
        = -1 →
      ∀ as, IsChain m.heap m.pub.head as → m.TailOk →
        (libmqtt__publish m topic 0 retain payload length).2.2.table
          = m.table ++ [insertedPub m (publishPacket topic 0 retain 0 payload length)
              libmqtt_dir.LIBMQTT_DIR_OUT libmqtt_state.LIBMQTT_ST_SEND_PUBLUSH] ∧
        (libmqtt__publish m topic 0 retain payload length).2.2.ub = m.ub) ∧
    (mqtt__serialize (publishPacket [0x74, 0] 0 0 0 (some [0x68, 0x69]) 2)).2.bytes
      = [0x30, 0x05, 0x00, 0x01, 0x74, 0x68, 0x69] := by
  obtain ⟨data, hd⟩ : ∃ data, data
      = (mqtt__serialize (publishPacket topic 0 retain 0 payload length)).2.bytes := ⟨_, rfl⟩
  have hw := write_fields m data
  rw [publish_qos0_eq, ← hd]
  by_cases hr : m.results.headD (data.length : Int) = -1
  · have hw1 : ¬ (__write m data).1 = 0 := by
      rw [hw.1, if_pos hr]
      decide
    rw [if_neg hw1]
    have hfr := fun as (hc : IsChain (__write m data).2.heap (__write m data).2.pub.head as)
      (ht : (__write m data).2.TailOk) =>
      insert_pub_appends (__write m data).2 (publishPacket topic 0 retain 0 payload length)
        libmqtt_dir.LIBMQTT_DIR_OUT libmqtt_state.LIBMQTT_ST_SEND_PUBLUSH as hc ht
    have hwire : (__insert_pub (__write m data).2 (publishPacket topic 0 retain 0 payload length)
        libmqtt_dir.LIBMQTT_DIR_OUT libmqtt_state.LIBMQTT_ST_SEND_PUBLUSH).2.wire
        = (__write m data).2.wire ∧
        (__insert_pub (__write m data).2 (publishPacket topic 0 retain 0 payload length)
        libmqtt_dir.LIBMQTT_DIR_OUT libmqtt_state.LIBMQTT_ST_SEND_PUBLUSH).2.packet_id
        = (__write m data).2.packet_id := by
      unfold __insert_pub
      simp only []
      split
      · exact ⟨rfl, rfl⟩
      · split
        · exact ⟨rfl, rfl⟩
        · unfold libmqtt.modify
          simp only []
          split <;> exact ⟨rfl, rfl⟩
    refine ⟨rfl, ?_, ?_, fun h => absurd hr h, ?_, by decide⟩
    · show (__insert_pub _ _ _ _).2.wire = _
      rw [hwire.1, hw.2.1]
    · show (__insert_pub _ _ _ _).2.packet_id = _
      rw [hwire.2, hw.2.2.2.2.2.1]
    · intro _ as hc ht
      have hc2 : IsChain (__write m data).2.heap (__write m data).2.pub.head as := by
        rw [hw.2.2.2.1, hw.2.2.2.2.1]
        exact hc
      have ht2 : (__write m data).2.TailOk :=
        tailOk_congr m _ hw.2.2.2.1 hw.2.2.2.2.1 ht
      have h := hfr as hc2 ht2
      refine ⟨?_, ?_⟩
      · show (__insert_pub _ _ _ _).2.table = _
        rw [h.2.2.2.1, table_congr m _ hw.2.2.2.1 hw.2.2.2.2.1,
          insertedPub_congr m _ _ _ _ hw.2.2.2.2.2.2.2.2.2.2.1]
      · show (__insert_pub _ _ _ _).2.ub = _
        rw [h.2.2.2.2.1, hw.2.2.2.2.2.2.2.1]
  · have hw1 : (__write m data).1 = 0 := by
      rw [hw.1, if_neg hr]
    rw [if_pos hw1]
    refine ⟨rfl, hw.2.1, hw.2.2.2.2.2.1, ?_, fun h => absurd h hr, by decide⟩
    intro _
    exact ⟨hw.2.2.2.1, hw.2.2.2.2.1, table_congr m _ hw.2.2.2.1 hw.2.2.2.2.1,
      hw.2.2.2.2.2.2.2.1⟩

/-- C17 (witness). The theorem `C17_qos0_publish` at the publication of "hi" to "t"
in a connected session: with a write that succeeds the table stays empty, with a
write that fails it holds the queued publication. -/
theorem C17_qos0_publish_witness :
    (libmqtt__publish connectedClient.2 [0x74, 0] 0 0 (some [0x68, 0x69]) 2).2.2.table = [] ∧
    (libmqtt__publish { connectedClient.2 with results := [-1] } [0x74, 0] 0 0
      (some [0x68, 0x69]) 2).2.2.table
      = [] ++ [outPub 0 [0x74] 0 0 [0x68, 0x69] libmqtt_state.LIBMQTT_ST_SEND_PUBLUSH 0] :=
  ⟨((C17_qos0_publish connectedClient.2 [0x74, 0] 0 (some [0x68, 0x69]) 2).2.2.2.1
      (by decide)).2.2.1,
   ((C17_qos0_publish { connectedClient.2 with results := [-1] } [0x74, 0] 0
      (some [0x68, 0x69]) 2).2.2.2.2.1 (by decide) [] (by decide) (by decide)).1⟩

theorem generate_packet_id_eq (m : libmqtt) (h0 : 0 ≤ m.packet_id) (h1 : m.packet_id < 65536) :
    __generate_packet_id m
      = (if m.packet_id = 65535 then 1 else m.packet_id + 1,
         { m with packet_id := if m.packet_id = 65535 then 1 else m.packet_id + 1 }) := by
  unfold __generate_packet_id
  by_cases h : m.packet_id = 65535
  · have e : (m.packet_id + 1) % 65536 = 0 := by omega
    simp only [e, if_true, h]
    rfl
  · have e : (m.packet_id + 1) % 65536 = m.packet_id + 1 := by omega
    have e2 : ¬ m.packet_id + 1 = 0 := by omega
    simp only [e, e2, if_false, h]

theorem generate_packet_id_range (m : libmqtt) (h0 : 0 ≤ m.packet_id)
    (h1 : m.packet_id < 65536) :
    1 ≤ (__generate_packet_id m).1 ∧ (__generate_packet_id m).1 ≤ 65535 ∧
    (__generate_packet_id m).2.packet_id = (__generate_packet_id m).1 := by
  rw [generate_packet_id_eq m h0 h1]
  refine ⟨?_, ?_, rfl⟩
  · show 1 ≤ (if m.packet_id = 65535 then 1 else m.packet_id + 1)
    split <;> omega
  · show (if m.packet_id = 65535 then 1 else m.packet_id + 1) ≤ 65535
    split <;> omega

theorem drawIds_eq (n : Nat) : ∀ (m : libmqtt), 0 ≤ m.packet_id → m.packet_id < 65536 →
    drawIds n m = (List.range n).map (fun (i : Nat) => (m.packet_id + (i : Int)) % 65535 + 1) := by
  induction n with
  | zero => intro m _ _; rfl
  | succ n ih =>
    intro m h0 h1
    have hr := generate_packet_id_range m h0 h1
    have he := generate_packet_id_eq m h0 h1
    have hid : (__generate_packet_id m).1 = (if m.packet_id = 65535 then 1 else m.packet_id + 1) := by
      rw [he]
    rw [drawIds, ih _ (by rw [hr.2.2]; omega) (by rw [hr.2.2]; omega), hr.2.2,
      List.range_succ_eq_map, List.map_cons, List.map_map]
    congr 1
    · rw [hid]
      split <;> omega
    · apply List.map_congr_left
      intro i _
      simp only [Function.comp, Nat.succ_eq_add_one, Nat.cast_add, Nat.cast_one]
      rw [hid]
      split <;> omega

theorem publish_id_ne_zero (m : libmqtt) (h0 : 0 ≤ m.packet_id) (h1 : m.packet_id < 65536)
    (topic : List Nat) (qos retain : Int) (payload : Option (List Nat)) (length id : Int)
    (h : (libmqtt__publish m topic qos retain payload length).2.1 = some id) : id ≠ 0 := by
  have hr := generate_packet_id_range m h0 h1
  unfold libmqtt__publish at h
  by_cases hq : qos > MQTT_QOS_0
  · simp only [hq, if_true] at h
    have hp : (publishPacket topic qos retain (__generate_packet_id m).1 payload
        length).v.publish.packet_id = (__generate_packet_id m).1 := rfl
    rw [hp] at h
    have key : some (__generate_packet_id m).1 = some id := by
      revert h
      split
      · intro h; exact absurd h (by simp)
      · split
        · intro h; exact absurd h (by simp)
        · split
          · exact fun h => h
          · split
            · split <;> exact fun h => h
            · split
              · split <;> exact fun h => h
              · split
                · split <;> exact fun h => h
                · exact fun h => h
    have : (__generate_packet_id m).1 = id := Option.some.inj key
    omega
  · simp only [hq, if_false] at h
    exfalso
    revert h
    split
    · simp
    · split
      · simp
      · split
        · simp
        · split
          · split <;> simp
          · split
            · split <;> simp
            · split
              · split <;> simp
              · simp

/-- C27. The packet-id generator: for every session whose counter is a 16-bit value
`c`, `__generate_packet_id` returns an id that is not zero, equal to `(c + 1) mod
65536`, or to 1 when that value is 0; it stores the id returned as the new counter
and changes nothing else; `n` successive calls return the ids `((c + i) mod 65535)
+ 1` for `i < n`, which from `c = 0` is 1, 2, ..., 65535, 1, ...; and an id that
`libmqtt__publish`, `libmqtt__subscribe` or `libmqtt__unsubscribe` stores through its
pointer `id` is never zero. -/
theorem C27_packet_id_generator (m : libmqtt) (h0 : 0 ≤ m.packet_id)
    (h1 : m.packet_id < 65536) :
    (__generate_packet_id m).1 ≠ 0 ∧
    (__generate_packet_id m).1
      = (if (m.packet_id + 1) % 65536 = 0 then 1 else (m.packet_id + 1) % 65536) ∧
    (__generate_packet_id m).2 = { m with packet_id := (__generate_packet_id m).1 } ∧
    (∀ n : Nat, drawIds n m
      = (List.range n).map (fun (i : Nat) => (m.packet_id + (i : Int)) % 65535 + 1)) ∧
    (∀ (topic : List Nat) (qos retain : Int) (payload : Option (List Nat)) (length id : Int),
      (libmqtt__publish m topic qos retain payload length).2.1 = some id → id ≠ 0) ∧
    (∀ (count : Int) (topic : Nat → List Nat) (qos : Nat → Int) (id : Int),
      (libmqtt__subscribe (some m) count topic qos).id = some id → id ≠ 0) ∧
    (∀ (count : Int) (topic : Nat → List Nat) (id : Int),
      (libmqtt__unsubscribe (some m) count topic).id = some id → id ≠ 0) := by
  have hr := generate_packet_id_range m h0 h1
  have he := generate_packet_id_eq m h0 h1
  refine ⟨by omega, ?_, ?_, fun n => drawIds_eq n m h0 h1, ?_, ?_, ?_⟩
  · rw [he]
    show (if m.packet_id = 65535 then 1 else m.packet_id + 1) = _
    split <;> split <;> omega
  · rw [he]
  · intro topic qos retain payload length id h
    exact publish_id_ne_zero m h0 h1 topic qos retain payload length id h
  · intro count topic qos id h
    unfold libmqtt__subscribe at h
    simp only [] at h
    have key : some (__generate_packet_id m).1 = some id := by
      revert h
      split
      · intro h; exact absurd h (by simp)
      · split
        · intro h; exact absurd h (by simp)
        · split <;> exact fun h => h
    have : (__generate_packet_id m).1 = id := Option.some.inj key
    omega
  · intro count topic id h
    unfold libmqtt__unsubscribe at h
    simp only [] at h
    have key : some (__generate_packet_id m).1 = some id := by
      revert h
      split
      · intro h; exact absurd h (by simp)
      · split
        · intro h; exact absurd h (by simp)
        · split <;> exact fun h => h
    have : (__generate_packet_id m).1 = id := Option.some.inj key
    omega

/-- C27, witness: the session of a fresh client (counter 0). -/
theorem C27_packet_id_generator_witness :
    (__generate_packet_id (libmqtt__create [0x63, 0] allHooks []).2).1 ≠ 0 :=
  (C27_packet_id_generator (libmqtt__create [0x63, 0] allHooks []).2 (by decide)
    (by decide)).1

/-- C29. Misuse on a handle that is not null: `libmqtt__publish` with a QoS outside
0..2 returns -3, `libmqtt__subscribe` and `libmqtt__unsubscribe` with more than 128
topics return -7, and `libmqtt__version` with a version other than 3 and 4 returns
-4; in each case the session behind the handle is the one before the call, whole
(counter, record list, connect options, clock, and the log of the transport, to
which nothing is added), and nothing is stored through `id`. -/
theorem C29_misuse_rejected (m : libmqtt) :
    (∀ (topic : List Nat) (qos retain : Int) (payload : Option (List Nat)) (length : Int),
      ¬ (0 ≤ qos ∧ qos ≤ 2) →
      libmqtt__publish_handle (some m) topic qos retain payload length
        = ⟨-3, none, some m, false⟩) ∧
    (∀ (count : Int) (topic : Nat → List Nat) (qos : Nat → Int), 128 < count →
      libmqtt__subscribe (some m) count topic qos = ⟨-7, none, some m, false⟩) ∧
    (∀ (count : Int) (topic : Nat → List Nat), 128 < count →
      libmqtt__unsubscribe (some m) count topic = ⟨-7, none, some m, false⟩) ∧
    (∀ vsn : Int, vsn ≠ 3 → vsn ≠ 4 →
      libmqtt__version (some m) vsn = ⟨-4, none, some m, false⟩) := by
  refine ⟨?_, ?_, ?_, ?_⟩
  · intro topic qos retain payload length hq
    have hq2 : ¬ (MQTT_IS_QOS qos = true) := by
      unfold MQTT_IS_QOS
      simpa using hq
    unfold libmqtt__publish_handle libmqtt__publish
    simp only [hq2, not_false_eq_true, if_true]
    rfl
  · intro count topic qos hc
    unfold libmqtt__subscribe
    have : count > ((MQTT_MAX_SUB : Nat) : Int) := hc
    simp only [this, if_true]
  · intro count topic hc
    unfold libmqtt__unsubscribe
    have : count > ((MQTT_MAX_SUB : Nat) : Int) := hc
    simp only [this, if_true]
  · intro vsn h3 h4
    unfold libmqtt__version
    have : ¬ (MQTT_IS_VER vsn = true) := by
      unfold MQTT_IS_VER
      simp [h3, h4]
    simp only [this, not_false_eq_true, if_true]
    rfl

/-- C29, witness: on the session of a connected client, a publication with QoS 3, a
subscription and an unsubscription with 129 topics and the protocol version 5 are
rejected and leave the session as it was. -/
theorem C29_misuse_rejected_witness :
    libmqtt__publish_handle (some connectedClient.2) [0x74, 0] 3 0 (some [0x68]) 1
      = ⟨-3, none, some connectedClient.2, false⟩ ∧
    libmqtt__subscribe (some connectedClient.2) 129 (fun _ => [0x74, 0]) (fun _ => 0)
      = ⟨-7, none, some connectedClient.2, false⟩ ∧
    libmqtt__unsubscribe (some connectedClient.2) 129 (fun _ => [0x74, 0])
      = ⟨-7, none, some connectedClient.2, false⟩ ∧
    libmqtt__version (some connectedClient.2) 5 = ⟨-4, none, some connectedClient.2, false⟩ :=
  ⟨(C29_misuse_rejected connectedClient.2).1 [0x74, 0] 3 0 (some [0x68]) 1 (by decide),
   (C29_misuse_rejected connectedClient.2).2.1 129 (fun _ => [0x74, 0]) (fun _ => 0) (by decide),
   (C29_misuse_rejected connectedClient.2).2.2.1 129 (fun _ => [0x74, 0]) (by decide),
   (C29_misuse_rejected connectedClient.2).2.2.2 5 (by decide) (by decide)⟩

/-- C30 (code defect). With a null handle, `libmqtt__will` executes an assignment
through the handle on both of its paths (topic given or null), which is undefined
behaviour: it has no test of the handle.  The other eleven functions return -1
(`LIBMQTT_ERROR_NULL`) for a null handle, whatever their other arguments, store
nothing and touch no state. -/
theorem C30_will_dereferences_null_handle :
    (∀ (retain qos : Int) (topic payload : Option (List Nat)) (payload_len : Int),
      (libmqtt__will none retain qos topic payload payload_len).ub = true) ∧
    (libmqtt__will none 0 0 (some [0x74, 0]) (some [0x70]) 1).rc ≠ -1 ∧
    libmqtt__destroy none = ⟨-1, none, none, false⟩ ∧
    (∀ k : Int, libmqtt__keep_alive none k = ⟨-1, none, none, false⟩) ∧
    (∀ c : Int, libmqtt__clean_sess none c = ⟨-1, none, none, false⟩) ∧
    (∀ v : Int, libmqtt__version none v = ⟨-1, none, none, false⟩) ∧
    (∀ u p : Option (List Nat), libmqtt__auth none u p = ⟨-1, none, none, false⟩) ∧
    (∀ (host : List Nat) (port : Int) (connected : Bool),
      libmqtt__connect none host port connected = ⟨-1, none, none, false⟩) ∧
    (∀ (count : Int) (topic : Nat → List Nat) (qos : Nat → Int),
      libmqtt__subscribe none count topic qos = ⟨-1, none, none, false⟩) ∧
    (∀ (count : Int) (topic : Nat → List Nat),
      libmqtt__unsubscribe none count topic = ⟨-1, none, none, false⟩) ∧
    (∀ (topic : List Nat) (qos retain : Int) (payload : Option (List Nat)) (length : Int),
      libmqtt__publish_handle none topic qos retain payload length = ⟨-1, none, none, false⟩) ∧
    libmqtt__disconnect none = ⟨-1, none, none, false⟩ ∧
    (∀ aeMain : libmqtt → libmqtt, libmqtt__run none aeMain = ⟨-1, none, none, false⟩) := by
  refine ⟨fun _ _ _ _ _ => rfl, by decide, rfl, fun _ => rfl, fun _ => rfl, fun _ => rfl,
    fun _ _ => rfl, fun _ _ _ => rfl, fun _ _ _ => rfl, fun _ _ => rfl,
    fun _ _ _ _ _ => rfl, rfl, fun _ => rfl⟩

theorem frame_refl (m : libmqtt) : SweepFrame m m :=
  ⟨rfl, rfl, rfl, rfl, rfl, rfl, Or.inl rfl, rfl, rfl, [], by simp, by simp⟩

theorem frame_trans {a b c : libmqtt} (h1 : SweepFrame a b) (h2 : SweepFrame b c) :
    SweepFrame a c := by
  obtain ⟨a1, a2, a3, a4, a5, a6, a7, a8, a9, l1, hl1, hm1⟩ := h1
  obtain ⟨b1, b2, b3, b4, b5, b6, b7, b8, b9, l2, hl2, hm2⟩ := h2
  refine ⟨b1.trans a1, b2.trans a2, b3.trans a3, b4.trans a4, b5.trans a5, b6.trans a6, ?_,
    b8.trans a8, b9.trans a9, l1 ++ l2, by rw [hl2, hl1, List.append_assoc], ?_⟩
  · rcases b7 with h | h
    · rcases a7 with h2 | h2
      · exact Or.inl (h.trans h2)
      · exact Or.inr (h.trans h2)
    · exact Or.inr (h.trans a5)
  · intro e he
    rcases List.mem_append.mp he with h | h
    · exact hm1 e h
    · exact hm2 e h

theorem frame_of_same (m m2 : libmqtt) (h1 : m2.c = m.c) (h2 : m2.packet_id = m.packet_id)
    (h3 : m2.cb = m.cb) (h4 : m2.calls = m.calls) (h5 : m2.t = m.t)
    (h6 : m2.heap.length = m.heap.length) (h7 : m2.pub.tail = m.pub.tail)
    (h8 : m2.wire = m.wire) : SweepFrame m m2 :=
  ⟨h1, h2, h3, h4, by rw [h5], by rw [h5], Or.inl (by rw [h5]), h6, h7, [], by simp [h8],
    by simp⟩

theorem frame_ub (m : libmqtt) : SweepFrame m { m with ub := true } :=
  frame_of_same _ _ rfl rfl rfl rfl rfl rfl rfl rfl

theorem frame_modify (m : libmqtt) (a : Nat) (f : libmqtt_pub → libmqtt_pub) :
    SweepFrame m (m.modify a f) := by
  unfold libmqtt.modify
  split
  · exact frame_of_same _ _ rfl rfl rfl rfl rfl (List.length_set _ _ _) rfl rfl
  · exact frame_ub m

theorem frame_free (m : libmqtt) (a : Nat) : SweepFrame m (m.free a) := by
  unfold libmqtt.free
  split
  · exact frame_of_same _ _ rfl rfl rfl rfl rfl (List.length_set _ _ _) rfl rfl
  · exact frame_ub m

theorem frame_head (m : libmqtt) (v : Option Nat) : SweepFrame m (m.writeLoc none v) :=
  frame_of_same _ _ rfl rfl rfl rfl rfl rfl rfl rfl

theorem frame_nextOf (m : libmqtt) (a : Nat) : SweepFrame m (m.nextOf a).2 := by
  unfold libmqtt.nextOf
  split
  · exact frame_refl m
  · exact frame_ub m

theorem frame_write (m : libmqtt) (data : List Nat) (h : 4 ≤ data.length) :
    SweepFrame m (__write m data).2 := by
  have hw := write_fields m data
  refine ⟨hw.2.2.2.2.2.2.2.2.1, hw.2.2.2.2.2.1, hw.2.2.2.2.2.2.2.2.2.1, hw.2.2.2.2.2.2.1,
    hw.2.2.2.2.2.2.2.2.2.2.1, hw.2.2.2.2.2.2.2.2.2.2.2.1, ?_, by rw [hw.2.2.2.1],
    by rw [hw.2.2.2.2.1], [(data, m.results.headD (data.length : Int))], hw.2.1, ?_⟩
  · rw [hw.2.2.2.2.2.2.2.2.2.2.2.2]
    split
    · exact Or.inl rfl
    · exact Or.inr rfl
  · intro e he
    rw [List.mem_singleton.mp he]
    exact h

theorem frame_next (m : libmqtt) : SweepFrame m (__check_pub_next m) := by
  unfold __check_pub_next
  have e : (m.readLoc none).2 = m := rfl
  simp only [e]
  split
  · exact frame_ub m
  · exact frame_trans (frame_nextOf m _) (frame_head _ _)

theorem frame_unlink (m : libmqtt) (a : Nat) : SweepFrame m (__check_pub_unlink m a) :=
  frame_trans (frame_next m) (frame_free _ _)

theorem pack_remain_length_ne_nil (r : Int) : 1 ≤ (__pack_remain_length r).length := by
  unfold __pack_remain_length
  rw [__pack_remain_length_loop]
  split <;> simp

theorem serialize_publish_length (p : mqtt_packet) (h : p.h.type = PUBLISH) :
    4 ≤ (mqtt__serialize p).2.bytes.length := by
  rw [serialize_of_type_3 p h]
  unfold __serialize_publish
  simp only [foldl_write_u8]
  obtain ⟨l, hl⟩ : ∃ l, l = __pack_remain_length
      (if p.h.qos > MQTT_QOS_0 then 2 + p.v.publish.topic_name.n + p.payload.n + 2
       else 2 + p.v.publish.topic_name.n + p.payload.n) := ⟨_, rfl⟩
  have hl1 : 1 ≤ l.length := by rw [hl]; exact pack_remain_length_ne_nil _
  rw [← hl]
  simp only [mqtt_b.bytes, memBytes, Option.getD_some, Int.toNat_ofNat, List.take_length,
    mqtt_b_write_u8, mqtt_b_write_utf, mqtt_b_write_u16]
  split <;> split <;> simp only [List.length_append, List.length_map, List.length_cons,
    List.length_nil] <;> omega

theorem ackArray_length (first : Nat) (id : Int) : (ackArray first id).length = 4 := rfl

theorem frame_switch (m : libmqtt) (a : Nat) (pub : libmqtt_pub) :
    SweepFrame m (__check_pub_switch m a pub).2 := by
  have hp := serialize_publish_length (checkPacket pub) rfl
  have k1 : 4 ≤ (MQTT_PUBACK pub.p.packet_id).length := Nat.le_of_eq (ackArray_length _ _).symm
  have k2 : 4 ≤ (MQTT_PUBREC pub.p.packet_id).length := Nat.le_of_eq (ackArray_length _ _).symm
  have k3 : 4 ≤ (MQTT_PUBREL pub.p.packet_id).length := Nat.le_of_eq (ackArray_length _ _).symm
  have k4 : 4 ≤ (MQTT_PUBCOMP pub.p.packet_id).length := Nat.le_of_eq (ackArray_length _ _).symm
  have pubcase : SweepFrame m
      (if (mqtt__serialize (checkPacket pub)).1 ≠ 0 then (true, m) else
        if (__write m (mqtt__serialize (checkPacket pub)).2.bytes).1 = 0 then
          if pub.p.qos = MQTT_QOS_0 then
            (false, __check_pub_unlink (__write m (mqtt__serialize (checkPacket pub)).2.bytes).2 a)
          else if pub.p.qos = MQTT_QOS_1 then
            (true, ((__write m (mqtt__serialize (checkPacket pub)).2.bytes).2.modify a
              (fun r => { r with s := libmqtt_state.LIBMQTT_ST_WAIT_PUBACK })).modify a
              (fun r => { r with t := ((__write m (mqtt__serialize (checkPacket pub)).2.bytes).2.modify a
              (fun r => { r with s := libmqtt_state.LIBMQTT_ST_WAIT_PUBACK })).t.now }))
          else
            (true, ((__write m (mqtt__serialize (checkPacket pub)).2.bytes).2.modify a
              (fun r => { r with s := libmqtt_state.LIBMQTT_ST_WAIT_PUBREC })).modify a
              (fun r => { r with t := ((__write m (mqtt__serialize (checkPacket pub)).2.bytes).2.modify a
              (fun r => { r with s := libmqtt_state.LIBMQTT_ST_WAIT_PUBREC })).t.now }))
        else (true, (__write m (mqtt__serialize (checkPacket pub)).2.bytes).2.modify a
          (fun r => { r with t := (__write m (mqtt__serialize (checkPacket pub)).2.bytes).2.t.now }))).2 := by
    split
    · exact frame_refl m
    · split
      · split
        · exact frame_trans (frame_write m _ hp) (frame_unlink _ _)
        · split
          · exact frame_trans (frame_write m _ hp)
              (frame_trans (frame_modify _ _ _) (frame_modify _ _ _))
          · exact frame_trans (frame_write m _ hp)
              (frame_trans (frame_modify _ _ _) (frame_modify _ _ _))
      · exact frame_trans (frame_write m _ hp) (frame_modify _ _ _)
  unfold __check_pub_switch
  split
  · exact pubcase
  · exact pubcase
  · exact pubcase
  · simp only []
    split
    · exact frame_trans (frame_write m _ k1) (frame_unlink _ _)
    · exact frame_trans (frame_write m _ k1) (frame_modify _ _ _)
  · simp only []
    split
    · exact frame_trans (frame_write m _ k2) (frame_trans (frame_modify _ _ _) (frame_modify _ _ _))
    · exact frame_trans (frame_write m _ k2) (frame_modify _ _ _)
  · simp only []
    split
    · exact frame_trans (frame_write m _ k3) (frame_trans (frame_modify _ _ _) (frame_modify _ _ _))
    · exact frame_trans (frame_write m _ k3) (frame_modify _ _ _)
  · simp only []
    split
    · exact frame_trans (frame_write m _ k4) (frame_unlink _ _)
    · exact frame_trans (frame_write m _ k4) (frame_modify _ _ _)
  · exact frame_trans (frame_write m _ k2) (frame_modify _ _ _)
  · exact frame_trans (frame_write m _ k3) (frame_modify _ _ _)

theorem frame_body (m : libmqtt) (a : Nat) (pub : libmqtt_pub) :
    SweepFrame m (__check_pub_body m a pub) := by
  unfold __check_pub_body
  by_cases hp : m.t.now - pub.t > m.c.keep_alive
  · simp only [hp, if_true]
    split
    · exact frame_trans (frame_switch m a pub) (frame_next _)
    · exact frame_switch m a pub
  · simp only [hp, if_false, if_true]
    exact frame_next m

theorem frame_loop (fuel : Nat) : ∀ m : libmqtt, SweepFrame m (__check_pub_loop fuel m) := by
  induction fuel with
  | zero => intro m; exact frame_ub m
  | succ n ih =>
    intro m
    rw [__check_pub_loop]
    split
    · exact frame_refl m
    · split
      · exact frame_ub m
      · exact frame_trans (frame_body m _ _) (ih _)

theorem frame_check_pub (m : libmqtt) : SweepFrame m (__check_pub m) := frame_loop _ m

theorem check_pub_empty (m : libmqtt) (h : m.pub.head = none) : __check_pub m = m := by
  unfold __check_pub
  rw [__check_pub_loop, h]

theorem parse_pingresp (sc : Bool) (p : mqtt_parser_t libmqtt) (m : libmqtt)
    (hst : p.state = mqtt_parser_state.MQTT_ST_FIXED) (hauth : p.auth ≠ 0)
    (hcb : p.cb PINGRESP = some __on_pingresp) :
    (mqtt__parse sc p m ⟨some [0xd0, 0x00], 2⟩).1 = 0 ∧
    (mqtt__parse sc p m ⟨some [0xd0, 0x00], 2⟩).2.2 = { m with t := { m.t with ping := 0 } } := by
  have hb : (⟨some [0xd0, 0x00], 2⟩ : mqtt_b).bytes
      = 0xd0 :: (specRemainingLength ([] : List Nat).length ++ []) := rfl
  unfold mqtt__parse
  rw [hb, parse_frame_last sc p m 0xd0 [] hst (by decide)]
  obtain ⟨q, hq⟩ : ∃ q, q = framed sc p 0xd0 [] := ⟨_, rfl⟩
  have qt : q.p.h.type = PINGRESP := by
    rw [hq]
    show charVal sc 0xd0 / 16 % 16 = 13
    cases sc <;> decide
  have qa : q.auth = p.auth := by rw [hq]; rfl
  have qc : q.cb = p.cb := by rw [hq]; rfl
  have qr : q.remaining = ⟨none, 0⟩ := by rw [hq]; rfl
  rw [← hq]
  have hgate : ¬ (q.auth = 0 ∧ (q.p.h.type ≠ CONNECT ∧ q.p.h.type ≠ CONNACK)) := by
    rw [qa]
    exact fun hh => hauth hh.1
  have hsw : processSwitch sc q.p.h.type q.p q.remaining m __on_pingresp
      = (0, q.p, { m with t := { m.t with ping := 0 } }) := by
    rw [qt, qr]
    rfl
  have hnc : ¬ (q.p.h.type = CONNECT ∨ q.p.h.type = CONNACK) := by
    rw [qt]
    decide
  have hproc : __process sc q m = (0, { q with p := q.p }, { m with t := { m.t with ping := 0 } }) := by
    unfold __process
    simp only []
    rw [if_neg hgate, qc, qt, hcb]
    simp only []
    rw [← qt, hsw]
    simp only [ne_eq, not_true_eq_false, if_false, hnc]
  unfold processAndFree
  simp only []
  rw [hproc]
  exact ⟨rfl, rfl⟩

theorem update_dead (m : libmqtt) (fd : Int) (h1 : m.t.ping > 0)
    (h2 : m.t.now + 1 - m.t.ping > m.c.keep_alive) :
    __update m fd = (0, decide (fd > 0), { m with t := { m.t with now := m.t.now + 1 } }) := by
  unfold __update
  simp only []
  rw [if_pos ⟨h1, h2⟩]

theorem update_ping (m : libmqtt) (fd : Int) (h1 : m.t.ping = 0)
    (h2 : m.t.now + 1 - m.t.send ≥ m.c.keep_alive) :
    __update m fd = (1000, false, __check_pub
      (if m.results.headD 2 = -1 then
        { m with t := { m.t with now := m.t.now + 1 }
                 results := m.results.tail
                 wire := m.wire ++ [(MQTT_PINGREQ, m.results.headD 2)] }
       else
        { m with t := ⟨m.t.now + 1, m.t.now + 1, m.t.now + 1⟩
                 results := m.results.tail
                 wire := m.wire ++ [(MQTT_PINGREQ, m.results.headD 2)] })) := by
  unfold __update
  simp only []
  rw [if_neg (by rw [h1]; exact fun hh => absurd hh.1 (by decide)), if_pos ⟨h1, h2⟩]
  unfold __write
  have e : ((MQTT_PINGREQ.length : Nat) : Int) = 2 := rfl
  simp only [e]
  by_cases hr : m.results.headD 2 = -1
  · simp only [hr, if_true]
    rfl
  · simp only [hr, if_false]
    rfl

theorem update_quiet (m : libmqtt) (fd : Int)
    (h1 : ¬ (m.t.ping > 0 ∧ m.t.now + 1 - m.t.ping > m.c.keep_alive))
    (h2 : ¬ (m.t.ping = 0 ∧ m.t.now + 1 - m.t.send ≥ m.c.keep_alive)) :
    __update m fd
      = (1000, false, __check_pub { m with t := { m.t with now := m.t.now + 1 } }) := by
  unfold __update
  simp only []
  rw [if_neg h1, if_neg h2]

theorem countP_long (l : List (List Nat × Int)) (h : ∀ e ∈ l, 4 ≤ e.1.length) :
    l.countP (fun e => decide (e.1 = MQTT_PINGREQ)) = 0 := by
  rw [List.countP_eq_zero]
  intro e he
  have := h e he
  simp only [decide_eq_true_eq]
  intro hh
  rw [hh] at this
  exact absurd this (by decide)

/-- C25. The PINGREQ rule of the tick, for every session and every descriptor: among
the packets that `__update` offers to the transport, the number of PINGREQ (`C0 00`)
is 1 if, after the clock is incremented, no ping is outstanding (`t.ping = 0`) and
`now - t.send ≥ keep_alive`, and 0 otherwise; in the first case the PINGREQ is the
first packet offered, and when that write succeeds the session ends the tick with
`t.ping = now` and `t.send = now`, and when it fails with `t.ping = 0`; while
`t.ping > 0` no tick offers a PINGREQ; and the PINGRESP `D0 00`, parsed by an
authenticated parser in state `MQTT_ST_FIXED` whose PINGRESP callback is
`__on_pingresp`, sets `t.ping` to 0 and changes nothing else of the session. -/
theorem C25_pingreq_emission (sc : Bool) (p : mqtt_parser_t libmqtt) (m : libmqtt) (fd : Int)
    (hst : p.state = mqtt_parser_state.MQTT_ST_FIXED) (hauth : p.auth ≠ 0)
    (hcb : p.cb PINGRESP = some __on_pingresp) :
    (((__update m fd).2.2.wire.drop m.wire.length).countP
        (fun e => decide (e.1 = MQTT_PINGREQ))
      = if m.t.ping = 0 ∧ m.t.now + 1 - m.t.send ≥ m.c.keep_alive then 1 else 0) ∧
    (m.t.ping = 0 → m.t.now + 1 - m.t.send ≥ m.c.keep_alive →
      ((__update m fd).2.2.wire.drop m.wire.length).head?
        = some (MQTT_PINGREQ, m.results.headD 2) ∧
      (m.results.headD 2 ≠ -1 →
        (__update m fd).2.2.t.ping = m.t.now + 1 ∧ (__update m fd).2.2.t.send = m.t.now + 1) ∧
      (m.results.headD 2 = -1 → (__update m fd).2.2.t.ping = 0)) ∧
    (m.t.ping > 0 →
      ∀ e ∈ (__update m fd).2.2.wire.drop m.wire.length, e.1 ≠ MQTT_PINGREQ) ∧
    (mqtt__parse sc p m ⟨some [0xd0, 0x00], 2⟩).1 = 0 ∧
    (mqtt__parse sc p m ⟨some [0xd0, 0x00], 2⟩).2.2 = { m with t := { m.t with ping := 0 } } := by
  have hquietwire : ∀ x : libmqtt, x.wire = m.wire →
      ∃ l, (__check_pub x).wire.drop m.wire.length = l ∧ ∀ e ∈ l, 4 ≤ e.1.length := by
    intro x hx
    obtain ⟨_, _, _, _, _, _, _, _, _, l, hl, hm⟩ := frame_check_pub x
    refine ⟨l, ?_, hm⟩
    rw [hl, hx, List.drop_left]
  have hpingwire : ∀ x : libmqtt, x.wire = m.wire ++ [(MQTT_PINGREQ, m.results.headD 2)] →
      ∃ l, (__check_pub x).wire.drop m.wire.length = (MQTT_PINGREQ, m.results.headD 2) :: l ∧
        ∀ e ∈ l, 4 ≤ e.1.length := by
    intro x hx
    obtain ⟨_, _, _, _, _, _, _, _, _, l, hl, hm⟩ := frame_check_pub x
    refine ⟨l, ?_, hm⟩
    rw [hl, hx, List.append_assoc, List.drop_left]
    rfl
  refine ⟨?_, ?_, ?_, (parse_pingresp sc p m hst hauth hcb).1,
    (parse_pingresp sc p m hst hauth hcb).2⟩
  · by_cases hc : m.t.ping = 0 ∧ m.t.now + 1 - m.t.send ≥ m.c.keep_alive
    · rw [if_pos hc, update_ping m fd hc.1 hc.2]
      obtain ⟨l, hl, hm⟩ := hpingwire
        (if m.results.headD 2 = -1 then
          { m with t := { m.t with now := m.t.now + 1 }
                   results := m.results.tail
                   wire := m.wire ++ [(MQTT_PINGREQ, m.results.headD 2)] }
         else
          { m with t := ⟨m.t.now + 1, m.t.now + 1, m.t.now + 1⟩
                   results := m.results.tail
                   wire := m.wire ++ [(MQTT_PINGREQ, m.results.headD 2)] })
        (by split <;> rfl)
      rw [hl, List.countP_cons, countP_long l hm]
      simp
    · rw [if_neg hc]
      by_cases hd : m.t.ping > 0 ∧ m.t.now + 1 - m.t.ping > m.c.keep_alive
      · rw [update_dead m fd hd.1 hd.2]
        simp
      · rw [update_quiet m fd hd hc]
        obtain ⟨l, hl, hm⟩ := hquietwire { m with t := { m.t with now := m.t.now + 1 } } rfl
        rw [hl]
        exact countP_long l hm
  · intro h1 h2
    rw [update_ping m fd h1 h2]
    obtain ⟨x, hx⟩ : ∃ x : libmqtt, x =
        (if m.results.headD 2 = -1 then
          { m with t := { m.t with now := m.t.now + 1 }
                   results := m.results.tail
                   wire := m.wire ++ [(MQTT_PINGREQ, m.results.headD 2)] }
         else
          { m with t := ⟨m.t.now + 1, m.t.now + 1, m.t.now + 1⟩
                   results := m.results.tail
                   wire := m.wire ++ [(MQTT_PINGREQ, m.results.headD 2)] }) := ⟨_, rfl⟩
    rw [← hx]
    have hxw : x.wire = m.wire ++ [(MQTT_PINGREQ, m.results.headD 2)] := by
      rw [hx]; split <;> rfl
    obtain ⟨l, hl, _⟩ := hpingwire x hxw
    obtain ⟨_, _, _, _, f5, f6, f7, _, _, _, _, _⟩ := frame_check_pub x
    refine ⟨by rw [hl]; rfl, ?_, ?_⟩
    · intro hr
      have e1 : x.t = ⟨m.t.now + 1, m.t.now + 1, m.t.now + 1⟩ := by
        rw [hx, if_neg hr]
      rw [e1] at f5 f6 f7
      refine ⟨f6, ?_⟩
      rcases f7 with h | h <;> exact h
    · intro hr
      have e1 : x.t.ping = 0 := by
        rw [hx, if_pos hr]
        exact h1
      rw [f6, e1]
  · intro hp e he
    have hc : ¬ (m.t.ping = 0 ∧ m.t.now + 1 - m.t.send ≥ m.c.keep_alive) :=
      fun hh => absurd hh.1 (by omega)
    by_cases hd : m.t.ping > 0 ∧ m.t.now + 1 - m.t.ping > m.c.keep_alive
    · rw [update_dead m fd hd.1 hd.2] at he
      simp at he
    · rw [update_quiet m fd hd hc] at he
      obtain ⟨l, hl, hm⟩ := hquietwire { m with t := { m.t with now := m.t.now + 1 } } rfl
      rw [hl] at he
      intro hh
      have := hm e he
      rw [hh] at this
      exact absurd this (by decide)

/-- C25, witness: the connected client and its parser. -/
theorem C25_pingreq_emission_witness :
    (mqtt__parse true connectedClient.1 connectedClient.2 ⟨some [0xd0, 0x00], 2⟩).1 = 0 :=
  (C25_pingreq_emission true connectedClient.1 connectedClient.2 5 (by decide) (by decide)
    rfl).2.2.2.1

theorem headD_ne (l : List Int) (h : ∀ r ∈ l, r ≠ -1) : l.headD 2 ≠ -1 := by
  cases l with
  | nil => decide
  | cons a l => exact h a (List.mem_cons_self a l)

theorem timeline_quiet (m : libmqtt) (fd : Int) (k j : Nat) (hka : m.c.keep_alive = (k : Int))
    (hhead : m.pub.head = none) (hj : j + 1 < k) :
    __update { m with t := ⟨(j : Int), 0, 0⟩ } fd
      = (1000, false, { m with t := ⟨((j + 1 : Nat) : Int), 0, 0⟩ }) := by
  rw [update_quiet _ fd (fun hh => absurd hh.1 (lt_irrefl (0 : Int)))
    (fun hh => by
      have h2 := hh.2
      simp only [hka] at h2
      omega)]
  rw [check_pub_empty _ (by exact hhead)]
  simp only [Nat.cast_add, Nat.cast_one]

theorem timeline_ping (m : libmqtt) (fd : Int) (k j : Nat) (hka : m.c.keep_alive = (k : Int))
    (hhead : m.pub.head = none) (hres : ∀ r ∈ m.results, r ≠ -1) (hj : j + 1 = k) :
    __update { m with t := ⟨(j : Int), 0, 0⟩ } fd
      = (1000, false, { m with t := ⟨(k : Int), (k : Int), (k : Int)⟩
                               results := m.results.tail
                               wire := m.wire ++ [(MQTT_PINGREQ, m.results.headD 2)] }) := by
  have hk : (j : Int) + 1 = (k : Int) := by omega
  rw [update_ping _ fd rfl (by simp only [hka]; omega)]
  simp only [if_neg (headD_ne m.results hres), hk]
  rw [check_pub_empty _ (by exact hhead)]

theorem timeline_wait (m : libmqtt) (fd : Int) (k j : Nat) (hka : m.c.keep_alive = (k : Int))
    (hhead : m.pub.head = none) (hk : 1 ≤ k) (h2 : j < 2 * k) :
    __update { m with t := ⟨(j : Int), (k : Int), (k : Int)⟩
                      results := m.results.tail
                      wire := m.wire ++ [(MQTT_PINGREQ, m.results.headD 2)] } fd
      = (1000, false, { m with t := ⟨((j + 1 : Nat) : Int), (k : Int), (k : Int)⟩
                               results := m.results.tail
                               wire := m.wire ++ [(MQTT_PINGREQ, m.results.headD 2)] }) := by
  rw [update_quiet _ fd
    (fun hh => by
      have h3 := hh.2
      simp only [hka] at h3
      omega)
    (fun hh => by
      have h3 := hh.1
      simp only at h3
      omega)]
  rw [check_pub_empty _ (by exact hhead)]
  simp only [Nat.cast_add, Nat.cast_one]

theorem timeline_dead (m : libmqtt) (fd : Int) (k : Nat) (hka : m.c.keep_alive = (k : Int))
    (hk : 1 ≤ k) (hfd : fd > 0) :
    __update { m with t := ⟨((2 * k : Nat) : Int), (k : Int), (k : Int)⟩
                      results := m.results.tail
                      wire := m.wire ++ [(MQTT_PINGREQ, m.results.headD 2)] } fd
      = (0, true, { m with t := ⟨((2 * k + 1 : Nat) : Int), (k : Int), (k : Int)⟩
                           results := m.results.tail
                           wire := m.wire ++ [(MQTT_PINGREQ, m.results.headD 2)] }) := by
  rw [update_dead _ fd (by simp only; omega) (by simp only [hka]; push_cast; omega)]
  simp only [Nat.cast_add, Nat.cast_one, Nat.cast_mul, Nat.cast_ofNat, decide_eq_true hfd]

theorem timeline_first (m : libmqtt) (fd : Int) (k : Nat) (hka : m.c.keep_alive = (k : Int))
    (ht : m.t = ⟨0, 0, 0⟩) (hhead : m.pub.head = none) :
    ∀ j : Nat, j < k → afterTicks fd j m = (false, { m with t := ⟨(j : Int), 0, 0⟩ }) := by
  intro j
  induction j with
  | zero =>
    intro _
    show (false, m) = (false, { m with t := ⟨0, 0, 0⟩ })
    rw [← ht]
  | succ j ih =>
    intro hj
    rw [afterTicks, ih (by omega)]
    simp only [Bool.false_eq_true, if_false]
    rw [timeline_quiet m fd k j hka hhead hj]
    simp

theorem timeline_second (m : libmqtt) (fd : Int) (k : Nat) (hk : 1 ≤ k)
    (hka : m.c.keep_alive = (k : Int)) (ht : m.t = ⟨0, 0, 0⟩) (hhead : m.pub.head = none)
    (hres : ∀ r ∈ m.results, r ≠ -1) :
    ∀ j : Nat, k ≤ j → j ≤ 2 * k →
      afterTicks fd j m = (false, { m with t := ⟨(j : Int), (k : Int), (k : Int)⟩
                                           results := m.results.tail
                                           wire := m.wire ++ [(MQTT_PINGREQ, m.results.headD 2)] }) := by
  intro j
  induction j with
  | zero => intro h _; omega
  | succ j ih =>
    intro h1 h2
    by_cases hj : j + 1 = k
    · rw [afterTicks, timeline_first m fd k hka ht hhead j (by omega)]
      simp only [Bool.false_eq_true, if_false]
      rw [timeline_ping m fd k j hka hhead hres hj]
      simp [hj]
    · rw [afterTicks, ih (by omega) (by omega)]
      simp only [Bool.false_eq_true, if_false]
      rw [timeline_wait m fd k j hka hhead hk (by omega)]
      simp

theorem timeline_third (m : libmqtt) (fd : Int) (k : Nat) (hk : 1 ≤ k)
    (hka : m.c.keep_alive = (k : Int)) (ht : m.t = ⟨0, 0, 0⟩) (hhead : m.pub.head = none)
    (hres : ∀ r ∈ m.results, r ≠ -1) (hfd : fd > 0) :
    ∀ j : Nat, 2 * k + 1 ≤ j →
      afterTicks fd j m = (true, { m with t := ⟨((2 * k + 1 : Nat) : Int), (k : Int), (k : Int)⟩
                                          results := m.results.tail
                                          wire := m.wire ++ [(MQTT_PINGREQ, m.results.headD 2)] }) := by
  intro j
  induction j with
  | zero => intro h; omega
  | succ j ih =>
    intro h1
    by_cases hj : j = 2 * k
    · rw [afterTicks, hj, timeline_second m fd k hk hka ht hhead hres (2 * k) (by omega) (by omega)]
      simp only [Bool.false_eq_true, if_false]
      rw [timeline_dead m fd k hka hk hfd]
      simp
    · rw [afterTicks, ih (by omega)]
      simp

/-- C26. The keep-alive timeline, for every keep-alive `k ≥ 1` and every session that
starts with the clock, the time of the last send and the time of the outstanding
ping at 0, an empty record list and a transport on which every write succeeds,
when nothing is received: the ticks 1 to `k - 1` write nothing; tick `k` writes
PINGREQ (`C0 00`) and sets `t.ping` and `t.send` to `k`; the ticks `k + 1` to `2k`
write nothing; tick `2k + 1` declares the link dead (`__update` calls `shutdown`
on the descriptor, returns 0 and does not run the sweep) and no earlier tick does
(each returns 1000 without a call of `shutdown`); after it the reactor makes no
further tick. -/
theorem C26_keep_alive_timeline (m : libmqtt) (fd : Int) (k : Nat) (hk : 1 ≤ k)
    (hka : m.c.keep_alive = (k : Int)) (ht : m.t = ⟨0, 0, 0⟩) (hhead : m.pub.head = none)
    (hres : ∀ r ∈ m.results, r ≠ -1) (hfd : fd > 0) :
    (∀ j : Nat, j < k → afterTicks fd j m = (false, { m with t := ⟨(j : Int), 0, 0⟩ })) ∧
    (∀ j : Nat, k ≤ j → j ≤ 2 * k →
      afterTicks fd j m = (false, { m with t := ⟨(j : Int), (k : Int), (k : Int)⟩
                                           results := m.results.tail
                                           wire := m.wire ++ [(MQTT_PINGREQ, m.results.headD 2)] })) ∧
    (∀ j : Nat, j < 2 * k →
      (__update (afterTicks fd j m).2 fd).1 = 1000 ∧
      (__update (afterTicks fd j m).2 fd).2.1 = false) ∧
    __update (afterTicks fd (2 * k) m).2 fd
      = (0, true, { m with t := ⟨((2 * k + 1 : Nat) : Int), (k : Int), (k : Int)⟩
                           results := m.results.tail
                           wire := m.wire ++ [(MQTT_PINGREQ, m.results.headD 2)] }) ∧
    (∀ j : Nat, 2 * k + 1 ≤ j →
      afterTicks fd j m = (true, { m with t := ⟨((2 * k + 1 : Nat) : Int), (k : Int), (k : Int)⟩
                                          results := m.results.tail
                                          wire := m.wire ++ [(MQTT_PINGREQ, m.results.headD 2)] })) := by
  refine ⟨timeline_first m fd k hka ht hhead,
    timeline_second m fd k hk hka ht hhead hres, ?_, ?_,
    timeline_third m fd k hk hka ht hhead hres hfd⟩
  · intro j hj
    by_cases h1 : j < k
    · rw [timeline_first m fd k hka ht hhead j h1]
      by_cases h2 : j + 1 = k
      · rw [timeline_ping m fd k j hka hhead hres h2]
        exact ⟨rfl, rfl⟩
      · rw [timeline_quiet m fd k j hka hhead (by omega)]
        exact ⟨rfl, rfl⟩
    · rw [timeline_second m fd k hk hka ht hhead hres j (by omega) (by omega)]
      rw [timeline_wait m fd k j hka hhead hk hj]
      exact ⟨rfl, rfl⟩
  · rw [timeline_second m fd k hk hka ht hhead hres (2 * k) (by omega) (by omega)]
    exact timeline_dead m fd k hka hk hfd

/-- C26, witness: the session of a fresh client with the keep-alive set to 10: the
PINGREQ is written on tick 10 and the link is declared dead on tick 21. -/
theorem C26_keep_alive_timeline_witness :
    (afterTicks 5 10 { (libmqtt__create [0x63, 0] allHooks []).2 with
        c := { (libmqtt__create [0x63, 0] allHooks []).2.c with keep_alive := 10 } }).2.wire
      = [(MQTT_PINGREQ, 2)] ∧
    (afterTicks 5 21 { (libmqtt__create [0x63, 0] allHooks []).2 with
        c := { (libmqtt__create [0x63, 0] allHooks []).2.c with keep_alive := 10 } }).1 = true :=
  ⟨by
    rw [(C26_keep_alive_timeline { (libmqtt__create [0x63, 0] allHooks []).2 with
        c := { (libmqtt__create [0x63, 0] allHooks []).2.c with keep_alive := 10 } } 5 10
      (by decide) rfl rfl rfl (by simp [libmqtt__create]) (by decide)).2.1 10 (by decide) (by decide)]
    rfl,
   by
    rw [(C26_keep_alive_timeline { (libmqtt__create [0x63, 0] allHooks []).2 with
        c := { (libmqtt__create [0x63, 0] allHooks []).2.c with keep_alive := 10 } } 5 10
      (by decide) rfl rfl rfl (by simp [libmqtt__create]) (by decide)).2.2.2.2 21 (by decide)]⟩

theorem write_eq (m : libmqtt) (data : List Nat) :
    __write m data
      = (if m.results.headD (data.length : Int) = -1 then -1 else 0,
         { m with
           results := m.results.tail
           wire := m.wire ++ [(data, m.results.headD (data.length : Int))]
           t := { m.t with
                  send := if m.results.headD (data.length : Int) = -1 then m.t.send
                          else m.t.now } }) := by
  unfold __write
  simp only []
  split <;> rfl

theorem modify_eq (m : libmqtt) (a : Nat) (f : libmqtt_pub → libmqtt_pub) (r : libmqtt_pub)
    (h : m.deref a = some r) :
    m.modify a f = { m with heap := m.heap.set a (some (f r)) } := by
  unfold libmqtt.modify
  rw [h]

theorem free_eq (m : libmqtt) (a : Nat) (r : libmqtt_pub) (h : m.deref a = some r) :
    m.free a = { m with heap := m.heap.set a none } := by
  unfold libmqtt.free
  rw [h]

theorem nextOf_eq (m : libmqtt) (a : Nat) (r : libmqtt_pub) (h : m.deref a = some r) :
    m.nextOf a = (r.next, m) := by
  unfold libmqtt.nextOf
  rw [h]

theorem next_eq (m : libmqtt) (a : Nat) (r : libmqtt_pub) (hh : m.pub.head = some a)
    (h : m.deref a = some r) :
    __check_pub_next m = { m with pub := { m.pub with head := r.next } } := by
  unfold __check_pub_next
  have e1 : (m.readLoc none).1 = some a := hh
  have e2 : (m.readLoc none).2 = m := rfl
  simp only [e2, e1, nextOf_eq m a r h]
  rfl

theorem unlink_eq (m : libmqtt) (a : Nat) (r : libmqtt_pub) (hh : m.pub.head = some a)
    (h : m.deref a = some r) :
    __check_pub_unlink m a
      = { m with pub := { m.pub with head := r.next }, heap := m.heap.set a none } := by
  unfold __check_pub_unlink
  rw [next_eq m a r hh h, free_eq _ a r (by exact h)]
theorem modify_twice (m : libmqtt) (a : Nat) (f g : libmqtt_pub → libmqtt_pub) (r : libmqtt_pub)
    (h : m.deref a = some r) :
    (m.modify a f).modify a g = { m with heap := m.heap.set a (some (g (f r))) } := by
  have hlt : a < m.heap.length := cell_some_lt h
  rw [modify_eq m a f r h]
  have h2 : ({ m with heap := m.heap.set a (some (f r)) } : libmqtt).deref a = some (f r) :=
    cell_set_eq m.heap a _ hlt
  rw [modify_eq _ a g (f r) h2]
  simp only [List.set_set]

theorem write_rc (m : libmqtt) (data : List Nat) :
    ((__write m data).1 = 0) = (m.results.headD (data.length : Int) ≠ -1) := by
  rw [write_eq]
  by_cases hr : m.results.headD (data.length : Int) = -1
  · simp [hr]
  · simp [hr]

theorem write_now (m : libmqtt) (data : List Nat) : (__write m data).2.t.now = m.t.now := by
  rw [write_eq]

theorem modify_now (m : libmqtt) (a : Nat) (f : libmqtt_pub → libmqtt_pub) :
    (m.modify a f).t.now = m.t.now := by
  unfold libmqtt.modify
  split <;> rfl

theorem write_unlink (m : libmqtt) (a : Nat) (r : libmqtt_pub) (data : List Nat)
    (hh : m.pub.head = some a) (h : m.deref a = some r) :
    __check_pub_unlink (__write m data).2 a
      = { m with
          heap := m.heap.set a none
          pub := { m.pub with head := r.next }
          results := m.results.tail
          wire := m.wire ++ [(data, m.results.headD (data.length : Int))]
          t := { m.t with
                 send := if m.results.headD (data.length : Int) = -1 then m.t.send
                         else m.t.now } } := by
  rw [write_eq]
  rw [unlink_eq _ a r (by exact hh) (by exact h)]

theorem write_modify (m : libmqtt) (a : Nat) (r : libmqtt_pub) (data : List Nat)
    (f : libmqtt_pub → libmqtt_pub) (h : m.deref a = some r) :
    (__write m data).2.modify a f
      = { m with
          heap := m.heap.set a (some (f r))
          results := m.results.tail
          wire := m.wire ++ [(data, m.results.headD (data.length : Int))]
          t := { m.t with
                 send := if m.results.headD (data.length : Int) = -1 then m.t.send
                         else m.t.now } } := by
  rw [write_eq]
  rw [modify_eq _ a f r (by exact h)]

theorem write_modify_twice (m : libmqtt) (a : Nat) (r : libmqtt_pub) (data : List Nat)
    (f g : libmqtt_pub → libmqtt_pub) (h : m.deref a = some r) :
    ((__write m data).2.modify a f).modify a g
      = { m with
          heap := m.heap.set a (some (g (f r)))
          results := m.results.tail
          wire := m.wire ++ [(data, m.results.headD (data.length : Int))]
          t := { m.t with
                 send := if m.results.headD (data.length : Int) = -1 then m.t.send
                         else m.t.now } } := by
  rw [write_eq]
  rw [modify_twice _ a f g r (by exact h)]

theorem check_pub_switch_eq (m : libmqtt) (a : Nat) (r : libmqtt_pub)
    (hh : m.pub.head = some a) (h : m.deref a = some r) :
    __check_pub_switch m a r
      = ((sweepCell m.t.now (decide (m.results.headD ((sweepBytes r).length : Int) ≠ -1))
            r).isSome,
         { m with
           heap := m.heap.set a
             (sweepCell m.t.now (decide (m.results.headD ((sweepBytes r).length : Int) ≠ -1)) r)
           pub := { m.pub with
                    head := if (sweepCell m.t.now
                        (decide (m.results.headD ((sweepBytes r).length : Int) ≠ -1)) r).isSome
                      then m.pub.head else r.next }
           results := m.results.tail
           wire := m.wire ++ [(sweepBytes r, m.results.headD ((sweepBytes r).length : Int))]
           t := { m.t with
                  send := if m.results.headD ((sweepBytes r).length : Int) = -1 then m.t.send
                          else m.t.now } }) := by
  have hser : (mqtt__serialize (checkPacket r)).1 = 0 := serialize_publish_rc _ rfl
  obtain ⟨p, s, d, t, next⟩ := r
  cases s
  case LIBMQTT_ST_SEND_PUBREC =>
    simp only [__check_pub_switch, sweepCell, sweepBytes]
    by_cases hres : m.results.headD ((MQTT_PUBREC p.packet_id).length : Int) = -1
    · have hw : ¬ (__write m (MQTT_PUBREC p.packet_id)).1 = 0 := by
        rw [write_rc]
        simpa using hres
      simp only [hw, if_false, write_now, write_modify m a _ _ _ h]
      simp [hres, -List.headD_eq_head?_getD]
    · have hw : (__write m (MQTT_PUBREC p.packet_id)).1 = 0 := by
        rw [write_rc]
        exact hres
      simp only [hw, if_true, modify_now, write_now, write_modify_twice m a _ _ _ _ h]
      simp [hres, -List.headD_eq_head?_getD]
  case LIBMQTT_ST_SEND_PUBREL =>
    simp only [__check_pub_switch, sweepCell, sweepBytes]
    by_cases hres : m.results.headD ((MQTT_PUBREL p.packet_id).length : Int) = -1
    · have hw : ¬ (__write m (MQTT_PUBREL p.packet_id)).1 = 0 := by
        rw [write_rc]
        simpa using hres
      simp only [hw, if_false, write_now, write_modify m a _ _ _ h]
      simp [hres, -List.headD_eq_head?_getD]
    · have hw : (__write m (MQTT_PUBREL p.packet_id)).1 = 0 := by
        rw [write_rc]
        exact hres
      simp only [hw, if_true, modify_now, write_now, write_modify_twice m a _ _ _ _ h]
      simp [hres, -List.headD_eq_head?_getD]
  all_goals
    simp only [__check_pub_switch, sweepCell, sweepBytes, hser, ne_eq,
      not_true_eq_false, if_false, write_rc, write_now, modify_now,
      write_modify_twice m a _ _ _ _ h]
    simp only [write_unlink m a _ _ hh h, write_modify m a _ _ _ h]
  case LIBMQTT_ST_SEND_PUBLUSH | LIBMQTT_ST_WAIT_PUBACK | LIBMQTT_ST_WAIT_PUBREC =>
    split
    · rename_i hres
      split
      · rename_i q0
        simp [hres, q0, -List.headD_eq_head?_getD]
      · rename_i q0
        split
        · rename_i q1
          simp [hres, q0, q1, -List.headD_eq_head?_getD]
        · rename_i q1
          simp [hres, q0, q1, -List.headD_eq_head?_getD]
    · rename_i hres
      simp [hres, -List.headD_eq_head?_getD]
  all_goals (split <;> rename_i hres <;> simp [hres, -List.headD_eq_head?_getD])

theorem sweepCell_fields (now : Int) (ok : Bool) (r x : libmqtt_pub)
    (h : sweepCell now ok r = some x) :
    x.next = r.next ∧ x.p = r.p ∧ x.d = r.d ∧ x.t = now := by
  obtain ⟨p, s, d, t, next⟩ := r
  cases s <;> simp only [sweepCell] at h
  all_goals first
    | (have e := Option.some.inj h; rw [← e]; exact ⟨rfl, rfl, rfl, rfl⟩)
    | (split at h
       · first
         | exact Option.noConfusion h
         | (have e := Option.some.inj h; rw [← e]; exact ⟨rfl, rfl, rfl, rfl⟩)
         | (split at h
            · exact Option.noConfusion h
            · split at h
              · have e := Option.some.inj h; rw [← e]; exact ⟨rfl, rfl, rfl, rfl⟩
              · have e := Option.some.inj h; rw [← e]; exact ⟨rfl, rfl, rfl, rfl⟩)
       · have e := Option.some.inj h; rw [← e]; exact ⟨rfl, rfl, rfl, rfl⟩)

theorem check_pub_body_eq (m : libmqtt) (a : Nat) (r : libmqtt_pub)
    (hh : m.pub.head = some a) (h : m.deref a = some r) :
    __check_pub_body m a r = sweepStep m a r := by
  have hlt : a < m.heap.length := cell_some_lt h
  unfold __check_pub_body sweepStep
  by_cases hp : m.t.now - r.t > m.c.keep_alive
  · simp only [hp, if_true]
    rw [check_pub_switch_eq m a r hh h]
    simp only []
    cases hc : sweepCell m.t.now (decide (m.results.headD ((sweepBytes r).length : Int) ≠ -1)) r with
    | none => simp
    | some x =>
      simp only [Option.isSome_some, if_true]
      have hx := sweepCell_fields _ _ _ _ hc
      rw [next_eq _ a x (by exact hh) (by exact cell_set_eq m.heap a _ hlt), hx.1]
  · simp only [hp, if_false]
    exact next_eq m a r hh h

theorem check_pub_loop_cons (fuel : Nat) (m : libmqtt) (a : Nat) (r : libmqtt_pub)
    (hh : m.pub.head = some a) (h : m.deref a = some r) :
    __check_pub_loop (fuel + 1) m = __check_pub_loop fuel (sweepStep m a r) := by
  rw [__check_pub_loop]
  simp only [hh, h]
  rw [check_pub_body_eq m a r hh h]

theorem sweepStep_fields (m : libmqtt) (a : Nat) (r : libmqtt_pub) :
    (sweepStep m a r).pub.head = r.next ∧ (sweepStep m a r).ub = m.ub ∧
    (sweepStep m a r).t.now = m.t.now ∧ (sweepStep m a r).c = m.c ∧
    (∀ b, b ≠ a → (sweepStep m a r).heap.getD b none = m.heap.getD b none) ∧
    (sweepStep m a r).heap.length = m.heap.length := by
  unfold sweepStep
  split
  · exact ⟨rfl, rfl, rfl, rfl, fun b hb => cell_set_ne _ _ _ _ (Ne.symm hb), List.length_set _ _ _⟩
  · exact ⟨rfl, rfl, rfl, rfl, fun _ _ => rfl, rfl⟩

theorem sweepStep_chain (m : libmqtt) (a : Nat) (r : libmqtt_pub) (as : List Nat)
    (hc : IsChain m.heap (some a) (a :: as)) (h : m.deref a = some r) :
    IsChain (sweepStep m a r).heap (sweepStep m a r).pub.head as := by
  have hn := isChain_nodup _ _ hc
  have ha : a ∉ as := (List.nodup_cons.mp hn).1
  have hr : IsChain m.heap r.next as := by
    have h2 := hc.2
    have h3 : m.heap.getD a none = some r := h
    rw [h3] at h2
    exact h2
  have hf := sweepStep_fields m a r
  rw [hf.1]
  exact isChain_congr as r.next (fun b hb => hf.2.2.2.2.1 b (fun e => ha (e ▸ hb))) hr

/-- On a well-formed record list `__check_pub` ends with an empty list: every
iteration moves `pub.head` on to the next record, also when the record is not past
its deadline or stays in flight, so every record is taken off the list. -/
theorem check_pub_loop_head : ∀ (as : List Nat) (m : libmqtt) (fuel : Nat),
    IsChain m.heap m.pub.head as → as.length < fuel →
    (__check_pub_loop fuel m).pub.head = none ∧ (__check_pub_loop fuel m).ub = m.ub := by
  intro as
  induction as with
  | nil =>
    intro m fuel hc hf
    have e : m.pub.head = none := hc
    cases fuel with
    | zero => exact absurd hf (by simp)
    | succ k =>
      rw [__check_pub_loop, e]
      exact ⟨e, rfl⟩
  | cons a as ih =>
    intro m fuel hc hf
    have hh : m.pub.head = some a := hc.1
    cases fuel with
    | zero => exact absurd hf (by simp)
    | succ k =>
      cases hd : m.heap.getD a none with
      | none =>
        have h2 := hc.2
        rw [hd] at h2
        exact absurd h2 id
      | some r =>
        have hd2 : m.deref a = some r := hd
        rw [check_pub_loop_cons k m a r hh hd2]
        have hc2 : IsChain m.heap (some a) (a :: as) := by rw [← hh]; exact hc
        have := ih (sweepStep m a r) k (sweepStep_chain m a r as hc2 hd2)
          (by simp only [List.length_cons] at hf; omega)
        rw [(sweepStep_fields m a r).2.1] at this
        exact this

theorem check_pub_table (m : libmqtt) (as : List Nat) (hc : IsChain m.heap m.pub.head as) :
    (__check_pub m).pub.head = none ∧ (__check_pub m).table = [] ∧ (__check_pub m).ub = m.ub := by
  have h := check_pub_loop_head as m (m.heap.length + 1) hc
    (by have := isChain_length_le as _ hc; omega)
  have e : (__check_pub m).pub.head = none := h.1
  refine ⟨e, ?_, h.2⟩
  unfold libmqtt.table libmqtt.addrs
  rw [e]
  rfl

theorem check_pub_loop_outside : ∀ (as : List Nat) (m : libmqtt) (fuel : Nat),
    IsChain m.heap m.pub.head as → as.length < fuel → ∀ b, b ∉ as →
    (__check_pub_loop fuel m).heap.getD b none = m.heap.getD b none := by
  intro as
  induction as with
  | nil =>
    intro m fuel hc hf b _
    have e : m.pub.head = none := hc
    cases fuel with
    | zero => exact absurd hf (by simp)
    | succ k => rw [__check_pub_loop, e]
  | cons a as ih =>
    intro m fuel hc hf b hb
    have hh : m.pub.head = some a := hc.1
    cases fuel with
    | zero => exact absurd hf (by simp)
    | succ k =>
      cases hd : m.heap.getD a none with
      | none =>
        have h2 := hc.2
        rw [hd] at h2
        exact absurd h2 id
      | some r =>
        have hd2 : m.deref a = some r := hd
        rw [check_pub_loop_cons k m a r hh hd2]
        have hc2 : IsChain m.heap (some a) (a :: as) := by rw [← hh]; exact hc
        rw [ih (sweepStep m a r) k (sweepStep_chain m a r as hc2 hd2)
          (by simp only [List.length_cons] at hf; omega) b
          (fun hm => hb (List.mem_cons_of_mem _ hm))]
        exact (sweepStep_fields m a r).2.2.2.2.1 b (fun e => hb (e ▸ List.mem_cons_self _ _))

theorem sweepStep_wire (m : libmqtt) (a : Nat) (r : libmqtt_pub) :
    (sweepStep m a r).wire
      = m.wire ++ (if m.t.now - r.t > m.c.keep_alive then
          [(sweepBytes r, m.results.headD ((sweepBytes r).length : Int))] else []) := by
  unfold sweepStep
  split
  · rfl
  · simp

theorem sweepStep_cell (m : libmqtt) (a : Nat) (r : libmqtt_pub) (h : m.deref a = some r) :
    (sweepStep m a r).heap.getD a none
      = (if m.t.now - r.t > m.c.keep_alive then
          sweepCell m.t.now (decide (m.results.headD ((sweepBytes r).length : Int) ≠ -1)) r
         else some r) := by
  unfold sweepStep
  split
  · exact cell_set_eq m.heap a _ (cell_some_lt h)
  · exact h

/-- The turn of a record in `__check_pub`, on a well-formed record list: a record
past its deadline has one packet offered to the transport, `sweepBytes`, and its
cell becomes `sweepCell` for the outcome of that write; the cell of a record that is
not past its deadline is left as it is. -/
theorem check_pub_loop_record : ∀ (as : List Nat) (m : libmqtt) (fuel : Nat),
    IsChain m.heap m.pub.head as → as.length < fuel →
    ∀ a ∈ as, ∀ r, m.deref a = some r →
    (m.t.now - r.t > m.c.keep_alive →
      ∃ res : Int, (sweepBytes r, res) ∈ (__check_pub_loop fuel m).wire.drop m.wire.length ∧
        (__check_pub_loop fuel m).heap.getD a none
          = sweepCell m.t.now (decide (res ≠ -1)) r) ∧
    (¬ m.t.now - r.t > m.c.keep_alive →
      (__check_pub_loop fuel m).heap.getD a none = some r) := by
  intro as
  induction as with
  | nil => intro m fuel _ _ a ha; exact absurd ha (List.not_mem_nil _)
  | cons b as ih =>
    intro m fuel hc hf a ha r hr
    have hh : m.pub.head = some b := hc.1
    cases fuel with
    | zero => exact absurd hf (by simp)
    | succ k =>
      cases hd : m.heap.getD b none with
      | none =>
        have h2 := hc.2
        rw [hd] at h2
        exact absurd h2 id
      | some rb =>
        have hd2 : m.deref b = some rb := hd
        have hc2 : IsChain m.heap (some b) (b :: as) := by rw [← hh]; exact hc
        have hn := isChain_nodup _ _ hc2
        have hb : b ∉ as := (List.nodup_cons.mp hn).1
        have hchain := sweepStep_chain m b rb as hc2 hd2
        have hk : as.length < k := by simp only [List.length_cons] at hf; omega
        have hf1 := sweepStep_fields m b rb
        rw [check_pub_loop_cons k m b rb hh hd2]
        obtain ⟨_, _, _, _, _, _, _, _, _, l, hl, _⟩ := frame_loop k (sweepStep m b rb)
        by_cases hab : a = b
        · subst hab
          have e : rb = r := Option.some.inj (hd2.symm.trans hr)
          subst e
          have hout := check_pub_loop_outside as (sweepStep m a rb) k hchain hk a hb
          rw [hout, sweepStep_cell m a rb hd2]
          constructor
          · intro hp
            refine ⟨m.results.headD ((sweepBytes rb).length : Int), ?_, by rw [if_pos hp]⟩
            rw [hl, sweepStep_wire, if_pos hp, List.append_assoc, List.drop_left]
            exact List.mem_append_left _ (List.mem_singleton.mpr rfl)
          · intro hp
            rw [if_neg hp]
        · have ha2 : a ∈ as := by
            rcases List.mem_cons.mp ha with h1 | h1
            · exact absurd h1 hab
            · exact h1
          have hr2 : (sweepStep m b rb).deref a = some r := by
            show (sweepStep m b rb).heap.getD a none = some r
            rw [hf1.2.2.2.2.1 a hab]
            exact hr
          have := ih (sweepStep m b rb) k hchain hk a ha2 r hr2
          rw [hf1.2.2.1, hf1.2.2.2.1] at this
          refine ⟨?_, this.2⟩
          intro hp
          obtain ⟨res, hmem, hcell⟩ := this.1 hp
          refine ⟨res, ?_, hcell⟩
          rw [sweepStep_wire, List.length_append, ← List.drop_drop] at hmem
          exact List.mem_of_mem_drop hmem

theorem cstr_take (l : List Nat) : l.take (cstr l).length = cstr l := by
  unfold cstr
  exact (List.prefix_iff_eq_take.mp (List.takeWhile_prefix _)).symm

theorem cstr_idem (l : List Nat) : cstr (cstr l) = cstr l := by
  unfold cstr
  exact List.takeWhile_idem

theorem strndup_strlen (topic : List Nat) :
    strndup (some topic) ((cstr topic).length : Int) = cstr topic := by
  unfold strndup
  rw [if_neg (by omega)]
  simp only [Option.getD_some, Int.toNat_ofNat, cstr_take, cstr_idem]

/-- The PUBLISH of the sweep against the original publication: for the record that
`__insert_pub` fills in for the packet of `libmqtt__publish`, `__check_pub` serializes
the same bytes as `mqtt__serialize` gives for that packet with `dup = 1`. -/
theorem checkPacket_serialize (topic : List Nat) (qos retain id : Int)
    (payload : Option (List Nat)) (length : Int) (r : libmqtt_pub)
    (hr : r.p = { packet_id := id
                  qos := qos
                  retain := retain
                  topic := strndup (some topic) ((cstr topic).length : Int)
                  payload := if length > 0 then some (memBytes payload length) else none
                  length := length }) :
    (mqtt__serialize (checkPacket r)).2.bytes
      = (mqtt__serialize { publishPacket topic qos retain id payload length with
          h := ⟨PUBLISH, qos, 1, retain⟩ }).2.bytes := by
  rw [serialize_of_type_3 _ rfl, serialize_of_type_3 _ rfl]
  unfold __serialize_publish checkPacket publishPacket
  simp only [hr, strndup_strlen, cstr_idem]
  have e1 : ∀ out : List Nat,
      mqtt_b_write_utf out ⟨some (cstr topic), ((cstr topic).length : Int)⟩
        = mqtt_b_write_utf out ⟨some topic, ((cstr topic).length : Int)⟩ := by
    intro out
    unfold mqtt_b_write_utf
    simp only [memBytes, Option.getD_some, Int.toNat_ofNat, cstr_take, List.take_length]
  have e2 : memBytes (if length > 0 then some (memBytes payload length) else none) length
      = memBytes payload length := by
    unfold memBytes
    split
    · simp only [Option.getD_some, List.take_take, min_self]
    · rename_i hl
      have : length.toNat = 0 := by omega
      simp only [this, List.take_zero]
  simp only [e1, e2]

/-- C23 (code defect). A tick takes every record off the list.  A connected client
(keep-alive 30) publishes topic "a", payload "x" with QoS 1: the record of packet
id 1 is in the table, in WAIT_PUBACK.  The first tick writes nothing, since the
record is not past its deadline, and leaves the table empty; the record is still
allocated, unchanged.  The PUBACK `40 02 00 01` that arrives afterwards is rejected
(`mqtt__parse` returns -1, the hook is not invoked), and no tick retransmits the
PUBLISH: after 31 ticks the transport has seen the PUBLISH and one PINGREQ only.
In general, on every well-formed record list `__check_pub` ends with an empty
table, whatever the states and deadlines of the records. -/
theorem C23_tick_empties_record_list :
    (libmqtt__publish connectedClient.2 [0x61, 0] 1 0 (some [0x78]) 1).2.2.table
      = [outPub 1 [0x61] 1 0 [0x78] libmqtt_state.LIBMQTT_ST_WAIT_PUBACK 0] ∧
    (__update (libmqtt__publish connectedClient.2 [0x61, 0] 1 0 (some [0x78]) 1).2.2 5).1
      = 1000 ∧
    (__update (libmqtt__publish connectedClient.2 [0x61, 0] 1 0 (some [0x78]) 1).2.2 5).2.2.wire
      = (libmqtt__publish connectedClient.2 [0x61, 0] 1 0 (some [0x78]) 1).2.2.wire ∧
    (__update (libmqtt__publish connectedClient.2 [0x61, 0] 1 0 (some [0x78]) 1).2.2 5).2.2.table
      = [] ∧
    (__update (libmqtt__publish connectedClient.2 [0x61, 0] 1 0 (some [0x78]) 1).2.2 5).2.2.heap
      = (libmqtt__publish connectedClient.2 [0x61, 0] 1 0 (some [0x78]) 1).2.2.heap ∧
    (__update (libmqtt__publish connectedClient.2 [0x61, 0] 1 0 (some [0x78]) 1).2.2 5).2.2.ub
      = false ∧
    (mqtt__parse_bytes true connectedClient.1
      (__update (libmqtt__publish connectedClient.2 [0x61, 0] 1 0 (some [0x78]) 1).2.2 5).2.2
      [0x40, 0x02, 0x00, 0x01]).1 = -1 ∧
    (mqtt__parse_bytes true connectedClient.1
      (__update (libmqtt__publish connectedClient.2 [0x61, 0] 1 0 (some [0x78]) 1).2.2 5).2.2
      [0x40, 0x02, 0x00, 0x01]).2.2.calls = connectedClient.2.calls ∧
    (afterTicks 5 31 (libmqtt__publish connectedClient.2 [0x61, 0] 1 0 (some [0x78]) 1).2.2).2.wire
      = [([0x32, 0x06, 0x00, 0x01, 0x61, 0x00, 0x01, 0x78], 8), (MQTT_PINGREQ, 2)] ∧
    (∀ (m : libmqtt) (as : List Nat), IsChain m.heap m.pub.head as →
      (__check_pub m).pub.head = none ∧ (__check_pub m).table = []) := by
  refine ⟨by decide, by decide, by decide, by decide, by decide, by decide, by decide, by decide,
    by decide, ?_⟩
  intro m as hc
  exact ⟨(check_pub_table m as hc).1, (check_pub_table m as hc).2.1⟩

/-- C24. The PUBLISH that the sweep retransmits, for every well-formed record list
and every record of it in state WAIT_PUBACK with QoS 1 or in state WAIT_PUBREC with
QoS 2 whose last action is more than `keep_alive` seconds before the clock: when
the record holds what `__insert_pub` stores for the publication (topic, QoS, retain
flag, packet id, payload), `__check_pub` offers to the transport the bytes that
`mqtt__serialize` gives for that publication with `dup = 1`, and whatever the
outcome of the write it leaves the record with the clock as the time of its last
action and with everything else as it was. -/
theorem C24_retransmitted_publish (m : libmqtt) (as : List Nat) (a : Nat) (r : libmqtt_pub)
    (topic : List Nat) (qos retain id : Int) (payload : Option (List Nat)) (length : Int)
    (hc : IsChain m.heap m.pub.head as) (ha : a ∈ as) (hr : m.deref a = some r)
    (hs : (r.s = libmqtt_state.LIBMQTT_ST_WAIT_PUBACK ∧ qos = MQTT_QOS_1) ∨
          (r.s = libmqtt_state.LIBMQTT_ST_WAIT_PUBREC ∧ qos = MQTT_QOS_2))
    (hp : r.p = (insertedPub m (publishPacket topic qos retain id payload length)
      libmqtt_dir.LIBMQTT_DIR_OUT r.s).p)
    (hpast : m.t.now - r.t > m.c.keep_alive) :
    ∃ res : Int,
      ((mqtt__serialize { publishPacket topic qos retain id payload length with
          h := ⟨PUBLISH, qos, 1, retain⟩ }).2.bytes, res)
        ∈ (__check_pub m).wire.drop m.wire.length ∧
      (__check_pub m).deref a = some { r with t := m.t.now } := by
  have hrec := (check_pub_loop_record as m (m.heap.length + 1) hc
    (by have := isChain_length_le as _ hc; omega) a ha r hr).1 hpast
  obtain ⟨res, hmem, hcell⟩ := hrec
  have hser := checkPacket_serialize topic qos retain id payload length r hp
  have hq : r.p.qos = qos := by rw [hp]; rfl
  refine ⟨res, ?_, ?_⟩
  · have hb : sweepBytes r = (mqtt__serialize (checkPacket r)).2.bytes := by
      unfold sweepBytes
      rcases hs with h | h <;> rw [h.1]
    rw [← hser, ← hb]
    exact hmem
  · show (__check_pub_loop (m.heap.length + 1) m).heap.getD a none = _
    rw [hcell]
    obtain ⟨p, s, d, t, next⟩ := r
    rcases hs with h | h
    · have e1 : s = libmqtt_state.LIBMQTT_ST_WAIT_PUBACK := h.1
      have e2 : p.qos = 1 := hq.trans h.2
      subst e1
      simp only [sweepCell, e2]
      split <;> simp
    · have e1 : s = libmqtt_state.LIBMQTT_ST_WAIT_PUBREC := h.1
      have e2 : p.qos = 2 := hq.trans h.2
      subst e1
      simp only [sweepCell, e2]
      split <;> simp

/-- C24, witness: the connected client publishes topic "a", payload "x" with QoS 1
(packet id 1) and then sets the keep-alive to 0; at the next tick the record is
past its deadline and the sweep offers `3A 06 00 01 61 00 01 78`. -/
theorem C24_retransmitted_publish_witness :
    ∃ res : Int,
      ((mqtt__serialize { publishPacket [0x61, 0] 1 0 1 (some [0x78]) 1 with
          h := ⟨PUBLISH, 1, 1, 0⟩ }).2.bytes, res)
        ∈ (__check_pub { (libmqtt__publish connectedClient.2 [0x61, 0] 1 0 (some [0x78]) 1).2.2 with
            c := { connectedClient.2.c with keep_alive := 0 }
            t := ⟨1, 0, 0⟩ }).wire.drop 1 ∧
      (__check_pub { (libmqtt__publish connectedClient.2 [0x61, 0] 1 0 (some [0x78]) 1).2.2 with
            c := { connectedClient.2.c with keep_alive := 0 }
            t := ⟨1, 0, 0⟩ }).deref 0
        = some { outPub 1 [0x61] 1 0 [0x78] libmqtt_state.LIBMQTT_ST_WAIT_PUBACK 0 with t := 1 } :=
  C24_retransmitted_publish
    { (libmqtt__publish connectedClient.2 [0x61, 0] 1 0 (some [0x78]) 1).2.2 with
      c := { connectedClient.2.c with keep_alive := 0 }
      t := ⟨1, 0, 0⟩ }
    [0] 0 (outPub 1 [0x61] 1 0 [0x78] libmqtt_state.LIBMQTT_ST_WAIT_PUBACK 0)
    [0x61, 0] 1 0 1 (some [0x78]) 1 (by decide) (by decide) (by decide)
    (Or.inl ⟨rfl, rfl⟩) (by decide) (by decide)

theorem find_loop_none : ∀ (as : List Nat) (m : libmqtt) (p : Option Nat) (fuel : Nat)
    (id : Int) (d : libmqtt_dir) (s : libmqtt_state),
    IsChain m.heap p as → as.length < fuel →
    (∀ a ∈ as, ∀ r, m.deref a = some r → ¬ (r.p.packet_id = id ∧ r.d = d ∧ r.s = s)) →
    __find_pub_loop fuel m p id d s = (none, m) := by
  intro as
  induction as with
  | nil =>
    intro m p fuel id d s hc hf _
    have e : p = none := hc
    subst e
    cases fuel with
    | zero => exact absurd hf (by simp)
    | succ k => rfl
  | cons a as ih =>
    intro m p fuel id d s hc hf hno
    have e : p = some a := hc.1
    subst e
    cases fuel with
    | zero => exact absurd hf (by simp)
    | succ k =>
      cases hd : m.heap.getD a none with
      | none =>
        have h2 := hc.2
        rw [hd] at h2
        exact False.elim h2
      | some r =>
        have hd2 : m.deref a = some r := hd
        have h2 := hc.2
        rw [hd] at h2
        rw [__find_pub_loop]
        simp only [hd2]
        rw [if_neg (hno a (List.mem_cons_self _ _) r hd2)]
        exact ih m r.next k id d s h2 (by simp only [List.length_cons] at hf; omega)
          (fun b hb => hno b (List.mem_cons_of_mem _ hb))

theorem find_loop_some : ∀ (pre : List Nat) (m : libmqtt) (p : Option Nat) (fuel : Nat)
    (a : Nat) (post : List Nat) (r : libmqtt_pub) (id : Int) (d : libmqtt_dir)
    (s : libmqtt_state),
    IsChain m.heap p (pre ++ a :: post) → (pre ++ a :: post).length < fuel →
    m.deref a = some r → (r.p.packet_id = id ∧ r.d = d ∧ r.s = s) →
    (∀ b ∈ pre, ∀ rb, m.deref b = some rb → ¬ (rb.p.packet_id = id ∧ rb.d = d ∧ rb.s = s)) →
    __find_pub_loop fuel m p id d s = (some a, m) := by
  intro pre
  induction pre with
  | nil =>
    intro m p fuel a post r id d s hc hf hr hm _
    have e : p = some a := hc.1
    subst e
    cases fuel with
    | zero => exact absurd hf (by simp)
    | succ k =>
      rw [__find_pub_loop]
      simp only [hr]
      rw [if_pos hm]
  | cons b pre ih =>
    intro m p fuel a post r id d s hc hf hr hm hno
    have e : p = some b := hc.1
    subst e
    cases fuel with
    | zero => exact absurd hf (by simp)
    | succ k =>
      cases hd : m.heap.getD b none with
      | none =>
        have h2 := hc.2
        rw [hd] at h2
        exact False.elim h2
      | some rb =>
        have hd2 : m.deref b = some rb := hd
        have h2 := hc.2
        rw [hd] at h2
        rw [__find_pub_loop]
        simp only [hd2]
        rw [if_neg (hno b (List.mem_cons_self _ _) rb hd2)]
        exact ih m rb.next k a post r id d s h2
          (by simp only [List.cons_append, List.length_cons] at hf ⊢; omega) hr hm
          (fun c hc2 => hno c (List.mem_cons_of_mem _ hc2))

/-- The function `__find_pub` on a well-formed record list, when no record has the
packet id, direction and state looked for: it returns null and changes nothing. -/
theorem find_pub_none (m : libmqtt) (as : List Nat) (id : Int) (d : libmqtt_dir)
    (s : libmqtt_state) (hc : IsChain m.heap m.pub.head as)
    (hno : ∀ a ∈ as, ∀ r, m.deref a = some r → ¬ (r.p.packet_id = id ∧ r.d = d ∧ r.s = s)) :
    __find_pub m id d s = (none, m) :=
  find_loop_none as m _ _ id d s hc (by have := isChain_length_le as _ hc; omega) hno

/-- The function `__find_pub` on a well-formed record list: it returns the first
record, in list order, that has the packet id, direction and state looked for, and
changes nothing. -/
theorem find_pub_some (m : libmqtt) (pre : List Nat) (a : Nat) (post : List Nat)
    (r : libmqtt_pub) (id : Int) (d : libmqtt_dir) (s : libmqtt_state)
    (hc : IsChain m.heap m.pub.head (pre ++ a :: post)) (hr : m.deref a = some r)
    (hm : r.p.packet_id = id ∧ r.d = d ∧ r.s = s)
    (hno : ∀ b ∈ pre, ∀ rb, m.deref b = some rb →
      ¬ (rb.p.packet_id = id ∧ rb.d = d ∧ rb.s = s)) :
    __find_pub m id d s = (some a, m) :=
  find_loop_some pre m _ _ a post r id d s hc
    (by have := isChain_length_le _ _ hc; omega) hr hm hno

theorem isChain_cell {heap : List (Option libmqtt_pub)} (a : Nat) (as : List Nat)
    (p : Option Nat) (h : IsChain heap p (a :: as)) :
    p = some a ∧ ∃ r, heap.getD a none = some r ∧ IsChain heap r.next as := by
  refine ⟨h.1, ?_⟩
  cases hd : heap.getD a none with
  | none =>
    have h2 := h.2
    rw [hd] at h2
    exact False.elim h2
  | some r =>
    have h2 := h.2
    rw [hd] at h2
    exact ⟨r, rfl, h2⟩

theorem isChain_cons {heap : List (Option libmqtt_pub)} (a : Nat) (as : List Nat)
    (r : libmqtt_pub) (h1 : heap.getD a none = some r) (h2 : IsChain heap r.next as) :
    IsChain heap (some a) (a :: as) := by
  refine ⟨rfl, ?_⟩
  rw [h1]
  exact h2

theorem delete_loop_absent (pub : Nat) : ∀ (as : List Nat) (m : libmqtt) (pp : Option Nat)
    (fuel : Nat), IsChain m.heap (m.readLoc pp).1 as → (m.readLoc pp).2 = m → pub ∉ as →
    as.length < fuel → __delete_pub_loop fuel m pp pub = m := by
  intro as
  induction as with
  | nil =>
    intro m pp fuel hc hv _ hf
    have e : (m.readLoc pp).1 = none := hc
    cases fuel with
    | zero => exact absurd hf (by simp)
    | succ k =>
      rw [__delete_pub_loop]
      simp only [e, hv]
  | cons a as ih =>
    intro m pp fuel hc hv hp hf
    obtain ⟨e, r, hr, hrest⟩ := isChain_cell a as _ hc
    cases fuel with
    | zero => exact absurd hf (by simp)
    | succ k =>
      have hne : a ≠ pub := fun h => hp (h ▸ List.mem_cons_self _ _)
      rw [__delete_pub_loop]
      simp only [e, hv, if_neg hne]
      have hd : m.deref a = some r := hr
      have e1 : (m.readLoc (some a)).1 = r.next := by
        unfold libmqtt.readLoc
        simp only [hd]
      have e2 : (m.readLoc (some a)).2 = m := by
        unfold libmqtt.readLoc
        simp only [hd]
      exact ih m (some a) k (by rw [e1]; exact hrest) e2
        (fun h => hp (List.mem_cons_of_mem _ h))
        (by simp only [List.length_cons] at hf; omega)

theorem readLoc_some_eq (m : libmqtt) (q : Nat) (rq : libmqtt_pub) (h : m.deref q = some rq) :
    m.readLoc (some q) = (rq.next, m) := by
  unfold libmqtt.readLoc
  simp only [h]

theorem readLoc_some_inv (m : libmqtt) (q x : Nat) (h : (m.readLoc (some q)).1 = some x) :
    ∃ rq, m.deref q = some rq ∧ rq.next = some x := by
  unfold libmqtt.readLoc at h
  cases hd : m.deref q with
  | none =>
    simp only [hd] at h
    exact Option.noConfusion h
  | some rq =>
    simp only [hd] at h
    exact ⟨rq, rfl, h⟩

theorem table_of_chain (m : libmqtt) (as : List Nat) (hc : IsChain m.heap m.pub.head as) :
    m.table = as.filterMap (fun a => (m.heap.getD a none).map libmqtt_pub.strip) := by
  unfold libmqtt.table
  rw [addrs_of_isChain m as hc]
  rfl

theorem isChain_some {heap : List (Option libmqtt_pub)} :
    ∀ (as : List Nat) (p : Option Nat), IsChain heap p as →
      ∀ a ∈ as, ∃ r, heap.getD a none = some r := by
  intro as
  induction as with
  | nil => intro _ _ a ha; exact absurd ha (List.not_mem_nil _)
  | cons b as ih =>
    intro p h a ha
    obtain ⟨_, r, hr, hrest⟩ := isChain_cell b as p h
    rcases List.mem_cons.mp ha with h1 | h1
    · rw [h1]; exact ⟨r, hr⟩
    · exact ih r.next hrest a h1

theorem delete_base_none (m : libmqtt) (pub : Nat) (rp : libmqtt_pub)
    (hrp : m.deref pub = some rp) :
    libmqtt.free (((m.readLoc none).2.nextOf pub).2.writeLoc none
        ((m.readLoc none).2.nextOf pub).1) pub
      = { m with pub := { m.pub with head := rp.next }, heap := m.heap.set pub none } := by
  have e2 : (m.readLoc none).2 = m := rfl
  rw [e2, nextOf_eq m pub rp hrp]
  show libmqtt.free { m with pub := { m.pub with head := rp.next } } pub = _
  rw [free_eq _ pub rp (by exact hrp)]

theorem delete_base_some (m : libmqtt) (q pub : Nat) (rq rp : libmqtt_pub) (hq : q ≠ pub)
    (hrq : m.deref q = some rq) (hrp : m.deref pub = some rp) :
    libmqtt.free (((m.readLoc (some q)).2.nextOf pub).2.writeLoc (some q)
        ((m.readLoc (some q)).2.nextOf pub).1) pub
      = { m with heap := (m.heap.set q (some { rq with next := rp.next })).set pub none } := by
  rw [readLoc_some_eq m q rq hrq]
  simp only []
  rw [nextOf_eq m pub rp hrp]
  show libmqtt.free (m.modify q (fun r => { r with next := rp.next })) pub = _
  rw [modify_eq m q _ rq hrq]
  have h2 : ({ m with heap := m.heap.set q (some { rq with next := rp.next }) } : libmqtt).deref pub
      = some rp := by
    show (m.heap.set q _).getD pub none = some rp
    rw [cell_set_ne _ _ _ _ hq]
    exact hrp
  rw [free_eq _ pub rp h2]

theorem sameButList_refl (m : libmqtt) : SameButList m m :=
  ⟨rfl, rfl, rfl, rfl, rfl, rfl, rfl, rfl, rfl, rfl⟩

theorem delete_base (pub : Nat) (post : List Nat) (m : libmqtt) (pp : Option Nat) (k : Nat)
    (hc : IsChain m.heap (m.readLoc pp).1 (pub :: post))
    (hpp : ∀ q, pp = some q → q ∉ pub :: post) (hf : post.length < k) :
    Deleted m (__delete_pub_loop (k + 1) m pp pub) pp pub [] post := by
  obtain ⟨e, rp, hrp, hpost⟩ := isChain_cell pub post _ hc
  have hn := isChain_nodup _ _ hc
  have hpub : pub ∉ post := (List.nodup_cons.mp hn).1
  have hlt : pub < m.heap.length := cell_some_lt hrp
  cases pp with
  | none =>
    have hstep : __delete_pub_loop (k + 1) m none pub
        = __delete_pub_loop k
            { m with pub := { m.pub with head := rp.next }, heap := m.heap.set pub none }
            none pub := by
      rw [__delete_pub_loop]
      simp only [e, if_true]
      rw [delete_base_none m pub rp hrp]
    have hchain : IsChain (m.heap.set pub none) rp.next post :=
      isChain_congr post rp.next
        (fun b hb => cell_set_ne _ _ _ _ (fun h => hpub (by rw [h]; exact hb))) hpost
    rw [hstep, delete_loop_absent pub post _ none k (by exact hchain) rfl hpub hf]
    refine ⟨by exact hchain, ?_, ?_, cell_set_eq _ _ _ hlt, fun h => absurd rfl h,
      ⟨rfl, rfl, rfl, rfl, rfl, rfl, rfl, rfl, rfl, List.length_set _ _ _⟩⟩
    · intro b hb
      show ((m.heap.set pub none).getD b none).map _ = _
      rw [cell_set_ne _ _ _ _ (Ne.symm hb)]
    · intro b hb _ _
      exact cell_set_ne _ _ _ _ (Ne.symm hb)
  | some q =>
    obtain ⟨rq, hrq, hnext⟩ := readLoc_some_inv m q pub e
    have hq := hpp q rfl
    have hqp : q ≠ pub := fun h => hq (h ▸ List.mem_cons_self _ _)
    have hqpost : q ∉ post := fun h => hq (List.mem_cons_of_mem _ h)
    have hqlt : q < m.heap.length := cell_some_lt hrq
    have hstep : __delete_pub_loop (k + 1) m (some q) pub
        = __delete_pub_loop k
            { m with heap := (m.heap.set q (some { rq with next := rp.next })).set pub none }
            (some q) pub := by
      rw [__delete_pub_loop]
      simp only [e, if_true]
      rw [delete_base_some m q pub rq rp hqp hrq hrp]
    have hcellq : ((m.heap.set q (some { rq with next := rp.next })).set pub none).getD q none
        = some { rq with next := rp.next } := by
      rw [cell_set_ne _ _ _ _ (Ne.symm hqp), cell_set_eq _ _ _ hqlt]
    have hchain : IsChain ((m.heap.set q (some { rq with next := rp.next })).set pub none)
        rp.next post :=
      isChain_congr post rp.next
        (fun b hb => by
          rw [cell_set_ne _ _ _ _ (fun h => hpub (by rw [h]; exact hb)),
            cell_set_ne _ _ _ _ (fun h => hqpost (by rw [h]; exact hb))]) hpost
    have hread : libmqtt.readLoc
        { m with heap := (m.heap.set q (some { rq with next := rp.next })).set pub none }
        (some q)
        = (rp.next,
           { m with heap := (m.heap.set q (some { rq with next := rp.next })).set pub none }) :=
      readLoc_some_eq _ q { rq with next := rp.next } (by exact hcellq)
    rw [hstep, delete_loop_absent pub post _ (some q) k (by rw [hread]; exact hchain)
      (by rw [hread]) hpub hf]
    refine ⟨by rw [hread]; exact hchain, ?_, ?_, ?_, fun _ => rfl,
      ⟨rfl, rfl, rfl, rfl, rfl, rfl, rfl, rfl, rfl, by
        show ((m.heap.set q _).set pub none).length = _
        rw [List.length_set, List.length_set]⟩⟩
    · intro b hb
      show (((m.heap.set q _).set pub none).getD b none).map _ = _
      rw [cell_set_ne _ _ _ _ (Ne.symm hb)]
      by_cases hbq : b = q
      · subst hbq
        rw [cell_set_eq _ _ _ hqlt]
        have : m.heap.getD b none = some rq := hrq
        rw [this]
        rfl
      · rw [cell_set_ne _ _ _ _ (Ne.symm hbq)]
    · intro b hb _ hbq
      show ((m.heap.set q _).set pub none).getD b none = _
      rw [cell_set_ne _ _ _ _ (Ne.symm hb),
        cell_set_ne _ _ _ _ (fun h => hbq (by rw [h]))]
    · show ((m.heap.set q _).set pub none).getD pub none = none
      exact cell_set_eq _ _ _ (by rw [List.length_set]; exact hlt)

/-- The loop of `__delete_pub` on a list that holds the record `pub`: the record is
taken off the list and its cell is freed; the other records keep everything but,
for the one before `pub`, the pointer `next`. -/
theorem delete_loop_present (pub : Nat) (post : List Nat) :
    ∀ (pre : List Nat) (m : libmqtt) (pp : Option Nat) (fuel : Nat),
    IsChain m.heap (m.readLoc pp).1 (pre ++ pub :: post) →
    (∀ q, pp = some q → q ∉ pre ++ pub :: post) → (pre ++ pub :: post).length < fuel →
    Deleted m (__delete_pub_loop fuel m pp pub) pp pub pre post := by
  intro pre
  induction pre with
  | nil =>
    intro m pp fuel hc hpp hf
    cases fuel with
    | zero => exact absurd hf (by simp)
    | succ k =>
      exact delete_base pub post m pp k hc hpp
        (by simp only [List.nil_append, List.length_cons] at hf; omega)
  | cons b pre ih =>
    intro m pp fuel hc hpp hf
    cases fuel with
    | zero => exact absurd hf (by simp)
    | succ k =>
      obtain ⟨e, rb, hrb, hrest⟩ := isChain_cell b (pre ++ pub :: post) _ hc
      have hn := isChain_nodup _ _ hc
      have hb : b ∉ pre ++ pub :: post := (List.nodup_cons.mp hn).1
      have hbp : b ≠ pub := fun h => hb (by rw [h]; simp)
      have hv : (m.readLoc pp).2 = m := by
        cases pp with
        | none => rfl
        | some q =>
          obtain ⟨rq, hrq, _⟩ := readLoc_some_inv m q b e
          rw [readLoc_some_eq m q rq hrq]
      have hstep : __delete_pub_loop (k + 1) m pp pub = __delete_pub_loop k m (some b) pub := by
        rw [__delete_pub_loop]
        simp only [e, hv, if_neg hbp]
      have hread : m.readLoc (some b) = (rb.next, m) := readLoc_some_eq m b rb hrb
      obtain ⟨h1, h2, h3, h4, h5, h6⟩ := ih m (some b) k (by rw [hread]; exact hrest)
        (fun q hq => by
          have : q = b := (Option.some.inj hq).symm
          rw [this]
          exact hb)
        (by simp only [List.cons_append, List.length_cons] at hf ⊢; omega)
      rw [hstep]
      obtain ⟨R, hR⟩ : ∃ R, R = __delete_pub_loop k m (some b) pub := ⟨_, rfl⟩
      rw [← hR] at h1 h2 h3 h4 h5 h6 ⊢
      have hcb : ∃ rb2, R.heap.getD b none = some rb2 := by
        have := h2 b hbp
        have hm : m.heap.getD b none = some rb := hrb
        rw [hm] at this
        cases hx : R.heap.getD b none with
        | none => rw [hx] at this; exact Option.noConfusion this
        | some rb2 => exact ⟨rb2, rfl⟩
      obtain ⟨rb2, hrb2⟩ := hcb
      have hreadR : R.readLoc (some b) = (rb2.next, R) := readLoc_some_eq R b rb2 hrb2
      rw [hreadR] at h1
      have hhead : (R.readLoc pp).1 = some b := by
        cases pp with
        | none =>
          show R.pub.head = some b
          rw [h5 (by simp)]
          exact e
        | some q =>
          have hq := hpp q rfl
          have hqb : q ≠ b := fun h => hq (by rw [h]; simp)
          have hqpub : q ≠ pub := fun h => hq (by rw [h]; simp)
          have hqpre : q ∉ pre := fun h => hq (by simp [h])
          obtain ⟨rq, hrq, hnext⟩ := readLoc_some_inv m q b e
          have : R.deref q = some rq := by
            show R.heap.getD q none = some rq
            rw [h3 q hqpub hqpre (fun h => hqb (Option.some.inj h).symm)]
            exact hrq
          rw [readLoc_some_eq R q rq this]
          exact hnext
      refine ⟨?_, h2, ?_, h4, fun hp => h5 (by simp), h6⟩
      · rw [hhead]
        exact isChain_cons b _ rb2 hrb2 h1
      · intro x hx hxpre hxpp
        exact h3 x hx (fun h => hxpre (List.mem_cons_of_mem _ h))
          (fun h => hxpre (by rw [(Option.some.inj h)]; exact List.mem_cons_self _ _))

theorem table_eq_tableAt (m : libmqtt) (as : List Nat) (hc : IsChain m.heap m.pub.head as) :
    m.table = tableAt m as := table_of_chain m as hc

theorem tableAt_append (m : libmqtt) (as bs : List Nat) :
    tableAt m (as ++ bs) = tableAt m as ++ tableAt m bs := by
  unfold tableAt
  rw [List.filterMap_append]

theorem tableAt_cons (m : libmqtt) (a : Nat) (as : List Nat) (r : libmqtt_pub)
    (h : m.heap.getD a none = some r) : tableAt m (a :: as) = r.strip :: tableAt m as := by
  unfold tableAt
  rw [List.filterMap_cons, h]
  rfl

theorem tableAt_congr (m m2 : libmqtt) (as : List Nat)
    (h : ∀ a ∈ as, (m2.heap.getD a none).map libmqtt_pub.strip
      = (m.heap.getD a none).map libmqtt_pub.strip) :
    tableAt m2 as = tableAt m as := by
  unfold tableAt
  induction as with
  | nil => rfl
  | cons a as ih =>
    rw [List.filterMap_cons, List.filterMap_cons, h a (List.mem_cons_self _ _),
      ih (fun b hb => h b (List.mem_cons_of_mem _ hb))]

/-- The function `__delete_pub` on a well-formed record list `pre ++ pub :: post`:
the list becomes `pre ++ post`, so the table loses the record of `pub` and keeps
the other records as they were, in their order; the cell of `pub` is freed; nothing
else of the session changes, and in particular `pub.tail` is not written. -/
theorem delete_pub_spec (m : libmqtt) (pre : List Nat) (pub : Nat) (post : List Nat)
    (hc : IsChain m.heap m.pub.head (pre ++ pub :: post)) :
    IsChain (__delete_pub m pub).heap (__delete_pub m pub).pub.head (pre ++ post) ∧
    (__delete_pub m pub).table = tableAt m pre ++ tableAt m post ∧
    SameButList m (__delete_pub m pub) ∧
    (__delete_pub m pub).heap.getD pub none = none ∧
    (∀ b, b ≠ pub → ((__delete_pub m pub).heap.getD b none).map libmqtt_pub.strip
      = (m.heap.getD b none).map libmqtt_pub.strip) := by
  have hn := isChain_nodup _ _ hc
  have hd := delete_loop_present pub post pre m none (m.heap.length + 1) hc
    (fun q hq => Option.noConfusion hq) (by have := isChain_length_le _ _ hc; omega)
  obtain ⟨h1, h2, _, h4, _, h6⟩ := hd
  have h1b : IsChain (__delete_pub m pub).heap (__delete_pub m pub).pub.head (pre ++ post) := h1
  refine ⟨h1b, ?_, h6, h4, h2⟩
  rw [table_eq_tableAt _ _ h1b, ← tableAt_append]
  apply tableAt_congr
  intro a ha
  apply h2
  intro e
  subst e
  have hnd := List.nodup_append.mp hn
  rcases List.mem_append.mp ha with h | h
  · exact hnd.2.2 h (List.mem_cons_self _ _)
  · exact (List.nodup_cons.mp hnd.2.1).1 h

theorem table_split (m : libmqtt) (pre : List Nat) (a : Nat) (post : List Nat)
    (r : libmqtt_pub) (hc : IsChain m.heap m.pub.head (pre ++ a :: post))
    (hr : m.deref a = some r) :
    m.table = tableAt m pre ++ r.strip :: tableAt m post := by
  rw [table_eq_tableAt m _ hc, tableAt_append, tableAt_cons m a post r hr]

/-- The function `__update_pub` on a record of a well-formed list: the record gets
the state given and the clock as the time of its last action; the list and the
other records are as they were. -/
theorem update_pub_spec (m : libmqtt) (pre : List Nat) (a : Nat) (post : List Nat)
    (r : libmqtt_pub) (s : libmqtt_state)
    (hc : IsChain m.heap m.pub.head (pre ++ a :: post)) (hr : m.deref a = some r) :
    __update_pub m a s = { m with heap := m.heap.set a (some { r with s := s, t := m.t.now }) } ∧
    IsChain (__update_pub m a s).heap (__update_pub m a s).pub.head (pre ++ a :: post) ∧
    (__update_pub m a s).table
      = tableAt m pre ++ ({ r with s := s, t := m.t.now } : libmqtt_pub).strip
          :: tableAt m post := by
  have hn := isChain_nodup _ _ hc
  have hnd := List.nodup_append.mp hn
  have hapre : a ∉ pre := fun h => hnd.2.2 h (List.mem_cons_self _ _)
  have hapost : a ∉ post := (List.nodup_cons.mp hnd.2.1).1
  have hlt : a < m.heap.length := cell_some_lt hr
  have e : __update_pub m a s
      = { m with heap := m.heap.set a (some { r with s := s, t := m.t.now }) } := by
    unfold __update_pub
    rw [modify_eq m a _ r hr]
  have hcell : (m.heap.set a (some { r with s := s, t := m.t.now })).getD a none
      = some { r with s := s, t := m.t.now } := cell_set_eq _ _ _ hlt
  have hchain : IsChain (m.heap.set a (some { r with s := s, t := m.t.now })) m.pub.head
      (pre ++ a :: post) := by
    have key : ∀ (xs : List Nat) (p : Option Nat), IsChain m.heap p xs →
        IsChain (m.heap.set a (some { r with s := s, t := m.t.now })) p xs := by
      intro xs
      induction xs with
      | nil => intro p h; exact h
      | cons b xs ih =>
        intro p h
        obtain ⟨hp, rb, hrb, hrest⟩ := isChain_cell b xs p h
        rw [hp]
        by_cases hba : b = a
        · subst hba
          have erb : rb = r := Option.some.inj (hrb.symm.trans hr)
          subst erb
          exact isChain_cons b xs _ hcell (ih _ hrest)
        · refine isChain_cons b xs rb ?_ (ih _ hrest)
          rw [cell_set_ne _ _ _ _ (Ne.symm hba)]
          exact hrb
    exact key _ _ hc
  rw [e]
  refine ⟨rfl, hchain, ?_⟩
  rw [table_eq_tableAt _ _ (by exact hchain), tableAt_append,
    tableAt_cons _ a post _ (by exact hcell)]
  congr 1
  · apply tableAt_congr
    intro b hb
    show ((m.heap.set a _).getD b none).map _ = _
    rw [cell_set_ne _ _ _ _ (fun h => hapre (by rw [h]; exact hb))]
  · congr 1
    apply tableAt_congr
    intro b hb
    show ((m.heap.set a _).getD b none).map _ = _
    rw [cell_set_ne _ _ _ _ (fun h => hapost (by rw [h]; exact hb))]

theorem call_fields (m : libmqtt) (hook : Bool) (e : libmqtt_call) :
    m.call hook e = { m with calls := m.calls ++ (if hook then [e] else []) } := by
  unfold libmqtt.call
  cases hook
  · simp
  · simp

theorem call_write_fields (m : libmqtt) (hook : Bool) (e : libmqtt_call) (data : List Nat) :
    (__write (m.call hook e) data).1
      = (if m.results.headD (data.length : Int) = -1 then -1 else 0) ∧
    (__write (m.call hook e) data).2.wire
      = m.wire ++ [(data, m.results.headD (data.length : Int))] ∧
    (__write (m.call hook e) data).2.calls = m.calls ++ (if hook then [e] else []) ∧
    (__write (m.call hook e) data).2.heap = m.heap ∧
    (__write (m.call hook e) data).2.pub = m.pub ∧
    (__write (m.call hook e) data).2.ub = m.ub ∧
    (__write (m.call hook e) data).2.t.now = m.t.now ∧
    (__write (m.call hook e) data).2.packet_id = m.packet_id ∧
    (__write (m.call hook e) data).2.results = m.results.tail := by
  obtain ⟨h1, h2, h3, h4, h5, h6, h7, h8, _, _, h11, _, _⟩ :=
    write_fields (m.call hook e) data
  rw [call_fields] at h1 h2 h3 h4 h5 h6 h7 h8 h11
  rw [call_fields]
  exact ⟨h1, h2, h7, h4, h5, h8, h11, h6, h3⟩

theorem tableAt_heap (m m2 : libmqtt) (as : List Nat) (h : m2.heap = m.heap) :
    tableAt m2 as = tableAt m as := by
  unfold tableAt
  rw [h]

/-- The function `__on_pubrel` on a well-formed record list in which the record at
`a` is the first inbound record in WAIT_PUBREL with the packet id of the packet:
it returns 0, invokes the hook `publish` (when set) once with the topic, QoS,
retain flag and payload of the record, then writes the PUBCOMP for the id of the
packet; when the write succeeds the table loses that record and keeps the others,
when it fails the record is in SEND_PUBCOMP with the clock as the time of its last
action and the others are as they were. -/
theorem on_pubrel_spec (m : libmqtt) (pre : List Nat) (a : Nat) (post : List Nat)
    (r : libmqtt_pub) (p : mqtt_packet)
    (hc : IsChain m.heap m.pub.head (pre ++ a :: post)) (hr : m.deref a = some r)
    (hm : r.p.packet_id = p.v.packet_id ∧ r.d = libmqtt_dir.LIBMQTT_DIR_IN ∧
      r.s = libmqtt_state.LIBMQTT_ST_WAIT_PUBREL)
    (hno : ∀ b ∈ pre, ∀ rb, m.deref b = some rb →
      ¬ (rb.p.packet_id = p.v.packet_id ∧ rb.d = libmqtt_dir.LIBMQTT_DIR_IN ∧
        rb.s = libmqtt_state.LIBMQTT_ST_WAIT_PUBREL)) :
    (__on_pubrel m p).1 = 0 ∧
    (__on_pubrel m p).2.calls
      = m.calls ++ (if m.cb.publish then
          [libmqtt_call.publish r.p.topic r.p.qos r.p.retain (memBytes r.p.payload r.p.length)
            r.p.length] else []) ∧
    (__on_pubrel m p).2.wire = m.wire ++ [(MQTT_PUBCOMP p.v.packet_id, m.results.headD 4)] ∧
    (m.results.headD 4 ≠ -1 → (__on_pubrel m p).2.table = tableAt m pre ++ tableAt m post) ∧
    (m.results.headD 4 = -1 → (__on_pubrel m p).2.table
      = tableAt m pre
        ++ ({ r with s := libmqtt_state.LIBMQTT_ST_SEND_PUBCOMP, t := m.t.now } : libmqtt_pub).strip
          :: tableAt m post) ∧
    (__on_pubrel m p).2.ub = m.ub := by
  have hlen : ((MQTT_PUBCOMP p.v.packet_id).length : Int) = 4 := rfl
  unfold __on_pubrel
  simp only [find_pub_some m pre a post r _ _ _ hc hr hm hno, hr]
  obtain ⟨w1, w2, w3, w4, w5, w6, w7, _, _⟩ := call_write_fields m m.cb.publish
    (libmqtt_call.publish r.p.topic r.p.qos r.p.retain (memBytes r.p.payload r.p.length)
      r.p.length) (MQTT_PUBCOMP p.v.packet_id)
  rw [hlen] at w1 w2
  generalize __write (m.call m.cb.publish (libmqtt_call.publish r.p.topic r.p.qos r.p.retain
    (memBytes r.p.payload r.p.length) r.p.length)) (MQTT_PUBCOMP p.v.packet_id) = w
    at w1 w2 w3 w4 w5 w6 w7
  have hc2 : IsChain w.2.heap w.2.pub.head (pre ++ a :: post) := by
    rw [w4, w5]
    exact hc
  have hr2 : w.2.deref a = some r := by
    show w.2.heap.getD a none = _
    rw [w4]
    exact hr
  by_cases hres : m.results.headD 4 = -1
  · rw [if_pos hres] at w1
    rw [if_pos (by rw [w1]; decide)]
    obtain ⟨e, _, ht⟩ := update_pub_spec w.2 pre a post r
      libmqtt_state.LIBMQTT_ST_SEND_PUBCOMP hc2 hr2
    refine ⟨rfl, ?_, ?_, fun h => absurd hres h, fun _ => ?_, ?_⟩
    · rw [e]
      exact w3
    · rw [e]
      exact w2
    · rw [ht, w7, tableAt_heap m w.2 pre w4, tableAt_heap m w.2 post w4]
    · rw [e]
      exact w6
  · rw [if_neg hres] at w1
    rw [if_neg (by rw [w1]; decide)]
    obtain ⟨_, ht, hs, _, _⟩ := delete_pub_spec w.2 pre a post hc2
    obtain ⟨_, _, _, _, _, hw, hcalls, hub, _, _⟩ := hs
    refine ⟨rfl, ?_, ?_, fun _ => ?_, fun h => absurd h hres, ?_⟩
    · rw [hcalls]
      exact w3
    · rw [hw]
      exact w2
    · rw [ht, tableAt_heap m w.2 pre w4, tableAt_heap m w.2 post w4]
    · rw [hub]
      exact w6

/-- The function `__on_publish` on a QoS 1 PUBLISH: it returns 0, invokes the hook
`publish` (when set) once with the topic, QoS, retain flag and payload of the
packet, then writes the PUBACK for the id of the packet; when the write succeeds
the table is as it was, and when it fails, on a well-formed record list whose tail
pointer designates its last record, the table gains the inbound record of the
packet in SEND_PUBACK at its end. -/
theorem on_publish_qos1_spec (m : libmqtt) (p : mqtt_packet) (as : List Nat)
    (hq : p.h.qos = MQTT_QOS_1) (hn : 0 ≤ p.v.publish.topic_name.n)
    (hc : IsChain m.heap m.pub.head as) (ht : m.TailOk) :
    (__on_publish m p).1 = 0 ∧
    (__on_publish m p).2.calls
      = m.calls ++ (if m.cb.publish then
          [libmqtt_call.publish (strndup p.v.publish.topic_name.s p.v.publish.topic_name.n)
            p.h.qos p.h.retain (memBytes p.payload.s p.payload.n) p.payload.n] else []) ∧
    (__on_publish m p).2.wire
      = m.wire ++ [(MQTT_PUBACK p.v.publish.packet_id, m.results.headD 4)] ∧
    (m.results.headD 4 ≠ -1 → (__on_publish m p).2.table = m.table) ∧
    (m.results.headD 4 = -1 → (__on_publish m p).2.table
      = m.table ++ [insertedPub m p libmqtt_dir.LIBMQTT_DIR_IN
          libmqtt_state.LIBMQTT_ST_SEND_PUBACK]) ∧
    (__on_publish m p).2.ub = m.ub := by
  have hlen : ((MQTT_PUBACK p.v.publish.packet_id).length : Int) = 4 := rfl
  unfold __on_publish
  have h10 : ¬ (MQTT_QOS_1 = MQTT_QOS_0) := by decide
  simp only [hq, if_neg (not_lt.mpr hn), if_neg h10, if_true]
  obtain ⟨w1, w2, w3, w4, w5, w6, w7, _, _⟩ := call_write_fields m m.cb.publish
    (libmqtt_call.publish (strndup p.v.publish.topic_name.s p.v.publish.topic_name.n)
      MQTT_QOS_1 p.h.retain (memBytes p.payload.s p.payload.n) p.payload.n)
    (MQTT_PUBACK p.v.publish.packet_id)
  rw [hlen] at w1 w2
  generalize __write (m.call m.cb.publish (libmqtt_call.publish
    (strndup p.v.publish.topic_name.s p.v.publish.topic_name.n)
      MQTT_QOS_1 p.h.retain (memBytes p.payload.s p.payload.n) p.payload.n))
    (MQTT_PUBACK p.v.publish.packet_id) = w at w1 w2 w3 w4 w5 w6 w7
  by_cases hres : m.results.headD 4 = -1
  · rw [if_pos hres] at w1
    rw [if_pos (by rw [w1]; decide)]
    have hc2 : IsChain w.2.heap w.2.pub.head as := by
      rw [w4, w5]
      exact hc
    obtain ⟨i1, _, _, i4, i5, i6, i7, _⟩ := insert_pub_appends w.2 p
      libmqtt_dir.LIBMQTT_DIR_IN libmqtt_state.LIBMQTT_ST_SEND_PUBACK as hc2
      (tailOk_congr m w.2 w4 w5 ht)
    refine ⟨i1, ?_, ?_, fun h => absurd hres h, fun _ => ?_, ?_⟩
    · rw [i7]
      exact w3
    · rw [i6]
      exact w2
    · rw [i4, table_congr m w.2 w4 w5, insertedPub_congr m w.2 p _ _ w7]
    · rw [i5]
      exact w6
  · rw [if_neg hres] at w1
    rw [if_neg (by rw [w1]; decide)]
    refine ⟨rfl, w3, w2, fun _ => table_congr m w.2 w4 w5, fun h => absurd h hres, w6⟩

/-- C21 (code defect). A connected client that has received the QoS 2 PUBLISH
`34 06 00 01 61 00 07 78` (topic "a", id 7, payload "x") holds the inbound record
of id 7 in WAIT_PUBREL; the PUBREL `62 02 00 07` then invokes the hook `publish`
once with the stored topic, QoS, retain flag and payload, the client writes
PUBCOMP `70 02 00 07` and the record is removed, and when that write fails the
record stays in SEND_PUBCOMP.  Where plain `char` is signed, the PUBLISH of the
peer with the id 128, `34 06 00 01 61 00 80 78`, is recorded with the id 65408
(PUBREC `50 02 FF 80`): the PUBREL for the id of the record, `62 02 FF 80`, makes
`mqtt__parse` return -1 (nothing is delivered, nothing is written, the record
stays), and the PUBREL of the peer, `62 02 00 80`, is answered with the PUBCOMP
`70 02 FF 80`.  Where `char` is unsigned the id 128 is handled as the id 7 is. -/
theorem C21_pubrel_id_128_not_released :
    (∀ signedChar : Bool,
      (mqtt__parse_bytes signedChar connectedClient.1 connectedClient.2
        [0x34, 0x06, 0x00, 0x01, 0x61, 0x00, 0x07, 0x78]).2.2.table
        = [inPub 7 [0x61] 2 0 [0x78] libmqtt_state.LIBMQTT_ST_WAIT_PUBREL 0] ∧
      (mqtt__parse_bytes signedChar connectedClient.1
        (mqtt__parse_bytes signedChar connectedClient.1 connectedClient.2
          [0x34, 0x06, 0x00, 0x01, 0x61, 0x00, 0x07, 0x78]).2.2
        [0x62, 0x02, 0x00, 0x07]).1 = 0 ∧
      (mqtt__parse_bytes signedChar connectedClient.1
        (mqtt__parse_bytes signedChar connectedClient.1 connectedClient.2
          [0x34, 0x06, 0x00, 0x01, 0x61, 0x00, 0x07, 0x78]).2.2
        [0x62, 0x02, 0x00, 0x07]).2.2.calls
        = [libmqtt_call.connack 0 0, libmqtt_call.publish [0x61] 2 0 [0x78] 1] ∧
      (mqtt__parse_bytes signedChar connectedClient.1
        (mqtt__parse_bytes signedChar connectedClient.1 connectedClient.2
          [0x34, 0x06, 0x00, 0x01, 0x61, 0x00, 0x07, 0x78]).2.2
        [0x62, 0x02, 0x00, 0x07]).2.2.wire
        = [([0x50, 0x02, 0x00, 0x07], 4), ([0x70, 0x02, 0x00, 0x07], 4)] ∧
      (mqtt__parse_bytes signedChar connectedClient.1
        (mqtt__parse_bytes signedChar connectedClient.1 connectedClient.2
          [0x34, 0x06, 0x00, 0x01, 0x61, 0x00, 0x07, 0x78]).2.2
        [0x62, 0x02, 0x00, 0x07]).2.2.table = [] ∧
      (mqtt__parse_bytes signedChar connectedClient.1
        (mqtt__parse_bytes signedChar connectedClient.1
          { connectedClient.2 with results := [4, -1] }
          [0x34, 0x06, 0x00, 0x01, 0x61, 0x00, 0x07, 0x78]).2.2
        [0x62, 0x02, 0x00, 0x07]).2.2.calls
        = [libmqtt_call.connack 0 0, libmqtt_call.publish [0x61] 2 0 [0x78] 1] ∧
      (mqtt__parse_bytes signedChar connectedClient.1
        (mqtt__parse_bytes signedChar connectedClient.1
          { connectedClient.2 with results := [4, -1] }
          [0x34, 0x06, 0x00, 0x01, 0x61, 0x00, 0x07, 0x78]).2.2
        [0x62, 0x02, 0x00, 0x07]).2.2.table
        = [inPub 7 [0x61] 2 0 [0x78] libmqtt_state.LIBMQTT_ST_SEND_PUBCOMP 0]) ∧
    (mqtt__parse_bytes true connectedClient.1 connectedClient.2
      [0x34, 0x06, 0x00, 0x01, 0x61, 0x00, 0x80, 0x78]).2.2.table
      = [inPub 65408 [0x61] 2 0 [0x78] libmqtt_state.LIBMQTT_ST_WAIT_PUBREL 0] ∧
    (mqtt__parse_bytes true connectedClient.1 connectedClient.2
      [0x34, 0x06, 0x00, 0x01, 0x61, 0x00, 0x80, 0x78]).2.2.wire
      = [([0x50, 0x02, 0xFF, 0x80], 4)] ∧
    (mqtt__parse_bytes true connectedClient.1
      (mqtt__parse_bytes true connectedClient.1 connectedClient.2
        [0x34, 0x06, 0x00, 0x01, 0x61, 0x00, 0x80, 0x78]).2.2
      [0x62, 0x02, 0xFF, 0x80]).1 = -1 ∧
    (mqtt__parse_bytes true connectedClient.1
      (mqtt__parse_bytes true connectedClient.1 connectedClient.2
        [0x34, 0x06, 0x00, 0x01, 0x61, 0x00, 0x80, 0x78]).2.2
      [0x62, 0x02, 0xFF, 0x80]).2.2.calls = [libmqtt_call.connack 0 0] ∧
    (mqtt__parse_bytes true connectedClient.1
      (mqtt__parse_bytes true connectedClient.1 connectedClient.2
        [0x34, 0x06, 0x00, 0x01, 0x61, 0x00, 0x80, 0x78]).2.2
      [0x62, 0x02, 0xFF, 0x80]).2.2.wire = [([0x50, 0x02, 0xFF, 0x80], 4)] ∧
    (mqtt__parse_bytes true connectedClient.1
      (mqtt__parse_bytes true connectedClient.1 connectedClient.2
        [0x34, 0x06, 0x00, 0x01, 0x61, 0x00, 0x80, 0x78]).2.2
      [0x62, 0x02, 0xFF, 0x80]).2.2.table
      = [inPub 65408 [0x61] 2 0 [0x78] libmqtt_state.LIBMQTT_ST_WAIT_PUBREL 0] ∧
    (mqtt__parse_bytes true connectedClient.1
      (mqtt__parse_bytes true connectedClient.1 connectedClient.2
        [0x34, 0x06, 0x00, 0x01, 0x61, 0x00, 0x80, 0x78]).2.2
      [0x62, 0x02, 0x00, 0x80]).2.2.wire
      = [([0x50, 0x02, 0xFF, 0x80], 4), ([0x70, 0x02, 0xFF, 0x80], 4)] ∧
    (mqtt__parse_bytes false connectedClient.1 connectedClient.2
      [0x34, 0x06, 0x00, 0x01, 0x61, 0x00, 0x80, 0x78]).2.2.table
      = [inPub 128 [0x61] 2 0 [0x78] libmqtt_state.LIBMQTT_ST_WAIT_PUBREL 0] ∧
    (mqtt__parse_bytes false connectedClient.1
      (mqtt__parse_bytes false connectedClient.1 connectedClient.2
        [0x34, 0x06, 0x00, 0x01, 0x61, 0x00, 0x80, 0x78]).2.2
      [0x62, 0x02, 0x00, 0x80]).2.2.calls
      = [libmqtt_call.connack 0 0, libmqtt_call.publish [0x61] 2 0 [0x78] 1] ∧
    (mqtt__parse_bytes false connectedClient.1
      (mqtt__parse_bytes false connectedClient.1 connectedClient.2
        [0x34, 0x06, 0x00, 0x01, 0x61, 0x00, 0x80, 0x78]).2.2
      [0x62, 0x02, 0x00, 0x80]).2.2.wire
      = [([0x50, 0x02, 0x00, 0x80], 4), ([0x70, 0x02, 0x00, 0x80], 4)] ∧
    (mqtt__parse_bytes false connectedClient.1
      (mqtt__parse_bytes false connectedClient.1 connectedClient.2
        [0x34, 0x06, 0x00, 0x01, 0x61, 0x00, 0x80, 0x78]).2.2
      [0x62, 0x02, 0x00, 0x80]).2.2.table = [] := by
  refine ⟨?_, by decide, by decide, by decide, by decide, by decide, by decide, by decide,
    by decide, by decide, by decide, by decide⟩
  intro signedChar
  cases signedChar <;> decide

/-- C22 (code defect). The QoS 1 PUBLISH `32 06 00 01 61 00 07 78` (topic "a",
id 7, payload "x") fed to a connected client invokes the hook `publish` once with
the topic, QoS, retain flag and payload of the packet, and the client writes
PUBACK `40 02 00 07`; the table is unchanged when the write succeeds and gains the
inbound record of id 7 in SEND_PUBACK when it fails.  The same publication with
the empty payload, `32 05 00 01 61 00 07`, makes `mqtt__parse` return -1: the hook
is not invoked and no PUBACK is written (`__parse_publish` rejects the packet
before `__on_publish` runs).  Where plain `char` is signed, the PUBLISH with the
id 128, `32 06 00 01 61 00 80 78`, is answered with the PUBACK `40 02 FF 80`. -/
theorem C22_inbound_qos1_empty_payload_rejected :
    (∀ signedChar : Bool,
      (mqtt__parse_bytes signedChar connectedClient.1 connectedClient.2
        [0x32, 0x06, 0x00, 0x01, 0x61, 0x00, 0x07, 0x78]).1 = 0 ∧
      (mqtt__parse_bytes signedChar connectedClient.1 connectedClient.2
        [0x32, 0x06, 0x00, 0x01, 0x61, 0x00, 0x07, 0x78]).2.2.calls
        = [libmqtt_call.connack 0 0, libmqtt_call.publish [0x61] 1 0 [0x78] 1] ∧
      (mqtt__parse_bytes signedChar connectedClient.1 connectedClient.2
        [0x32, 0x06, 0x00, 0x01, 0x61, 0x00, 0x07, 0x78]).2.2.wire
        = [([0x40, 0x02, 0x00, 0x07], 4)] ∧
      (mqtt__parse_bytes signedChar connectedClient.1 connectedClient.2
        [0x32, 0x06, 0x00, 0x01, 0x61, 0x00, 0x07, 0x78]).2.2.table = [] ∧
      (mqtt__parse_bytes signedChar connectedClient.1
        { connectedClient.2 with results := [-1] }
        [0x32, 0x06, 0x00, 0x01, 0x61, 0x00, 0x07, 0x78]).2.2.calls
        = [libmqtt_call.connack 0 0, libmqtt_call.publish [0x61] 1 0 [0x78] 1] ∧
      (mqtt__parse_bytes signedChar connectedClient.1
        { connectedClient.2 with results := [-1] }
        [0x32, 0x06, 0x00, 0x01, 0x61, 0x00, 0x07, 0x78]).2.2.table
        = [inPub 7 [0x61] 1 0 [0x78] libmqtt_state.LIBMQTT_ST_SEND_PUBACK 0]) ∧
    (∀ signedChar : Bool,
      (mqtt__parse_bytes signedChar connectedClient.1 connectedClient.2
        [0x32, 0x05, 0x00, 0x01, 0x61, 0x00, 0x07]).1 = -1 ∧
      (mqtt__parse_bytes signedChar connectedClient.1 connectedClient.2
        [0x32, 0x05, 0x00, 0x01, 0x61, 0x00, 0x07]).2.2.calls
        = [libmqtt_call.connack 0 0] ∧
      (mqtt__parse_bytes signedChar connectedClient.1 connectedClient.2
        [0x32, 0x05, 0x00, 0x01, 0x61, 0x00, 0x07]).2.2.wire = [] ∧
      (mqtt__parse_bytes signedChar connectedClient.1 connectedClient.2
        [0x32, 0x05, 0x00, 0x01, 0x61, 0x00, 0x07]).2.2.table = []) ∧
    (mqtt__parse_bytes true connectedClient.1 connectedClient.2
      [0x32, 0x06, 0x00, 0x01, 0x61, 0x00, 0x80, 0x78]).2.2.wire
      = [([0x40, 0x02, 0xFF, 0x80], 4)] ∧
    (mqtt__parse_bytes false connectedClient.1 connectedClient.2
      [0x32, 0x06, 0x00, 0x01, 0x61, 0x00, 0x80, 0x78]).2.2.wire
      = [([0x40, 0x02, 0x00, 0x80], 4)] := by
  refine ⟨?_, ?_, by decide, by decide⟩ <;> intro signedChar <;> cases signedChar <;> decide

theorem outIds_append (A B : List libmqtt_pub) : outIds (A ++ B) = outIds A ++ outIds B := by
  unfold outIds
  rw [List.filter_append, List.map_append]

theorem outIds_cons_same (r r2 : libmqtt_pub) (B : List libmqtt_pub) (hd : r2.d = r.d)
    (hi : r2.p.packet_id = r.p.packet_id) : outIds (r2 :: B) = outIds (r :: B) := by
  unfold outIds
  rw [List.filter_cons, List.filter_cons, hd, hi]
  split
  · rw [List.map_cons, List.map_cons, hi]
  · rfl

theorem outIds_sublist (r : libmqtt_pub) (A B : List libmqtt_pub) :
    (outIds (A ++ B)).Sublist (outIds (A ++ r :: B)) := by
  unfold outIds
  apply List.Sublist.map
  apply List.Sublist.filter
  exact List.Sublist.append (List.Sublist.refl A) (List.sublist_cons_self r B)

theorem outIds_in (r : libmqtt_pub) (h : r.d = libmqtt_dir.LIBMQTT_DIR_IN) :
    outIds [r] = [] := by
  unfold outIds
  rw [List.filter_cons, if_neg]
  · rfl
  · simp [h]

theorem outIds_zero (r : libmqtt_pub) (h : r.p.packet_id = 0) : outIds [r] = [] := by
  unfold outIds
  rw [List.filter_cons, if_neg]
  · rfl
  · simp [h]

theorem outIds_single (r : libmqtt_pub) : outIds [r] = [] ∨ outIds [r] = [r.p.packet_id] := by
  unfold outIds
  rw [List.filter_cons]
  split
  · exact Or.inr rfl
  · exact Or.inl rfl

theorem isChain_mem_some {heap : List (Option libmqtt_pub)} :
    ∀ (as : List Nat) (p : Option Nat), IsChain heap p as → ∀ a ∈ as,
      ∃ r, heap.getD a none = some r := by
  intro as
  induction as with
  | nil => intro _ _ a hm; exact absurd hm (List.not_mem_nil _)
  | cons b as ih =>
    intro p h a hm
    obtain ⟨_, rb, hrb, hrest⟩ := isChain_cell b as p h
    rcases List.mem_cons.mp hm with e | hm2
    · rw [e]
      exact ⟨rb, hrb⟩
    · exact ih _ hrest a hm2

theorem pubInv_congr (n : Nat) (m m2 : libmqtt) (h : m2.heap = m.heap) (hp : m2.pub = m.pub)
    (hid : m2.packet_id = m.packet_id) (hI : PubInv n m) : PubInv n m2 := by
  obtain ⟨as, h1, h2, h3, h4, h5, h6⟩ := hI
  refine ⟨as, ?_, ?_, ?_, ?_, ?_, ?_⟩
  · rw [h, hp]
    exact h1
  · rw [hp]
    exact h2
  · rw [hid]
    exact h3
  · rw [hid]
    exact h4
  · rw [table_congr m m2 h hp]
    exact h5
  · rw [table_congr m m2 h hp, hid]
    exact h6

theorem pubInv_mono (n : Nat) (m : libmqtt) (hI : PubInv n m) : PubInv (n + 1) m := by
  obtain ⟨as, h1, h2, h3, h4, h5, h6⟩ := hI
  refine ⟨as, h1, h2, h3, ?_, h5, h6⟩
  push_cast
  omega

theorem pubInv_update_pub (n : Nat) (m : libmqtt) (a : Nat) (s : libmqtt_state)
    (hI : PubInv n m) (ha : a ∈ m.addrs) : PubInv n (__update_pub m a s) := by
  obtain ⟨as, h1, h2, h3, h4, h5, h6⟩ := hI
  rw [addrs_of_isChain m as h1] at ha
  obtain ⟨pre, post, e⟩ := List.append_of_mem ha
  subst e
  obtain ⟨r, hr⟩ := isChain_mem_some _ _ h1 a ha
  obtain ⟨e, hc, ht⟩ := update_pub_spec m pre a post r s h1 hr
  have hids : outIds (__update_pub m a s).table = outIds m.table := by
    rw [ht, table_split m pre a post r h1 hr, outIds_append, outIds_append]
    congr 1
    exact outIds_cons_same _ _ _ rfl rfl
  refine ⟨pre ++ a :: post, hc, ?_, ?_, ?_, ?_, ?_⟩
  · rw [e]
    exact h2
  · rw [e]
    exact h3
  · rw [e]
    exact h4
  · rw [hids]
    exact h5
  · rw [hids, e]
    exact h6

theorem getLast_delete (pre post : List Nat) (a tl : Nat) (hn : (pre ++ a :: post).Nodup)
    (hm : tl ∈ pre ++ post) (hl : (pre ++ a :: post).getLast? = some tl) :
    (pre ++ post).getLast? = some tl := by
  cases post with
  | nil =>
    rw [List.getLast?_append_of_ne_nil _ (List.cons_ne_nil _ _)] at hl
    have e : a = tl := by simpa using hl
    subst e
    rw [List.append_nil] at hm
    have hnd := List.nodup_append.mp hn
    exact False.elim (hnd.2.2 hm (List.mem_cons_self _ _))
  | cons b post =>
    rw [List.getLast?_append_of_ne_nil _ (List.cons_ne_nil _ _)] at hl
    rw [List.getLast?_append_of_ne_nil _ (List.cons_ne_nil _ _)]
    rw [List.getLast?_cons_cons] at hl
    exact hl

theorem pubInv_delete_pub (n : Nat) (m : libmqtt) (a : Nat)
    (hI : PubInv n m) (ha : a ∈ m.addrs) : PubInv n (__delete_pub m a) := by
  obtain ⟨as, h1, h2, h3, h4, h5, h6⟩ := hI
  rw [addrs_of_isChain m as h1] at ha
  obtain ⟨pre, post, e⟩ := List.append_of_mem ha
  subst e
  obtain ⟨r, hr⟩ := isChain_mem_some _ _ h1 a ha
  obtain ⟨hc, ht, hs, _, _⟩ := delete_pub_spec m pre a post h1
  obtain ⟨_, hid, _, _, _, _, _, _, htail, _⟩ := hs
  have hsub : (outIds (__delete_pub m a).table).Sublist (outIds m.table) := by
    rw [ht, table_split m pre a post r h1 hr]
    exact outIds_sublist _ _ _
  refine ⟨pre ++ post, hc, ?_, ?_, ?_, ?_, ?_⟩
  · intro tl htl hm
    rw [htail] at htl
    have hm2 : tl ∈ pre ++ a :: post := by
      rcases List.mem_append.mp hm with h | h
      · exact List.mem_append_left _ h
      · exact List.mem_append_right _ (List.mem_cons_of_mem _ h)
    exact getLast_delete pre post a tl (isChain_nodup _ _ h1) hm (h2 tl htl hm2)
  · rw [hid]
    exact h3
  · rw [hid]
    exact h4
  · exact List.Nodup.sublist hsub h5
  · intro i hi
    rw [hid]
    exact h6 i (hsub.subset hi)

/-- The function `__insert_pub` on a non-empty well-formed list whose tail pointer
is null or designates no record of the list: the new record is allocated and the
tail pointer is set to it, but the list that starts at `pub.head` and the table
are as they were. -/
theorem insert_pub_stale (m : libmqtt) (p : mqtt_packet) (d : libmqtt_dir) (s : libmqtt_state)
    (as : List Nat) (hc : IsChain m.heap m.pub.head as) (hh : m.pub.head ≠ none)
    (ht : ∀ tl, m.pub.tail = some tl → tl ∉ as) :
    IsChain (__insert_pub m p d s).2.heap (__insert_pub m p d s).2.pub.head as ∧
    (__insert_pub m p d s).2.pub.tail = some m.heap.length ∧
    (__insert_pub m p d s).2.table = m.table ∧
    (__insert_pub m p d s).2.packet_id = m.packet_id := by
  have hlt := isChain_lt as _ hc
  have hbase : IsChain (m.heap ++ [some (insertedPub m p d s)]) m.pub.head as :=
    isChain_congr as _ (fun a ha => cell_append_lt _ _ a (hlt a ha)) hc
  have htab : ∀ m2 : libmqtt, IsChain m2.heap m2.pub.head as →
      (∀ a ∈ as, m2.heap.getD a none = m.heap.getD a none) → m2.table = m.table := by
    intro m2 h2 hsame
    rw [table_eq_tableAt m2 as h2, table_eq_tableAt m as hc]
    apply tableAt_congr
    intro a ha
    rw [hsame a ha]
  cases hhd : m.pub.head with
  | none => exact absurd hhd hh
  | some hd =>
    cases htl : m.pub.tail with
    | none =>
      have e : __insert_pub m p d s
          = (0, { m with heap := m.heap ++ [some (insertedPub m p d s)]
                         ub := true
                         pub := { m.pub with tail := some m.heap.length } }) := by
        unfold __insert_pub
        simp only [hhd, htl]
        rfl
      rw [e]
      have hc2 : IsChain (m.heap ++ [some (insertedPub m p d s)]) m.pub.head as := hbase
      refine ⟨hc2, rfl, ?_, rfl⟩
      exact htab _ hc2 (fun a ha => cell_append_lt _ _ a (hlt a ha))
    | some tl =>
      have htl2 : tl ∉ as := ht tl htl
      have e : __insert_pub m p d s
          = (0, { (libmqtt.modify { m with heap := m.heap ++ [some (insertedPub m p d s)] } tl
                    (fun r => { r with next := some m.heap.length })) with
                  pub := { (libmqtt.modify
                    { m with heap := m.heap ++ [some (insertedPub m p d s)] } tl
                    (fun r => { r with next := some m.heap.length })).pub with
                    tail := some m.heap.length } }) := by
        unfold __insert_pub
        simp only [hhd, htl]
        rfl
      rw [e]
      unfold libmqtt.modify
      cases hcell : libmqtt.deref { m with heap := m.heap ++ [some (insertedPub m p d s)] } tl with
      | none =>
        have hc2 : IsChain (m.heap ++ [some (insertedPub m p d s)]) m.pub.head as := hbase
        refine ⟨hc2, rfl, ?_, rfl⟩
        exact htab _ hc2 (fun a ha => cell_append_lt _ _ a (hlt a ha))
      | some rt =>
        have hsame : ∀ a ∈ as,
            ((m.heap ++ [some (insertedPub m p d s)]).set tl
              (some { rt with next := some m.heap.length })).getD a none
              = m.heap.getD a none := by
          intro a ha
          rw [cell_set_ne _ _ _ _ (fun h => htl2 (by rw [h]; exact ha)),
            cell_append_lt _ _ a (hlt a ha)]
        have hc2 : IsChain ((m.heap ++ [some (insertedPub m p d s)]).set tl
            (some { rt with next := some m.heap.length })) m.pub.head as :=
          isChain_congr as _ hsame hc
        refine ⟨hc2, rfl, ?_, rfl⟩
        exact htab _ hc2 hsame

theorem getLast_snoc (as : List Nat) (x : Nat) : (as ++ [x]).getLast? = some x := by
  simp

/-- The function `__insert_pub` keeps the invariant when the new record is inbound,
has the packet id 0, or has a packet id that no outbound record of the table has
and that is at most the packet-id counter. -/
theorem pubInv_insert_pub (n : Nat) (m : libmqtt) (p : mqtt_packet) (d : libmqtt_dir)
    (s : libmqtt_state) (hI : PubInv n m)
    (hnew : d = libmqtt_dir.LIBMQTT_DIR_IN ∨ p.v.publish.packet_id = 0 ∨
      (p.v.publish.packet_id ∉ outIds m.table ∧ p.v.publish.packet_id ≤ m.packet_id)) :
    PubInv n (__insert_pub m p d s).2 := by
  obtain ⟨as, h1, h2, h3, h4, h5, h6⟩ := hI
  by_cases hok : m.pub.head = none ∨ ∃ tl, m.pub.tail = some tl ∧ tl ∈ as
  · have htok : m.TailOk := by
      unfold libmqtt.TailOk
      rcases hok with h | ⟨tl, htl, hm⟩
      · exact Or.inl h
      · right
        rw [addrs_of_isChain m as h1, htl, h2 tl htl hm]
    obtain ⟨_, i2, i3, i4, _, _, _, _, i9, _⟩ := insert_pub_appends m p d s as h1 htok
    have hsingle : outIds [insertedPub m p d s] = [] ∨
        (outIds [insertedPub m p d s] = [p.v.publish.packet_id] ∧
          p.v.publish.packet_id ∉ outIds m.table ∧ p.v.publish.packet_id ≤ m.packet_id) := by
      rcases hnew with h | h | h
      · exact Or.inl (outIds_in _ h)
      · exact Or.inl (outIds_zero _ h)
      · rcases outIds_single (insertedPub m p d s) with e | e
        · exact Or.inl e
        · exact Or.inr ⟨e, h⟩
    refine ⟨as ++ [m.heap.length], i2, ?_, ?_, ?_, ?_, ?_⟩
    · intro tl htl _
      rw [i3] at htl
      rw [getLast_snoc]
      exact htl
    · rw [i9]
      exact h3
    · rw [i9]
      exact h4
    · rw [i4, outIds_append]
      rcases hsingle with e | ⟨e, hni, _⟩
      · rw [e, List.append_nil]
        exact h5
      · rw [e]
        exact List.Nodup.append h5 (List.nodup_singleton _)
          (fun x hx hx2 => hni (by rw [List.mem_singleton.mp hx2] at hx; exact hx))
    · intro i hi
      rw [i4, outIds_append] at hi
      rw [i9]
      rcases List.mem_append.mp hi with h | h
      · exact h6 i h
      · rcases hsingle with e | ⟨e, _, hle⟩
        · rw [e] at h
          exact absurd h (List.not_mem_nil _)
        · rw [e] at h
          rw [List.mem_singleton.mp h]
          exact hle
  · have hh : m.pub.head ≠ none := fun h => hok (Or.inl h)
    have ht : ∀ tl, m.pub.tail = some tl → tl ∉ as :=
      fun tl htl hm => hok (Or.inr ⟨tl, htl, hm⟩)
    obtain ⟨i1, i2, i3, i4⟩ := insert_pub_stale m p d s as h1 hh ht
    refine ⟨as, i1, ?_, ?_, ?_, ?_, ?_⟩
    · intro tl htl hm
      rw [i2] at htl
      have := isChain_lt as _ h1 tl hm
      have e : m.heap.length = tl := Option.some.inj htl
      omega
    · rw [i4]
      exact h3
    · rw [i4]
      exact h4
    · rw [i3]
      exact h5
    · rw [i3, i4]
      exact h6

theorem first_match (Q : Nat → Prop) :
    ∀ (as : List Nat), (∀ a ∈ as, ¬ Q a) ∨
      ∃ pre a post, as = pre ++ a :: post ∧ Q a ∧ ∀ b ∈ pre, ¬ Q b := by
  intro as
  induction as with
  | nil => exact Or.inl (fun a h => absurd h (List.not_mem_nil _))
  | cons x as ih =>
    by_cases hx : Q x
    · exact Or.inr ⟨[], x, as, rfl, hx, fun b h => absurd h (List.not_mem_nil _)⟩
    · rcases ih with h | ⟨pre, a, post, e, ha, hpre⟩
      · left
        intro a ha
        rcases List.mem_cons.mp ha with e | h2
        · rw [e]
          exact hx
        · exact h a h2
      · right
        refine ⟨x :: pre, a, post, by rw [e]; rfl, ha, ?_⟩
        intro b hb
        rcases List.mem_cons.mp hb with e2 | h2
        · rw [e2]
          exact hx
        · exact hpre b h2

/-- The function `__find_pub` on a well-formed record list changes nothing and
returns null or a record of the list. -/
theorem find_pub_mem (m : libmqtt) (as : List Nat) (id : Int) (d : libmqtt_dir)
    (s : libmqtt_state) (hc : IsChain m.heap m.pub.head as) :
    (__find_pub m id d s).2 = m ∧
    ∀ a, (__find_pub m id d s).1 = some a → a ∈ as ∧ ∃ r, m.deref a = some r := by
  rcases first_match (fun a => ∃ r, m.deref a = some r ∧
      (r.p.packet_id = id ∧ r.d = d ∧ r.s = s)) as with h | ⟨pre, a, post, e, ⟨r, hr, hm⟩, hpre⟩
  · rw [find_pub_none m as id d s hc (fun a ha r hr hm => h a ha ⟨r, hr, hm⟩)]
    exact ⟨rfl, fun a ha => Option.noConfusion ha⟩
  · subst e
    rw [find_pub_some m pre a post r id d s hc hr hm
      (fun b hb rb hrb hmb => hpre b hb ⟨rb, hrb, hmb⟩)]
    refine ⟨rfl, fun b hb => ?_⟩
    have e : a = b := Option.some.inj hb
    subst e
    exact ⟨List.mem_append_right _ (List.mem_cons_self _ _), r, hr⟩

theorem pubInv_check_pub (n : Nat) (m : libmqtt) (hI : PubInv n m) :
    PubInv n (__check_pub m) := by
  obtain ⟨as, h1, _, h3, h4, _, _⟩ := hI
  obtain ⟨t1, t2, _⟩ := check_pub_table m as h1
  obtain ⟨_, f2, _⟩ := frame_check_pub m
  refine ⟨[], t1, fun tl _ h => absurd h (List.not_mem_nil _), ?_, ?_, ?_, ?_⟩
  · rw [f2]
    exact h3
  · rw [f2]
    exact h4
  · rw [t2]
    exact List.nodup_nil
  · rw [t2]
    intro i hi
    exact absurd hi (List.not_mem_nil _)

theorem pubInv_update (n : Nat) (m : libmqtt) (fd : Int) (hI : PubInv n m) :
    PubInv n (__update m fd).2.2 := by
  have h0 : PubInv n { m with t := { m.t with now := m.t.now + 1 } } :=
    pubInv_congr n m _ rfl rfl rfl hI
  unfold __update
  simp only []
  split
  · exact h0
  · apply pubInv_check_pub
    split
    · split
      · exact pubInv_congr n m _ (write_fields _ _).2.2.2.1 (write_fields _ _).2.2.2.2.1
          (write_fields _ _).2.2.2.2.2.1 hI
      · exact pubInv_congr n m _ (write_fields _ _).2.2.2.1 (write_fields _ _).2.2.2.2.1
          (write_fields _ _).2.2.2.2.2.1 hI
    · exact h0

theorem pubInv_call (n : Nat) (m : libmqtt) (hook : Bool) (e : libmqtt_call)
    (hI : PubInv n m) : PubInv n (m.call hook e) := by
  rw [call_fields]
  exact pubInv_congr n m _ rfl rfl rfl hI

theorem pubInv_write (n : Nat) (m : libmqtt) (data : List Nat) (hI : PubInv n m) :
    PubInv n (__write m data).2 :=
  pubInv_congr n m _ (write_fields _ _).2.2.2.1 (write_fields _ _).2.2.2.2.1
    (write_fields _ _).2.2.2.2.2.1 hI

theorem addrs_heap (m m2 : libmqtt) (h : m2.heap = m.heap) (hp : m2.pub = m.pub) :
    m2.addrs = m.addrs := by
  unfold libmqtt.addrs
  rw [h, hp]

theorem addrs_call (m : libmqtt) (hook : Bool) (e : libmqtt_call) :
    (m.call hook e).addrs = m.addrs := by
  rw [call_fields]
  rfl

theorem addrs_write (m : libmqtt) (data : List Nat) : (__write m data).2.addrs = m.addrs :=
  addrs_heap m _ (write_fields _ _).2.2.2.1 (write_fields _ _).2.2.2.2.1

theorem table_write (m : libmqtt) (data : List Nat) : (__write m data).2.table = m.table :=
  table_congr m _ (write_fields _ _).2.2.2.1 (write_fields _ _).2.2.2.2.1

theorem pubInv_find (n : Nat) (m : libmqtt) (id : Int) (d : libmqtt_dir) (s : libmqtt_state)
    (hI : PubInv n m) :
    (__find_pub m id d s).2 = m ∧
    ∀ a, (__find_pub m id d s).1 = some a → a ∈ m.addrs ∧ ∃ r, m.deref a = some r := by
  obtain ⟨as, h1, _⟩ := hI
  rw [addrs_of_isChain m as h1]
  exact find_pub_mem m as id d s h1

theorem pubInv_on_connack (n : Nat) (m : libmqtt) (p : mqtt_packet) (hI : PubInv n m) :
    PubInv n (__on_connack m p).2 := pubInv_call n m _ _ hI

theorem pubInv_on_suback (n : Nat) (m : libmqtt) (p : mqtt_packet) (hI : PubInv n m) :
    PubInv n (__on_suback m p).2 := pubInv_call n m _ _ hI

theorem pubInv_on_unsuback (n : Nat) (m : libmqtt) (p : mqtt_packet) (hI : PubInv n m) :
    PubInv n (__on_unsuback m p).2 := pubInv_call n m _ _ hI

theorem pubInv_on_pingresp (n : Nat) (m : libmqtt) (p : mqtt_packet) (hI : PubInv n m) :
    PubInv n (__on_pingresp m p).2 := pubInv_congr n m _ rfl rfl rfl hI

theorem pubInv_on_puback (n : Nat) (m : libmqtt) (p : mqtt_packet) (hI : PubInv n m) :
    PubInv n (__on_puback m p).2 := by
  obtain ⟨f2, f1⟩ := pubInv_find n m p.v.packet_id libmqtt_dir.LIBMQTT_DIR_OUT
    libmqtt_state.LIBMQTT_ST_WAIT_PUBACK hI
  unfold __on_puback
  simp only []
  split
  · rename_i pub hpub
    rw [f2]
    exact pubInv_delete_pub n _ pub (pubInv_call n m _ _ hI)
      (by rw [addrs_call]; exact (f1 pub hpub).1)
  · rw [f2]
    exact hI

theorem pubInv_on_pubcomp (n : Nat) (m : libmqtt) (p : mqtt_packet) (hI : PubInv n m) :
    PubInv n (__on_pubcomp m p).2 := by
  obtain ⟨f2, f1⟩ := pubInv_find n m p.v.packet_id libmqtt_dir.LIBMQTT_DIR_OUT
    libmqtt_state.LIBMQTT_ST_WAIT_PUBCOMP hI
  unfold __on_pubcomp
  simp only []
  split
  · rename_i pub hpub
    rw [f2]
    exact pubInv_delete_pub n _ pub (pubInv_call n m _ _ hI)
      (by rw [addrs_call]; exact (f1 pub hpub).1)
  · rw [f2]
    exact hI

theorem pubInv_on_pubrec (n : Nat) (m : libmqtt) (p : mqtt_packet) (hI : PubInv n m) :
    PubInv n (__on_pubrec m p).2 := by
  obtain ⟨f2, f1⟩ := pubInv_find n m p.v.packet_id libmqtt_dir.LIBMQTT_DIR_OUT
    libmqtt_state.LIBMQTT_ST_WAIT_PUBREC hI
  unfold __on_pubrec
  simp only []
  split
  · rename_i pub hpub
    rw [f2]
    split
    · exact pubInv_update_pub n _ pub _ (pubInv_write n m _ hI)
        (by rw [addrs_write]; exact (f1 pub hpub).1)
    · exact pubInv_update_pub n _ pub _ (pubInv_write n m _ hI)
        (by rw [addrs_write]; exact (f1 pub hpub).1)
  · rw [f2]
    exact hI

theorem pubInv_on_pubrel (n : Nat) (m : libmqtt) (p : mqtt_packet) (hI : PubInv n m) :
    PubInv n (__on_pubrel m p).2 := by
  obtain ⟨f2, f1⟩ := pubInv_find n m p.v.packet_id libmqtt_dir.LIBMQTT_DIR_IN
    libmqtt_state.LIBMQTT_ST_WAIT_PUBREL hI
  unfold __on_pubrel
  simp only []
  split
  · rename_i pub hpub
    rw [f2]
    split
    · exact pubInv_congr n m _ rfl rfl rfl hI
    · split
      · exact pubInv_update_pub n _ pub _ (pubInv_write n _ _ (pubInv_call n m _ _ hI))
          (by rw [addrs_write, addrs_call]; exact (f1 pub hpub).1)
      · exact pubInv_delete_pub n _ pub (pubInv_write n _ _ (pubInv_call n m _ _ hI))
          (by rw [addrs_write, addrs_call]; exact (f1 pub hpub).1)
  · rw [f2]
    exact hI

theorem pubInv_on_publish (n : Nat) (m : libmqtt) (p : mqtt_packet) (hI : PubInv n m) :
    PubInv n (__on_publish m p).2 := by
  have h0 : PubInv n (if p.v.publish.topic_name.n < 0 then { m with ub := true } else m) := by
    split
    · exact pubInv_congr n m _ rfl rfl rfl hI
    · exact hI
  unfold __on_publish
  simp only []
  generalize (if p.v.publish.topic_name.n < 0 then { m with ub := true } else m) = M at h0
  split
  · exact pubInv_call n M _ _ h0
  · split
    · split
      · exact pubInv_insert_pub n _ p _ _ (pubInv_write n _ _ (pubInv_call n M _ _ h0))
          (Or.inl rfl)
      · exact pubInv_write n _ _ (pubInv_call n M _ _ h0)
    · split
      · split
        · exact pubInv_insert_pub n _ p _ _ (pubInv_write n _ _ h0) (Or.inl rfl)
        · exact pubInv_insert_pub n _ p _ _ (pubInv_write n _ _ h0) (Or.inl rfl)
      · split
        · exact h0
        · exact h0

theorem publish_cases (m : libmqtt) (topic : List Nat) (qos retain : Int)
    (payload : Option (List Nat)) (length : Int) :
    (libmqtt__publish m topic qos retain payload length).2.2 = m ∨
    (libmqtt__publish m topic qos retain payload length).2.2
      = (if qos > MQTT_QOS_0 then __generate_packet_id m else (0, m)).2 ∨
    ∃ data,
      (libmqtt__publish m topic qos retain payload length).2.2
        = (__write (if qos > MQTT_QOS_0 then __generate_packet_id m else (0, m)).2 data).2 ∨
      ∃ s, (libmqtt__publish m topic qos retain payload length).2.2
        = (__insert_pub
            (__write (if qos > MQTT_QOS_0 then __generate_packet_id m else (0, m)).2 data).2
            (publishPacket topic qos retain
              (if qos > MQTT_QOS_0 then __generate_packet_id m else (0, m)).1 payload length)
            libmqtt_dir.LIBMQTT_DIR_OUT s).2 := by
  generalize hR : (libmqtt__publish m topic qos retain payload length).2.2 = R
  unfold libmqtt__publish at hR
  revert hR
  generalize (if qos > MQTT_QOS_0 then __generate_packet_id m else (0, m)) = g
  generalize (if qos > MQTT_QOS_0 then
    some (publishPacket topic qos retain g.1 payload length).v.publish.packet_id else none) = i
  generalize mqtt__serialize (publishPacket topic qos retain g.1 payload length) = b
  dsimp only
  split
  · intro h
    exact Or.inl h.symm
  · split
    · intro h
      exact Or.inr (Or.inl h.symm)
    · split
      · intro h
        exact Or.inr (Or.inr ⟨_, Or.inl h.symm⟩)
      · split
        · split
          · intro h
            exact Or.inr (Or.inr ⟨_, Or.inr ⟨_, h.symm⟩⟩)
          · intro h
            exact Or.inr (Or.inr ⟨_, Or.inr ⟨_, h.symm⟩⟩)
        · split
          · split
            · intro h
              exact Or.inr (Or.inr ⟨_, Or.inr ⟨_, h.symm⟩⟩)
            · intro h
              exact Or.inr (Or.inr ⟨_, Or.inr ⟨_, h.symm⟩⟩)
          · split
            · split
              · intro h
                exact Or.inr (Or.inr ⟨_, Or.inr ⟨_, h.symm⟩⟩)
              · intro h
                exact Or.inr (Or.inr ⟨_, Or.inr ⟨_, h.symm⟩⟩)
            · intro h
              exact Or.inr (Or.inr ⟨_, Or.inl h.symm⟩)

/-- The packet id that `libmqtt__publish` gives a publication, on a session that
has seen fewer than 65535 publish calls: the session after the draw keeps the
invariant, and the id is 0 or an id that no outbound record has. -/
theorem pubInv_draw (n : Nat) (m : libmqtt) (qos : Int) (hI : PubInv n m) (hn : n < 65535) :
    PubInv (n + 1) (if qos > MQTT_QOS_0 then __generate_packet_id m else (0, m)).2 ∧
    ((if qos > MQTT_QOS_0 then __generate_packet_id m else (0, m)).1 = 0 ∨
      ((if qos > MQTT_QOS_0 then __generate_packet_id m else (0, m)).1
          ∉ outIds (if qos > MQTT_QOS_0 then __generate_packet_id m else (0, m)).2.table ∧
        (if qos > MQTT_QOS_0 then __generate_packet_id m else (0, m)).1
          ≤ (if qos > MQTT_QOS_0 then __generate_packet_id m else (0, m)).2.packet_id)) := by
  by_cases hq : qos > MQTT_QOS_0
  · rw [if_pos hq]
    obtain ⟨as, h1, h2, h3, h4, h5, h6⟩ := hI
    have hne : ¬ m.packet_id = 65535 := by omega
    rw [generate_packet_id_eq m h3 (by omega)]
    simp only [if_neg hne]
    have htab : libmqtt.table { m with packet_id := m.packet_id + 1 } = m.table :=
      table_congr m _ rfl rfl
    refine ⟨⟨as, h1, h2, ?_, ?_, ?_, ?_⟩, Or.inr ⟨?_, le_refl _⟩⟩
    · show 0 ≤ m.packet_id + 1
      omega
    · show m.packet_id + 1 ≤ ((n + 1 : Nat) : Int)
      push_cast
      omega
    · rw [htab]
      exact h5
    · rw [htab]
      intro i hi
      have := h6 i hi
      show i ≤ m.packet_id + 1
      omega
    · rw [htab]
      intro hi
      have := h6 _ hi
      omega
  · rw [if_neg hq]
    exact ⟨pubInv_mono n m hI, Or.inl rfl⟩

/-- The function `libmqtt__publish` keeps the invariant on a session that has seen
fewer than 65535 publish calls. -/
theorem pubInv_publish (n : Nat) (m : libmqtt) (topic : List Nat) (qos retain : Int)
    (payload : Option (List Nat)) (length : Int) (hI : PubInv n m) (hn : n < 65535) :
    PubInv (n + 1) (libmqtt__publish m topic qos retain payload length).2.2 := by
  obtain ⟨d1, d2⟩ := pubInv_draw n m qos hI hn
  rcases publish_cases m topic qos retain payload length with e | e | ⟨data, e | ⟨s, e⟩⟩
  · rw [e]
    exact pubInv_mono n m hI
  · rw [e]
    exact d1
  · rw [e]
    exact pubInv_write _ _ _ d1
  · rw [e]
    apply pubInv_insert_pub _ _ _ _ _ (pubInv_write _ _ _ d1)
    right
    rw [table_write, (write_fields _ _).2.2.2.2.2.1]
    exact d2


theorem create_cb_cases (t : Int) (f : mqtt_cb libmqtt) (h : libmqtt__create_p.cb t = some f) :
    f = __on_connack ∨ f = __on_suback ∨ f = __on_unsuback ∨ f = __on_publish ∨
    f = __on_puback ∨ f = __on_pubrec ∨ f = __on_pubrel ∨ f = __on_pubcomp ∨
    f = __on_pingresp := by
  have e : libmqtt__create_p.cb
      = Function.update (Function.update (Function.update (Function.update (Function.update
          (Function.update (Function.update (Function.update (Function.update (fun _ => none)
            CONNACK (some __on_connack)) SUBACK (some __on_suback))
            UNSUBACK (some __on_unsuback)) PUBLISH (some __on_publish))
            PUBACK (some __on_puback)) PUBREC (some __on_pubrec))
            PUBREL (some __on_pubrel)) PUBCOMP (some __on_pubcomp))
            PINGRESP (some __on_pingresp) := rfl
  rw [e] at h
  simp only [Function.update_apply] at h
  repeat (first
    | (split at h
       · have := Option.some.inj h
         subst this
         simp)
    | exact Option.noConfusion h)

theorem pubInv_handler (n : Nat) (t : Int) (f : mqtt_cb libmqtt)
    (h : libmqtt__create_p.cb t = some f) (m : libmqtt) (q : mqtt_packet) (hI : PubInv n m) :
    PubInv n (f m q).2 := by
  rcases create_cb_cases t f h with e | e | e | e | e | e | e | e | e
  · rw [e]
    exact pubInv_on_connack n m q hI
  · rw [e]
    exact pubInv_on_suback n m q hI
  · rw [e]
    exact pubInv_on_unsuback n m q hI
  · rw [e]
    exact pubInv_on_publish n m q hI
  · rw [e]
    exact pubInv_on_puback n m q hI
  · rw [e]
    exact pubInv_on_pubrec n m q hI
  · rw [e]
    exact pubInv_on_pubrel n m q hI
  · rw [e]
    exact pubInv_on_pubcomp n m q hI
  · rw [e]
    exact pubInv_on_pingresp n m q hI

/-- The function `mqtt__parse` on the parser of `libmqtt__create`, whatever bytes it
is handed and whatever it returns, keeps the callback table and the invariant. -/
theorem pubInv_parse (sc : Bool) (n : Nat) (p : mqtt_parser_t libmqtt) (m : libmqtt)
    (bytes : List Nat) (hcb : p.cb = libmqtt__create_p.cb) (hI : PubInv n m) :
    (mqtt__parse_bytes sc p m bytes).2.1.cb = libmqtt__create_p.cb ∧
    PubInv n (mqtt__parse_bytes sc p m bytes).2.2 := by
  refine parse_preserves sc (fun p ud => p.cb = libmqtt__create_p.cb ∧ PubInv n ud) ?_ ?_
    p m bytes ⟨hcb, hI⟩
  · intro p q ud _ hpq h
    exact ⟨hpq ▸ h.1, h.2⟩
  · intro p ud h
    refine ⟨?_, ?_⟩
    · rw [(process_state sc p ud).2.2.2.2]
      exact h.1
    · rcases process_cases sc p ud with ⟨_, e, _⟩ | ⟨f, q, hf, _, _, e, _⟩
      · rw [e]
        exact h.2
      · rw [e]
        rw [h.1] at hf
        exact pubInv_handler n _ f hf ud q h.2

theorem pubInv_create (client_id : List Nat) (cb : libmqtt_cb) (results : List Int) :
    (libmqtt__create client_id cb results).1.cb = libmqtt__create_p.cb ∧
    PubInv 0 (libmqtt__create client_id cb results).2 :=
  ⟨rfl, [], rfl, fun _ h => Option.noConfusion h, le_refl _, le_refl _, List.nodup_nil,
    fun _ hi => absurd hi (List.not_mem_nil _)⟩

theorem pubInv_run (sc : Bool) : ∀ (es : List libmqtt_event)
    (s : mqtt_parser_t libmqtt × libmqtt) (n : Nat),
    s.1.cb = libmqtt__create_p.cb → PubInv n s.2 → n + publishCount es ≤ 65535 →
    (eventRun sc s es).1.cb = libmqtt__create_p.cb ∧
    PubInv (n + publishCount es) (eventRun sc s es).2 := by
  intro es
  induction es with
  | nil =>
    intro s n hcb hI _
    exact ⟨hcb, hI⟩
  | cons e es ih =>
    intro s n hcb hI hn
    have hrun : eventRun sc s (e :: es) = eventRun sc (eventStep sc s e) es := rfl
    rw [hrun]
    cases e with
    | publish topic qos retain payload length =>
      have hc : publishCount (libmqtt_event.publish topic qos retain payload length :: es)
          = publishCount es + 1 := rfl
      rw [hc] at hn ⊢
      have h := ih (eventStep sc s (libmqtt_event.publish topic qos retain payload length))
        (n + 1) hcb (pubInv_publish n s.2 topic qos retain payload length hI (by omega))
        (by omega)
      have e2 : n + (publishCount es + 1) = n + 1 + publishCount es := by omega
      rw [e2]
      exact h
    | receive bytes =>
      have hc : publishCount (libmqtt_event.receive bytes :: es) = publishCount es := rfl
      rw [hc] at hn ⊢
      obtain ⟨p1, p2⟩ := pubInv_parse sc n s.1 s.2 bytes hcb hI
      exact ih (eventStep sc s (libmqtt_event.receive bytes)) n p1 p2 hn
    | tick fd =>
      have hc : publishCount (libmqtt_event.tick fd :: es) = publishCount es := rfl
      rw [hc] at hn ⊢
      exact ih (eventStep sc s (libmqtt_event.tick fd)) n hcb (pubInv_update n s.2 fd hI) hn

/-- The function `libmqtt__publish` with QoS 1: a packet id is drawn, the bytes of
`mqtt__serialize` are offered to `write` once, and `__insert_pub` is called for the
publication, with the state WAIT_PUBACK when the write succeeds and SEND_PUBLISH
when it fails. -/
theorem publish_qos1_eq (m : libmqtt) (topic : List Nat) (retain : Int)
    (payload : Option (List Nat)) (length : Int) :
    (libmqtt__publish m topic 1 retain payload length).2.2
      = if (__write (__generate_packet_id m).2 (mqtt__serialize
            (publishPacket topic 1 retain (__generate_packet_id m).1 payload length)).2.bytes).1
            = 0 then
          (__insert_pub (__write (__generate_packet_id m).2 (mqtt__serialize
              (publishPacket topic 1 retain (__generate_packet_id m).1 payload
                length)).2.bytes).2
            (publishPacket topic 1 retain (__generate_packet_id m).1 payload length)
            libmqtt_dir.LIBMQTT_DIR_OUT libmqtt_state.LIBMQTT_ST_WAIT_PUBACK).2
        else
          (__insert_pub (__write (__generate_packet_id m).2 (mqtt__serialize
              (publishPacket topic 1 retain (__generate_packet_id m).1 payload
                length)).2.bytes).2
            (publishPacket topic 1 retain (__generate_packet_id m).1 payload length)
            libmqtt_dir.LIBMQTT_DIR_OUT libmqtt_state.LIBMQTT_ST_SEND_PUBLUSH).2 := by
  have hrc := serialize_publish_rc
    (publishPacket topic 1 retain (__generate_packet_id m).1 payload length) rfl
  unfold libmqtt__publish
  have h1 : ¬ ¬ MQTT_IS_QOS 1 = true := by decide
  have h2 : (1 : Int) > MQTT_QOS_0 := by decide
  have h3 : ¬ (1 : Int) = MQTT_QOS_0 := by decide
  have h4 : (1 : Int) = MQTT_QOS_1 := rfl
  simp only [h1, h2, h3, if_false, if_true, hrc, ne_eq, not_true_eq_false, and_false]
  by_cases hw : (__write (__generate_packet_id m).2 (mqtt__serialize
      (publishPacket topic 1 retain (__generate_packet_id m).1 payload length)).2.bytes).1 = 0
  · simp only [hw, if_true, not_true_eq_false, if_false, insert_pub_rc, h4]
  · simp only [hw, if_false, not_false_eq_true, if_true, insert_pub_rc, not_true_eq_false]

theorem insert_pub_length (m : libmqtt) (p : mqtt_packet) (d : libmqtt_dir)
    (s : libmqtt_state) : (__insert_pub m p d s).2.heap.length = m.heap.length + 1 := by
  unfold __insert_pub
  simp only []
  split
  · simp
  · split
    · simp
    · unfold libmqtt.modify
      split <;> simp

theorem insertedPub_sample (m : libmqtt) (id : Int) :
    insertedPub m (publishPacket [0x61, 0] 1 0 id (some [0x78]) 1) libmqtt_dir.LIBMQTT_DIR_OUT
      libmqtt_state.LIBMQTT_ST_WAIT_PUBACK
      = outPub id [0x61] 1 0 [0x78] libmqtt_state.LIBMQTT_ST_WAIT_PUBACK m.t.now := by
  rfl

/-- The publication of "x" to "a" with QoS 1 on a session whose writes succeed,
whose record list is well formed and whose tail pointer designates the last
record: the id drawn follows the counter (1 after 65535), and the record of the
publication, in WAIT_PUBACK, is appended to the table. -/
theorem publish_sample (m : libmqtt) (as : List Nat) (hc : IsChain m.heap m.pub.head as)
    (ht : m.TailOk) (hres : m.results = []) (h0 : 0 ≤ m.packet_id) (h1 : m.packet_id < 65536) :
    IsChain (libmqtt__publish m [0x61, 0] 1 0 (some [0x78]) 1).2.2.heap
      (libmqtt__publish m [0x61, 0] 1 0 (some [0x78]) 1).2.2.pub.head (as ++ [m.heap.length]) ∧
    (libmqtt__publish m [0x61, 0] 1 0 (some [0x78]) 1).2.2.heap.length = m.heap.length + 1 ∧
    (libmqtt__publish m [0x61, 0] 1 0 (some [0x78]) 1).2.2.TailOk ∧
    (libmqtt__publish m [0x61, 0] 1 0 (some [0x78]) 1).2.2.results = [] ∧
    (libmqtt__publish m [0x61, 0] 1 0 (some [0x78]) 1).2.2.packet_id
      = (if m.packet_id = 65535 then 1 else m.packet_id + 1) ∧
    (libmqtt__publish m [0x61, 0] 1 0 (some [0x78]) 1).2.2.t.now = m.t.now ∧
    (libmqtt__publish m [0x61, 0] 1 0 (some [0x78]) 1).2.2.table
      = m.table ++ [outPub (if m.packet_id = 65535 then 1 else m.packet_id + 1) [0x61] 1 0 [0x78]
          libmqtt_state.LIBMQTT_ST_WAIT_PUBACK m.t.now] := by
  rw [publish_qos1_eq, generate_packet_id_eq m h0 h1]
  simp only []
  generalize (if m.packet_id = 65535 then 1 else m.packet_id + 1) = id
  obtain ⟨w1, _, w3, w4, w5, w6, _, _, _, _, w11, _, _⟩ := write_fields
    { m with packet_id := id }
    (mqtt__serialize (publishPacket [0x61, 0] 1 0 id (some [0x78]) 1)).2.bytes
  generalize __write { m with packet_id := id }
    (mqtt__serialize (publishPacket [0x61, 0] 1 0 id (some [0x78]) 1)).2.bytes = w
    at w1 w3 w4 w5 w6 w11
  have hr : ({ m with packet_id := id } : libmqtt).results = [] := hres
  rw [hr] at w1 w3
  have hlen : ((mqtt__serialize (publishPacket [0x61, 0] 1 0 id
      (some [0x78]) 1)).2.bytes.length : Int) ≠ -1 := by
    have := Int.natCast_nonneg (mqtt__serialize (publishPacket [0x61, 0] 1 0 id
      (some [0x78]) 1)).2.bytes.length
    omega
  rw [List.headD_nil, if_neg hlen] at w1
  rw [if_pos w1]
  have hc2 : IsChain w.2.heap w.2.pub.head as := by
    rw [w4, w5]
    exact hc
  obtain ⟨_, i2, i3, i4, _, _, _, i8, i9, i10, _⟩ := insert_pub_appends w.2
    (publishPacket [0x61, 0] 1 0 id (some [0x78]) 1) libmqtt_dir.LIBMQTT_DIR_OUT
    libmqtt_state.LIBMQTT_ST_WAIT_PUBACK as hc2 (tailOk_congr m w.2 w4 w5 ht)
  have hl : w.2.heap.length = m.heap.length := by rw [w4]
  rw [hl] at i2 i3
  refine ⟨i2, ?_, ?_, ?_, ?_, ?_, ?_⟩
  · rw [insert_pub_length, hl]
  · unfold libmqtt.TailOk
    right
    rw [addrs_of_isChain _ _ i2, i3]
    simp
  · rw [i8, w3]
    rfl
  · rw [i9, w6]
  · rw [i10, w11]
  · rw [i4, table_congr m w.2 w4 w5, insertedPub_sample, w11]

theorem eventRun_snoc (sc : Bool) (s : mqtt_parser_t libmqtt × libmqtt)
    (es : List libmqtt_event) (e : libmqtt_event) :
    eventRun sc s (es ++ [e]) = eventStep sc (eventRun sc s es) e := by
  unfold eventRun
  rw [List.foldl_append]
  rfl

/-- A fresh client whose writes succeed, after `k` publications of "x" to "a" with
QoS 1 and nothing else, for `k` up to 65535: the packet-id counter is `k` and the
table holds the records of the ids 1 to `k`, in this order. -/
theorem publish_run (sc : Bool) : ∀ (k : Nat), k ≤ 65535 →
    IsChain (eventRun sc (libmqtt__create [0x63, 0] allHooks [])
        (List.replicate k (libmqtt_event.publish [0x61, 0] 1 0 (some [0x78]) 1))).2.heap
      (eventRun sc (libmqtt__create [0x63, 0] allHooks [])
        (List.replicate k (libmqtt_event.publish [0x61, 0] 1 0 (some [0x78]) 1))).2.pub.head
      (List.range k) ∧
    (eventRun sc (libmqtt__create [0x63, 0] allHooks [])
      (List.replicate k (libmqtt_event.publish [0x61, 0] 1 0 (some [0x78]) 1))).2.heap.length
      = k ∧
    (eventRun sc (libmqtt__create [0x63, 0] allHooks [])
      (List.replicate k (libmqtt_event.publish [0x61, 0] 1 0 (some [0x78]) 1))).2.TailOk ∧
    (eventRun sc (libmqtt__create [0x63, 0] allHooks [])
      (List.replicate k (libmqtt_event.publish [0x61, 0] 1 0 (some [0x78]) 1))).2.results
      = [] ∧
    (eventRun sc (libmqtt__create [0x63, 0] allHooks [])
      (List.replicate k (libmqtt_event.publish [0x61, 0] 1 0 (some [0x78]) 1))).2.packet_id
      = (k : Int) ∧
    (eventRun sc (libmqtt__create [0x63, 0] allHooks [])
      (List.replicate k (libmqtt_event.publish [0x61, 0] 1 0 (some [0x78]) 1))).2.t.now = 0 ∧
    (eventRun sc (libmqtt__create [0x63, 0] allHooks [])
      (List.replicate k (libmqtt_event.publish [0x61, 0] 1 0 (some [0x78]) 1))).2.table
      = (List.range k).map (fun (i : Nat) => outPub ((i : Int) + 1) [0x61] 1 0 [0x78]
          libmqtt_state.LIBMQTT_ST_WAIT_PUBACK 0) := by
  intro k
  induction k with
  | zero =>
    intro _
    exact ⟨rfl, rfl, Or.inl rfl, rfl, rfl, rfl, rfl⟩
  | succ k ih =>
    intro hk
    obtain ⟨h1, h2, h3, h4, h5, h6, h7⟩ := ih (by omega)
    rw [List.replicate_succ', eventRun_snoc]
    generalize eventRun sc (libmqtt__create [0x63, 0] allHooks [])
      (List.replicate k (libmqtt_event.publish [0x61, 0] 1 0 (some [0x78]) 1)) = s
      at h1 h2 h3 h4 h5 h6 h7 ⊢
    show IsChain (libmqtt__publish s.2 [0x61, 0] 1 0 (some [0x78]) 1).2.2.heap
        (libmqtt__publish s.2 [0x61, 0] 1 0 (some [0x78]) 1).2.2.pub.head (List.range (k + 1)) ∧
      (libmqtt__publish s.2 [0x61, 0] 1 0 (some [0x78]) 1).2.2.heap.length = k + 1 ∧
      (libmqtt__publish s.2 [0x61, 0] 1 0 (some [0x78]) 1).2.2.TailOk ∧
      (libmqtt__publish s.2 [0x61, 0] 1 0 (some [0x78]) 1).2.2.results = [] ∧
      (libmqtt__publish s.2 [0x61, 0] 1 0 (some [0x78]) 1).2.2.packet_id = ((k + 1 : Nat) : Int) ∧
      (libmqtt__publish s.2 [0x61, 0] 1 0 (some [0x78]) 1).2.2.t.now = 0 ∧
      (libmqtt__publish s.2 [0x61, 0] 1 0 (some [0x78]) 1).2.2.table
        = (List.range (k + 1)).map (fun (i : Nat) => outPub ((i : Int) + 1) [0x61] 1 0 [0x78]
            libmqtt_state.LIBMQTT_ST_WAIT_PUBACK 0)
    obtain ⟨p1, p0, p2, p3, p4, p5, p6⟩ := publish_sample s.2 (List.range k) h1 h3 h4
      (by rw [h5]; omega) (by rw [h5]; omega)
    have hne : ¬ s.2.packet_id = 65535 := by rw [h5]; omega
    rw [if_neg hne] at p4 p6
    rw [h2, ← List.range_succ] at p1
    refine ⟨p1, ?_, p2, p3, ?_, ?_, ?_⟩
    · rw [p0, h2]
    · rw [p4, h5]
      push_cast
      rfl
    · rw [p5, h6]
    · rw [p6, h7, h6, h5, List.range_succ, List.map_append]
      rfl

theorem publish_wrap_at (sc : Bool) (k : Nat) (hk : k = 65535) :
    ¬ (eventRun sc (libmqtt__create [0x63, 0] allHooks [])
      (List.replicate (k + 1)
        (libmqtt_event.publish [0x61, 0] 1 0 (some [0x78]) 1))).2.UniqueOut := by
  obtain ⟨h1, _, h3, h4, h5, h6, h7⟩ := publish_run sc k (by omega)
  rw [List.replicate_succ', eventRun_snoc]
  generalize eventRun sc (libmqtt__create [0x63, 0] allHooks [])
    (List.replicate k (libmqtt_event.publish [0x61, 0] 1 0 (some [0x78]) 1)) = s
    at h1 h3 h4 h5 h6 h7 ⊢
  show ¬ (outIds (libmqtt__publish s.2 [0x61, 0] 1 0 (some [0x78]) 1).2.2.table).Nodup
  obtain ⟨_, _, _, _, _, _, p6⟩ := publish_sample s.2 (List.range k) h1 h3 h4
    (by rw [h5]; omega) (by rw [h5]; omega)
  have he : s.2.packet_id = 65535 := by rw [h5, hk]; rfl
  rw [if_pos he, h6] at p6
  rw [p6, outIds_append]
  intro hn
  have hd := (List.nodup_append.mp hn).2.2
  have hmem : (1 : Int) ∈ outIds s.2.table := by
    rw [h7]
    unfold outIds
    rw [List.mem_map]
    refine ⟨outPub 1 [0x61] 1 0 [0x78] libmqtt_state.LIBMQTT_ST_WAIT_PUBACK 0, ?_, rfl⟩
    rw [List.mem_filter]
    refine ⟨?_, by decide⟩
    rw [List.mem_map]
    exact ⟨0, by rw [List.mem_range]; omega, rfl⟩
  exact hd hmem (by decide)

/-- After 65535 publications with QoS 1 that the peer has not acknowledged the
packet-id counter wraps: the next publication draws the id 1 again, and the table
then holds two outbound records with the packet id 1. -/
theorem publish_wrap (sc : Bool) :
    ¬ (eventRun sc (libmqtt__create [0x63, 0] allHooks [])
      (List.replicate 65536
        (libmqtt_event.publish [0x61, 0] 1 0 (some [0x78]) 1))).2.UniqueOut :=
  publish_wrap_at sc 65535 rfl

theorem uniqueOut_of_uniquePairs (m : libmqtt) (h : m.UniquePairs) : m.UniqueOut := by
  unfold libmqtt.UniquePairs at h
  unfold libmqtt.UniqueOut outIds
  have hinj := List.inj_on_of_nodup_map h
  have hnd : m.table.Nodup := List.Nodup.of_map _ h
  apply List.Nodup.map_on
  · intro x hx y hy hxy
    obtain ⟨hx1, hx2⟩ := List.mem_filter.mp hx
    obtain ⟨hy1, hy2⟩ := List.mem_filter.mp hy
    have dx := (of_decide_eq_true hx2).1
    have dy := (of_decide_eq_true hy2).1
    apply hinj hx1 hy1
    unfold libmqtt_pub.key
    rw [hxy, dx, dy]
  · exact List.Nodup.filter _ hnd

/-- C28 (counterexample). A client that has received the QoS 2 PUBLISH
`34 06 00 01 61 00 07 78` and then its retransmission `3C 06 00 01 61 00 07 78`
before any PUBREL holds two inbound records with the packet id 7; a client whose
writes fail holds, after two QoS 0 publish calls, two outbound records with the
packet id 0; and a client that makes 65536 QoS 1 publish calls that the peer does
not acknowledge holds two outbound records with the packet id 1.  In each of the
three tables two records have the same (packet id, direction) pair. -/
theorem C28_duplicate_records :
    (eventRun true (libmqtt__create [0x63, 0] allHooks [])
      [libmqtt_event.receive [0x20, 0x02, 0x00, 0x00],
       libmqtt_event.receive [0x34, 0x06, 0x00, 0x01, 0x61, 0x00, 0x07, 0x78],
       libmqtt_event.receive [0x3C, 0x06, 0x00, 0x01, 0x61, 0x00, 0x07, 0x78]]).2.table
      = [inPub 7 [0x61] 2 0 [0x78] libmqtt_state.LIBMQTT_ST_WAIT_PUBREL 0,
         inPub 7 [0x61] 2 0 [0x78] libmqtt_state.LIBMQTT_ST_WAIT_PUBREL 0] ∧
    ¬ (eventRun true (libmqtt__create [0x63, 0] allHooks [])
      [libmqtt_event.receive [0x20, 0x02, 0x00, 0x00],
       libmqtt_event.receive [0x34, 0x06, 0x00, 0x01, 0x61, 0x00, 0x07, 0x78],
       libmqtt_event.receive [0x3C, 0x06, 0x00, 0x01, 0x61, 0x00, 0x07, 0x78]]).2.UniquePairs ∧
    (eventRun true (libmqtt__create [0x63, 0] allHooks [-1, -1])
      [libmqtt_event.publish [0x61, 0] 0 0 (some [0x78]) 1,
       libmqtt_event.publish [0x62, 0] 0 0 (some [0x79]) 1]).2.table
      = [outPub 0 [0x61] 0 0 [0x78] libmqtt_state.LIBMQTT_ST_SEND_PUBLUSH 0,
         outPub 0 [0x62] 0 0 [0x79] libmqtt_state.LIBMQTT_ST_SEND_PUBLUSH 0] ∧
    ¬ (eventRun true (libmqtt__create [0x63, 0] allHooks [-1, -1])
      [libmqtt_event.publish [0x61, 0] 0 0 (some [0x78]) 1,
       libmqtt_event.publish [0x62, 0] 0 0 (some [0x79]) 1]).2.UniquePairs ∧
    ¬ (eventRun true (libmqtt__create [0x63, 0] allHooks [])
      (List.replicate 65536
        (libmqtt_event.publish [0x61, 0] 1 0 (some [0x78]) 1))).2.UniqueOut ∧
    ¬ (eventRun true (libmqtt__create [0x63, 0] allHooks [])
      (List.replicate 65536
        (libmqtt_event.publish [0x61, 0] 1 0 (some [0x78]) 1))).2.UniquePairs :=
  ⟨by decide, by decide, by decide, by decide, publish_wrap true,
    fun h => publish_wrap true (uniqueOut_of_uniquePairs _ h)⟩

/-- C28 (amended). In every session state reached from a freshly created client by
a sequence of publish calls, received packets and ticks that has at most 65535
publish calls, no two outbound records of the in-flight table that have a non-zero
packet id have the same packet id. -/
theorem C28_outbound_ids_unique (signedChar : Bool) (client_id : List Nat) (cb : libmqtt_cb)
    (results : List Int) (es : List libmqtt_event) (h : publishCount es ≤ 65535) :
    (eventRun signedChar (libmqtt__create client_id cb results) es).2.UniqueOut := by
  obtain ⟨hcb, hI⟩ := pubInv_create client_id cb results
  obtain ⟨_, _, _, _, _, _, h5, _⟩ := pubInv_run signedChar es _ 0 hcb hI (by omega)
  exact h5

/-- C28 (witness). The theorem `C28_outbound_ids_unique` at a client that receives
the CONNACK, publishes with QoS 1 and with QoS 2, receives a QoS 2 PUBLISH and its
retransmission, and publishes with QoS 0 while the write fails: the table holds
the outbound records of the ids 1, 2 and 0 and two inbound records of the id 7. -/
theorem C28_outbound_ids_unique_witness :
    publishCount
      [libmqtt_event.receive [0x20, 0x02, 0x00, 0x00],
       libmqtt_event.publish [0x61, 0] 1 0 (some [0x78]) 1,
       libmqtt_event.publish [0x62, 0] 2 0 (some [0x79]) 1,
       libmqtt_event.receive [0x34, 0x06, 0x00, 0x01, 0x61, 0x00, 0x07, 0x78],
       libmqtt_event.receive [0x3C, 0x06, 0x00, 0x01, 0x61, 0x00, 0x07, 0x78],
       libmqtt_event.publish [0x63, 0] 0 0 (some [0x7A]) 1] ≤ 65535 ∧
    (eventRun true (libmqtt__create [0x63, 0] allHooks [8, 8, 4, 4, -1])
      [libmqtt_event.receive [0x20, 0x02, 0x00, 0x00],
       libmqtt_event.publish [0x61, 0] 1 0 (some [0x78]) 1,
       libmqtt_event.publish [0x62, 0] 2 0 (some [0x79]) 1,
       libmqtt_event.receive [0x34, 0x06, 0x00, 0x01, 0x61, 0x00, 0x07, 0x78],
       libmqtt_event.receive [0x3C, 0x06, 0x00, 0x01, 0x61, 0x00, 0x07, 0x78],
       libmqtt_event.publish [0x63, 0] 0 0 (some [0x7A]) 1]).2.UniqueOut :=
  ⟨by decide, C28_outbound_ids_unique true [0x63, 0] allHooks [8, 8, 4, 4, -1] _ (by decide)⟩

/-- C31. The messages of `libmqtt__strerror`: for each of the seven error codes -1
to -7 the function returns, without undefined behaviour, the message of the code:
"null pointer access", "memory allocation error", "error mqtt qos", "error mqtt
protocol version", "tcp connection error", "tcp write error" and "max topic/qos per
subscribe or unsubscribe".  The function reads nothing but its argument and a
constant table. -/
theorem C31_strerror_messages :
    libmqtt__strerror LIBMQTT_ERROR_NULL = (some "null pointer access", false) ∧
    libmqtt__strerror LIBMQTT_ERROR_MALLOC = (some "memory allocation error", false) ∧
    libmqtt__strerror LIBMQTT_ERROR_QOS = (some "error mqtt qos", false) ∧
    libmqtt__strerror LIBMQTT_ERROR_VSN = (some "error mqtt protocol version", false) ∧
    libmqtt__strerror LIBMQTT_ERROR_CONNECT = (some "tcp connection error", false) ∧
    libmqtt__strerror LIBMQTT_ERROR_WRITE = (some "tcp write error", false) ∧
    libmqtt__strerror LIBMQTT_ERROR_MAXSUB
      = (some "max topic/qos per subscribe or unsubscribe", false) ∧
    (∀ rc : Int, -7 ≤ rc → rc ≤ -1 →
      libmqtt__strerror rc = (__libmqtt_error_strings.get? (-rc).toNat, false) ∧
      (libmqtt__strerror rc).1 ≠ none) := by
  refine ⟨by decide, by decide, by decide, by decide, by decide, by decide, by decide, ?_⟩
  intro rc h0 h1
  have h : rc = -1 ∨ rc = -2 ∨ rc = -3 ∨ rc = -4 ∨ rc = -5 ∨ rc = -6 ∨ rc = -7 := by omega
  rcases h with h | h | h | h | h | h | h <;> subst h <;> exact ⟨by decide, by decide⟩

/-- C38 (code defect). For `rc = -8` the function `libmqtt__strerror` passes its
range test (`-rc > 8` is false) and reads `__libmqtt_error_strings[8]`, one entry
past the end of the table of eight entries: undefined behaviour.  For every other
`int` outside -8..-1, the least `int` apart (whose negation overflows), it returns
the null pointer without reading the table. -/
theorem C38_strerror_reads_past_table :
    (libmqtt__strerror (-8)).2 = true ∧
    __libmqtt_error_strings.length = 8 ∧
    __libmqtt_error_strings.get? 8 = none ∧
    libmqtt__strerror 0 = (none, false) ∧
    libmqtt__strerror 1 = (none, false) ∧
    libmqtt__strerror (-9) = (none, false) ∧
    (∀ rc : Int, -2147483648 < rc → rc ≤ 2147483647 → (rc < -8 ∨ 0 ≤ rc) →
      libmqtt__strerror rc = (none, false)) := by
  refine ⟨by decide, by decide, by decide, by decide, by decide, by decide, ?_⟩
  intro rc h0 _ h2
  unfold libmqtt__strerror
  rw [if_neg (by omega), if_pos (by omega)]

theorem getD_sum_one (a : Nat) :
    ((List.range [a].length).map (fun i => ([a].getD i 0 % 128) * 128 ^ i)).sum = a % 128 := by
  simp [List.range_succ]

theorem getD_sum_two (a b : Nat) :
    ((List.range [a, b].length).map (fun i => ([a, b].getD i 0 % 128) * 128 ^ i)).sum
      = a % 128 + (b % 128) * 128 := by
  simp [List.range_succ]

theorem getD_sum_three (a b c : Nat) :
    ((List.range [a, b, c].length).map (fun i => ([a, b, c].getD i 0 % 128) * 128 ^ i)).sum
      = a % 128 + (b % 128) * 128 + (c % 128) * 16384 := by
  simp [List.range_succ]
  omega

theorem getD_sum_four (a b c d : Nat) :
    ((List.range [a, b, c, d].length).map
        (fun i => ([a, b, c, d].getD i 0 % 128) * 128 ^ i)).sum
      = a % 128 + (b % 128) * 128 + (c % 128) * 16384 + (d % 128) * 2097152 := by
  simp [List.range_succ]
  omega

/-- C33. The remaining-length encoding, for every `R` from 0 to 268435455:
`__pack_remain_length` stores between 1 and 4 bytes; every byte but the last has its
high bit set and the last has it clear; the sum over the positions `i` of
`(byte_i & 0x7F) * 128^i` is `R`; and the number of bytes is 1 for `R < 128`, 2 for
`R < 16384`, 3 for `R < 2097152` and 4 otherwise. -/
theorem C33_remaining_length_encoding (R : Int) (h0 : 0 ≤ R) (h1 : R ≤ 268435455) :
    1 ≤ (__pack_remain_length R).length ∧ (__pack_remain_length R).length ≤ 4 ∧
    (∀ i, i + 1 < (__pack_remain_length R).length →
      128 ≤ (__pack_remain_length R).getD i 0 ∧ (__pack_remain_length R).getD i 0 < 256) ∧
    (∃ b, (__pack_remain_length R).getLast? = some b ∧ b < 128) ∧
    ((((List.range (__pack_remain_length R).length).map
        (fun i => ((__pack_remain_length R).getD i 0 % 128) * 128 ^ i)).sum : Nat) : Int) = R ∧
    (__pack_remain_length R).length
      = (if R < 128 then 1 else if R < 16384 then 2 else if R < 2097152 then 3 else 4) := by
  rw [pack_remain_length_eq R h0 (by omega)]
  obtain ⟨n, hn⟩ : ∃ n : Nat, R = (n : Int) := ⟨R.toNat, by omega⟩
  subst hn
  simp only [Int.toNat_ofNat]
  unfold specRemainingLength
  by_cases c1 : n < 128
  · have d1 : (n : Int) < 128 := by omega
    rw [if_pos c1, if_pos d1, getD_sum_one]
    refine ⟨by simp, by simp, ?_, ⟨n, rfl, c1⟩, by omega, rfl⟩
    intro i hi
    simp at hi
  have d1 : ¬ (n : Int) < 128 := by omega
  rw [if_neg c1, if_neg d1]
  by_cases c2 : n < 16384
  · have d2 : (n : Int) < 16384 := by omega
    rw [if_pos c2, if_pos d2, getD_sum_two]
    refine ⟨by simp, by simp, ?_, ⟨n / 128, rfl, by omega⟩, by omega, rfl⟩
    intro i hi
    have : i = 0 := by simp at hi; omega
    subst this
    simp only [List.getD_cons_zero]
    omega
  have d2 : ¬ (n : Int) < 16384 := by omega
  rw [if_neg c2, if_neg d2]
  by_cases c3 : n < 2097152
  · have d3 : (n : Int) < 2097152 := by omega
    rw [if_pos c3, if_pos d3, getD_sum_three]
    refine ⟨by simp, by simp, ?_, ⟨n / 16384, rfl, by omega⟩, by omega, rfl⟩
    intro i hi
    have : i = 0 ∨ i = 1 := by simp at hi; omega
    rcases this with e | e <;> subst e
    · simp only [List.getD_cons_zero]
      omega
    · simp only [List.getD_cons_succ, List.getD_cons_zero]
      omega
  have d3 : ¬ (n : Int) < 2097152 := by omega
  rw [if_neg c3, if_neg d3, getD_sum_four]
  refine ⟨by simp, by simp, ?_, ⟨n / 2097152, rfl, by omega⟩, by omega, rfl⟩
  intro i hi
  have : i = 0 ∨ i = 1 ∨ i = 2 := by simp at hi; omega
  rcases this with e | e | e <;> subst e
  · simp only [List.getD_cons_zero]
    omega
  · simp only [List.getD_cons_succ, List.getD_cons_zero]
    omega
  · simp only [List.getD_cons_succ, List.getD_cons_zero]
    omega

/-- C33, witness: the remaining length 321 is stored as `C1 02`. -/
theorem C33_remaining_length_encoding_witness :
    __pack_remain_length 321 = [0xC1, 0x02] ∧
    (__pack_remain_length 321).length = (if (321 : Int) < 128 then 1 else if (321 : Int) < 16384
      then 2 else if (321 : Int) < 2097152 then 3 else 4) :=
  ⟨by decide, (C33_remaining_length_encoding 321 (by decide) (by decide)).2.2.2.2.2⟩

theorem serialize_id_bytes (first : Nat) (pkt : mqtt_packet) (id : Int)
    (hf : first < 256) (h0 : 0 ≤ id) (h1 : id < 65536) (hid : pkt.v.packet_id = id) :
    __serialize_id (first : Int) pkt = (0, ⟨some (ackArray first id), 4⟩) := by
  unfold __serialize_id ackArray mqtt_b_write_u8 mqtt_b_write_u16
  rw [hid]
  have e1 : toByte ((first : Nat) : Int) = first := by unfold toByte; omega
  have e2 : toByte (id % 65536 / 256) = toByte (id / 256 % 256) := by
    congr 1
    omega
  have e3 : toByte (id % 65536 % 256) = toByte (id % 256) := by
    congr 1
    omega
  simp only [e1, e2, e3]
  rfl

/-- C39. The hand-written control packets against the serializer, for every 16-bit
packet id: for a packet of type PUBACK, PUBREC, PUBREL, PUBCOMP or UNSUBACK with
that id, `mqtt__serialize` returns 0 and a buffer of four bytes equal to the array
of the macro `MQTT_PUBACK(id)`, `MQTT_PUBREC(id)`, `MQTT_PUBREL(id)`,
`MQTT_PUBCOMP(id)` or `MQTT_UNSUBACK(id)`; and for a packet of type PINGREQ, PINGRESP
or DISCONNECT it returns 0 and the two bytes of `MQTT_PINGREQ`, `MQTT_PINGRESP` or
`MQTT_DISCONNECT`. -/
theorem C39_macros_equal_serializer (id : Int) (h0 : 0 ≤ id) (h1 : id < 65536) :
    (∀ pkt : mqtt_packet, pkt.v.packet_id = id →
      (pkt.h.type = PUBACK → mqtt__serialize pkt = (0, ⟨some (MQTT_PUBACK id), 4⟩)) ∧
      (pkt.h.type = PUBREC → mqtt__serialize pkt = (0, ⟨some (MQTT_PUBREC id), 4⟩)) ∧
      (pkt.h.type = PUBREL → mqtt__serialize pkt = (0, ⟨some (MQTT_PUBREL id), 4⟩)) ∧
      (pkt.h.type = PUBCOMP → mqtt__serialize pkt = (0, ⟨some (MQTT_PUBCOMP id), 4⟩)) ∧
      (pkt.h.type = UNSUBACK → mqtt__serialize pkt = (0, ⟨some (MQTT_UNSUBACK id), 4⟩))) ∧
    (∀ pkt : mqtt_packet,
      (pkt.h.type = PINGREQ → mqtt__serialize pkt = (0, ⟨some MQTT_PINGREQ, 2⟩)) ∧
      (pkt.h.type = PINGRESP → mqtt__serialize pkt = (0, ⟨some MQTT_PINGRESP, 2⟩)) ∧
      (pkt.h.type = DISCONNECT → mqtt__serialize pkt = (0, ⟨some MQTT_DISCONNECT, 2⟩))) ∧
    (mqtt__serialize (mkAck PUBACK id)).2.bytes = MQTT_PUBACK id ∧
    (mqtt__serialize (mkAck PUBREC id)).2.bytes = MQTT_PUBREC id ∧
    (mqtt__serialize (mkAck PUBREL id)).2.bytes = MQTT_PUBREL id ∧
    (mqtt__serialize (mkAck PUBCOMP id)).2.bytes = MQTT_PUBCOMP id ∧
    (mqtt__serialize (mkAck UNSUBACK id)).2.bytes = MQTT_UNSUBACK id ∧
    (mqtt__serialize (mkEmpty PINGREQ)).2.bytes = MQTT_PINGREQ ∧
    (mqtt__serialize (mkEmpty PINGRESP)).2.bytes = MQTT_PINGRESP ∧
    (mqtt__serialize (mkEmpty DISCONNECT)).2.bytes = MQTT_DISCONNECT := by
  have key : ∀ pkt : mqtt_packet, pkt.v.packet_id = id →
      (pkt.h.type = PUBACK → mqtt__serialize pkt = (0, ⟨some (MQTT_PUBACK id), 4⟩)) ∧
      (pkt.h.type = PUBREC → mqtt__serialize pkt = (0, ⟨some (MQTT_PUBREC id), 4⟩)) ∧
      (pkt.h.type = PUBREL → mqtt__serialize pkt = (0, ⟨some (MQTT_PUBREL id), 4⟩)) ∧
      (pkt.h.type = PUBCOMP → mqtt__serialize pkt = (0, ⟨some (MQTT_PUBCOMP id), 4⟩)) ∧
      (pkt.h.type = UNSUBACK → mqtt__serialize pkt = (0, ⟨some (MQTT_UNSUBACK id), 4⟩)) := by
    intro pkt hid
    refine ⟨?_, ?_, ?_, ?_, ?_⟩
    · intro ht
      rw [serialize_of_type_4 pkt ht]
      exact serialize_id_bytes 0x40 pkt id (by decide) h0 h1 hid
    · intro ht
      rw [serialize_of_type_5 pkt ht]
      exact serialize_id_bytes 0x50 pkt id (by decide) h0 h1 hid
    · intro ht
      rw [serialize_of_type_6 pkt ht]
      exact serialize_id_bytes 0x62 pkt id (by decide) h0 h1 hid
    · intro ht
      rw [serialize_of_type_7 pkt ht]
      exact serialize_id_bytes 0x70 pkt id (by decide) h0 h1 hid
    · intro ht
      rw [serialize_of_type_11 pkt ht]
      exact serialize_id_bytes 0xb0 pkt id (by decide) h0 h1 hid
  have key2 : ∀ pkt : mqtt_packet,
      (pkt.h.type = PINGREQ → mqtt__serialize pkt = (0, ⟨some MQTT_PINGREQ, 2⟩)) ∧
      (pkt.h.type = PINGRESP → mqtt__serialize pkt = (0, ⟨some MQTT_PINGRESP, 2⟩)) ∧
      (pkt.h.type = DISCONNECT → mqtt__serialize pkt = (0, ⟨some MQTT_DISCONNECT, 2⟩)) := by
    intro pkt
    refine ⟨?_, ?_, ?_⟩
    · intro ht
      rw [serialize_of_type_12 pkt ht]
      rfl
    · intro ht
      rw [serialize_of_type_13 pkt ht]
      rfl
    · intro ht
      rw [serialize_of_type_14 pkt ht]
      rfl
  have hb : ∀ (l : List Nat) (n : Nat), l.length = n →
      mqtt_b.bytes ⟨some l, (n : Int)⟩ = l := by
    intro l n hl
    unfold mqtt_b.bytes memBytes
    simp [← hl]
  refine ⟨key, key2, ?_, ?_, ?_, ?_, ?_, ?_, ?_, ?_⟩
  · rw [(key (mkAck PUBACK id) rfl).1 rfl]
    exact hb _ 4 rfl
  · rw [(key (mkAck PUBREC id) rfl).2.1 rfl]
    exact hb _ 4 rfl
  · rw [(key (mkAck PUBREL id) rfl).2.2.1 rfl]
    exact hb _ 4 rfl
  · rw [(key (mkAck PUBCOMP id) rfl).2.2.2.1 rfl]
    exact hb _ 4 rfl
  · rw [(key (mkAck UNSUBACK id) rfl).2.2.2.2 rfl]
    exact hb _ 4 rfl
  · rw [(key2 (mkEmpty PINGREQ)).1 rfl]
    exact hb _ 2 rfl
  · rw [(key2 (mkEmpty PINGRESP)).2.1 rfl]
    exact hb _ 2 rfl
  · rw [(key2 (mkEmpty DISCONNECT)).2.2 rfl]
    exact hb _ 2 rfl

/-- C39, witness: the packet id 0x1234, for which `MQTT_PUBREL` is `62 02 12 34`. -/
theorem C39_macros_equal_serializer_witness :
    MQTT_PUBREL 0x1234 = [0x62, 0x02, 0x12, 0x34] ∧
    (mqtt__serialize (mkAck PUBREL 0x1234)).2.bytes = MQTT_PUBREL 0x1234 :=
  ⟨by decide, (C39_macros_equal_serializer 0x1234 (by decide) (by decide)).2.2.2.2.1⟩

theorem wfStr_ofBytes (s : List Nat) (h : s.length ≤ 65535) : WFStr (mqtt_b.ofBytes s) := by
  refine ⟨?_, ?_, ?_⟩
  · show (0 : Int) ≤ (s.length : Int)
    omega
  · show (s.length : Int) ≤ 65535
    omega
  · rw [ofBytes_bytes]
    rfl

/-- The round trip of a length-prefixed string through `mqtt_b_write_utf` and
`mqtt_b_read_utf`, for a string of at most 65535 bytes followed in the region by
the bytes `rest`: where plain `char` is unsigned, or both bytes of the length are
below 0x80, the segment read has the length of the string and points at its
bytes, and the cursor is advanced by 2 plus that length; for the empty string the
segment keeps the pointer it had and has the length 0. -/
theorem utf_round_trip (sc : Bool) (s rest : List Nat) (r0 : mqtt_b) (n : Int)
    (hlen : s.length ≤ 65535)
    (hok : sc = false ∨ (s.length / 256 < 128 ∧ s.length % 256 < 128)) :
    mqtt_b_read_utf sc ⟨some (mqtt_b_write_utf [] (mqtt_b.ofBytes s) ++ rest), n⟩ r0
      = (⟨some rest, n - (2 + (s.length : Int))⟩,
         ⟨if s = [] then r0.s else some (s ++ rest), (s.length : Int)⟩) := by
  rw [write_utf_eq [] _ (wfStr_ofBytes s hlen), ofBytes_bytes]
  unfold specUtf mqtt_b_read_utf peek advance
  simp only [List.nil_append, List.cons_append, Option.getD_some, List.getD_cons_zero,
    List.getD_cons_succ, Option.map_some']
  have hv : charVal sc (s.length / 256) * 256 + charVal sc (s.length % 256)
      = (s.length : Int) := by
    unfold charVal
    rcases hok with h | h
    · subst h
      simp only [Bool.false_and]
      push_cast
      omega
    · have h1 : ¬ 128 ≤ s.length / 256 := by omega
      have h2 : ¬ 128 ≤ s.length % 256 := by omega
      simp only [h1, h2, decide_False, Bool.and_false]
      push_cast
      omega
  rw [hv]
  by_cases he : s = []
  · subst he
    simp
  · have hpos : (s.length : Int) > 0 := by
      have := List.length_pos.mpr he
      omega
    simp only [hpos, if_true, he, if_false, Int.toNat_ofNat, List.drop_succ_cons, List.drop_zero,
      List.nil_append, List.drop_left]
    congr 1
    congr 1
    omega

/-- The same round trip where plain `char` is signed, for a string of 128 to 255
bytes: the low byte of the length is read as a negative number, so the segment
read has the length of the string less 256, keeps the pointer it had, and the
cursor is advanced by 2 bytes only. -/
theorem utf_read_sign_extended (s rest : List Nat) (r0 : mqtt_b) (n : Int)
    (h0 : 128 ≤ s.length) (h1 : s.length ≤ 255) :
    mqtt_b_read_utf true ⟨some (mqtt_b_write_utf [] (mqtt_b.ofBytes s) ++ rest), n⟩ r0
      = (⟨some (s ++ rest), n - 2⟩, ⟨r0.s, (s.length : Int) - 256⟩) := by
  rw [write_utf_eq [] _ (wfStr_ofBytes s (by omega)), ofBytes_bytes]
  unfold specUtf mqtt_b_read_utf peek advance
  simp only [List.nil_append, List.cons_append, Option.getD_some, List.getD_cons_zero,
    List.getD_cons_succ, Option.map_some']
  have hv : charVal true (s.length / 256) * 256 + charVal true (s.length % 256)
      = (s.length : Int) - 256 := by
    unfold charVal
    have h2 : ¬ 128 ≤ s.length / 256 := by omega
    have h3 : 128 ≤ s.length % 256 := by omega
    simp only [h2, h3, decide_False, decide_True, Bool.and_false, Bool.and_true, Bool.true_and]
    simp only [Bool.false_eq_true, if_false, if_true]
    push_cast
    omega
  rw [hv]
  have hneg : ¬ ((s.length : Int) - 256 > 0) := by omega
  simp only [hneg, if_false, List.drop_succ_cons, List.drop_zero]

/-- C34 (code defect). The string of 128 bytes "aa...a" is written by
`mqtt_b_write_utf` as `00 80` followed by its bytes.  Where plain `char` is signed,
`mqtt_b_read_utf` reads the length as -128: the segment returned has the length
-128 and no pointer, and the cursor is advanced by 2 bytes only, not by 130.  Where
`char` is unsigned the segment has the length 128 and the bytes of the string, and
the cursor is advanced by 130.  The empty string (`00 00`) is read as the segment
of length 0 with either signedness, and so is every string whose two length bytes
are below 0x80. -/
theorem C34_utf_length_128_sign_extended :
    mqtt_b_write_utf [] (mqtt_b.ofBytes (List.replicate 128 0x61))
      = [0x00, 0x80] ++ List.replicate 128 0x61 ∧
    mqtt_b_read_utf true
        ⟨some (mqtt_b_write_utf [] (mqtt_b.ofBytes (List.replicate 128 0x61))), 130⟩ mqtt_b.zero
      = (⟨some (List.replicate 128 0x61), 128⟩, ⟨none, -128⟩) ∧
    mqtt_b_read_utf false
        ⟨some (mqtt_b_write_utf [] (mqtt_b.ofBytes (List.replicate 128 0x61))), 130⟩ mqtt_b.zero
      = (⟨some [], 0⟩, ⟨some (List.replicate 128 0x61), 128⟩) ∧
    (∀ signedChar : Bool,
      mqtt_b_read_utf signedChar ⟨some (mqtt_b_write_utf [] (mqtt_b.ofBytes [])), 2⟩ mqtt_b.zero
        = (⟨some [], 0⟩, ⟨none, 0⟩)) ∧
    (∀ (signedChar : Bool) (s rest : List Nat) (r0 : mqtt_b) (n : Int), s.length ≤ 65535 →
      (signedChar = false ∨ (s.length / 256 < 128 ∧ s.length % 256 < 128)) →
      (mqtt_b_read_utf signedChar
          ⟨some (mqtt_b_write_utf [] (mqtt_b.ofBytes s) ++ rest), n⟩ r0).1
        = ⟨some rest, n - (2 + (s.length : Int))⟩ ∧
      (mqtt_b_read_utf signedChar
          ⟨some (mqtt_b_write_utf [] (mqtt_b.ofBytes s) ++ rest), n⟩ r0).2.n
        = (s.length : Int) ∧
      (mqtt_b_read_utf signedChar
          ⟨some (mqtt_b_write_utf [] (mqtt_b.ofBytes s) ++ rest), n⟩ r0).2.bytes = s) := by
  have hl : (List.replicate 128 0x61 : List Nat).length = 128 := List.length_replicate _ _
  have hw : mqtt_b_write_utf [] (mqtt_b.ofBytes (List.replicate 128 0x61))
      = [0x00, 0x80] ++ List.replicate 128 0x61 := by
    rw [write_utf_eq [] _ (wfStr_ofBytes _ (by rw [hl]; decide)), ofBytes_bytes]
    unfold specUtf
    rw [hl]
    rfl
  refine ⟨hw, ?_, ?_, ?_, ?_⟩
  · have h := utf_read_sign_extended (List.replicate 128 0x61) [] mqtt_b.zero 130
      (by rw [hl]) (by rw [hl]; decide)
    rw [List.append_nil, List.append_nil, hl] at h
    exact h
  · have h := utf_round_trip false (List.replicate 128 0x61) [] mqtt_b.zero 130
      (by rw [hl]; decide) (Or.inl rfl)
    rw [List.append_nil, List.append_nil, hl, if_neg (by decide)] at h
    exact h
  · intro signedChar
    cases signedChar <;> decide
  · intro signedChar s rest r0 n hlen hok
    rw [utf_round_trip signedChar s rest r0 n hlen hok]
    refine ⟨rfl, rfl, ?_⟩
    unfold mqtt_b.bytes memBytes
    by_cases he : s = []
    · subst he
      simp
    · simp [he]

/-- C37 (code defect). After two insertions the tail pointer designates the last
record.  `__delete_pub` of that record (the most recently inserted one) frees it and
leaves `pub.tail` pointing at it, while the older record remains in the list: the
tail pointer no longer designates the last record reachable from the head.  The
next `__insert_pub` (packet id 3) assigns `pub.tail->next` through the dangling
pointer, which is undefined behaviour, and the new record is not reachable from
the head: the table holds the record of id 1 only and `__find_pub` for the id 3
returns null.  When the older record is deleted instead, or after a sweep (which
leaves the list empty), the next insertion is found.  The list after the deletion
is the one of the session `staleTailSession`: two QoS 1 publish calls and the PUBACK
of the peer for the second. -/
theorem C37_tail_pointer_stale_after_delete :
    twoRecords.table
      = [outPub 1 [0x61] 1 0 [0x78] libmqtt_state.LIBMQTT_ST_WAIT_PUBACK 0,
         outPub 2 [0x62] 1 0 [0x79] libmqtt_state.LIBMQTT_ST_WAIT_PUBACK 0] ∧
    twoRecords.TailOk ∧ twoRecords.ub = false ∧
    staleTailSession.heap = (__delete_pub twoRecords 1).heap ∧
    staleTailSession.pub = (__delete_pub twoRecords 1).pub ∧
    (__delete_pub twoRecords 1).table
      = [outPub 1 [0x61] 1 0 [0x78] libmqtt_state.LIBMQTT_ST_WAIT_PUBACK 0] ∧
    (__delete_pub twoRecords 1).pub = ⟨some 0, some 1⟩ ∧
    (__delete_pub twoRecords 1).deref 1 = none ∧
    (__delete_pub twoRecords 1).ub = false ∧
    ¬ (__delete_pub twoRecords 1).TailOk ∧
    (__insert_pub (__delete_pub twoRecords 1) (publishPacket [0x63, 0] 1 0 3 (some [0x7A]) 1)
      libmqtt_dir.LIBMQTT_DIR_OUT libmqtt_state.LIBMQTT_ST_WAIT_PUBACK).2.table
      = [outPub 1 [0x61] 1 0 [0x78] libmqtt_state.LIBMQTT_ST_WAIT_PUBACK 0] ∧
    (__find_pub
      (__insert_pub (__delete_pub twoRecords 1) (publishPacket [0x63, 0] 1 0 3 (some [0x7A]) 1)
        libmqtt_dir.LIBMQTT_DIR_OUT libmqtt_state.LIBMQTT_ST_WAIT_PUBACK).2
      3 libmqtt_dir.LIBMQTT_DIR_OUT libmqtt_state.LIBMQTT_ST_WAIT_PUBACK).1 = none ∧
    (__insert_pub (__delete_pub twoRecords 1) (publishPacket [0x63, 0] 1 0 3 (some [0x7A]) 1)
      libmqtt_dir.LIBMQTT_DIR_OUT libmqtt_state.LIBMQTT_ST_WAIT_PUBACK).2.ub = true ∧
    (__delete_pub twoRecords 0).TailOk ∧
    (__find_pub
      (__insert_pub (__delete_pub twoRecords 0) (publishPacket [0x63, 0] 1 0 3 (some [0x7A]) 1)
        libmqtt_dir.LIBMQTT_DIR_OUT libmqtt_state.LIBMQTT_ST_WAIT_PUBACK).2
      3 libmqtt_dir.LIBMQTT_DIR_OUT libmqtt_state.LIBMQTT_ST_WAIT_PUBACK).1 = some 2 ∧
    (__check_pub twoRecords).TailOk ∧
    (__find_pub
      (__insert_pub (__check_pub twoRecords) (publishPacket [0x63, 0] 1 0 3 (some [0x7A]) 1)
        libmqtt_dir.LIBMQTT_DIR_OUT libmqtt_state.LIBMQTT_ST_WAIT_PUBACK).2
      3 libmqtt_dir.LIBMQTT_DIR_OUT libmqtt_state.LIBMQTT_ST_WAIT_PUBACK).1 = some 2 ∧
    (__insert_pub (__check_pub twoRecords) (publishPacket [0x63, 0] 1 0 3 (some [0x7A]) 1)
      libmqtt_dir.LIBMQTT_DIR_OUT libmqtt_state.LIBMQTT_ST_WAIT_PUBACK).2.TailOk := by
  and_intros <;> decide

/-- The handlers `__on_puback`, `__on_pubrec`, `__on_pubrel` and `__on_pubcomp` on a
well-formed record list that holds no record with the packet id of the packet in
the direction and state the handler looks for: each returns -1 and leaves the
session as it is, so no hook is invoked, nothing is written and the table is
unchanged. -/
theorem on_ack_unmatched (m : libmqtt) (as : List Nat) (p : mqtt_packet)
    (hc : IsChain m.heap m.pub.head as) :
    ((∀ a ∈ as, ∀ r, m.deref a = some r →
        ¬ (r.p.packet_id = p.v.packet_id ∧ r.d = libmqtt_dir.LIBMQTT_DIR_OUT ∧
          r.s = libmqtt_state.LIBMQTT_ST_WAIT_PUBACK)) → __on_puback m p = (-1, m)) ∧
    ((∀ a ∈ as, ∀ r, m.deref a = some r →
        ¬ (r.p.packet_id = p.v.packet_id ∧ r.d = libmqtt_dir.LIBMQTT_DIR_OUT ∧
          r.s = libmqtt_state.LIBMQTT_ST_WAIT_PUBREC)) → __on_pubrec m p = (-1, m)) ∧
    ((∀ a ∈ as, ∀ r, m.deref a = some r →
        ¬ (r.p.packet_id = p.v.packet_id ∧ r.d = libmqtt_dir.LIBMQTT_DIR_IN ∧
          r.s = libmqtt_state.LIBMQTT_ST_WAIT_PUBREL)) → __on_pubrel m p = (-1, m)) ∧
    ((∀ a ∈ as, ∀ r, m.deref a = some r →
        ¬ (r.p.packet_id = p.v.packet_id ∧ r.d = libmqtt_dir.LIBMQTT_DIR_OUT ∧
          r.s = libmqtt_state.LIBMQTT_ST_WAIT_PUBCOMP)) → __on_pubcomp m p = (-1, m)) := by
  refine ⟨?_, ?_, ?_, ?_⟩
  · intro hno
    unfold __on_puback
    simp only [find_pub_none m as _ _ _ hc hno]
  · intro hno
    unfold __on_pubrec
    simp only [find_pub_none m as _ _ _ hc hno]
  · intro hno
    unfold __on_pubrel
    simp only [find_pub_none m as _ _ _ hc hno]
  · intro hno
    unfold __on_pubcomp
    simp only [find_pub_none m as _ _ _ hc hno]

/-- An unmatched acknowledgement on the wire: the bytes that `mqtt__serialize` gives
for a PUBACK, PUBREC, PUBREL or PUBCOMP with the packet id `id`, fed to an
authenticated parser in state `MQTT_ST_FIXED` with the callbacks of
`libmqtt__create`, make `mqtt__parse` return -1 and leave the session as it is,
when the well-formed record list holds no record in the direction and state of
the type whose packet id is the id that the parser decodes (`decodedId`: the id
itself where plain `char` is unsigned or the low byte of the id is below 0x80). -/
theorem ack_unmatched_parse (sc : Bool) (p : mqtt_parser_t libmqtt) (m : libmqtt)
    (as : List Nat) (t id : Int) (d : libmqtt_dir) (s : libmqtt_state)
    (ht : (t = PUBACK ∧ d = libmqtt_dir.LIBMQTT_DIR_OUT ∧
            s = libmqtt_state.LIBMQTT_ST_WAIT_PUBACK) ∨
          (t = PUBREC ∧ d = libmqtt_dir.LIBMQTT_DIR_OUT ∧
            s = libmqtt_state.LIBMQTT_ST_WAIT_PUBREC) ∨
          (t = PUBREL ∧ d = libmqtt_dir.LIBMQTT_DIR_IN ∧
            s = libmqtt_state.LIBMQTT_ST_WAIT_PUBREL) ∨
          (t = PUBCOMP ∧ d = libmqtt_dir.LIBMQTT_DIR_OUT ∧
            s = libmqtt_state.LIBMQTT_ST_WAIT_PUBCOMP))
    (h0 : 0 ≤ id) (h1 : id < 65536)
    (hst : p.state = mqtt_parser_state.MQTT_ST_FIXED) (hauth : p.auth ≠ 0)
    (hcb : p.cb = libmqtt__create_p.cb)
    (hc : IsChain m.heap m.pub.head as)
    (hno : ∀ a ∈ as, ∀ r, m.deref a = some r →
      ¬ (r.p.packet_id = decodedId sc id ∧ r.d = d ∧ r.s = s)) :
    (mqtt__parse sc p m (mqtt__serialize (mkAck t id)).2).1 = -1 ∧
    (mqtt__parse sc p m (mqtt__serialize (mkAck t id)).2).2.2 = m := by
  rcases ht with ⟨e1, e2, e3⟩ | ⟨e1, e2, e3⟩ | ⟨e1, e2, e3⟩ | ⟨e1, e2, e3⟩
  · subst e1 e2 e3
    obtain ⟨pkt, _, hid, r1, r2⟩ := ack_round_trip sc PUBACK id p m __on_puback
      (Or.inl rfl) h0 h1 hst hauth (by rw [hcb]; rfl)
    rw [r1, r2, (on_ack_unmatched m as pkt hc).1 (by rw [hid]; exact hno)]
    exact ⟨rfl, rfl⟩
  · subst e1 e2 e3
    obtain ⟨pkt, _, hid, r1, r2⟩ := ack_round_trip sc PUBREC id p m __on_pubrec
      (Or.inr (Or.inl rfl)) h0 h1 hst hauth (by rw [hcb]; rfl)
    rw [r1, r2, (on_ack_unmatched m as pkt hc).2.1 (by rw [hid]; exact hno)]
    exact ⟨rfl, rfl⟩
  · subst e1 e2 e3
    obtain ⟨pkt, _, hid, r1, r2⟩ := ack_round_trip sc PUBREL id p m __on_pubrel
      (Or.inr (Or.inr (Or.inl rfl))) h0 h1 hst hauth (by rw [hcb]; rfl)
    rw [r1, r2, (on_ack_unmatched m as pkt hc).2.2.1 (by rw [hid]; exact hno)]
    exact ⟨rfl, rfl⟩
  · subst e1 e2 e3
    obtain ⟨pkt, _, hid, r1, r2⟩ := ack_round_trip sc PUBCOMP id p m __on_pubcomp
      (Or.inr (Or.inr (Or.inr (Or.inl rfl)))) h0 h1 hst hauth (by rw [hcb]; rfl)
    rw [r1, r2, (on_ack_unmatched m as pkt hc).2.2.2 (by rw [hid]; exact hno)]
    exact ⟨rfl, rfl⟩

/-- C35 (code defect). In a connected session with an empty table the PUBACK,
PUBREC, PUBREL and PUBCOMP for the id 7 make `mqtt__parse` return -1: no hook is
invoked, nothing is written and the table stays empty; and with the outbound
record of id 1 in WAIT_PUBACK, the PUBACK for the id 2 and the PUBREC, PUBREL and
PUBCOMP for the id 1 are rejected in the same way.  Where plain `char` is signed,
a session that holds the inbound record of id 65408 in WAIT_PUBREL, and no record
of id 128, accepts the PUBREL for the id 128, `62 02 00 80`: `mqtt__parse` returns
0, the hook `publish` is invoked, the PUBCOMP `70 02 FF 80` is written and the
record is removed. -/
theorem C35_unmatched_pubrel_id_128_accepted :
    (∀ signedChar : Bool,
      (mqtt__parse_bytes signedChar connectedClient.1 connectedClient.2
        [0x40, 0x02, 0x00, 0x07]).1 = -1 ∧
      (mqtt__parse_bytes signedChar connectedClient.1 connectedClient.2
        [0x40, 0x02, 0x00, 0x07]).2.2 = connectedClient.2 ∧
      (mqtt__parse_bytes signedChar connectedClient.1 connectedClient.2
        [0x50, 0x02, 0x00, 0x07]).1 = -1 ∧
      (mqtt__parse_bytes signedChar connectedClient.1 connectedClient.2
        [0x50, 0x02, 0x00, 0x07]).2.2 = connectedClient.2 ∧
      (mqtt__parse_bytes signedChar connectedClient.1 connectedClient.2
        [0x62, 0x02, 0x00, 0x07]).1 = -1 ∧
      (mqtt__parse_bytes signedChar connectedClient.1 connectedClient.2
        [0x62, 0x02, 0x00, 0x07]).2.2 = connectedClient.2 ∧
      (mqtt__parse_bytes signedChar connectedClient.1 connectedClient.2
        [0x70, 0x02, 0x00, 0x07]).1 = -1 ∧
      (mqtt__parse_bytes signedChar connectedClient.1 connectedClient.2
        [0x70, 0x02, 0x00, 0x07]).2.2 = connectedClient.2) ∧
    (∀ signedChar : Bool,
      (mqtt__parse_bytes signedChar connectedClient.1
        (libmqtt__publish connectedClient.2 [0x61, 0] 1 0 (some [0x78]) 1).2.2
        [0x40, 0x02, 0x00, 0x02]).1 = -1 ∧
      (mqtt__parse_bytes signedChar connectedClient.1
        (libmqtt__publish connectedClient.2 [0x61, 0] 1 0 (some [0x78]) 1).2.2
        [0x40, 0x02, 0x00, 0x02]).2.2
        = (libmqtt__publish connectedClient.2 [0x61, 0] 1 0 (some [0x78]) 1).2.2 ∧
      (mqtt__parse_bytes signedChar connectedClient.1
        (libmqtt__publish connectedClient.2 [0x61, 0] 1 0 (some [0x78]) 1).2.2
        [0x50, 0x02, 0x00, 0x01]).1 = -1 ∧
      (mqtt__parse_bytes signedChar connectedClient.1
        (libmqtt__publish connectedClient.2 [0x61, 0] 1 0 (some [0x78]) 1).2.2
        [0x50, 0x02, 0x00, 0x01]).2.2
        = (libmqtt__publish connectedClient.2 [0x61, 0] 1 0 (some [0x78]) 1).2.2 ∧
      (mqtt__parse_bytes signedChar connectedClient.1
        (libmqtt__publish connectedClient.2 [0x61, 0] 1 0 (some [0x78]) 1).2.2
        [0x62, 0x02, 0x00, 0x01]).1 = -1 ∧
      (mqtt__parse_bytes signedChar connectedClient.1
        (libmqtt__publish connectedClient.2 [0x61, 0] 1 0 (some [0x78]) 1).2.2
        [0x62, 0x02, 0x00, 0x01]).2.2
        = (libmqtt__publish connectedClient.2 [0x61, 0] 1 0 (some [0x78]) 1).2.2 ∧
      (mqtt__parse_bytes signedChar connectedClient.1
        (libmqtt__publish connectedClient.2 [0x61, 0] 1 0 (some [0x78]) 1).2.2
        [0x70, 0x02, 0x00, 0x01]).1 = -1 ∧
      (mqtt__parse_bytes signedChar connectedClient.1
        (libmqtt__publish connectedClient.2 [0x61, 0] 1 0 (some [0x78]) 1).2.2
        [0x70, 0x02, 0x00, 0x01]).2.2
        = (libmqtt__publish connectedClient.2 [0x61, 0] 1 0 (some [0x78]) 1).2.2) ∧
    (mqtt__parse_bytes true connectedClient.1 connectedClient.2
      [0x34, 0x06, 0x00, 0x01, 0x61, 0x00, 0x80, 0x78]).2.2.table
      = [inPub 65408 [0x61] 2 0 [0x78] libmqtt_state.LIBMQTT_ST_WAIT_PUBREL 0] ∧
    (mqtt__parse_bytes true connectedClient.1
      (mqtt__parse_bytes true connectedClient.1 connectedClient.2
        [0x34, 0x06, 0x00, 0x01, 0x61, 0x00, 0x80, 0x78]).2.2
      [0x62, 0x02, 0x00, 0x80]).1 = 0 ∧
    (mqtt__parse_bytes true connectedClient.1
      (mqtt__parse_bytes true connectedClient.1 connectedClient.2
        [0x34, 0x06, 0x00, 0x01, 0x61, 0x00, 0x80, 0x78]).2.2
      [0x62, 0x02, 0x00, 0x80]).2.2.calls
      = [libmqtt_call.connack 0 0, libmqtt_call.publish [0x61] 2 0 [0x78] 1] ∧
    (mqtt__parse_bytes true connectedClient.1
      (mqtt__parse_bytes true connectedClient.1 connectedClient.2
        [0x34, 0x06, 0x00, 0x01, 0x61, 0x00, 0x80, 0x78]).2.2
      [0x62, 0x02, 0x00, 0x80]).2.2.wire.getLast? = some ([0x70, 0x02, 0xFF, 0x80], 4) ∧
    (mqtt__parse_bytes true connectedClient.1
      (mqtt__parse_bytes true connectedClient.1 connectedClient.2
        [0x34, 0x06, 0x00, 0x01, 0x61, 0x00, 0x80, 0x78]).2.2
      [0x62, 0x02, 0x00, 0x80]).2.2.table = [] := by
  refine ⟨?_, ?_, by decide, by decide, by decide, by decide, by decide⟩ <;>
    intro signedChar <;> cases signedChar <;> decide

/-- C36 (code defect). The CONNECT `10 0D 00 04 4D 51 54 54 04 02 00 3C 00 01 63`
(client id "c", clean session, no will) is accepted by an authenticated parser in
state `MQTT_ST_FIXED` that has decoded a CONNACK before, and the callback sees the
will fields, the username and the password empty.  The same bytes are rejected by
the parser that has decoded the CONNECT of `connectFull` (which carries a will)
before: it is authenticated and in state `MQTT_ST_FIXED` too, but the will topic
and payload of the earlier packet are still in `p->p.v.connect`, `__parse_connect`
does not touch them when the will flag is clear, and `__process_connect` returns -1
without invoking the callback.  After a CONNECT with the username "u" and no will
the same bytes are accepted, and the callback sees the username "u" of the earlier
packet. -/
theorem C36_connect_after_connect_with_will_rejected :
    (mqtt__serialize (mkConnect connectC)).2.bytes
      = [0x10, 0x0D, 0x00, 0x04, 0x4D, 0x51, 0x54, 0x54, 0x04, 0x02, 0x00, 0x3C, 0x00, 0x01,
         0x63] ∧
    (∀ signedChar : Bool,
      authParser.auth = 1 ∧ authParser.state = mqtt_parser_state.MQTT_ST_FIXED ∧
      (mqtt__parse_bytes signedChar authParser []
        (mqtt__serialize (mkConnect connectC)).2.bytes).1 = 0 ∧
      (mqtt__parse_bytes signedChar authParser []
        (mqtt__serialize (mkConnect connectC)).2.bytes).2.2.map
          (fun o => (o.connect.will_flag, o.connect.will_topic.bytes,
            o.connect.will_payload.bytes, o.connect.username.bytes, o.connect.client_id.bytes))
        = [(0, [], [], [], [0x63])]) ∧
    (∀ signedChar : Bool,
      (mqtt__parse_bytes signedChar recordParser []
        (mqtt__serialize (mkConnect connectFull)).2.bytes).1 = 0 ∧
      (mqtt__parse_bytes signedChar recordParser []
        (mqtt__serialize (mkConnect connectFull)).2.bytes).2.1.auth = 1 ∧
      (mqtt__parse_bytes signedChar recordParser []
        (mqtt__serialize (mkConnect connectFull)).2.bytes).2.1.state
        = mqtt_parser_state.MQTT_ST_FIXED ∧
      (mqtt__parse_bytes signedChar
        (mqtt__parse_bytes signedChar recordParser []
          (mqtt__serialize (mkConnect connectFull)).2.bytes).2.1 []
        (mqtt__serialize (mkConnect connectC)).2.bytes).1 = -1 ∧
      (mqtt__parse_bytes signedChar
        (mqtt__parse_bytes signedChar recordParser []
          (mqtt__serialize (mkConnect connectFull)).2.bytes).2.1 []
        (mqtt__serialize (mkConnect connectC)).2.bytes).2.2 = []) ∧
    (∀ signedChar : Bool,
      (mqtt__parse_bytes signedChar
        (mqtt__parse_bytes signedChar recordParser []
          (mqtt__serialize (mkConnect
            { connectC with username := mqtt_b.ofBytes [0x75] })).2.bytes).2.1 []
        (mqtt__serialize (mkConnect connectC)).2.bytes).1 = 0 ∧
      (mqtt__parse_bytes signedChar
        (mqtt__parse_bytes signedChar recordParser []
          (mqtt__serialize (mkConnect
            { connectC with username := mqtt_b.ofBytes [0x75] })).2.bytes).2.1 []
        (mqtt__serialize (mkConnect connectC)).2.bytes).2.2.map
          (fun o => (o.connect.will_flag, o.connect.will_topic.bytes,
            o.connect.will_payload.bytes, o.connect.username.bytes, o.connect.client_id.bytes))
        = [(0, [], [], [0x75], [0x63])]) := by
  refine ⟨by decide, ?_, ?_, ?_⟩ <;> intro signedChar <;> cases signedChar <;> decide

theorem check_pub_visits_session : ∀ (fuel : Nat) (m : libmqtt),
    (__check_pub_visits fuel m).2.2 = __check_pub_loop fuel m := by
  intro fuel
  induction fuel with
  | zero => intro m; rfl
  | succ k ih =>
    intro m
    rw [__check_pub_visits, __check_pub_loop]
    cases hh : m.pub.head with
    | none => rfl
    | some a =>
      cases hd : m.deref a with
      | none => simp only [hd]
      | some pub =>
        simp only [hd]
        exact ih _

theorem check_pub_loop_fuel : ∀ (as : List Nat) (m : libmqtt) (f1 f2 : Nat),
    IsChain m.heap m.pub.head as → as.length < f1 → as.length < f2 →
    __check_pub_loop f1 m = __check_pub_loop f2 m := by
  intro as
  induction as with
  | nil =>
    intro m f1 f2 hc h1 h2
    have e : m.pub.head = none := hc
    cases f1 with
    | zero => exact absurd h1 (by simp)
    | succ k1 =>
      cases f2 with
      | zero => exact absurd h2 (by simp)
      | succ k2 => rw [__check_pub_loop, __check_pub_loop, e]
  | cons a as ih =>
    intro m f1 f2 hc h1 h2
    have hh : m.pub.head = some a := hc.1
    obtain ⟨_, r, hr, _⟩ := isChain_cell a as _ hc
    have hd : m.deref a = some r := hr
    have hc2 : IsChain m.heap (some a) (a :: as) := by rw [← hh]; exact hc
    cases f1 with
    | zero => exact absurd h1 (by simp)
    | succ k1 =>
      cases f2 with
      | zero => exact absurd h2 (by simp)
      | succ k2 =>
        rw [check_pub_loop_cons k1 m a r hh hd, check_pub_loop_cons k2 m a r hh hd]
        exact ih _ k1 k2 (sweepStep_chain m a r as hc2 hd)
          (by simp only [List.length_cons] at h1; omega)
          (by simp only [List.length_cons] at h2; omega)

theorem check_pub_visits_eq : ∀ (as : List Nat) (m : libmqtt) (fuel : Nat),
    IsChain m.heap m.pub.head as → as.length < fuel →
    (__check_pub_visits fuel m).1 = as ∧ (__check_pub_visits fuel m).2.1 = true := by
  intro as
  induction as with
  | nil =>
    intro m fuel hc hf
    have e : m.pub.head = none := hc
    cases fuel with
    | zero => exact absurd hf (by simp)
    | succ k =>
      rw [__check_pub_visits, e]
      exact ⟨rfl, rfl⟩
  | cons a as ih =>
    intro m fuel hc hf
    have hh : m.pub.head = some a := hc.1
    obtain ⟨_, r, hr, _⟩ := isChain_cell a as _ hc
    have hd : m.deref a = some r := hr
    have hc2 : IsChain m.heap (some a) (a :: as) := by rw [← hh]; exact hc
    cases fuel with
    | zero => exact absurd hf (by simp)
    | succ k =>
      rw [__check_pub_visits]
      simp only [hh, hd]
      rw [check_pub_body_eq m a r hh hd]
      obtain ⟨i1, i2⟩ := ih (sweepStep m a r) k (sweepStep_chain m a r as hc2 hd)
        (by simp only [List.length_cons] at hf; omega)
      exact ⟨by rw [i1], i2⟩

/-- C40. The sweep terminates, for every well-formed (finite, null-terminated)
record list `as` and every outcome of the writes: with one evaluation of the loop
condition per record and one more, the loop of `__check_pub` ends on `*pp == NULL`;
the records it examines are the records of the list at entry, each once, in list
order (the addresses of a well-formed list are pairwise different, so no record is
examined twice); and more fuel does not change the result. -/
theorem C40_sweep_terminates (m : libmqtt) (as : List Nat)
    (hc : IsChain m.heap m.pub.head as) :
    __check_pub_visits (as.length + 1) m = (as, true, __check_pub m) ∧
    as.Nodup ∧
    (∀ fuel, as.length < fuel → __check_pub_visits fuel m = (as, true, __check_pub m)) := by
  have key : ∀ fuel, as.length < fuel →
      __check_pub_visits fuel m = (as, true, __check_pub m) := by
    intro fuel hf
    obtain ⟨h1, h2⟩ := check_pub_visits_eq as m fuel hc hf
    have h3 : (__check_pub_visits fuel m).2.2 = __check_pub m := by
      rw [check_pub_visits_session]
      exact check_pub_loop_fuel as m fuel (m.heap.length + 1) hc hf
        (by have := isChain_length_le as _ hc; omega)
    rw [← h1, ← h2, ← h3]
  exact ⟨key _ (Nat.lt_succ_self _), isChain_nodup _ _ hc, key⟩

/-- C40, witness: the session `twoRecords`, whose list holds the records at the
addresses 0 and 1. -/
theorem C40_sweep_terminates_witness :
    IsChain twoRecords.heap twoRecords.pub.head [0, 1] ∧
    __check_pub_visits 3 twoRecords = ([0, 1], true, __check_pub twoRecords) :=
  ⟨by decide, (C40_sweep_terminates twoRecords [0, 1] (by decide)).1⟩

theorem sweepBytes_strip (r : libmqtt_pub) : sweepBytes r.strip = sweepBytes r := by
  unfold sweepBytes libmqtt_pub.strip checkPacket
  cases r.s <;> rfl

theorem sweepStep_results (m : libmqtt) (a : Nat) (r : libmqtt_pub) :
    (sweepStep m a r).results
      = (if m.t.now - r.t > m.c.keep_alive then m.results.tail else m.results) := by
  unfold sweepStep
  split <;> rfl

theorem check_pub_loop_wire : ∀ (as : List Nat) (m : libmqtt) (fuel : Nat),
    IsChain m.heap m.pub.head as → as.length < fuel →
    (__check_pub_loop fuel m).wire
      = m.wire ++ sweepWire m.t.now m.c.keep_alive (tableAt m as) m.results := by
  intro as
  induction as with
  | nil =>
    intro m fuel hc hf
    have e : m.pub.head = none := hc
    cases fuel with
    | zero => exact absurd hf (by simp)
    | succ k =>
      rw [__check_pub_loop, e]
      simp [tableAt, sweepWire]
  | cons a as ih =>
    intro m fuel hc hf
    have hh : m.pub.head = some a := hc.1
    obtain ⟨_, r, hr, _⟩ := isChain_cell a as _ hc
    have hd : m.deref a = some r := hr
    have hc2 : IsChain m.heap (some a) (a :: as) := by rw [← hh]; exact hc
    have ha : a ∉ as := (List.nodup_cons.mp (isChain_nodup _ _ hc2)).1
    have hf1 := sweepStep_fields m a r
    cases fuel with
    | zero => exact absurd hf (by simp)
    | succ k =>
      rw [check_pub_loop_cons k m a r hh hd,
        ih (sweepStep m a r) k (sweepStep_chain m a r as hc2 hd)
          (by simp only [List.length_cons] at hf; omega),
        hf1.2.2.1, hf1.2.2.2.1, sweepStep_wire, sweepStep_results, tableAt_cons m a as r hr,
        tableAt_congr m (sweepStep m a r) as
          (fun b hb => by rw [hf1.2.2.2.2.1 b (fun e => ha (e ▸ hb))])]
      rw [sweepWire, sweepBytes_strip]
      have et : r.strip.t = r.t := rfl
      rw [et]
      by_cases hp : m.t.now - r.t > m.c.keep_alive
      · simp only [hp, if_true, List.append_assoc, List.singleton_append]
      · simp only [hp, if_false, List.append_nil]

/-- C32. The wire output of one run of the sweep, for every well-formed record
list: the packets that `__check_pub` offers to the transport are, in the order of
the list, one packet for each record whose last action is more than `keep_alive`
before the clock and none for the other records; the packet of a record is
`sweepBytes`: the PUBLISH that `mqtt__serialize` gives for the topic, QoS, retain
flag, packet id and payload of the record with `dup = 1` in the states
SEND_PUBLISH, WAIT_PUBACK and WAIT_PUBREC, the array `MQTT_PUBACK(id)` in
SEND_PUBACK, `MQTT_PUBREC(id)` in SEND_PUBREC and WAIT_PUBREL, `MQTT_PUBREL(id)` in
SEND_PUBREL and WAIT_PUBCOMP and `MQTT_PUBCOMP(id)` in SEND_PUBCOMP, with the packet
id of the record; and a QoS 0 publication in SEND_PUBLISH that is past its deadline
is offered once and, when the write succeeds, freed. -/
theorem C32_sweep_wire_output (m : libmqtt) (as : List Nat)
    (hc : IsChain m.heap m.pub.head as) :
    (__check_pub m).wire = m.wire ++ sweepWire m.t.now m.c.keep_alive m.table m.results ∧
    (∀ r : libmqtt_pub,
      (r.s = libmqtt_state.LIBMQTT_ST_SEND_PUBLUSH ∨ r.s = libmqtt_state.LIBMQTT_ST_WAIT_PUBACK ∨
        r.s = libmqtt_state.LIBMQTT_ST_WAIT_PUBREC →
        sweepBytes r = (mqtt__serialize
          { mqtt_packet.zero with
            h := ⟨PUBLISH, r.p.qos, 1, r.p.retain⟩
            v := { mqtt_packet.zero.v with
                   publish := ⟨⟨some r.p.topic, (cstr r.p.topic).length⟩, r.p.packet_id⟩ }
            payload := ⟨r.p.payload, r.p.length⟩ }).2.bytes) ∧
      (r.s = libmqtt_state.LIBMQTT_ST_SEND_PUBACK → sweepBytes r = MQTT_PUBACK r.p.packet_id) ∧
      (r.s = libmqtt_state.LIBMQTT_ST_SEND_PUBREC ∨ r.s = libmqtt_state.LIBMQTT_ST_WAIT_PUBREL →
        sweepBytes r = MQTT_PUBREC r.p.packet_id) ∧
      (r.s = libmqtt_state.LIBMQTT_ST_SEND_PUBREL ∨ r.s = libmqtt_state.LIBMQTT_ST_WAIT_PUBCOMP →
        sweepBytes r = MQTT_PUBREL r.p.packet_id) ∧
      (r.s = libmqtt_state.LIBMQTT_ST_SEND_PUBCOMP →
        sweepBytes r = MQTT_PUBCOMP r.p.packet_id)) ∧
    (∀ a ∈ as, ∀ r, m.deref a = some r →
      r.s = libmqtt_state.LIBMQTT_ST_SEND_PUBLUSH → r.p.qos = MQTT_QOS_0 →
      m.t.now - r.t > m.c.keep_alive →
      ∃ res : Int, (sweepBytes r, res) ∈ (__check_pub m).wire.drop m.wire.length ∧
        (res ≠ -1 → (__check_pub m).deref a = none)) ∧
    (∀ a ∈ as, ∀ r, m.deref a = some r → ¬ m.t.now - r.t > m.c.keep_alive →
      (__check_pub m).deref a = some r) := by
  have hf : as.length < m.heap.length + 1 := by
    have := isChain_length_le as _ hc
    omega
  refine ⟨?_, ?_, ?_, ?_⟩
  · rw [table_eq_tableAt m as hc]
    exact check_pub_loop_wire as m _ hc hf
  · intro r
    refine ⟨?_, ?_, ?_, ?_, ?_⟩
    · intro h
      unfold sweepBytes
      rcases h with h | h | h <;> rw [h] <;> rfl
    · intro h
      unfold sweepBytes
      rw [h]
    · intro h
      unfold sweepBytes
      rcases h with h | h <;> rw [h]
    · intro h
      unfold sweepBytes
      rcases h with h | h <;> rw [h]
    · intro h
      unfold sweepBytes
      rw [h]
  · intro a ha r hr hs hq hp
    obtain ⟨res, hmem, hcell⟩ := (check_pub_loop_record as m _ hc hf a ha r hr).1 hp
    refine ⟨res, hmem, ?_⟩
    intro hres
    show (__check_pub_loop (m.heap.length + 1) m).heap.getD a none = none
    rw [hcell]
    unfold sweepCell
    rw [hs]
    simp [hres, hq]
  · intro a ha r hr hp
    exact (check_pub_loop_record as m _ hc hf a ha r hr).2 hp

/-- C32, witness: the session `twoRecords` with the keep-alive set to 0 and the
clock at 1, so that both records are past their deadline: the sweep offers the
PUBLISH of the first record, `3A 06 00 01 61 00 01 78`, and then the PUBLISH of the
second, `3A 06 00 01 62 00 02 79`. -/
theorem C32_sweep_wire_output_witness :
    IsChain twoRecords.heap twoRecords.pub.head [0, 1] ∧
    (__check_pub { twoRecords with
        c := { twoRecords.c with keep_alive := 0 }
        t := ⟨1, 0, 0⟩ }).wire
      = twoRecords.wire ++ sweepWire 1 0 twoRecords.table twoRecords.results ∧
    sweepWire 1 0 twoRecords.table twoRecords.results
      = [([0x3A, 0x06, 0x00, 0x01, 0x61, 0x00, 0x01, 0x78], 8),
         ([0x3A, 0x06, 0x00, 0x01, 0x62, 0x00, 0x02, 0x79], 8)] :=
  ⟨by decide,
   (C32_sweep_wire_output
      { twoRecords with c := { twoRecords.c with keep_alive := 0 }, t := ⟨1, 0, 0⟩ }
      [0, 1] (by decide)).1,
   by decide⟩

theorem read_utf_specUtf (sc : Bool) (s rest : List Nat) (r0 : mqtt_b) (n : Int)
    (hlen : s.length ≤ 65535)
    (hok : sc = false ∨ (s.length / 256 < 128 ∧ s.length % 256 < 128)) :
    mqtt_b_read_utf sc ⟨some (specUtf s ++ rest), n⟩ r0
      = (⟨some rest, n - (2 + (s.length : Int))⟩,
         ⟨if s = [] then r0.s else some (s ++ rest), (s.length : Int)⟩) := by
  have h := utf_round_trip sc s rest r0 n hlen hok
  rw [write_utf_eq [] _ (wfStr_ofBytes s hlen), ofBytes_bytes, List.nil_append] at h
  exact h

theorem parse_subscribe_loop_step (sc : Bool) (fuel : Nat) (t : List Nat) (q : Nat)
    (rest : List Nat) (c : mqtt_p_subscribe) (n : Nat) (N : Int)
    (h1 : 1 ≤ t.length) (h2 : t.length ≤ 65535)
    (hok : sc = false ∨ (t.length / 256 < 128 ∧ t.length % 256 < 128))
    (hN : N = (rest.length : Int) + (t.length : Int) + 3) :
    __parse_subscribe_loop sc (fuel + 1) ⟨some (specUtf t ++ (q :: rest)), N⟩ c n
      = __parse_subscribe_loop sc fuel ⟨some rest, (rest.length : Int)⟩
          { c with topic_name := Function.update c.topic_name n ⟨some (t ++ (q :: rest)), t.length⟩
                   qos := Function.update c.qos n (charVal sc q) } (n + 1) := by
  have ht : t ≠ [] := by
    intro h
    rw [h] at h1
    simp at h1
  rw [__parse_subscribe_loop]
  simp only []
  rw [if_pos (by omega), if_neg (by omega), read_utf_specUtf sc t (q :: rest) _ N h2 hok]
  simp only [ht, if_false, mqtt_b_read_u8, advance, peek, Option.map_some', List.drop_succ_cons,
    List.drop_zero, Option.getD_some, List.getD_cons_zero]
  rw [if_neg (by omega)]
  congr 2
  omega

/-- The loop of `__parse_subscribe` on the pairs of a SUBSCRIBE as the wire format
lays them out, each topic of 1 to 65535 bytes with a length prefix that
`mqtt_b_read_utf` reads back: it returns 0, counts the pairs, leaves the entries
below `n` as they were and stores a non-empty topic for each pair. -/
theorem parse_subscribe_loop_wire (sc : Bool) :
    ∀ (ts : List (List Nat × Nat)) (fuel : Nat) (c : mqtt_p_subscribe) (n : Nat) (N : Int),
      ts.length ≤ fuel →
      (∀ t ∈ ts, 1 ≤ t.1.length ∧ t.1.length ≤ 65535) →
      (sc = false ∨ ∀ t ∈ ts, t.1.length / 256 < 128 ∧ t.1.length % 256 < 128) →
      N = (((ts.map (fun t => specUtf t.1 ++ [t.2])).flatten.length : Nat) : Int) →
      (__parse_subscribe_loop sc fuel
        ⟨some (ts.map (fun t => specUtf t.1 ++ [t.2])).flatten, N⟩ c n).1 = 0 ∧
      (__parse_subscribe_loop sc fuel
        ⟨some (ts.map (fun t => specUtf t.1 ++ [t.2])).flatten, N⟩ c n).2.n
          = ((n + ts.length : Nat) : Int) ∧
      (∀ i, i < n →
        (__parse_subscribe_loop sc fuel
          ⟨some (ts.map (fun t => specUtf t.1 ++ [t.2])).flatten, N⟩ c n).2.topic_name i
          = c.topic_name i) ∧
      (∀ i, n ≤ i → i < n + ts.length →
        mqtt_b_empty ((__parse_subscribe_loop sc fuel
          ⟨some (ts.map (fun t => specUtf t.1 ++ [t.2])).flatten, N⟩ c n).2.topic_name i)
          = false) := by
  intro ts
  induction ts with
  | nil =>
    intro fuel c n N _ _ _ hN
    simp only [List.map_nil, List.flatten_nil, List.length_nil, Nat.cast_zero] at hN
    subst hN
    cases fuel with
    | zero =>
      simp only [List.map_nil, List.flatten_nil, __parse_subscribe_loop, List.length_nil,
        Nat.add_zero, true_and, implies_true]
      intro i h1 h2
      omega
    | succ fuel =>
      rw [List.map_nil, List.flatten_nil, __parse_subscribe_loop]
      simp only [gt_iff_lt, lt_self_iff_false, if_false, List.length_nil, Nat.add_zero,
        true_and, implies_true]
      intro i h1 h2
      omega
  | cons t ts ih =>
    intro fuel c n N hf hwf hok hN
    cases fuel with
    | zero => simp at hf
    | succ fuel =>
      have hf2 : ts.length ≤ fuel := by
        simp only [List.length_cons] at hf
        omega
      have ht := hwf t (List.mem_cons_self _ _)
      have hokt : sc = false ∨ (t.1.length / 256 < 128 ∧ t.1.length % 256 < 128) := by
        rcases hok with h | h
        · exact Or.inl h
        · exact Or.inr (h t (List.mem_cons_self _ _))
      have hokts : sc = false ∨ ∀ x ∈ ts, x.1.length / 256 < 128 ∧ x.1.length % 256 < 128 := by
        rcases hok with h | h
        · exact Or.inl h
        · exact Or.inr (fun x hx => h x (List.mem_cons_of_mem _ hx))
      have hwfts : ∀ x ∈ ts, 1 ≤ x.1.length ∧ x.1.length ≤ 65535 :=
        fun x hx => hwf x (List.mem_cons_of_mem _ hx)
      have e : ((t :: ts).map (fun t => specUtf t.1 ++ [t.2])).flatten
          = specUtf t.1 ++ (t.2 :: (ts.map (fun t => specUtf t.1 ++ [t.2])).flatten) := by
        simp [List.flatten_cons]
      have hN2 : N = (((ts.map (fun t => specUtf t.1 ++ [t.2])).flatten.length : Nat) : Int)
          + (t.1.length : Int) + 3 := by
        rw [hN, e]
        simp only [specUtf, List.length_append, List.length_cons, List.length_nil]
        push_cast
        omega
      rw [e, parse_subscribe_loop_step sc fuel t.1 t.2 _ c n N ht.1 ht.2 hokt hN2]
      have h := ih fuel
        { c with topic_name := Function.update c.topic_name n
                   ⟨some (t.1 ++ (t.2 :: (ts.map (fun t => specUtf t.1 ++ [t.2])).flatten)),
                    t.1.length⟩
                 qos := Function.update c.qos n (charVal sc t.2) } (n + 1) _ hf2 hwfts hokts rfl
      obtain ⟨h1, h2, h3, h4⟩ := h
      refine ⟨h1, ?_, ?_, ?_⟩
      · rw [h2]
        simp only [List.length_cons]
        push_cast
        omega
      · intro i hi
        rw [h3 i (by omega)]
        exact Function.update_noteq (by omega) _ _
      · intro i hi1 hi2
        by_cases hin : i = n
        · subst hin
          rw [h3 i (by omega)]
          simp only [Function.update_same, mqtt_b_empty, Option.isNone_some, Bool.false_or,
            decide_eq_false_iff_not]
          omega
        · exact h4 i (by omega) (by simp only [List.length_cons] at hi2; omega)

theorem parse_unsubscribe_loop_step (sc : Bool) (fuel : Nat) (t : List Nat)
    (rest : List Nat) (c : mqtt_p_unsubscribe) (n : Nat) (N : Int)
    (h1 : 1 ≤ t.length) (h2 : t.length ≤ 65535)
    (hok : sc = false ∨ (t.length / 256 < 128 ∧ t.length % 256 < 128))
    (hN : N = (rest.length : Int) + (t.length : Int) + 2) :
    __parse_unsubscribe_loop sc (fuel + 1) ⟨some (specUtf t ++ rest), N⟩ c n
      = __parse_unsubscribe_loop sc fuel ⟨some rest, (rest.length : Int)⟩
          { c with topic_name := Function.update c.topic_name n ⟨some (t ++ rest), t.length⟩ }
          (n + 1) := by
  have ht : t ≠ [] := by
    intro h
    rw [h] at h1
    simp at h1
  rw [__parse_unsubscribe_loop]
  simp only []
  rw [if_pos (by omega), if_neg (by omega), read_utf_specUtf sc t rest _ N h2 hok]
  simp only [ht, if_false]
  rw [if_neg (by omega)]
  congr 2
  omega

/-- The loop of `__parse_unsubscribe` on the topics of an UNSUBSCRIBE as the wire
format lays them out, each of 1 to 65535 bytes with a length prefix that
`mqtt_b_read_utf` reads back: it returns 0, counts the topics, leaves the entries
below `n` as they were and stores a non-empty topic for each. -/
theorem parse_unsubscribe_loop_wire (sc : Bool) :
    ∀ (ts : List (List Nat)) (fuel : Nat) (c : mqtt_p_unsubscribe) (n : Nat) (N : Int),
      ts.length ≤ fuel →
      (∀ t ∈ ts, 1 ≤ t.length ∧ t.length ≤ 65535) →
      (sc = false ∨ ∀ t ∈ ts, t.length / 256 < 128 ∧ t.length % 256 < 128) →
      N = (((ts.map specUtf).flatten.length : Nat) : Int) →
      (__parse_unsubscribe_loop sc fuel ⟨some (ts.map specUtf).flatten, N⟩ c n).1 = 0 ∧
      (__parse_unsubscribe_loop sc fuel ⟨some (ts.map specUtf).flatten, N⟩ c n).2.n
          = ((n + ts.length : Nat) : Int) ∧
      (∀ i, i < n →
        (__parse_unsubscribe_loop sc fuel
          ⟨some (ts.map specUtf).flatten, N⟩ c n).2.topic_name i = c.topic_name i) ∧
      (∀ i, n ≤ i → i < n + ts.length →
        mqtt_b_empty ((__parse_unsubscribe_loop sc fuel
          ⟨some (ts.map specUtf).flatten, N⟩ c n).2.topic_name i) = false) := by
  intro ts
  induction ts with
  | nil =>
    intro fuel c n N _ _ _ hN
    simp only [List.map_nil, List.flatten_nil, List.length_nil, Nat.cast_zero] at hN
    subst hN
    cases fuel with
    | zero =>
      simp only [List.map_nil, List.flatten_nil, __parse_unsubscribe_loop, List.length_nil,
        Nat.add_zero, true_and, implies_true]
      intro i h1 h2
      omega
    | succ fuel =>
      rw [List.map_nil, List.flatten_nil, __parse_unsubscribe_loop]
      simp only [gt_iff_lt, lt_self_iff_false, if_false, List.length_nil, Nat.add_zero,
        true_and, implies_true]
      intro i h1 h2
      omega
  | cons t ts ih =>
    intro fuel c n N hf hwf hok hN
    cases fuel with
    | zero => simp at hf
    | succ fuel =>
      have hf2 : ts.length ≤ fuel := by
        simp only [List.length_cons] at hf
        omega
      have ht := hwf t (List.mem_cons_self _ _)
      have hokt : sc = false ∨ (t.length / 256 < 128 ∧ t.length % 256 < 128) := by
        rcases hok with h | h
        · exact Or.inl h
        · exact Or.inr (h t (List.mem_cons_self _ _))
      have hokts : sc = false ∨ ∀ x ∈ ts, x.length / 256 < 128 ∧ x.length % 256 < 128 := by
        rcases hok with h | h
        · exact Or.inl h
        · exact Or.inr (fun x hx => h x (List.mem_cons_of_mem _ hx))
      have hwfts : ∀ x ∈ ts, 1 ≤ x.length ∧ x.length ≤ 65535 :=
        fun x hx => hwf x (List.mem_cons_of_mem _ hx)
      have e : ((t :: ts).map specUtf).flatten = specUtf t ++ (ts.map specUtf).flatten := by
        simp [List.flatten_cons]
      have hN2 : N = (((ts.map specUtf).flatten.length : Nat) : Int) + (t.length : Int) + 2 := by
        rw [hN, e]
        simp only [specUtf, List.length_append, List.length_cons, List.length_nil]
        push_cast
        omega
      rw [e, parse_unsubscribe_loop_step sc fuel t _ c n N ht.1 ht.2 hokt hN2]
      have h := ih fuel
        { c with topic_name := Function.update c.topic_name n
                   ⟨some (t ++ (ts.map specUtf).flatten), t.length⟩ }
        (n + 1) _ hf2 hwfts hokts rfl
      obtain ⟨h1, h2, h3, h4⟩ := h
      refine ⟨h1, ?_, ?_, ?_⟩
      · rw [h2]
        simp only [List.length_cons]
        push_cast
        omega
      · intro i hi
        rw [h3 i (by omega)]
        exact Function.update_noteq (by omega) _ _
      · intro i hi1 hi2
        by_cases hin : i = n
        · subst hin
          rw [h3 i (by omega)]
          simp only [Function.update_same, mqtt_b_empty, Option.isNone_some, Bool.false_or,
            decide_eq_false_iff_not]
          omega
        · exact h4 i (by omega) (by simp only [List.length_cons] at hi2; omega)

theorem any_range_false (k : Nat) (f : Nat → Bool) (h : ∀ i, i < k → f i = false) :
    (List.range k).any f = false := by
  rw [List.any_eq_false]
  intro i hi
  rw [List.mem_range] at hi
  simp [h i hi]

/-- On the body of a SUBSCRIBE laid out by the wire format, with 1 to
`MQTT_MAX_SUB` topics of 1 to 65535 bytes whose length prefixes `mqtt_b_read_utf`
reads back, the decoder returns 0 and yields no empty topic. -/
theorem decoder_accepts_subscribe (sc : Bool) (pkt : mqtt_packet) (id : Nat)
    (ts : List (List Nat × Nat)) (hts : SpecTopics (ts.map Prod.fst))
    (hok : LengthsReadBack sc (ts.map Prod.fst)) :
    DecoderAccepts sc SUBSCRIBE pkt
      ⟨some (specSubscribeBody id ts), ((specSubscribeBody id ts).length : Int)⟩ := by
  obtain ⟨h1, h2, h3⟩ := hts
  rw [List.length_map] at h1 h2
  have hwf : ∀ t ∈ ts, 1 ≤ t.1.length ∧ t.1.length ≤ 65535 :=
    fun t ht => h3 t.1 (List.mem_map_of_mem _ ht)
  have hok2 : sc = false ∨ ∀ t ∈ ts, t.1.length / 256 < 128 ∧ t.1.length % 256 < 128 := by
    rcases hok with h | h
    · exact Or.inl h
    · exact Or.inr (fun t ht => h t.1 (List.mem_map_of_mem _ ht))
  have hpos : 0 < (ts.map (fun t => specUtf t.1 ++ [t.2])).flatten.length := by
    cases ts with
    | nil => simp at h1
    | cons t ts => simp [specUtf]
  have e : flaggedDecode sc SUBSCRIBE pkt
      ⟨some (specSubscribeBody id ts), ((specSubscribeBody id ts).length : Int)⟩
      = ((__parse_subscribe_loop sc MQTT_MAX_SUB
            ⟨some (ts.map (fun t => specUtf t.1 ++ [t.2])).flatten,
             (((ts.map (fun t => specUtf t.1 ++ [t.2])).flatten.length : Nat) : Int)⟩
            (pkt.setPacketId (charVal sc (id / 256) * 256 + charVal sc (id % 256))).v.subscribe
            0).1,
         { pkt.setPacketId (charVal sc (id / 256) * 256 + charVal sc (id % 256)) with
           v := { (pkt.setPacketId
                    (charVal sc (id / 256) * 256 + charVal sc (id % 256))).v with
                  subscribe := (__parse_subscribe_loop sc MQTT_MAX_SUB
                    ⟨some (ts.map (fun t => specUtf t.1 ++ [t.2])).flatten,
                     (((ts.map (fun t => specUtf t.1 ++ [t.2])).flatten.length : Nat) : Int)⟩
                    (pkt.setPacketId
                      (charVal sc (id / 256) * 256 + charVal sc (id % 256))).v.subscribe
                    0).2 } }) := by
    show __parse_subscribe sc pkt _ = _
    unfold __parse_subscribe specSubscribeBody
    rw [if_neg (by simp only [List.length_append, List.length_cons, List.length_nil]; omega)]
    simp only [mqtt_b_read_u16, advance, peek, Option.map_some', Option.getD_some,
      List.cons_append, List.nil_append, List.drop_succ_cons, List.drop_zero,
      List.getD_cons_zero, List.getD_cons_succ, List.length_cons]
    have : (((ts.map (fun t => specUtf t.1 ++ [t.2])).flatten.length + 1 + 1 : Nat) : Int) - 2
        = (((ts.map (fun t => specUtf t.1 ++ [t.2])).flatten.length : Nat) : Int) := by
      push_cast
      omega
    rw [this]
  have hl := parse_subscribe_loop_wire sc ts MQTT_MAX_SUB
    (pkt.setPacketId (charVal sc (id / 256) * 256 + charVal sc (id % 256))).v.subscribe 0 _
    h2 hwf hok2 rfl
  obtain ⟨l1, l2, _, l4⟩ := hl
  refine ⟨?_, ?_, ?_⟩
  · rw [e]
    exact l1
  · intro _
    rw [e]
    apply any_range_false
    intro i hi
    simp only [l2, Int.toNat_ofNat] at hi
    exact l4 i (Nat.zero_le _) hi
  · intro h
    exact absurd h (by decide)

/-- On the body of an UNSUBSCRIBE laid out by the wire format, with 1 to
`MQTT_MAX_SUB` topics of 1 to 65535 bytes whose length prefixes `mqtt_b_read_utf`
reads back, the decoder returns 0 and yields no empty topic. -/
theorem decoder_accepts_unsubscribe (sc : Bool) (pkt : mqtt_packet) (id : Nat)
    (ts : List (List Nat)) (hts : SpecTopics ts) (hok : LengthsReadBack sc ts) :
    DecoderAccepts sc UNSUBSCRIBE pkt
      ⟨some (specUnsubscribeBody id ts), ((specUnsubscribeBody id ts).length : Int)⟩ := by
  obtain ⟨h1, h2, h3⟩ := hts
  have hpos : 0 < (ts.map specUtf).flatten.length := by
    cases ts with
    | nil => simp at h1
    | cons t ts => simp [specUtf]
  have e : flaggedDecode sc UNSUBSCRIBE pkt
      ⟨some (specUnsubscribeBody id ts), ((specUnsubscribeBody id ts).length : Int)⟩
      = ((__parse_unsubscribe_loop sc MQTT_MAX_SUB
            ⟨some (ts.map specUtf).flatten, (((ts.map specUtf).flatten.length : Nat) : Int)⟩
            (pkt.setPacketId (charVal sc (id / 256) * 256 + charVal sc (id % 256))).v.unsubscribe
            0).1,
         { pkt.setPacketId (charVal sc (id / 256) * 256 + charVal sc (id % 256)) with
           v := { (pkt.setPacketId
                    (charVal sc (id / 256) * 256 + charVal sc (id % 256))).v with
                  unsubscribe := (__parse_unsubscribe_loop sc MQTT_MAX_SUB
                    ⟨some (ts.map specUtf).flatten,
                     (((ts.map specUtf).flatten.length : Nat) : Int)⟩
                    (pkt.setPacketId
                      (charVal sc (id / 256) * 256 + charVal sc (id % 256))).v.unsubscribe
                    0).2 } }) := by
    show __parse_unsubscribe sc pkt _ = _
    unfold __parse_unsubscribe specUnsubscribeBody
    rw [if_neg (by simp only [List.length_append, List.length_cons, List.length_nil]; omega)]
    simp only [mqtt_b_read_u16, advance, peek, Option.map_some', Option.getD_some,
      List.cons_append, List.nil_append, List.drop_succ_cons, List.drop_zero,
      List.getD_cons_zero, List.getD_cons_succ, List.length_cons]
    have : (((ts.map specUtf).flatten.length + 1 + 1 : Nat) : Int) - 2
        = (((ts.map specUtf).flatten.length : Nat) : Int) := by
      push_cast
      omega
    rw [this]
  have hl := parse_unsubscribe_loop_wire sc ts MQTT_MAX_SUB
    (pkt.setPacketId (charVal sc (id / 256) * 256 + charVal sc (id % 256))).v.unsubscribe 0 _
    h2 h3 hok rfl
  obtain ⟨l1, l2, _, l4⟩ := hl
  refine ⟨?_, ?_, ?_⟩
  · rw [e]
    exact l1
  · intro h
    exact absurd h (by decide)
  · intro _
    rw [e]
    apply any_range_false
    intro i hi
    simp only [l2, Int.toNat_ofNat] at hi
    exact l4 i (Nat.zero_le _) hi

/-- On the two bytes of the body of a PUBREL the decoder returns 0. -/
theorem decoder_accepts_pubrel (sc : Bool) (pkt : mqtt_packet) (id : Nat) :
    DecoderAccepts sc PUBREL pkt
      ⟨some (specPubrelBody id), ((specPubrelBody id).length : Int)⟩ := by
  refine ⟨?_, ?_, ?_⟩
  · have e : flaggedDecode sc PUBREL pkt
        ⟨some (specPubrelBody id), ((specPubrelBody id).length : Int)⟩
        = __parse_id sc pkt ⟨some (specPubrelBody id), ((specPubrelBody id).length : Int)⟩ := rfl
    rw [e]
    unfold __parse_id specPubrelBody
    simp
  · intro h
    exact absurd h (by decide)
  · intro h
    exact absurd h (by decide)

/-- PUBREL, SUBSCRIBE and UNSUBSCRIBE that are well formed by the wire format apart
from the QoS bits of the fixed header, received by an authenticated parser in
state `MQTT_ST_FIXED` whose callbacks are logged: a PUBREL with the two bytes of
a packet id, or a SUBSCRIBE or UNSUBSCRIBE with a packet id and 1 to
`MQTT_MAX_SUB` topics of 1 to 65535 bytes.  Where the remaining length is below
2097152 and `mqtt_b_read_utf` reads the topic lengths back (`LengthsReadBack`:
plain `char` unsigned, or no length byte of 0x80 or above), the callback
registered for the type is invoked, once, if and only if the QoS bits equal 1,
and with any other value of the bits `mqtt__parse` returns -1 and the user data,
log included, are untouched. -/
theorem flagged_qos_bits_wire {σ : Type} (signedChar : Bool) (cb : Int → Option (mqtt_cb σ))
    (p : mqtt_parser_t (σ × List (Int × Int))) (ud : σ × List (Int × Int))
    (first : Nat) (body : List Nat) (f : mqtt_cb σ)
    (hst : p.state = mqtt_parser_state.MQTT_ST_FIXED) (hauth : p.auth ≠ 0)
    (hlen : body.length < 2097152)
    (htab : p.cb = tracedTable cb) (hcb : cb (charVal signedChar first / 16 % 16) = some f)
    (hb : (charVal signedChar first / 16 % 16 = PUBREL ∧ ∃ id, body = specPubrelBody id) ∨
      (charVal signedChar first / 16 % 16 = SUBSCRIBE ∧
        ∃ id ts, body = specSubscribeBody id ts ∧ SpecTopics (ts.map Prod.fst) ∧
          LengthsReadBack signedChar (ts.map Prod.fst)) ∨
      (charVal signedChar first / 16 % 16 = UNSUBSCRIBE ∧
        ∃ id ts, body = specUnsubscribeBody id ts ∧ SpecTopics ts ∧
          LengthsReadBack signedChar ts)) :
    ((mqtt__parse_bytes signedChar p ud
        (first :: (specRemainingLength body.length ++ body))).2.2.2
      = ud.2 ++ [(charVal signedChar first / 16 % 16,
          (f ud.1 (flaggedDecode signedChar (charVal signedChar first / 16 % 16)
            (framed signedChar p first body).p (framed signedChar p first body).remaining).2).1)]
      ↔ charVal signedChar first / 2 % 4 = MQTT_QOS_1) ∧
    (charVal signedChar first / 2 % 4 ≠ MQTT_QOS_1 →
      (mqtt__parse_bytes signedChar p ud
        (first :: (specRemainingLength body.length ++ body))).1 = -1 ∧
      (mqtt__parse_bytes signedChar p ud
        (first :: (specRemainingLength body.length ++ body))).2.2 = ud) := by
  have ht : charVal signedChar first / 16 % 16 = PUBREL ∨
      charVal signedChar first / 16 % 16 = SUBSCRIBE ∨
      charVal signedChar first / 16 % 16 = UNSUBSCRIBE := by
    rcases hb with h | h | h
    · exact Or.inl h.1
    · exact Or.inr (Or.inl h.1)
    · exact Or.inr (Or.inr h.1)
  have hne : body ≠ [] := by
    rcases hb with ⟨_, id, h⟩ | ⟨_, id, ts, h, _⟩ | ⟨_, id, ts, h, _⟩ <;> rw [h] <;>
      simp [specPubrelBody, specSubscribeBody, specUnsubscribeBody]
  have hr : (framed signedChar p first body).remaining = ⟨some body, (body.length : Int)⟩ := by
    unfold framed
    simp only [hne, if_false]
  apply flagged_qos_bits_of_accepted signedChar cb p ud first body f hst hauth hlen ht htab hcb
  rw [hr]
  rcases hb with ⟨h0, id, h⟩ | ⟨h0, id, ts, h, h1, h2⟩ | ⟨h0, id, ts, h, h1, h2⟩
  · rw [h0, h]
    exact decoder_accepts_pubrel signedChar _ id
  · rw [h0, h]
    exact decoder_accepts_subscribe signedChar _ id ts h1 h2
  · rw [h0, h]
    exact decoder_accepts_unsubscribe signedChar _ id ts h1 h2

/-- C13 (code defect). The SUBSCRIBE `longTopicSubscribe` is well formed: its first
byte `82` has the type SUBSCRIBE and the QoS bits 01, its remaining-length field
is the length of its body, and the body is the packet id 1 and one pair, a topic
of 128 bytes with the requested QoS 1.  Where plain `char`
is signed, an authenticated parser in state `MQTT_ST_FIXED` rejects it:
`mqtt__parse` returns -1 and the SUBSCRIBE callback is not invoked (the log of
the callbacks stays empty), because `mqtt_b_read_utf` reads the length bytes
`00 80` as -128, leaves the topic pointer unset and advances the cursor by 2 bytes
only, so that `__parse_subscribe` takes the topic bytes for further pairs.  Where
plain `char` is unsigned the same bytes are accepted and the callback is invoked
once, and so is, where plain `char` is signed, the SUBSCRIBE with a topic of 127
bytes.  The other half of the property holds on every body of less than 2097152
bytes with both signednesses: with QoS bits other than 01 a PUBREL, SUBSCRIBE
or UNSUBSCRIBE is rejected, `mqtt__parse` returns -1 and the user data, log
included, are untouched. -/
theorem C13_subscribe_long_topic_rejected :
    longTopicSubscribe
      = 0x82 :: (specRemainingLength (specSubscribeBody 1 [(List.replicate 128 0x61, 1)]).length
          ++ specSubscribeBody 1 [(List.replicate 128 0x61, 1)]) ∧
    SpecTopics [List.replicate 128 0x61] ∧
    charVal true 0x82 / 16 % 16 = SUBSCRIBE ∧ charVal true 0x82 / 2 % 4 = MQTT_QOS_1 ∧
    tracedAuthParser.auth ≠ 0 ∧
    tracedAuthParser.state = mqtt_parser_state.MQTT_ST_FIXED ∧
    (mqtt__parse_bytes true tracedAuthParser ((), []) longTopicSubscribe).1 = -1 ∧
    (mqtt__parse_bytes true tracedAuthParser ((), []) longTopicSubscribe).2.2 = ((), []) ∧
    mqtt_b_read_utf true ⟨some ([0x00, 0x80] ++ List.replicate 128 0x61 ++ [0x01]), 131⟩
        mqtt_b.zero
      = (⟨some (List.replicate 128 0x61 ++ [0x01]), 129⟩, ⟨none, -128⟩) ∧
    (mqtt__parse_bytes false tracedAuthParser ((), []) longTopicSubscribe).1 = 0 ∧
    (mqtt__parse_bytes false tracedAuthParser ((), []) longTopicSubscribe).2.2
      = ((), [(SUBSCRIBE, 0)]) ∧
    (mqtt__parse_bytes true tracedAuthParser ((), [])
        ([0x82, 0x84, 0x01, 0x00, 0x01, 0x00, 0x7F] ++ List.replicate 127 0x61 ++ [0x01])).2.2
      = ((), [(SUBSCRIBE, 0)]) ∧
    (∀ (signedChar : Bool) (first : Nat) (body : List Nat), body.length < 2097152 →
      (charVal signedChar first / 16 % 16 = PUBREL ∨
        charVal signedChar first / 16 % 16 = SUBSCRIBE ∨
        charVal signedChar first / 16 % 16 = UNSUBSCRIBE) →
      charVal signedChar first / 2 % 4 ≠ MQTT_QOS_1 →
      (mqtt__parse_bytes signedChar tracedAuthParser ((), [])
        (first :: (specRemainingLength body.length ++ body))).1 = -1 ∧
      (mqtt__parse_bytes signedChar tracedAuthParser ((), [])
        (first :: (specRemainingLength body.length ++ body))).2.2 = ((), [])) := by
  refine ⟨?_, ?_, ?_, ?_, ?_, ?_, ?_, ?_, ?_, ?_, ?_, ?_, ?_⟩
  · set_option maxRecDepth 100000 in decide
  · set_option maxRecDepth 100000 in decide
  · decide
  · decide
  · decide
  · decide
  · set_option maxRecDepth 100000 in decide
  · set_option maxRecDepth 100000 in decide
  · set_option maxRecDepth 100000 in decide
  · set_option maxRecDepth 100000 in decide
  · set_option maxRecDepth 100000 in decide
  · set_option maxRecDepth 100000 in decide
  · intro signedChar first body hlen ht hq
    exact (flagged_packet signedChar tracedAuthParser ((), []) first body
      (tracedCb (charVal signedChar first / 16 % 16) (fun ud _ => (0, ud)))
      (by decide) (by decide) hlen ht rfl).1 hq

end Mqtt
